import Mathlib

/-!
Mixed-criticality partitioned EDF-VD scheduler: offline phase, run queues and scheduler
loop.

A shallow embedding of the offline part of the scheduler (`tasks.c`, `allocator.c`,
and the hyperperiod helpers of `scheduler.c`), of the run-queue and job-creation
functions of `scheduler.c`, of the slack calculation of `dp_slack.c` and of the loop of
`run_scheduler_loop`, together with the properties proved about them.

Conventions of the embedding.

* C `int` values are `Int`; no claim below depends on wrap-around.
* `Dbl` adds the IEEE values `+inf`, `-inf` and `NaN` to the rationals.  `Dbl.round64` is
  the rounding of a rational to a `double` (binary64, to nearest, ties to even), and
  `Dbl.fadd`, `Dbl.fsub`, `Dbl.fmul`, `Dbl.fdiv` are the operations on `double`s: the exact
  result, rounded.  The sign of a zero is not modelled; a zero divisor is `+0.0`, which is
  what a sum accumulated from `0.0` and a difference `1.0 - u` give.
* The EDF-VD check is embedded twice.  The namespace `Ieee` has the check as the compiled
  code computes it, every operation rounded; the properties of the check itself are stated
  on it.  The definitions outside that namespace compute the same formulas without rounding
  (a sum or difference of utilisations is an exact rational, a quotient is a `Dbl` so that
  division by a zero sum behaves as it does in C): they are the formulas of the
  specification in real arithmetic, and the allocator built on them is the allocator in
  exact arithmetic.  The two agree except where a comparison is decided by a rounding
  error.
* A task array `Tasks *tasks_arr` with its length `num_tasks` is a `List Tasks`; array
  indices are `Int` as in the source and are converted with `Int.toNat` at each access.
* Functions that write through a pointer return the updated array next to their result.
* A run queue, a doubly linked chain of `RQ_NODE`s with consistent `prev` and `next`
  pointers, is the list of the jobs of its nodes in `next` order; a node holds its job by
  value.
* The time variables of the scheduler loop (`timecount`, `decision_time`, `wakeup_time`,
  `execution_time`, `idle_time`, `min_arrival`) are exact rationals; `sched_deadline` and
  `slack_available` are `Dbl`.  A `Dbl` stored into a time variable goes through
  `Dbl.to_rat`, one stored into an `int` through `Dbl.to_int`; an `int` budget that is
  assigned a `double` is truncated towards zero (`trunc_to_int`).
* The core array at run time is a `List Core_run`: the record `Cores` of the allocator with
  the run-time fields.  An index outside the array reads as the zero record and a write to
  it is dropped.
* The variables of `run_scheduler_loop` and the global `current_level` form the state
  `Sched_state`; the arguments, the values returned by `rand()` and the content of freshly
  allocated memory form `Sched_input`.  One iteration of the loop is
  `scheduler_iteration`, cut into its stages (`after_arrivals`, `after_shutdown`,
  `after_discarded`, `after_level_change`, `after_wakeup`, `after_dispatch`).
* A loop of the source that may fail to terminate is a function with fuel or a function
  into `Option`; `none` stands for a call that does not return.
* A walk over a chain that deletes nodes on its way carries the chain in front of the
  current node and the chain from the current node on.
* Where the `prev` pointers matter (merge sort), a chain is a list of `RQ_NODE`s in `next`
  order; a node has an address, and its `prev` pointer is the address of a node or `NULL`
  (`none`).
* The task numbers recorded in a core are the first `tasks_alloc_count` entries of its
  array `tasks_alloc_ids` (`Cores.alloc_ids`).
-/

namespace EEMCS

/-! ## Numeric model -/

/-- Idealised IEEE double: an exact rational, or one of the three non-finite values. -/
inductive Dbl where
  | fin (q : ℚ)
  | pinf
  | ninf
  | nan
deriving DecidableEq

namespace Dbl

/-- IEEE addition (without rounding). -/
def add : Dbl → Dbl → Dbl
  | fin a, fin b => fin (a + b)
  | nan, _ => nan
  | _, nan => nan
  | pinf, ninf => nan
  | ninf, pinf => nan
  | pinf, _ => pinf
  | _, pinf => pinf
  | ninf, _ => ninf
  | _, ninf => ninf

/-- IEEE multiplication (without rounding). -/
def mul : Dbl → Dbl → Dbl
  | fin a, fin b => fin (a * b)
  | nan, _ => nan
  | _, nan => nan
  | pinf, fin b => if 0 < b then pinf else if b < 0 then ninf else nan
  | ninf, fin b => if 0 < b then ninf else if b < 0 then pinf else nan
  | fin a, pinf => if 0 < a then pinf else if a < 0 then ninf else nan
  | fin a, ninf => if 0 < a then ninf else if a < 0 then pinf else nan
  | pinf, pinf => pinf
  | ninf, ninf => pinf
  | pinf, ninf => ninf
  | ninf, pinf => ninf

/-- IEEE division (without rounding); a zero divisor is the positive zero `+0.0`. -/
def div : Dbl → Dbl → Dbl
  | fin a, fin b =>
    if b = 0 then (if 0 < a then pinf else if a < 0 then ninf else nan) else fin (a / b)
  | nan, _ => nan
  | _, nan => nan
  | fin _, pinf => fin 0
  | fin _, ninf => fin 0
  | pinf, fin b => if 0 ≤ b then pinf else ninf
  | ninf, fin b => if 0 ≤ b then ninf else pinf
  | pinf, pinf => nan
  | pinf, ninf => nan
  | ninf, pinf => nan
  | ninf, ninf => nan

/-- IEEE comparison `a <= b`: false as soon as one side is NaN. -/
def le : Dbl → Dbl → Bool
  | fin a, fin b => decide (a ≤ b)
  | nan, _ => false
  | _, nan => false
  | ninf, _ => true
  | _, pinf => true
  | pinf, _ => false
  | _, ninf => false

end Dbl

/-! ## Data model (`header.h`) -/

/-- Value of `allocated_core` for a task that is not allocated yet. -/
def NOT_ALLOCATED : Int := -73

/-- Number of cores of the platform. -/
def MAX_CORES : Nat := 20

/-- Size of the per-core array of allocated task numbers. -/
def MAX_TASKS : Nat := 20

/-- Low-period threshold on `2 * (period - wcet[0])`. -/
def LPD_THRESHOLD : Int := 10

/-- Core type of a core that holds a low-period task. -/
def NON_SHUTDOWNABLE : Int := 0

/-- Core type of a core that holds no low-period task. -/
def SHUTDOWNABLE : Int := 1

/-- Task record (`Tasks`). -/
structure Tasks where
  task_no : Int
  phase : Int
  period : Int
  wcet : List Int
  criticality : Int
  deadline : Int
  virtual_deadline : Dbl
  utilization : List ℚ
  allocated_core : Int
deriving DecidableEq

instance : Inhabited Tasks :=
  ⟨{ task_no := 0, phase := 0, period := 0, wcet := [], criticality := 0, deadline := 0,
     virtual_deadline := Dbl.fin 0, utilization := [], allocated_core := 0 }⟩

/-- Allocation parameters of the core record (`Cores`); the run-time fields are not used
by the offline phase. -/
structure Cores where
  core_no : Int
  utilization : ℚ
  remaining_capacity : ℚ
  tasks_alloc_count : Int
  tasks_alloc_ids : List Int
  threshold_criticality : Int
  core_type : Int
  operating_frequency : ℚ
deriving DecidableEq

instance : Inhabited Cores :=
  ⟨{ core_no := 0, utilization := 0, remaining_capacity := 0, tasks_alloc_count := 0,
     tasks_alloc_ids := [], threshold_criticality := 0, core_type := 0,
     operating_frequency := 0 }⟩

/-- Utilisation statistics of a task set (`Taskset_info`). -/
structure Taskset_info where
  hi_crit_util : ℚ
  lo_crit_util : ℚ
  lpd_hi_crit_util : ℚ
  lpd_lo_crit_util : ℚ
deriving DecidableEq

/-- Array read `tasks_arr[i]`; an index outside the array is undefined behaviour in C and
reads as the zero record here. -/
def task_at (tasks_arr : List Tasks) (i : Int) : Tasks :=
  tasks_arr.getD i.toNat default

/-- Array read `core[j]`; an index outside the array is undefined behaviour in C and reads
as the zero record here. -/
def core_at (core : List Cores) (j : Int) : Cores :=
  core.getD j.toNat default

/-- Read `utilization[idx]`.  An index outside the array is undefined behaviour in C and
reads as `0` here. -/
def Tasks.util (t : Tasks) (idx : Int) : ℚ :=
  if 0 ≤ idx then t.utilization.getD idx.toNat 0 else 0

/-- Utilisation of a task at its own criticality level, `utilization[criticality - 1]`. -/
def Tasks.util_own (t : Tasks) : ℚ :=
  t.util (t.criticality - 1)

/-- Body of the per-task loop of `fetch_task_parameters` for the task at array index `i`,
given the integers read from the input file.  Utilisation entries are written for the
levels `0 .. max (criticality, max_criticality) - 1`; periods are assumed non-zero. -/
def fetch_task (i : Nat) (phase period deadline criticality : Int) (wcet : List Int)
    (max_criticality : Int) : Tasks :=
  { task_no := (i : Int) + 1
    phase := phase
    period := period
    wcet := wcet
    criticality := criticality
    deadline := deadline
    virtual_deadline := Dbl.fin deadline
    utilization := (List.range (max criticality max_criticality).toNat).map fun (j : Nat) =>
      if ((j : Nat) : Int) < criticality then ((wcet.getD j 0 : Int) : ℚ) / (period : ℚ)
      else ((wcet.getD (criticality - 1).toNat 0 : Int) : ℚ) / (period : ℚ)
    allocated_core := NOT_ALLOCATED }

/-! ## EDF-VD offline preprocessing (`allocator.c`) -/

/-- Condition `allocated_core == core_no || task_no == new_task_no`: the task is on the
core or is the candidate. -/
def in_union (t : Tasks) (core_no new_task_no : Int) : Prop :=
  t.allocated_core = core_no ∨ t.task_no = new_task_no

instance (t : Tasks) (core_no new_task_no : Int) : Decidable (in_union t core_no new_task_no) := by
  unfold in_union
  infer_instance

/-- Total utilisation at level `k = lower_limit - 1` of the tasks of the union whose
criticality lies in `lower_limit..upper_limit`, in exact arithmetic
(`Ieee.calculate_utilization_ulk` is the sum as accumulated in `double`). -/
def calculate_utilization_ulk (tasks_arr : List Tasks)
    (lower_limit upper_limit core_no new_task_no : Int) : ℚ :=
  let k := lower_limit - 1
  tasks_arr.foldl
    (fun utilization_ulk t =>
      if in_union t core_no new_task_no then
        if t.criticality ≥ lower_limit ∧ t.criticality ≤ upper_limit then
          utilization_ulk + t.util (k - 1)
        else utilization_ulk
      else utilization_ulk)
    0

/-- Total utilisation at own level of the tasks of the union whose criticality lies in
`lower_limit..upper_limit`, in exact arithmetic (`Ieee.calculate_utilization_ull` is the
sum as accumulated in `double`). -/
def calculate_utilization_ull (tasks_arr : List Tasks)
    (lower_limit upper_limit core_no new_task_no : Int) : ℚ :=
  tasks_arr.foldl
    (fun utilization_ull t =>
      if in_union t core_no new_task_no then
        if t.criticality ≥ lower_limit ∧ t.criticality ≤ upper_limit then
          utilization_ull + t.util (t.criticality - 1)
        else utilization_ull
      else utilization_ull)
    0

/-- Lower bound on the deadline-shortening factor at a threshold, in exact arithmetic
(`Ieee.x_lb` is the bound as computed in `double`). -/
def x_lb (tasks_arr : List Tasks) (max_criticality core_no new_task_no : Int)
    (threshold_criticality : Int) : Dbl :=
  Dbl.div
    (Dbl.fin (calculate_utilization_ulk tasks_arr (threshold_criticality + 1) max_criticality
      core_no new_task_no))
    (Dbl.fin (1 - calculate_utilization_ull tasks_arr 1 threshold_criticality core_no new_task_no))

/-- Upper bound on the deadline-shortening factor at a threshold, in exact arithmetic
(`Ieee.x_ub` is the bound as computed in `double`). -/
def x_ub (tasks_arr : List Tasks) (max_criticality core_no new_task_no : Int)
    (threshold_criticality : Int) : Dbl :=
  Dbl.div
    (Dbl.fin (1 - calculate_utilization_ull tasks_arr (threshold_criticality + 1) max_criticality
      core_no new_task_no))
    (Dbl.fin (calculate_utilization_ull tasks_arr 1 threshold_criticality core_no new_task_no))

/-- Midpoint `(x_lb + x_ub) / 2` chosen as the shortening factor. -/
def x_mid (tasks_arr : List Tasks) (max_criticality core_no new_task_no : Int)
    (threshold_criticality : Int) : Dbl :=
  Dbl.div
    (Dbl.add (x_lb tasks_arr max_criticality core_no new_task_no threshold_criticality)
      (x_ub tasks_arr max_criticality core_no new_task_no threshold_criticality))
    (Dbl.fin 2)

/-- Loop writing `virtual_deadline = deadline` to every task of the union (EDF branch). -/
def set_deadlines_edf (tasks_arr : List Tasks) (core_no new_task_no : Int) : List Tasks :=
  tasks_arr.map fun t =>
    if in_union t core_no new_task_no then
      { t with virtual_deadline := Dbl.fin t.deadline }
    else t

/-- Loop writing the virtual deadlines of the union for threshold `threshold_criticality`
and factor `x` (EDF-VD branch). -/
def set_deadlines_edfvd (tasks_arr : List Tasks) (core_no new_task_no : Int)
    (threshold_criticality : Int) (x : Dbl) : List Tasks :=
  tasks_arr.map fun t =>
    if in_union t core_no new_task_no then
      if t.criticality ≤ threshold_criticality then
        { t with virtual_deadline := Dbl.fin t.deadline }
      else
        { t with virtual_deadline := Dbl.mul x (Dbl.fin t.deadline) }
    else t

/-- Condition tested by one iteration of the threshold scan: part 1
(`U_own(1..t) < 1`) and part 2 (`x_lb <= x_ub`). -/
def edfvd_condition (tasks_arr : List Tasks) (max_criticality core_no new_task_no : Int)
    (threshold_criticality : Int) : Bool :=
  decide (calculate_utilization_ull tasks_arr 1 threshold_criticality core_no new_task_no < 1) &&
    Dbl.le (x_lb tasks_arr max_criticality core_no new_task_no threshold_criticality)
      (x_ub tasks_arr max_criticality core_no new_task_no threshold_criticality)

/-- The scan `for (threshold_criticality = n; threshold_criticality > 0; threshold_criticality--)`
of the EDF-VD branch, followed by `return -73`. -/
def edfvd_scan (tasks_arr : List Tasks) (max_criticality core_no new_task_no : Int) :
    Nat → Int × List Tasks
  | 0 => (-73, tasks_arr)
  | n + 1 =>
    let threshold_criticality : Int := (n : Int) + 1
    if calculate_utilization_ull tasks_arr 1 threshold_criticality core_no new_task_no < 1 then
      if Dbl.le (x_lb tasks_arr max_criticality core_no new_task_no threshold_criticality)
          (x_ub tasks_arr max_criticality core_no new_task_no threshold_criticality) = true then
        (threshold_criticality,
          set_deadlines_edfvd tasks_arr core_no new_task_no threshold_criticality
            (x_mid tasks_arr max_criticality core_no new_task_no threshold_criticality))
      else edfvd_scan tasks_arr max_criticality core_no new_task_no n
    else edfvd_scan tasks_arr max_criticality core_no new_task_no n

/-- EDF-VD schedulability check of a core together with a candidate task, in exact
arithmetic: returns the threshold criticality (or `-73`) and the task array with updated
virtual deadlines (`Ieee.edfvd_schedulability_check` is the check in `double`
arithmetic). -/
def edfvd_schedulability_check (tasks_arr : List Tasks) (max_criticality core_no new_task_no : Int) :
    Int × List Tasks :=
  if calculate_utilization_ull tasks_arr 1 max_criticality core_no new_task_no ≤ 1 then
    (max_criticality, set_deadlines_edf tasks_arr core_no new_task_no)
  else
    edfvd_scan tasks_arr max_criticality core_no new_task_no (max_criticality - 1).toNat

/-! ## Sorting the task array (`tasks.c`) -/

/-- Exchange of the array elements at positions `a` and `b` (`swap (&arr[a], &arr[b])`). -/
def swap (tasks_arr : List Tasks) (a b : Int) : List Tasks :=
  (tasks_arr.set a.toNat (task_at tasks_arr b)).set b.toNat (task_at tasks_arr a)

/-- The `for (j = low; j <= high - 1; j++)` loop of `partition_array`; the first argument
counts the iterations that remain. -/
def partition_loop (pivot_utilization : ℚ) (pivot_criticality : Int) :
    Nat → Int → Int → List Tasks → Int × List Tasks
  | 0, _, i, tasks_arr => (i, tasks_arr)
  | n + 1, j, i, tasks_arr =>
    if (task_at tasks_arr j).criticality > pivot_criticality then
      partition_loop pivot_utilization pivot_criticality n (j + 1) (i + 1)
        (swap tasks_arr (i + 1) j)
    else if (task_at tasks_arr j).criticality = pivot_criticality ∧
        (task_at tasks_arr j).util ((task_at tasks_arr j).criticality - 1) > pivot_utilization then
      partition_loop pivot_utilization pivot_criticality n (j + 1) (i + 1)
        (swap tasks_arr (i + 1) j)
    else
      partition_loop pivot_utilization pivot_criticality n (j + 1) i tasks_arr

/-- Partition of `tasks_arr[low..high]` around its last element; returns the final pivot
position and the rearranged array. -/
def partition_array (tasks_arr : List Tasks) (low high : Int) : Int × List Tasks :=
  let pivot_utilization :=
    (task_at tasks_arr high).util ((task_at tasks_arr high).criticality - 1)
  let pivot_criticality := (task_at tasks_arr high).criticality
  let r := partition_loop pivot_utilization pivot_criticality (high - low).toNat low (low - 1)
    tasks_arr
  (r.1 + 1, swap r.2 (r.1 + 1) high)

/-- Recursive quick sort with an explicit bound on the recursion depth; `none` when the
bound is exhausted. -/
def quick_sort_fuel : Nat → List Tasks → Int → Int → Option (List Tasks)
  | 0, _, _, _ => none
  | fuel + 1, tasks_arr, low, high =>
    if low < high then
      let p := partition_array tasks_arr low high
      match quick_sort_fuel fuel p.2 low (p.1 - 1) with
      | none => none
      | some sorted_left => quick_sort_fuel fuel sorted_left (p.1 + 1) high
    else some tasks_arr

/-- Quick sort of `tasks_arr[low..high]`, run with a recursion depth that is never
exceeded (see `quick_sort_spec`). -/
def quick_sort (tasks_arr : List Tasks) (low high : Int) : Option (List Tasks) :=
  quick_sort_fuel ((high - low + 1).toNat + 1) tasks_arr low high

/-! ## Task-set statistics and the feasibility probe (`tasks.c`) -/

/-- Low-period test `2 * (period - wcet[0]) < LPD_THRESHOLD`. -/
def is_lpd (t : Tasks) : Prop :=
  2 * (t.period - t.wcet.getD 0 0) < LPD_THRESHOLD

instance (t : Tasks) : Decidable (is_lpd t) := by
  unfold is_lpd
  infer_instance

/-- Utilisation statistics of the task set (the four sums of `get_taskset_info`). -/
def get_taskset_info (tasks_arr : List Tasks) (hi_level_threshold : Int) : Taskset_info :=
  tasks_arr.foldl
    (fun tasks_info t =>
      let idx := t.criticality - 1
      if t.criticality > hi_level_threshold then
        { tasks_info with
          hi_crit_util := tasks_info.hi_crit_util + t.util idx
          lpd_hi_crit_util :=
            if is_lpd t then tasks_info.lpd_hi_crit_util + t.util idx
            else tasks_info.lpd_hi_crit_util }
      else
        { tasks_info with
          lo_crit_util := tasks_info.lo_crit_util + t.util idx
          lpd_lo_crit_util :=
            if is_lpd t then tasks_info.lpd_lo_crit_util + t.util idx
            else tasks_info.lpd_lo_crit_util })
    { hi_crit_util := 0, lo_crit_util := 0, lpd_hi_crit_util := 0, lpd_lo_crit_util := 0 }

/-- Inner loop of `get_min_cores_reqd` for one level: add `utilization[level - 1]` task by
task and leave the loop (`break`) at the first task with `criticality <= level`. -/
def level_utilization_sum (level : Int) : List Tasks → ℚ → ℚ
  | [], utilization_sum => utilization_sum
  | t :: rest, utilization_sum =>
    if t.criticality ≤ level then utilization_sum
    else level_utilization_sum level rest (utilization_sum + t.util (level - 1))

/-- Maximum over the levels `1..max_criticality` of the per-level sum, as computed by the
outer loop of `get_min_cores_reqd`. -/
def max_utilization_sum (tasks_arr : List Tasks) (max_criticality : Int) : ℚ :=
  (List.range max_criticality.toNat).foldl
    (fun max_sum (l : Nat) =>
      let utilization_sum := level_utilization_sum ((l : Int) + 1) tasks_arr 0
      if max_sum < utilization_sum then utilization_sum else max_sum)
    0

/-- Minimum number of cores by the feasibility probe: the ceiling of the maximum sum. -/
def get_min_cores_reqd (tasks_arr : List Tasks) (max_criticality : Int) : Int :=
  ⌈max_utilization_sum tasks_arr max_criticality⌉

/-! ## Super-hyperperiod (`scheduler.c`) -/

/-- Highest common factor by Euclid's algorithm; `%` is the truncating remainder of C. -/
def hcf (n1 n2 : Int) : Int :=
  if n2 = 0 then n1 else hcf n2 (Int.tmod n1 n2)
termination_by n2.natAbs
decreasing_by
  rename_i h
  have hpos : 0 < n2.natAbs := Int.natAbs_pos.mpr h
  have key : (Int.tmod n1 n2).natAbs = n1.natAbs % n2.natAbs := by
    cases n1 <;> cases n2 <;> simp [Int.tmod, Int.natAbs_neg] <;> rfl
  rw [key]
  exact Nat.mod_lt _ hpos

/-- Cumulative least common multiple of the task periods. -/
def calculate_superhyperperiod (task_arr : List Tasks) : Int :=
  task_arr.foldl
    (fun superhyperperiod t =>
      Int.tdiv (superhyperperiod * t.period) (hcf superhyperperiod t.period))
    1

/-! ## Offline task allocation (`allocator.c`) -/

/-- Initial record of the core at array index `i`. -/
def initial_core (max_criticality : Int) (i : Nat) : Cores :=
  { core_no := (i : Int) + 1
    utilization := 0
    remaining_capacity := 1
    tasks_alloc_count := 0
    tasks_alloc_ids := List.replicate MAX_TASKS 0
    threshold_criticality := max_criticality + 1
    core_type := SHUTDOWNABLE
    operating_frequency := 1 }

/-- Initialise all `MAX_CORES` core records. -/
def initialize_cores_offline (max_criticality : Int) : List Cores :=
  (List.range MAX_CORES).map (initial_core max_criticality)

/-- Inner loop of `reset_core_capacities` for one core: start from `1.0` and subtract the
utilisation at level `criticality` of every task before `task_array_idx` that is allocated
to the core. -/
def reset_capacity (c : Cores) (tasks_arr : List Tasks) (criticality task_array_idx : Int) : ℚ :=
  (tasks_arr.take task_array_idx.toNat).foldl
    (fun remaining_capacity t =>
      if t.allocated_core = c.core_no then remaining_capacity - t.util (criticality - 1)
      else remaining_capacity)
    1

/-- Reset the remaining capacity of the cores `0 .. num_cores - 1`. -/
def reset_core_capacities (core : List Cores) (num_cores : Int) (tasks_arr : List Tasks)
    (criticality task_array_idx : Int) : List Cores :=
  (core.take num_cores.toNat).map
      (fun c =>
        { c with
          remaining_capacity := reset_capacity c tasks_arr criticality task_array_idx }) ++
    core.drop num_cores.toNat

/-- State carried by the loop of `get_worst_fit_core_idx`. -/
structure Worst_fit_state where
  worst_fit_idx : Int
  max_remaining_capacity : ℚ
  core : List Cores
  tasks_arr : List Tasks

/-- The loop over the open cores of `get_worst_fit_core_idx`; the first argument counts the
iterations that remain and `j` is the loop index. -/
def worst_fit_loop (task_idx max_criticality : Int) : Nat → Int → Worst_fit_state → Worst_fit_state
  | 0, _, s => s
  | n + 1, j, s =>
    let idx := (task_at s.tasks_arr task_idx).criticality - 1
    let u := (task_at s.tasks_arr task_idx).util idx
    if (core_at s.core j).remaining_capacity ≥ u ∧
        (core_at s.core j).remaining_capacity - u > s.max_remaining_capacity then
      if u + (core_at s.core j).utilization > 1 then
        let r := edfvd_schedulability_check s.tasks_arr max_criticality (core_at s.core j).core_no
          (task_at s.tasks_arr task_idx).task_no
        if r.1 > 0 ∧ r.1 < max_criticality then
          worst_fit_loop task_idx max_criticality n (j + 1)
            { worst_fit_idx := j
              max_remaining_capacity := (core_at s.core j).remaining_capacity - u
              core := s.core.set j.toNat { core_at s.core j with threshold_criticality := r.1 }
              tasks_arr := r.2 }
        else
          worst_fit_loop task_idx max_criticality n (j + 1) { s with tasks_arr := r.2 }
      else
        worst_fit_loop task_idx max_criticality n (j + 1)
          { worst_fit_idx := j
            max_remaining_capacity := (core_at s.core j).remaining_capacity - u
            core := s.core.set j.toNat
              { core_at s.core j with threshold_criticality := max_criticality }
            tasks_arr := s.tasks_arr }
    else
      worst_fit_loop task_idx max_criticality n (j + 1) s

/-- Worst-fit selection: returns the chosen index (or `-1`) with the updated core and task
arrays. -/
def get_worst_fit_core_idx (core : List Cores) (num_cores : Int) (tasks_arr : List Tasks)
    (task_idx max_criticality : Int) : Int × List Cores × List Tasks :=
  let s := worst_fit_loop task_idx max_criticality num_cores.toNat 0
    { worst_fit_idx := -1, max_remaining_capacity := -1, core := core, tasks_arr := tasks_arr }
  (s.worst_fit_idx, s.core, s.tasks_arr)

/-- The loop over the open cores of `get_first_fit_core_idx`; the first argument counts the
iterations that remain, `j` is the loop index, and `break` ends the recursion. -/
def first_fit_loop (task_idx max_criticality : Int) :
    Nat → Int → Int → List Cores → List Tasks → Int × List Cores × List Tasks
  | 0, _, first_fit_idx, core, tasks_arr => (first_fit_idx, core, tasks_arr)
  | n + 1, j, first_fit_idx, core, tasks_arr =>
    let idx := (task_at tasks_arr task_idx).criticality - 1
    let u := (task_at tasks_arr task_idx).util idx
    if (core_at core j).remaining_capacity ≥ u then
      if u + (core_at core j).utilization > 1 then
        let r := edfvd_schedulability_check tasks_arr max_criticality (core_at core j).core_no
          (task_at tasks_arr task_idx).task_no
        if r.1 > 0 ∧ r.1 < max_criticality then
          (j, core.set j.toNat { core_at core j with threshold_criticality := r.1 }, r.2)
        else
          first_fit_loop task_idx max_criticality n (j + 1) first_fit_idx core r.2
      else
        first_fit_loop task_idx max_criticality n (j + 1) j
          (core.set j.toNat { core_at core j with threshold_criticality := max_criticality })
          tasks_arr
    else
      first_fit_loop task_idx max_criticality n (j + 1) first_fit_idx core tasks_arr

/-- First-fit selection: returns the chosen index (or `-1`) with the updated core and task
arrays. -/
def get_first_fit_core_idx (core : List Cores) (num_cores : Int) (tasks_arr : List Tasks)
    (task_idx max_criticality : Int) : Int × List Cores × List Tasks :=
  first_fit_loop task_idx max_criticality num_cores.toNat 0 (-1) core tasks_arr

/-- Allocate the task at `task_idx` to the core at `core_idx`. -/
def allocate_task_to_core (core : List Cores) (tasks_arr : List Tasks) (core_idx task_idx : Int) :
    List Cores × List Tasks :=
  let idx := (task_at tasks_arr task_idx).criticality - 1
  let u := (task_at tasks_arr task_idx).util idx
  let c := core_at core core_idx
  let c1 : Cores :=
    { c with
      remaining_capacity := c.remaining_capacity - u
      utilization := c.utilization + u
      tasks_alloc_count := c.tasks_alloc_count + 1
      tasks_alloc_ids :=
        c.tasks_alloc_ids.set (c.tasks_alloc_count + 1 - 1).toNat
          (task_at tasks_arr task_idx).task_no }
  (core.set core_idx.toNat c1,
    tasks_arr.set task_idx.toNat { task_at tasks_arr task_idx with allocated_core := c.core_no })

/-- State of the allocator between two tasks. -/
structure Alloc_state where
  num_cores : Int
  core : List Cores
  tasks_arr : List Tasks

/-- Assignment `core[core_idx].core_type = NON_SHUTDOWNABLE`, made in the low-period phase
only. -/
def mark_core_type (lpd_phase : Bool) (core : List Cores) (core_idx : Int) : List Cores :=
  if lpd_phase then
    core.set core_idx.toNat { core_at core core_idx with core_type := NON_SHUTDOWNABLE }
  else core

/-- Selection of a core for the task at index `i`: reset the capacities on a change of
level, then select by worst fit or first fit. -/
def select_core (max_criticality wfd_threshold_crit : Int) (i : Int) (s : Alloc_state) :
    Int × List Cores × List Tasks :=
  let core1 :=
    if i ≠ 0 ∧ (task_at s.tasks_arr (i - 1)).criticality > (task_at s.tasks_arr i).criticality then
      reset_core_capacities s.core s.num_cores s.tasks_arr (task_at s.tasks_arr i).criticality i
    else s.core
  if (task_at s.tasks_arr i).criticality > wfd_threshold_crit then
    get_worst_fit_core_idx core1 s.num_cores s.tasks_arr i max_criticality
  else
    get_first_fit_core_idx core1 s.num_cores s.tasks_arr i max_criticality

/-- Body shared by the two allocation loops for the task at index `i`: select a core and
allocate the task to it, or to a newly opened core when none was selected.
`Except.error` is the `return -1` exit. -/
def place_task (lpd_phase : Bool) (max_criticality wfd_threshold_crit : Int) (i : Int)
    (s : Alloc_state) : Except Alloc_state Alloc_state :=
  let r := select_core max_criticality wfd_threshold_crit i s
  if r.1 ≥ 0 ∧ r.1 < s.num_cores then
    let a := allocate_task_to_core r.2.1 r.2.2 r.1 i
    Except.ok { num_cores := s.num_cores, core := mark_core_type lpd_phase a.1 r.1, tasks_arr := a.2 }
  else
    let num_cores := s.num_cores + 1
    if num_cores > MAX_CORES then
      Except.error { num_cores := num_cores, core := r.2.1, tasks_arr := r.2.2 }
    else
      let core_idx := num_cores - 1
      let core2 := r.2.1.set core_idx.toNat
        { core_at r.2.1 core_idx with
          remaining_capacity := 1
          threshold_criticality := max_criticality }
      let a := allocate_task_to_core core2 r.2.2 core_idx i
      Except.ok
        { num_cores := num_cores, core := mark_core_type lpd_phase a.1 core_idx, tasks_arr := a.2 }

/-- The loop over the low-period tasks; the first argument counts the iterations that
remain and `i` is the loop index. -/
def lpd_alloc_loop (max_criticality wfd_threshold_crit : Int) :
    Nat → Int → Alloc_state → Except Alloc_state Alloc_state
  | 0, _, s => Except.ok s
  | n + 1, i, s =>
    if is_lpd (task_at s.tasks_arr i) then
      match place_task true max_criticality wfd_threshold_crit i s with
      | Except.error e => Except.error e
      | Except.ok s1 => lpd_alloc_loop max_criticality wfd_threshold_crit n (i + 1) s1
    else lpd_alloc_loop max_criticality wfd_threshold_crit n (i + 1) s

/-- The loop over the tasks that are still unallocated; the first argument counts the
iterations that remain and `i` is the loop index. -/
def remaining_alloc_loop (max_criticality wfd_threshold_crit : Int) :
    Nat → Int → Alloc_state → Except Alloc_state Alloc_state
  | 0, _, s => Except.ok s
  | n + 1, i, s =>
    if (task_at s.tasks_arr i).allocated_core = NOT_ALLOCATED then
      match place_task false max_criticality wfd_threshold_crit i s with
      | Except.error e => Except.error e
      | Except.ok s1 => remaining_alloc_loop max_criticality wfd_threshold_crit n (i + 1) s1
    else remaining_alloc_loop max_criticality wfd_threshold_crit n (i + 1) s

/-- Choice of the worst-fit threshold from a high and a low utilisation: `⌈L/2⌉` when the
high share is positive and at most 40 percent, `L` otherwise. -/
def select_wfd_threshold (hi lo : ℚ) (max_criticality : Int) : Int :=
  if 0 < hi ∧ Dbl.le (Dbl.div (Dbl.fin hi) (Dbl.fin (hi + lo))) (Dbl.fin (2 / 5)) = true then
    Int.tdiv max_criticality 2 + Int.tmod max_criticality 2
  else max_criticality

/-- State in which the low-period loop starts: `⌈U_LPD⌉` open cores, all cores initial. -/
def lpd_start (tasks_arr : List Tasks) (max_criticality : Int) : Alloc_state :=
  let tasks_info := get_taskset_info tasks_arr
    (Int.tdiv max_criticality 2 + Int.tmod max_criticality 2)
  { num_cores := ⌈tasks_info.lpd_hi_crit_util + tasks_info.lpd_lo_crit_util⌉
    core := initialize_cores_offline max_criticality
    tasks_arr := tasks_arr }

/-- The first `n` iterations of the low-period phase of the allocator. -/
def lpd_phase_steps (tasks_arr : List Tasks) (max_criticality : Int) (n : Nat) :
    Except Alloc_state Alloc_state :=
  let tasks_info := get_taskset_info tasks_arr
    (Int.tdiv max_criticality 2 + Int.tmod max_criticality 2)
  if tasks_info.lpd_hi_crit_util + tasks_info.lpd_lo_crit_util > 0 then
    let wfd_threshold_crit :=
      select_wfd_threshold tasks_info.lpd_hi_crit_util tasks_info.lpd_lo_crit_util max_criticality
    lpd_alloc_loop max_criticality wfd_threshold_crit n 0 (lpd_start tasks_arr max_criticality)
  else
    Except.ok
      { num_cores := 0, core := initialize_cores_offline max_criticality, tasks_arr := tasks_arr }

/-- Low-period phase of the allocator: all `num_tasks` iterations. -/
def lpd_phase (tasks_arr : List Tasks) (max_criticality : Int) : Except Alloc_state Alloc_state :=
  lpd_phase_steps tasks_arr max_criticality tasks_arr.length

/-- The first `n` iterations of the second phase of the allocator, started from the state
left by the low-period phase. -/
def remaining_phase_steps (tasks_arr : List Tasks) (min_cores max_criticality : Int)
    (s : Alloc_state) (n : Nat) : Except Alloc_state Alloc_state :=
  let tasks_info := get_taskset_info tasks_arr
    (Int.tdiv max_criticality 2 + Int.tmod max_criticality 2)
  let wfd_threshold_crit :=
    select_wfd_threshold tasks_info.hi_crit_util tasks_info.lo_crit_util max_criticality
  let num_cores := if s.num_cores < min_cores then min_cores else s.num_cores
  remaining_alloc_loop max_criticality wfd_threshold_crit n 0 { s with num_cores := num_cores }

/-- Second phase of the allocator: all `num_tasks` iterations. -/
def remaining_phase (tasks_arr : List Tasks) (min_cores max_criticality : Int) (s : Alloc_state) :
    Except Alloc_state Alloc_state :=
  remaining_phase_steps tasks_arr min_cores max_criticality s tasks_arr.length

/-- Offline task allocation.  `Except.ok s` is the normal return of `s.num_cores` with the
final core and task arrays; `Except.error` is the `return -1` exit. -/
def offline_task_allocator (tasks_arr : List Tasks) (min_cores max_criticality : Int) :
    Except Alloc_state Alloc_state :=
  match lpd_phase tasks_arr max_criticality with
  | Except.error e => Except.error e
  | Except.ok s => remaining_phase tasks_arr min_cores max_criticality s

/-- Value returned by `offline_task_allocator`: the number of cores, or `-1`. -/
def allocator_return (r : Except Alloc_state Alloc_state) : Int :=
  match r with
  | Except.error _ => -1
  | Except.ok s => s.num_cores

/-! ## Sorting order -/

/-- Test made on `tasks_arr[j]` by `partition_array`: the task goes to the left of the
pivot with criticality `pivot_criticality` and own-level utilisation `pivot_utilization`. -/
def precedes (pivot_utilization : ℚ) (pivot_criticality : Int) (t : Tasks) : Prop :=
  t.criticality > pivot_criticality ∨
    (t.criticality = pivot_criticality ∧ t.util (t.criticality - 1) > pivot_utilization)

instance (pivot_utilization : ℚ) (pivot_criticality : Int) (t : Tasks) :
    Decidable (precedes pivot_utilization pivot_criticality t) := by
  unfold precedes
  infer_instance

/-- Sorting order of the task array: `t` may stand before `s` when its criticality is
higher, or equal with an own-level utilisation that is not lower. -/
def in_order (t s : Tasks) : Prop :=
  t.criticality > s.criticality ∨
    (t.criticality = s.criticality ∧ t.util_own ≥ s.util_own)

instance (t s : Tasks) : Decidable (in_order t s) := by
  unfold in_order
  infer_instance

/-- Sorting key of a task: its criticality and its utilisation at its own level. -/
def sort_key (t : Tasks) : Int × ℚ :=
  (t.criticality, t.util_own)

/-- The sorting order on keys. -/
def key_order (x y : Int × ℚ) : Prop :=
  x.1 > y.1 ∨ (x.1 = y.1 ∧ x.2 ≥ y.2)

/-! ## Allocator invariants: sums over the task array -/

/-- Sum of `f` over the tasks of `l` that satisfy `p`. -/
def csum (l : List Tasks) (p : Tasks → Prop) [DecidablePred p] (f : Tasks → ℚ) : ℚ :=
  (l.map fun t => if p t then f t else 0).sum

/-- A task with its virtual deadline blanked. -/
def erase_vd (t : Tasks) : Tasks :=
  { t with virtual_deadline := Dbl.fin 0 }

/-- Two task arrays that differ in virtual deadlines only. -/
def vd_equiv (l l' : List Tasks) : Prop :=
  l'.map erase_vd = l.map erase_vd

/-- Static well-formedness of a task array for `L` levels: pairwise distinct task numbers
and criticalities within `1..L`. -/
def WF (L : Int) (l : List Tasks) : Prop :=
  (l.map Tasks.task_no).Nodup ∧ ∀ t ∈ l, 1 ≤ t.criticality ∧ t.criticality ≤ L

/-- Virtual deadline that threshold `thr` and factor `x` prescribe for a task. -/
def vd_for (thr : Int) (x : Dbl) (t : Tasks) : Dbl :=
  if t.criticality ≤ thr then Dbl.fin t.deadline else Dbl.mul x (Dbl.fin t.deadline)

/-- The tasks of core `core_no` carry the virtual deadlines of a passed EDF-VD check at
threshold `thr` with candidate number `n`; with `with_cand` the candidate does too. -/
def VD_on (L : Int) (l : List Tasks) (core_no thr n : Int) (with_cand : Prop) : Prop :=
  1 ≤ thr ∧ thr ≤ L - 1 ∧ edfvd_condition l L core_no n thr = true ∧
  ∀ t ∈ l, (t.allocated_core = core_no ∨ (with_cand ∧ t.task_no = n)) →
    t.virtual_deadline = vd_for thr (x_mid l L core_no n thr) t

/-- Invariant of the allocator on the core array and the task array. -/
structure Inv (L : Int) (core : List Cores) (l : List Tasks) : Prop where
  len : core.length = MAX_CORES
  core_no : ∀ j : Nat, j < MAX_CORES → (core.getD j default).core_no = (j : Int) + 1
  util : ∀ j : Nat, j < MAX_CORES →
    (core.getD j default).utilization =
      csum l (fun t => t.allocated_core = (j : Int) + 1) Tasks.util_own
  vd : ∀ j : Nat, j < MAX_CORES → (core.getD j default).threshold_criticality < L →
    ∃ n : Int, VD_on L l ((j : Int) + 1) (core.getD j default).threshold_criticality n False

/-- Reason for which a core accepted the task at index `i`: plain EDF, or a passed EDF-VD
check whose virtual deadlines are in place for the core and the candidate. -/
def Accepts (L : Int) (core : List Cores) (l : List Tasks) (i : Nat) (r : Nat) : Prop :=
  ((core.getD r default).threshold_criticality < L →
    VD_on L l ((r : Int) + 1) (core.getD r default).threshold_criticality
      (l.getD i default).task_no True) ∧
  ((l.getD i default).util_own + (core.getD r default).utilization ≤ 1 ∨
    ∃ t : Int, 1 ≤ t ∧ t ≤ L - 1 ∧
      edfvd_condition l L ((r : Int) + 1) (l.getD i default).task_no t = true)

/-- Result of a selection loop that has visited the cores below `bound`: no core, or an
accepting core below the bound. -/
def Best (L : Int) (core : List Cores) (l : List Tasks) (i : Nat) (r bound : Int) : Prop :=
  r = -1 ∨ (0 ≤ r ∧ r < bound ∧ Accepts L core l i r.toNat)

/-- Feasibility record of the cores: a core has own-level utilisation at most 1, or its
tasks pass the EDF-VD condition at some threshold. -/
def Cap (L : Int) (core : List Cores) (l : List Tasks) : Prop :=
  ∀ j : Nat, j < MAX_CORES →
    (core.getD j default).utilization ≤ 1 ∨
    ∃ t n : Int, 1 ≤ t ∧ t ≤ L - 1 ∧ edfvd_condition l L ((j : Int) + 1) n t = true ∧
      ∀ τ ∈ l, τ.task_no = n → τ.allocated_core = (j : Int) + 1

/-- Every task is unallocated or allocated to one of the first `num_cores` cores. -/
def Alloc_range (num_cores : Int) (l : List Tasks) : Prop :=
  ∀ τ ∈ l, τ.allocated_core = NOT_ALLOCATED ∨ (1 ≤ τ.allocated_core ∧ τ.allocated_core ≤ num_cores)

/-- Invariant of the allocator state between two tasks. -/
structure SInv (L : Int) (s : Alloc_state) : Prop where
  inv : Inv L s.core s.tasks_arr
  wf : WF L s.tasks_arr
  nc0 : 0 ≤ s.num_cores
  range : Alloc_range s.num_cores s.tasks_arr

/-- The task array after the task at index `i` is assigned to core number `cn`. -/
def realloc (l : List Tasks) (i : Nat) (cn : Int) : List Tasks :=
  l.set i { l.getD i default with allocated_core := cn }

/-- A task with its two mutable fields blanked. -/
def erase_dyn (t : Tasks) : Tasks :=
  { t with virtual_deadline := Dbl.fin 0, allocated_core := 0 }

/-- Two task arrays that agree on the static task parameters at every index. -/
def stat_equiv (l l' : List Tasks) : Prop :=
  l'.map erase_dyn = l.map erase_dyn

/-- The utilisation array of a task covers its criticality levels and all of its entries
are strictly positive. -/
def Util_pos (t : Tasks) : Prop :=
  t.criticality ≤ (t.utilization.length : Int) ∧ ∀ u ∈ t.utilization, 0 < u

instance (t : Tasks) : Decidable (Util_pos t) := by
  unfold Util_pos
  infer_instance

/-- The utilisation array of a task covers its criticality levels, its entries are
non-negative and they do not decrease with the level. -/
def Util_mono (t : Tasks) : Prop :=
  t.criticality ≤ (t.utilization.length : Int) ∧ (∀ u ∈ t.utilization, 0 ≤ u) ∧
    t.utilization.Pairwise (fun u v => u ≤ v)

instance (t : Tasks) : Decidable (Util_mono t) := by
  unfold Util_mono
  infer_instance

/-- Test of a property on the state that a run of the allocator returns; `false` on the
`return -1` exit. -/
def returns_with (r : Except Alloc_state Alloc_state) (p : Alloc_state → Bool) : Bool :=
  match r with
  | Except.ok s => p s
  | Except.error _ => false

/-- Sum of `utilization[level - 1]` over the tasks among the first `idx` of the array that
are allocated to core number `core_no`: the amount that `reset_core_capacities` subtracts
from `1.0`. -/
def level_utilization (tasks_arr : List Tasks) (core_no level : Int) (idx : Nat) : ℚ :=
  (((tasks_arr.take idx).filter fun t => decide (t.allocated_core = core_no)).map
    fun t => t.util (level - 1)).sum

/-! ## Run-time data model (`header.h`) -/

/-- IEEE comparison `a < b`: false as soon as one side is NaN. -/
def Dbl.lt : Dbl → Dbl → Bool
  | Dbl.fin a, Dbl.fin b => decide (a < b)
  | Dbl.nan, _ => false
  | _, Dbl.nan => false
  | Dbl.pinf, _ => false
  | _, Dbl.ninf => false
  | Dbl.ninf, _ => true
  | _, Dbl.pinf => true

/-- `#define MAX_LEVELS 5`. -/
def MAX_LEVELS : Nat := 5

/-- `#define IDLE_TASK_NO 0`. -/
def IDLE_TASK_NO : Int := 0

/-- `#define READY 0`. -/
def READY : Int := 0

/-- Job record (`Jobs`).  The array `wcet_budget[MAX_LEVELS]` is a function on its index
range; `execution_time` is a finite `double`. -/
structure Jobs where
  job_no : Int
  task_no : Int
  allocated_core : Int
  arrival_time : Int
  sched_deadline : Dbl
  execution_time : ℚ
  wcet_budget : Fin MAX_LEVELS → Int
  job_criticality : Int
  status_flag : Int

/-- Run queue (`RQ_HEAD` with its chain of `RQ_NODE`s): the doubly linked chain that starts
at `head_node` is the list of the jobs of its nodes, in `next` order. -/
structure RQ_HEAD where
  size : Int
  parameter : Dbl
  head_node : List Jobs

/-! ## Run queue and job creation (`scheduler.c`) -/

/-- The pointer walk of `partition`: `fast` advances two nodes and `slow` one node for as
long as `fast->next` and `fast->next->next` exist; the chain is then cut after `slow`.
The first component is the chain up to `slow`, the second the chain after it. -/
def partition_walk : List Jobs → List Jobs → List Jobs × List Jobs
  | _ :: _ :: f2 :: frest, s :: srest =>
    ((s :: (partition_walk (f2 :: frest) srest).1), (partition_walk (f2 :: frest) srest).2)
  | _, s :: srest => ([s], srest)
  | _, [] => ([], [])

/-- Split of a non-empty queue into its first half (kept at `head`) and its second half
(returned). -/
def partition (head : List Jobs) : List Jobs × List Jobs :=
  partition_walk head head

/-- Merge of two queues: the head of `first` goes first only if its deadline is strictly
smaller than that of the head of `second`. -/
def merge : List Jobs → List Jobs → List Jobs
  | [], second => second
  | f :: fs, [] => f :: fs
  | f :: fs, s :: ss =>
    if Dbl.lt f.sched_deadline s.sched_deadline = true then f :: merge fs (s :: ss)
    else s :: merge (f :: fs) ss
termination_by first second => first.length + second.length

/-- Merge sort with an explicit bound on the depth of the recursion; `none` when the bound
is exhausted. -/
def merge_sort_fuel : Nat → List Jobs → Option (List Jobs)
  | 0, _ => none
  | _ + 1, [] => some []
  | _ + 1, [x] => some [x]
  | n + 1, x :: y :: rest =>
    match merge_sort_fuel n (partition (x :: y :: rest)).1,
      merge_sort_fuel n (partition (x :: y :: rest)).2 with
    | some primary, some secondary => some (merge primary secondary)
    | _, _ => none

/-- Merge sort of a run queue by `sched_deadline`; the depth of the recursion never exceeds
the length of the queue. -/
def merge_sort (primary_head : List Jobs) : Option (List Jobs) :=
  merge_sort_fuel (primary_head.length + 1) primary_head

/-- Level below which jobs are discarded. -/
def accept_above_criticality_level (level threshold_criticality : Int) : Int :=
  if level ≤ threshold_criticality then level else threshold_criticality + 1

/-- Conversion of a `double` to `int`: truncation towards zero. -/
def trunc_to_int (q : ℚ) : Int :=
  if 0 ≤ q then ⌊q⌋ else ⌈q⌉

/-- Build the job of the task at `task_array_idx` released at `timecount`.  `current_level`
is the global of that name and `rand_value` the value returned by `rand()`.  The task
period and `wcet[criticality - 1]` are assumed non-zero (division and remainder by zero are
undefined in C). -/
def create_job_structure (task_arr : List Tasks) (task_array_idx threshold_criticality core_no : Int)
    (timecount : ℚ) (current_level rand_value : Int) : Jobs :=
  let t := task_at task_arr task_array_idx
  let job_no := trunc_to_int ((timecount - (t.phase : ℚ)) / (t.period : ℚ))
  let arrival_time := t.phase + job_no * t.period
  { job_no := job_no
    task_no := t.task_no
    allocated_core := core_no
    arrival_time := arrival_time
    job_criticality := t.criticality
    status_flag := READY
    wcet_budget := fun i =>
      if ((i : Nat) : Int) < t.criticality then t.wcet.getD i 0
      else t.wcet.getD (t.criticality - 1).toNat 0
    sched_deadline :=
      if current_level ≤ threshold_criticality then
        Dbl.add (Dbl.fin (arrival_time : ℚ)) t.virtual_deadline
      else Dbl.fin ((arrival_time + t.deadline : Int) : ℚ)
    execution_time := ((Int.tmod rand_value (t.wcet.getD (t.criticality - 1).toNat 0) + 1 : Int) : ℚ) }

/-- The walk of `update_run_queue` over a non-empty chain: the new node goes in front of the
first node whose deadline is `>=` that of the job, or behind the last node. -/
def insert_walk (j : Jobs) : List Jobs → List Jobs
  | [] => [j]
  | temp :: rest =>
    if Dbl.le j.sched_deadline temp.sched_deadline = true then j :: temp :: rest
    else temp :: insert_walk j rest

/-- Insert a job into a run queue. -/
def update_run_queue (head : RQ_HEAD) (j : Jobs) : RQ_HEAD :=
  { head with
    size := head.size + 1
    head_node :=
      match head.head_node with
      | [] => [j]
      | temp :: rest => insert_walk j (temp :: rest) }

/-- Copy every field of `src` into `dest`. -/
def copy_job_structure (dest src : Jobs) : Jobs :=
  { dest with
    job_no := src.job_no
    task_no := src.task_no
    allocated_core := src.allocated_core
    arrival_time := src.arrival_time
    sched_deadline := src.sched_deadline
    execution_time := src.execution_time
    wcet_budget := fun i => src.wcet_budget i
    job_criticality := src.job_criticality
    status_flag := src.status_flag }

/-- Remove the job at the head of the queue and return it with the updated queue.
`next_job` is the freshly allocated record, whose fields are indeterminate. -/
def schedule_next_job (head : RQ_HEAD) (next_job : Jobs) : Jobs × RQ_HEAD :=
  match head.head_node with
  | [] => ({ next_job with task_no := IDLE_TASK_NO }, head)
  | temp :: rest =>
    (copy_job_structure next_job temp, { head with head_node := rest, size := head.size - 1 })

/-- A queue in ascending order of `sched_deadline`: no job is followed, anywhere behind it,
by a job with a strictly smaller deadline.  For deadlines that are numbers this is
`a.sched_deadline <= b.sched_deadline` for every `a` in front of `b`. -/
def ascending (q : List Jobs) : Prop :=
  q.Pairwise fun a b => Dbl.lt b.sched_deadline a.sched_deadline = false

/-- A queue in strictly ascending order of `sched_deadline`. -/
def strictly_ascending (q : List Jobs) : Prop :=
  q.Pairwise fun a b => Dbl.lt a.sched_deadline b.sched_deadline = true

instance (q : List Jobs) : Decidable (ascending q) := by
  unfold ascending
  infer_instance

instance (q : List Jobs) : Decidable (strictly_ascending q) := by
  unfold strictly_ascending
  infer_instance

/-! ## Worst-fit selection: acceptance of a task by a core -/

/-- Core `k` can accept the task at `task_idx`: its remaining capacity covers the own-level
utilisation of the task and, when that utilisation plus the utilisation of the core
exceeds 1, the EDF-VD check of the core with the task returns a threshold in
`1 .. max_criticality - 1`. -/
def core_accepts (core : List Cores) (tasks_arr : List Tasks) (task_idx max_criticality : Int)
    (k : Int) : Prop :=
  (core_at core k).remaining_capacity ≥ (task_at tasks_arr task_idx).util_own ∧
  ((task_at tasks_arr task_idx).util_own + (core_at core k).utilization > 1 →
    (edfvd_schedulability_check tasks_arr max_criticality (core_at core k).core_no
      (task_at tasks_arr task_idx).task_no).1 > 0 ∧
    (edfvd_schedulability_check tasks_arr max_criticality (core_at core k).core_no
      (task_at tasks_arr task_idx).task_no).1 < max_criticality)

instance (core : List Cores) (tasks_arr : List Tasks) (task_idx max_criticality k : Int) :
    Decidable (core_accepts core tasks_arr task_idx max_criticality k) := by
  unfold core_accepts
  infer_instance

/-- Capacity that core `k` keeps after taking the task at `task_idx`:
`remaining_capacity - util`. -/
def capacity_left (core : List Cores) (tasks_arr : List Tasks) (task_idx k : Int) : ℚ :=
  (core_at core k).remaining_capacity - (task_at tasks_arr task_idx).util_own

/-! ## Return value of the allocator: opening a core beyond `MAX_CORES` -/

/-- Sum of the own-level utilisations of the low-period tasks, `U_LPD`. -/
def lpd_utilization (tasks_arr : List Tasks) (max_criticality : Int) : ℚ :=
  (get_taskset_info tasks_arr
      (Int.tdiv max_criticality 2 + Int.tmod max_criticality 2)).lpd_hi_crit_util +
    (get_taskset_info tasks_arr
      (Int.tdiv max_criticality 2 + Int.tmod max_criticality 2)).lpd_lo_crit_util

/-- Worst-fit threshold used in the low-period phase. -/
def lpd_wfd_threshold_crit (tasks_arr : List Tasks) (max_criticality : Int) : Int :=
  select_wfd_threshold
    (get_taskset_info tasks_arr
      (Int.tdiv max_criticality 2 + Int.tmod max_criticality 2)).lpd_hi_crit_util
    (get_taskset_info tasks_arr
      (Int.tdiv max_criticality 2 + Int.tmod max_criticality 2)).lpd_lo_crit_util
    max_criticality

/-- Worst-fit threshold used in the second phase. -/
def remaining_wfd_threshold_crit (tasks_arr : List Tasks) (max_criticality : Int) : Int :=
  select_wfd_threshold
    (get_taskset_info tasks_arr
      (Int.tdiv max_criticality 2 + Int.tmod max_criticality 2)).hi_crit_util
    (get_taskset_info tasks_arr
      (Int.tdiv max_criticality 2 + Int.tmod max_criticality 2)).lo_crit_util
    max_criticality

/-- Placing the task at index `i` in state `s` requires a core beyond `MAX_CORES`: the
selection finds no open core for it and one more open core would exceed `MAX_CORES`. -/
def needs_core_beyond_max (max_criticality wfd_threshold_crit : Int) (i : Int)
    (s : Alloc_state) : Prop :=
  ¬ ((select_core max_criticality wfd_threshold_crit i s).1 ≥ 0 ∧
      (select_core max_criticality wfd_threshold_crit i s).1 < s.num_cores) ∧
    s.num_cores + 1 > (MAX_CORES : Int)

/-- Some placement of a run requires a core beyond `MAX_CORES`: in the low-period phase
(entered when `U_LPD > 0`) at a low-period task, or in the second phase at a task that is
still unallocated, in the state that the run has reached before that task. -/
def run_needs_core_beyond_max (tasks_arr : List Tasks) (min_cores max_criticality : Int) : Prop :=
  (lpd_utilization tasks_arr max_criticality > 0 ∧
    ∃ i : Nat, i < tasks_arr.length ∧ ∃ s : Alloc_state,
      lpd_phase_steps tasks_arr max_criticality i = Except.ok s ∧
      is_lpd (task_at s.tasks_arr i) ∧
      needs_core_beyond_max max_criticality
        (lpd_wfd_threshold_crit tasks_arr max_criticality) i s) ∨
  (∃ sA : Alloc_state, lpd_phase tasks_arr max_criticality = Except.ok sA ∧
    ∃ i : Nat, i < tasks_arr.length ∧ ∃ s : Alloc_state,
      remaining_phase_steps tasks_arr min_cores max_criticality sA i = Except.ok s ∧
      (task_at s.tasks_arr i).allocated_core = NOT_ALLOCATED ∧
      needs_core_beyond_max max_criticality
        (remaining_wfd_threshold_crit tasks_arr max_criticality) i s)

/-! ## Release instants (`scheduler.c`) -/

/-- Constant `TIME_GRANULARITY` of `header.h` (0.01). -/
def TIME_GRANULARITY : ℚ := 1 / 100

/-- Arrival time of the next job of the task at `task_array_idx` after `timecount`.  The
local `next_arrival` holds an `int` expression, so the result is an integer. -/
def get_next_job_arrival (task_arr : List Tasks) (task_array_idx : Int) (timecount : ℚ) : ℚ :=
  let t := task_at task_arr task_array_idx
  let next_job_instance : Int :=
    if timecount + TIME_GRANULARITY - (t.phase : ℚ) > 0 then
      ⌈(timecount + TIME_GRANULARITY - (t.phase : ℚ)) / (t.period : ℚ)⌉
    else 0
  ((t.phase + next_job_instance * t.period : Int) : ℚ)

/-! ## Run-time data (`header.h`) -/

namespace Dbl

/-- IEEE negation. -/
def neg : Dbl → Dbl
  | fin a => fin (-a)
  | pinf => ninf
  | ninf => pinf
  | nan => nan

/-- IEEE subtraction (without rounding). -/
def sub (a b : Dbl) : Dbl :=
  add a (neg b)

/-- Conversion of a `double` to `int`: truncation towards zero.  The conversion of a
non-finite value is undefined in C and gives `0` here. -/
def to_int : Dbl → Int
  | fin a => if 0 ≤ a then ⌊a⌋ else ⌈a⌉
  | _ => 0

/-- The number held by a `double` that is stored into one of the time variables of the
scheduler loop, which are rationals here; a non-finite value reads as `0`. -/
def to_rat : Dbl → ℚ
  | fin a => a
  | _ => 0

end Dbl

/-- Minimum idle time for which a core is shut down. -/
def SHUTDOWN_THRESHOLD : Int := 10

/-- Core status: powered down. -/
def SHUTDOWN : Int := 0

/-- Core status: scheduling and executing jobs. -/
def ACTIVE : Int := 1

/-- Job status after a preemption. -/
def PREEMPTED : Int := 1

/-- Decision event flag: a job arrives. -/
def JOB_ARRIVAL : Nat := 1

/-- Decision event flag: the running job completes. -/
def JOB_TERMINATION : Nat := 2

/-- Decision event flag: the running job exceeds its budget below its own criticality. -/
def JOB_WCET_EXCEEDED : Nat := 4

/-- Decision event flag: the running job exceeds its budget at its own criticality. -/
def JOB_OVERRUN : Nat := 8

/-- Decision event flag: a core that is shut down wakes up. -/
def WAKEUP_CORE : Nat := 16

/-- Default slack and wake-up value. -/
def NA : Int := -1

instance : Inhabited Jobs :=
  ⟨{ job_no := 0, task_no := 0, allocated_core := 0, arrival_time := 0,
     sched_deadline := Dbl.fin 0, execution_time := 0, wcet_budget := fun _ => 0,
     job_criticality := 0, status_flag := 0 }⟩

/-- Queue returned by `create_run_queue`. -/
def create_run_queue : RQ_HEAD :=
  { size := 0, parameter := Dbl.fin (-1), head_node := [] }

instance : Inhabited RQ_HEAD :=
  ⟨create_run_queue⟩

/-- Decision point of a core (`Decision_point`); `event` is a bit-field of 5 bits. -/
structure Decision_point where
  decision_time : ℚ
  event : Nat

/-- Core record (`Cores`) at run time: the allocation parameters are in `alloc`, the other
fields are the run-time fields of the C structure. -/
structure Core_run where
  alloc : Cores
  core_criticality : Int
  slack_available : List Dbl
  status : Int
  wakeup_time : ℚ
  decision_point : Decision_point
  qhead : RQ_HEAD
  curr_exe_job : Jobs
  preempted_job : Jobs
  idle_time : ℚ

instance : Inhabited Core_run :=
  ⟨{ alloc := default, core_criticality := 0, slack_available := List.replicate MAX_LEVELS (Dbl.fin 0),
     status := 0, wakeup_time := 0, decision_point := { decision_time := 0, event := 0 },
     qhead := create_run_queue, curr_exe_job := default, preempted_job := default,
     idle_time := 0 }⟩

/-- Array read `core[j]` at run time; an index outside the array reads as the zero
record. -/
def run_core_at (core : List Core_run) (j : Int) : Core_run :=
  core.getD j.toNat default

/-- Array read `dhead[i]` (also used for the local arrays of dummy queues); an index outside
the array reads as an empty queue. -/
def queue_at (dhead : List RQ_HEAD) (i : Int) : RQ_HEAD :=
  dhead.getD i.toNat default

/-- Array read `wcet_budget[idx]`; an index outside the array reads as `0`. -/
def Jobs.budget (j : Jobs) (idx : Int) : Int :=
  if h : idx.toNat < MAX_LEVELS then j.wcet_budget ⟨idx.toNat, h⟩ else 0

/-- Test `event & flag` of a decision event. -/
def has_event (event flag : Nat) : Bool :=
  event &&& flag != 0

/-- Assignment `event = event + flag` in the 5-bit field. -/
def add_event (event flag : Nat) : Nat :=
  (event + flag) % 32

/-! ## Queue maintenance (`scheduler.c`) -/

/-- The loop of `find_modulo`: subtract `b` for as long as `a_modulo_b >= b`; the first
argument bounds the number of subtractions. -/
def find_modulo_loop (b : ℚ) : Nat → ℚ → ℚ
  | 0, a_modulo_b => a_modulo_b
  | n + 1, a_modulo_b =>
    if a_modulo_b ≥ b ∧ b ≠ 0 then find_modulo_loop b n (a_modulo_b - b) else a_modulo_b

/-- Remainder of `a` by `b` with the sign of `a`.  The loop subtracts `b` exactly
`floor (|a| / |b|)` times. -/
def find_modulo (a b : ℚ) : ℚ :=
  let a_modulo_b := if a < 0 then -a else a
  let b := if b < 0 then -b else b
  if b = 0 then 0
  else
    let a_modulo_b := find_modulo_loop b ⌊a_modulo_b / b⌋.toNat a_modulo_b
    if a < 0 then -a_modulo_b else a_modulo_b

/-- Call `update_run_queue (dhead[idx], j)`. -/
def update_queue_at (dhead : List RQ_HEAD) (idx : Int) (j : Jobs) : List RQ_HEAD :=
  dhead.set idx.toNat (update_run_queue (queue_at dhead idx) j)

/-- The queues written by `add_ready_jobs`, with the number of calls of `rand()` made so
far. -/
structure Ready_queues where
  qhead : RQ_HEAD
  dhead : List RQ_HEAD
  prhead : RQ_HEAD
  rand_calls : Nat

/-- Body of the loop of `add_ready_jobs` for the task at index `i`.  `rand n` is the value
of the call number `n` of `rand()`. -/
def add_ready_jobs_body (rand : Nat → Int) (core : Core_run) (task_arr : List Tasks)
    (timecount : ℚ) (current_level : Int) (q : Ready_queues) (i : Nat) : Ready_queues :=
  if (task_at task_arr i).allocated_core = core.alloc.core_no then
    let modulo_result := find_modulo (timecount - ((task_at task_arr i).phase : ℚ))
      ((task_at task_arr i).period : ℚ)
    if timecount - ((task_at task_arr i).phase : ℚ) ≥ 0 ∧ modulo_result = 0 then
      let job := create_job_structure task_arr i core.alloc.threshold_criticality
        core.alloc.core_no timecount current_level (rand q.rand_calls)
      let accept_above_criticality_rval :=
        accept_above_criticality_level current_level core.alloc.threshold_criticality
      if job.job_criticality ≥ accept_above_criticality_rval then
        if core.status = ACTIVE then
          { q with qhead := update_run_queue q.qhead job, rand_calls := q.rand_calls + 1 }
        else
          { q with prhead := update_run_queue q.prhead job, rand_calls := q.rand_calls + 1 }
      else
        { q with dhead := update_queue_at q.dhead (job.job_criticality - 1) job,
                 rand_calls := q.rand_calls + 1 }
    else q
  else q

/-- Create the jobs that are released at `timecount` on the core and put each in the run
queue of the core, the pending-request queue or a discarded queue. -/
def add_ready_jobs (rand : Nat → Int) (core : Core_run) (task_arr : List Tasks)
    (num_tasks : Int) (timecount : ℚ) (current_level : Int) (q : Ready_queues) :
    Ready_queues :=
  (List.range num_tasks.toNat).foldl
    (add_ready_jobs_body rand core task_arr timecount current_level) q

/-- The walk of `delete_job_from_queue`: remove the first node whose job has the task and
job number of `j`. -/
def delete_walk (j : Jobs) : List Jobs → List Jobs
  | [] => []
  | temp :: rest =>
    if temp.task_no = j.task_no ∧ temp.job_no = j.job_no then rest
    else temp :: delete_walk j rest

/-- Delete a job from a queue.  The size is decremented whenever the queue is not empty. -/
def delete_job_from_queue (head : RQ_HEAD) (j : Jobs) : RQ_HEAD :=
  match head.head_node with
  | [] => head
  | temp :: rest => { head with size := head.size - 1, head_node := delete_walk j (temp :: rest) }

/-- The loop of `discard_below_criticality_level`.  `front` is the chain in front of `temp`
and the second list is the chain from `temp` on.  `delete_job_from_queue` removes the first
node with the numbers of the job of `temp`, which is `temp` itself or a node in front of
it; `temp->next` is read after the node was freed and is taken to be unchanged. -/
def discard_walk (level : Int) : List Jobs → List Jobs → Int → List RQ_HEAD →
    List Jobs × Int × List RQ_HEAD
  | front, [], size, dhead => (front, size, dhead)
  | front, temp :: rest, size, dhead =>
    if temp.job_criticality < level then
      discard_walk level (delete_walk temp (front ++ [temp])) rest (size - 1)
        (update_queue_at dhead (temp.job_criticality - 1) temp)
    else discard_walk level (front ++ [temp]) rest size dhead

/-- Move the jobs of the run queue with a criticality below `level` to the discarded
queues. -/
def discard_below_criticality_level (head : RQ_HEAD) (dhead : List RQ_HEAD) (level : Int) :
    RQ_HEAD × List RQ_HEAD :=
  let r := discard_walk level [] head.head_node head.size dhead
  ({ head with head_node := r.1, size := r.2.1 }, r.2.2)

/-- Index of the first task with the given number, `num_tasks` if there is none. -/
def get_task_array_index (task_arr : List Tasks) (num_tasks : Int) (task_no : Int) : Int :=
  match (List.range num_tasks.toNat).find? fun i => (task_at task_arr i).task_no = task_no with
  | some i => i
  | none => max num_tasks 0

/-- Reset the deadline of every job of the queue to `arrival_time + deadline` of its
task. -/
def update_sched_deadlines (head : RQ_HEAD) (task_arr : List Tasks) (num_tasks : Int) :
    RQ_HEAD :=
  { head with
    head_node := head.head_node.map fun job =>
      { job with
        sched_deadline := Dbl.fin ((job.arrival_time
          + (task_at task_arr (get_task_array_index task_arr num_tasks job.task_no)).deadline
          : Int) : ℚ) } }

/-! ## Slack calculation (`dp_slack.c`) -/

/-- Copy the jobs of the run queue that are not discarded at `level` into the dummy
queue. -/
def copy_jobs_to_dummy_queue (head dummy_head : RQ_HEAD) (threshold_criticality level : Int) :
    RQ_HEAD :=
  head.head_node.foldl
    (fun dummy job =>
      if job.job_criticality ≥ accept_above_criticality_level level threshold_criticality then
        update_run_queue dummy job
      else dummy)
    dummy_head

/-- The inner loop of `add_anticipated_arrivals` for the task at index `i`: one job for
every arrival before `max_arrival_time`.  The first argument bounds the number of
iterations; the result is `none` when the bound is reached with the loop condition still
true. -/
def arrivals_loop (rand : Nat → Int) (task_ptr : List Tasks) (i : Nat)
    (threshold_criticality core_no current_level : Int) (max_arrival_time : Dbl) :
    Nat → ℚ → RQ_HEAD → Nat → Option (RQ_HEAD × Nat)
  | fuel, next_arrival, dummy_head, rand_calls =>
    if Dbl.lt (Dbl.fin next_arrival) max_arrival_time = true then
      match fuel with
      | 0 => none
      | fuel + 1 =>
        arrivals_loop rand task_ptr i threshold_criticality core_no current_level
          max_arrival_time fuel (next_arrival + ((task_at task_ptr i).period : ℚ))
          (update_run_queue dummy_head
            (create_job_structure task_ptr i threshold_criticality core_no next_arrival
              current_level (rand rand_calls)))
          (rand_calls + 1)
    else some (dummy_head, rand_calls)

/-- Number of iterations of the inner loop of `add_anticipated_arrivals` when it
terminates, that is for a positive period and a finite `max_arrival_time`. -/
def arrivals_bound (period : Int) (next_arrival : ℚ) (max_arrival_time : Dbl) : Nat :=
  match max_arrival_time with
  | Dbl.fin m => if 0 < period then ⌈(m - next_arrival) / (period : ℚ)⌉.toNat else 0
  | _ => 0

/-- Body of the loop over the tasks of `add_anticipated_arrivals`. -/
def add_anticipated_arrivals_body (rand : Nat → Int) (max_arrival_time : Dbl)
    (task_ptr : List Tasks) (threshold_criticality level core_no current_time : Int)
    (current_level : Int) (r : Option (RQ_HEAD × Nat)) (i : Nat) : Option (RQ_HEAD × Nat) :=
  match r with
  | none => none
  | some (dummy_head, rand_calls) =>
    if (task_at task_ptr i).allocated_core = core_no ∧
        (task_at task_ptr i).criticality
          ≥ accept_above_criticality_level level threshold_criticality then
      let next_arrival := get_next_job_arrival task_ptr i (current_time : ℚ)
      arrivals_loop rand task_ptr i threshold_criticality core_no current_level
        max_arrival_time
        (arrivals_bound (task_at task_ptr i).period next_arrival max_arrival_time)
        next_arrival dummy_head rand_calls
    else some (dummy_head, rand_calls)

/-- Add to the dummy queue the jobs of the core that are not discarded at `level` and arrive
after `current_time` and before `max_arrival_time`.  `current_level` is the global of that
name, read by `create_job_structure`.  The result is `none` when a loop does not
terminate. -/
def add_anticipated_arrivals (rand : Nat → Int) (dummy_head : RQ_HEAD) (max_arrival_time : Dbl)
    (task_ptr : List Tasks) (num_tasks threshold_criticality level core_no current_time : Int)
    (current_level : Int) (rand_calls : Nat) : Option (RQ_HEAD × Nat) :=
  (List.range num_tasks.toNat).foldl
    (add_anticipated_arrivals_body rand max_arrival_time task_ptr threshold_criticality level
      core_no current_time current_level)
    (some (dummy_head, rand_calls))

/-- The time reserved for a job in the slack calculation: its budget at `level` when it
has not arrived yet, its remaining execution time otherwise. -/
def reserved_time (job : Jobs) (current_time level : Int) : ℚ :=
  if job.arrival_time > current_time then ((job.budget (level - 1) : Int) : ℚ)
  else job.execution_time

/-- The three cases of the loop body of `calculate_slack_available` for the job of `temp`:
the new values of `latest_start_time` and `window_time_consumed`, or `none` when no case
applies (a deadline that is not a number). -/
def slack_case (job : Jobs) (latest_arrival max_deadline : Dbl) (current_time level : Int)
    (latest_start_time : Dbl) (window_time_consumed : ℚ) : Option (Dbl × ℚ) :=
  if Dbl.lt max_deadline job.sched_deadline = true then
    some (Dbl.sub latest_start_time
      (Dbl.div
        (Dbl.mul (Dbl.sub max_deadline (Dbl.fin (job.arrival_time : ℚ)))
          (Dbl.fin ((job.budget (level - 1) : Int) : ℚ)))
        (Dbl.sub job.sched_deadline (Dbl.fin (job.arrival_time : ℚ)))),
      window_time_consumed)
  else if Dbl.lt latest_arrival job.sched_deadline = true
      ∧ Dbl.le job.sched_deadline max_deadline = true then
    let latest_start_time :=
      if Dbl.lt job.sched_deadline latest_start_time = true then job.sched_deadline
      else latest_start_time
    some (Dbl.sub latest_start_time (Dbl.fin (reserved_time job current_time level)),
      window_time_consumed)
  else if Dbl.le job.sched_deadline latest_arrival = true then
    some (latest_start_time, window_time_consumed + reserved_time job current_time level)
  else none

/-- Position of the first node of the chain whose job has the task and job number of
`j`. -/
def first_match (j : Jobs) (chain : List Jobs) : Nat :=
  chain.findIdx fun temp => temp.task_no = j.task_no ∧ temp.job_no = j.job_no

/-- The walk of `calculate_slack_available` from the tail to the head.  The first argument
is the number of nodes up to and including `temp` (`0` when `temp` is `NULL`).
`delete_job_from_queue` removes the first node with the numbers of the job of `temp`; when
that node is the one in front of `temp`, the pointer `temp1` is dangling and the result is
`none`, as it is when no case applies and `temp1` is not assigned. -/
def slack_walk (latest_arrival max_deadline : Dbl) (current_time level : Int) :
    Nat → RQ_HEAD → Dbl → ℚ → Option (Dbl × ℚ × RQ_HEAD)
  | 0, dummy_head, latest_start_time, window_time_consumed =>
    some (latest_start_time, window_time_consumed, dummy_head)
  | k + 1, dummy_head, latest_start_time, window_time_consumed =>
    match slack_case (dummy_head.head_node.getD k default) latest_arrival max_deadline
        current_time level latest_start_time window_time_consumed with
    | none => none
    | some (latest_start_time, window_time_consumed) =>
      if first_match (dummy_head.head_node.getD k default) dummy_head.head_node = k then
        slack_walk latest_arrival max_deadline current_time level k
          (delete_job_from_queue dummy_head (dummy_head.head_node.getD k default))
          latest_start_time window_time_consumed
      else
        match k with
        | 0 => none
        | k + 1 =>
          if first_match (dummy_head.head_node.getD (k + 1) default) dummy_head.head_node = k
          then none
          else
            slack_walk latest_arrival max_deadline current_time level k
              (delete_job_from_queue dummy_head (dummy_head.head_node.getD (k + 1) default))
              latest_start_time window_time_consumed

/-- Slack available before `latest_arrival` when the jobs of the dummy queue are
procrastinated, with the dummy queue that is left. -/
def calculate_slack_available (dummy_head : RQ_HEAD) (latest_arrival max_deadline : Dbl)
    (current_time level : Int) : Option (Dbl × RQ_HEAD) :=
  match slack_walk latest_arrival max_deadline current_time level
      dummy_head.head_node.length dummy_head max_deadline 0 with
  | none => none
  | some (latest_start_time, window_time_consumed, dummy_head) =>
    if Dbl.le latest_arrival latest_start_time = true then
      some (Dbl.sub (Dbl.sub latest_arrival (Dbl.fin (current_time : ℚ)))
        (Dbl.fin window_time_consumed), dummy_head)
    else
      some (Dbl.sub (Dbl.sub latest_start_time (Dbl.fin (current_time : ℚ)))
        (Dbl.fin window_time_consumed), dummy_head)

/-- Deadline of the last job of the dummy queue, `hyperperiod` for an empty queue, and at
most `hyperperiod`. -/
def get_max_deadline (dummy_head : RQ_HEAD) (hyperperiod : Int) : Dbl :=
  let max_deadline :=
    match dummy_head.head_node.getLast? with
    | some job => job.sched_deadline
    | none => Dbl.fin (hyperperiod : ℚ)
  if Dbl.lt (Dbl.fin (hyperperiod : ℚ)) max_deadline = true then Dbl.fin (hyperperiod : ℚ)
  else max_deadline

/-- Body of the loop over the levels of `get_dynamic_procrastination_slack`: the slack of
level `current_level + i` is stored in `slack_available[i]` of the core. -/
def get_dynamic_procrastination_slack_body (rand : Nat → Int) (core_idx : Int)
    (task_arr : List Tasks) (num_tasks : Int) (next_job_deadline : ℚ)
    (current_level hyperperiod : Int) (current_time : ℚ)
    (r : Option (List Core_run × Nat)) (i : Nat) : Option (List Core_run × Nat) :=
  match r with
  | none => none
  | some (core, rand_calls) =>
    let c := run_core_at core core_idx
    let dummy_head := copy_jobs_to_dummy_queue c.qhead create_run_queue
      c.alloc.threshold_criticality (current_level + i)
    match add_anticipated_arrivals rand dummy_head (Dbl.fin next_job_deadline) task_arr
        num_tasks c.alloc.threshold_criticality (current_level + i) c.alloc.core_no
        (trunc_to_int current_time) current_level rand_calls with
    | none => none
    | some (dummy_head, rand_calls) =>
      let max_deadline := get_max_deadline dummy_head hyperperiod
      match add_anticipated_arrivals rand dummy_head max_deadline task_arr num_tasks
          c.alloc.threshold_criticality (current_level + i) c.alloc.core_no
          (trunc_to_int (next_job_deadline - TIME_GRANULARITY)) current_level rand_calls with
      | none => none
      | some (dummy_head, rand_calls) =>
        match calculate_slack_available dummy_head (Dbl.fin next_job_deadline) max_deadline
            (trunc_to_int current_time) (current_level + i) with
        | none => none
        | some (slack, _) =>
          some (core.set core_idx.toNat
            { c with slack_available := c.slack_available.set i slack }, rand_calls)

/-- Slack of the core at every level from `current_level` to `max_criticality`, obtained by
procrastinating the jobs that arrive before `next_job_deadline`. -/
def get_dynamic_procrastination_slack (rand : Nat → Int) (core : List Core_run)
    (core_idx : Int) (task_arr : List Tasks) (num_tasks : Int) (next_job_deadline : ℚ)
    (max_criticality current_level hyperperiod : Int) (current_time : ℚ) (rand_calls : Nat) :
    Option (List Core_run × Nat) :=
  (List.range (max_criticality - current_level + 1).toNat).foldl
    (get_dynamic_procrastination_slack_body rand core_idx task_arr num_tasks
      next_job_deadline current_level hyperperiod current_time)
    (some (core, rand_calls))

/-- The loop of `schedule_discarded_job` that deletes the discarded jobs which can no
longer meet their deadline; `front` is the chain in front of `temp`. -/
def expired_walk (current_level : Int) (current_time : ℚ) :
    List Jobs → List Jobs → Int → List Jobs × Int
  | front, [], size => (front, size)
  | front, temp :: rest, size =>
    if Dbl.lt (Dbl.sub temp.sched_deadline
        (Dbl.fin ((temp.budget (current_level - 1) : Int) : ℚ))) (Dbl.fin current_time) = true
    then expired_walk current_level current_time (delete_walk temp (front ++ [temp])) rest
      (size - 1)
    else expired_walk current_level current_time (front ++ [temp]) rest size

/-- Delete the expired jobs of the discarded queues `0 .. current_level - 2`. -/
def delete_expired_jobs (dhead : List RQ_HEAD) (current_level : Int) (current_time : ℚ) :
    List RQ_HEAD :=
  (List.range (current_level - 1).toNat).foldl
    (fun dhead (i : Nat) =>
      let r := expired_walk current_level current_time [] (queue_at dhead i).head_node
        (queue_at dhead i).size
      dhead.set i { queue_at dhead i with head_node := r.1, size := r.2 })
    dhead

/-- Scan `for (i = n - 1; i >= 0; i--)` for a non-empty discarded queue: the index found,
`-1` if there is none. -/
def highest_non_empty (dhead : List RQ_HEAD) : Nat → Int
  | 0 => -1
  | n + 1 => if (queue_at dhead n).head_node.isEmpty = false then n else highest_non_empty dhead n

/-- Sum of the budgets at index `idx` of the jobs of the run queue in front of the first
job whose deadline is greater than that of the discarded job. -/
def budget_before (discarded_job : Jobs) (idx : Int) : List Jobs → ℚ
  | [] => 0
  | temp :: rest =>
    if Dbl.lt discarded_job.sched_deadline temp.sched_deadline = true then 0
    else ((temp.budget idx : Int) : ℚ) + budget_before discarded_job idx rest

/-- The loop over the tasks that subtracts from the slack the budget of every task whose
criticality lies strictly between that of the queue `i` and `current_level`, when the next
arrival computed by `get_next_job_arrival (task_ptr, i, current_time)` comes before the
expected completion time. -/
def reserve_higher_discarded (task_ptr : List Tasks) (num_tasks : Int) (i : Int)
    (current_level : Int) (budget_idx : Int) (current_time expected_completion_time : ℚ)
    (slack : Dbl) : Dbl :=
  (List.range num_tasks.toNat).foldl
    (fun slack j =>
      if (task_at task_ptr j).criticality < current_level
          ∧ (task_at task_ptr j).criticality > i + 1 then
        if ((trunc_to_int (get_next_job_arrival task_ptr i current_time) : Int) : ℚ)
            < expected_completion_time then
          Dbl.sub slack (Dbl.fin (((task_at task_ptr j).wcet.getD budget_idx.toNat 0 : Int) : ℚ))
        else slack
      else slack)
    slack

/-- State of the loops of `schedule_discarded_job`. -/
structure Discarded_state where
  head : RQ_HEAD
  dhead : List RQ_HEAD
  dummy_head : List RQ_HEAD
  slack_available : List Dbl
  i : Int
  temp_count : Int
  rand_calls : Nat

/-- Body of the loop over the levels for one discarded job: the slack of level
`current_level + ii` is stored in `slack_available[ii]`. -/
def discarded_slack_body (rand : Nat → Int) (discarded_job : Jobs) (task_ptr : List Tasks)
    (num_tasks threshold_criticality current_level core_no hyperperiod : Int)
    (current_time : ℚ) (r : Option Discarded_state) (ii : Nat) : Option Discarded_state :=
  match r with
  | none => none
  | some st =>
    let dummy_head := copy_jobs_to_dummy_queue st.head (queue_at st.dummy_head ii)
      threshold_criticality (current_level + ii)
    match add_anticipated_arrivals rand dummy_head discarded_job.sched_deadline task_ptr
        num_tasks threshold_criticality (current_level + ii) core_no
        (trunc_to_int current_time) current_level st.rand_calls with
    | none => none
    | some (dummy_head, rand_calls) =>
      let max_deadline := get_max_deadline dummy_head hyperperiod
      match add_anticipated_arrivals rand dummy_head max_deadline task_ptr num_tasks
          threshold_criticality (current_level + ii) core_no
          (Dbl.to_int (Dbl.sub discarded_job.sched_deadline (Dbl.fin TIME_GRANULARITY)))
          current_level rand_calls with
      | none => none
      | some (dummy_head, rand_calls) =>
        match calculate_slack_available dummy_head discarded_job.sched_deadline max_deadline
            (trunc_to_int current_time) (current_level + ii) with
        | none => none
        | some (slack, dummy_head) =>
          let dummy_head := copy_jobs_to_dummy_queue st.head dummy_head threshold_criticality
            (current_level + ii)
          match add_anticipated_arrivals rand dummy_head (Dbl.fin (hyperperiod : ℚ)) task_ptr
              num_tasks threshold_criticality (current_level + ii) core_no
              (trunc_to_int current_time) current_level rand_calls with
          | none => none
          | some (dummy_head, rand_calls) =>
            match calculate_slack_available dummy_head discarded_job.sched_deadline
                (Dbl.fin (hyperperiod : ℚ)) (trunc_to_int current_time)
                (current_level + ii) with
            | none => none
            | some (_, dummy_head) =>
              let expected_completion_time := current_time
                + budget_before discarded_job (current_level + ii - 1) st.head.head_node
              some { st with
                dummy_head := st.dummy_head.set ii dummy_head
                slack_available := st.slack_available.set ii
                  (reserve_higher_discarded task_ptr num_tasks st.i current_level
                    (current_level + ii - 1) current_time expected_completion_time slack)
                rand_calls := rand_calls }

/-- Number of levels `ii` whose slack is at least the budget of the discarded job at its own
criticality. -/
def count_enough_slack (discarded_job : Jobs) (slack_available : List Dbl) (levels : Nat) :
    Int :=
  (List.range levels).foldl
    (fun temp_count ii =>
      if Dbl.le (Dbl.fin ((discarded_job.budget (discarded_job.job_criticality - 1) : Int) : ℚ))
          (slack_available.getD ii (Dbl.fin 0)) = true then temp_count + 1
      else temp_count)
    0

/-- The loop `while (dhead[i]->head_node == NULL && i >= 0) i--`. -/
def next_non_empty (dhead : List RQ_HEAD) (i : Int) : Int :=
  if 0 ≤ i then highest_non_empty dhead (i.toNat + 1) else i

/-- The loop `while (dhead[i]->head_node != NULL)` of `schedule_discarded_job`: dequeue the
first job of the discarded queue `i`, compute the slack at every level and insert the job
into the run queue when `temp_count` equals the number of levels.  `temp_count` is not reset
between two jobs.  The first argument bounds the number of iterations, `next_job` is the
content of the record allocated by `schedule_next_job`. -/
def schedule_discarded_loop (rand : Nat → Int) (next_job : Jobs) (task_ptr : List Tasks)
    (num_tasks threshold_criticality max_criticality current_level core_no hyperperiod : Int)
    (current_time : ℚ) : Nat → Discarded_state → Option Discarded_state
  | fuel, st =>
    if (queue_at st.dhead st.i).head_node.isEmpty = false then
      match fuel with
      | 0 => none
      | fuel + 1 =>
        let popped := schedule_next_job (queue_at st.dhead st.i) next_job
        let discarded_job := popped.1
        let st := { st with dhead := st.dhead.set st.i.toNat popped.2 }
        match (List.range (max_criticality - current_level + 1).toNat).foldl
            (discarded_slack_body rand discarded_job task_ptr num_tasks threshold_criticality
              current_level core_no hyperperiod current_time) (some st) with
        | none => none
        | some st =>
          let temp_count := st.temp_count + count_enough_slack discarded_job st.slack_available
            (max_criticality - current_level + 1).toNat
          let head :=
            if temp_count = max_criticality - current_level + 1 then
              update_run_queue st.head { discarded_job with allocated_core := core_no }
            else st.head
          let st := { st with head := head, temp_count := temp_count }
          if (queue_at st.dhead st.i).head_node.isEmpty = true
              ∧ discarded_job.task_no = IDLE_TASK_NO then
            let i := next_non_empty st.dhead st.i
            if i < 0 then some { st with i := i }
            else
              schedule_discarded_loop rand next_job task_ptr num_tasks threshold_criticality
                max_criticality current_level core_no hyperperiod current_time fuel
                { st with i := i }
          else
            schedule_discarded_loop rand next_job task_ptr num_tasks threshold_criticality
              max_criticality current_level core_no hyperperiod current_time fuel st
    else some st

/-- Total number of jobs in the discarded queues. -/
def discarded_jobs_count (dhead : List RQ_HEAD) : Nat :=
  (dhead.map fun q => q.head_node.length).sum

/-- Insert into the run queue `head` of the core the discarded jobs for which enough slack
is available.  The result is the run queue, the discarded queues and the number of calls
of `rand()`. -/
def schedule_discarded_job (rand : Nat → Int) (next_job : Jobs) (head : RQ_HEAD)
    (dhead : List RQ_HEAD) (task_ptr : List Tasks)
    (num_tasks threshold_criticality max_criticality current_level core_no hyperperiod : Int)
    (current_time : ℚ) (rand_calls : Nat) : Option (RQ_HEAD × List RQ_HEAD × Nat) :=
  let dhead := delete_expired_jobs dhead current_level current_time
  let i := highest_non_empty dhead (current_level - 1).toNat
  if i ≥ 0 then
    match schedule_discarded_loop rand next_job task_ptr num_tasks threshold_criticality
        max_criticality current_level core_no hyperperiod current_time
        (discarded_jobs_count dhead)
        { head := head, dhead := dhead,
          dummy_head := List.replicate (max_criticality - current_level + 1).toNat
            create_run_queue,
          slack_available := List.replicate (max_criticality - current_level + 1).toNat
            (Dbl.fin 0),
          i := i, temp_count := 0, rand_calls := rand_calls } with
    | none => none
    | some st => some (st.head, st.dhead, st.rand_calls)
  else some (head, dhead, rand_calls)

/-! ## Scheduler loop (`scheduler.c`) -/

/-- Earliest next arrival among the tasks of the core `core_no`, starting from
`hyperperiod`. -/
def earliest_arrival (task_arr : List Tasks) (num_tasks core_no : Int) (timecount : ℚ)
    (hyperperiod : Int) : ℚ :=
  (List.range num_tasks.toNat).foldl
    (fun min_arrival (i : Nat) =>
      if (task_at task_arr i).allocated_core = core_no then
        let next_arrival := get_next_job_arrival task_arr i timecount
        if min_arrival > next_arrival then next_arrival else min_arrival
      else min_arrival)
    (hyperperiod : ℚ)

/-- A candidate decision point against the one found so far: an earlier candidate replaces
it, a candidate at the same time adds its flag to the event. -/
def update_decision_point (dp : Decision_point) (candidate : ℚ) (flag : Nat) :
    Decision_point :=
  if dp.decision_time > candidate then { decision_time := candidate, event := flag }
  else if dp.decision_time = candidate then { dp with event := add_event dp.event flag }
  else dp

/-- Decision point of one core in `get_next_decision_point`. -/
def core_decision_point (c : Core_run) (task_arr : List Tasks) (num_tasks : Int)
    (timecount : ℚ) (hyperperiod current_level : Int) : Decision_point :=
  let dp : Decision_point :=
    { decision_time := earliest_arrival task_arr num_tasks c.alloc.core_no timecount hyperperiod
      event := JOB_ARRIVAL }
  if c.status = ACTIVE then
    if c.curr_exe_job.task_no ≠ IDLE_TASK_NO then
      if c.curr_exe_job.execution_time
          ≤ ((c.curr_exe_job.budget (current_level - 1) : Int) : ℚ) then
        update_decision_point dp (timecount + c.curr_exe_job.execution_time) JOB_TERMINATION
      else
        update_decision_point dp
          (timecount + ((c.curr_exe_job.budget (current_level - 1) : Int) : ℚ))
          (if c.curr_exe_job.job_criticality > current_level then JOB_WCET_EXCEEDED
           else JOB_OVERRUN)
    else dp
  else update_decision_point dp c.wakeup_time WAKEUP_CORE

/-- Set the decision point of every core and return the earliest one, at most
`hyperperiod`.  `current_level` is the global of that name. -/
def get_next_decision_point (core : List Core_run) (num_cores : Int) (task_arr : List Tasks)
    (num_tasks : Int) (timecount : ℚ) (hyperperiod current_level : Int) :
    List Core_run × ℚ :=
  (List.range num_cores.toNat).foldl
    (fun (r : List Core_run × ℚ) (j : Nat) =>
      let dp := core_decision_point (run_core_at r.1 j) task_arr num_tasks timecount
        hyperperiod current_level
      (r.1.set j { run_core_at r.1 j with decision_point := dp },
        if r.2 > dp.decision_time then dp.decision_time else r.2))
    (core, (hyperperiod : ℚ))

/-- The arguments of `run_scheduler_loop` other than the core array, with the sequence of
values returned by `rand()` and the content `next_job` of a job record that was allocated
and not yet written. -/
structure Sched_input where
  rand : Nat → Int
  next_job : Jobs
  task_arr : List Tasks
  num_cores : Int
  num_tasks : Int
  hyperperiod : Int
  max_criticality : Int

/-- The variables of `run_scheduler_loop` with the global `current_level` and the number of
calls of `rand()` made so far. -/
structure Sched_state where
  timecount : ℚ
  current_level : Int
  core : List Core_run
  dhead : List RQ_HEAD
  prhead : RQ_HEAD
  min_arrival : ℚ
  min_idx : Int
  rand_calls : Nat

/-- Condition `decision_time == timecount` on the decision point of a core. -/
def at_decision_time (c : Core_run) (timecount : ℚ) : Prop :=
  c.decision_point.decision_time = timecount

instance (c : Core_run) (timecount : ℚ) : Decidable (at_decision_time c timecount) := by
  unfold at_decision_time
  infer_instance

/-- Preemption handling for the core `core_idx`: a running job with execution time left is
copied back into the run queue of its core. -/
def preempt_core (inp : Sched_input) (s : Sched_state) (core_idx : Nat) : Sched_state :=
  let c := run_core_at s.core core_idx
  if c.status = ACTIVE then
    if c.curr_exe_job.task_no ≠ IDLE_TASK_NO ∧ c.curr_exe_job.execution_time > 0 then
      let curr_exe_job := { c.curr_exe_job with status_flag := PREEMPTED }
      let preempted_job := copy_job_structure inp.next_job curr_exe_job
      let c := { c with curr_exe_job := curr_exe_job
                        preempted_job := preempted_job
                        qhead := update_run_queue c.qhead preempted_job }
      { s with core := s.core.set core_idx c }
    else s
  else s

/-- Job arrivals for the core `core_idx`. -/
def arrivals_core (inp : Sched_input) (s : Sched_state) (core_idx : Nat) : Sched_state :=
  let c := run_core_at s.core core_idx
  if at_decision_time c s.timecount ∧ has_event c.decision_point.event JOB_ARRIVAL = true then
    let q := add_ready_jobs inp.rand c inp.task_arr inp.num_tasks s.timecount s.current_level
      { qhead := c.qhead, dhead := s.dhead, prhead := s.prhead, rand_calls := s.rand_calls }
    { s with core := s.core.set core_idx { c with qhead := q.qhead }
             dhead := q.dhead
             prhead := q.prhead
             rand_calls := q.rand_calls }
  else s

/-- The loop over the tasks in the shutdown evaluation of the core `core_idx`: update
`min_arrival` and `min_idx`.  The acceptance level is computed from the threshold of
`core[0]` (`core->threshold_criticality`). -/
def anticipate_next_arrival (inp : Sched_input) (s : Sched_state) (core_idx : Nat) :
    ℚ × Int :=
  (List.range inp.num_tasks.toNat).foldl
    (fun (r : ℚ × Int) (i : Nat) =>
      if (task_at inp.task_arr i).allocated_core = (run_core_at s.core core_idx).alloc.core_no
      then
        if (task_at inp.task_arr i).criticality
            ≥ accept_above_criticality_level s.current_level
                (run_core_at s.core 0).alloc.threshold_criticality then
          let next_arrival := get_next_job_arrival inp.task_arr i s.timecount
          if r.1 > next_arrival then (next_arrival, (i : Int)) else r
        else r
      else r)
    (s.min_arrival, s.min_idx)

/-- Value of `i` after `for (i = 0; i < max_criticality; i++) if (slack_available[i] <
SHUTDOWN_THRESHOLD) break;`. -/
def first_low_slack (slack_available : List Dbl) (max_criticality : Int) : Int :=
  match (List.range max_criticality.toNat).find? fun i =>
      Dbl.lt (slack_available.getD i (Dbl.fin 0)) (Dbl.fin (SHUTDOWN_THRESHOLD : ℚ)) with
  | some i => i
  | none => max max_criticality 0

/-- Shutdown evaluation for the core `core_idx`. -/
def shutdown_core (inp : Sched_input) (s : Sched_state) (core_idx : Nat) :
    Option Sched_state :=
  let c := run_core_at s.core core_idx
  if c.status = ACTIVE then
    if c.qhead.head_node.isEmpty = true then
      let r := anticipate_next_arrival inp s core_idx
      let s := { s with min_arrival := r.1, min_idx := r.2 }
      if s.min_arrival ≥ s.timecount + (SHUTDOWN_THRESHOLD : ℚ) then
        let c := { c with wakeup_time := s.min_arrival, status := SHUTDOWN }
        some { s with core := s.core.set core_idx c }
      else
        match get_dynamic_procrastination_slack inp.rand s.core core_idx inp.task_arr
            inp.num_tasks
            (s.min_arrival + ((task_at inp.task_arr s.min_idx).deadline : ℚ))
            inp.max_criticality s.current_level inp.hyperperiod s.timecount s.rand_calls with
        | none => none
        | some (core, rand_calls) =>
          let i := first_low_slack (run_core_at core core_idx).slack_available
            inp.max_criticality
          if i = inp.max_criticality then
            let c :=
              { run_core_at core core_idx with
                wakeup_time := Dbl.to_rat
                  ((run_core_at core i).slack_available.getD (s.current_level - 1).toNat
                    (Dbl.fin 0))
                status := SHUTDOWN }
            some { s with core := core.set core_idx c, rand_calls := rand_calls }
          else some { s with core := core, rand_calls := rand_calls }
    else some s
  else some s

/-- Discarded job scheduling for the core `core_idx`. -/
def discarded_core (inp : Sched_input) (s : Sched_state) (core_idx : Nat) :
    Option Sched_state :=
  let c := run_core_at s.core core_idx
  if s.current_level > 1 ∧ c.status = ACTIVE ∧ at_decision_time c s.timecount then
    match schedule_discarded_job inp.rand inp.next_job c.qhead s.dhead inp.task_arr
        inp.num_tasks c.alloc.threshold_criticality inp.max_criticality s.current_level
        c.alloc.core_no inp.hyperperiod s.timecount s.rand_calls with
    | none => none
    | some (head, dhead, rand_calls) =>
      some { s with core := s.core.set core_idx { c with qhead := head }
                    dhead := dhead
                    rand_calls := rand_calls }
  else some s

/-- Fold of a loop over the cores whose body may fail to return. -/
def for_cores (num_cores : Int) (body : Sched_state → Nat → Option Sched_state)
    (s : Sched_state) : Option Sched_state :=
  (List.range num_cores.toNat).foldl
    (fun r core_idx => match r with
      | none => none
      | some s => body s core_idx)
    (some s)

/-- Condition of the scan for a criticality level change: the core is `ACTIVE` and its
decision point at `timecount` has the flag `JOB_WCET_EXCEEDED`. -/
def wcet_exceeded_core (s : Sched_state) (core_idx : Nat) : Prop :=
  (run_core_at s.core core_idx).status = ACTIVE
    ∧ at_decision_time (run_core_at s.core core_idx) s.timecount
    ∧ has_event (run_core_at s.core core_idx).decision_point.event JOB_WCET_EXCEEDED = true

instance (s : Sched_state) (core_idx : Nat) : Decidable (wcet_exceeded_core s core_idx) := by
  unfold wcet_exceeded_core
  infer_instance

/-- Condition under which the running job of the core is dropped for an overrun. -/
def overrun_core (c : Core_run) (timecount : ℚ) : Prop :=
  c.status = ACTIVE ∧ has_event c.decision_point.event JOB_OVERRUN = true
    ∧ at_decision_time c timecount

instance (c : Core_run) (timecount : ℚ) : Decidable (overrun_core c timecount) := by
  unfold overrun_core
  infer_instance

/-- Handling of the running job of a core after `current_level` was incremented: a job
with no execution time left on a core whose event is `JOB_WCET_EXCEEDED` is copied back
into the run queue; that job, or the job of a core whose event is `JOB_OVERRUN`, is then
replaced by the idle task. -/
def level_change_job (inp : Sched_input) (timecount : ℚ) (c : Core_run) : Core_run :=
  if c.status = ACTIVE ∧ c.curr_exe_job.task_no ≠ IDLE_TASK_NO
      ∧ c.curr_exe_job.execution_time = 0
      ∧ has_event c.decision_point.event JOB_WCET_EXCEEDED = true
      ∧ at_decision_time c timecount then
    let curr_exe_job := { c.curr_exe_job with status_flag := PREEMPTED }
    let preempted_job := copy_job_structure inp.next_job curr_exe_job
    { c with preempted_job := preempted_job
             qhead := update_run_queue c.qhead preempted_job
             curr_exe_job := { curr_exe_job with task_no := IDLE_TASK_NO } }
  else if overrun_core c timecount then
    { c with curr_exe_job := { c.curr_exe_job with task_no := IDLE_TASK_NO } }
  else c

/-- Body of the loop over the cores after `current_level` was incremented (`s.current_level`
is the new level).  The two tests `current_level <= threshold_criticality` and
`current_level > threshold_criticality` of the source exclude each other and are the two
branches here. -/
def level_change_core (inp : Sched_input) (s : Sched_state) (core_idx : Nat) :
    Option Sched_state :=
  let c := run_core_at s.core core_idx
  let c := level_change_job inp s.timecount { c with core_criticality := c.core_criticality + 1 }
  if s.current_level ≤ c.alloc.threshold_criticality then
    let r := discard_below_criticality_level c.qhead s.dhead s.current_level
    some { s with core := s.core.set core_idx { c with qhead := r.1 }, dhead := r.2 }
  else
    let r := discard_below_criticality_level c.qhead s.dhead
      (c.alloc.threshold_criticality + 1)
    let head := update_sched_deadlines r.1 inp.task_arr inp.num_tasks
    match merge_sort head.head_node with
    | none => none
    | some sorted =>
      some { s with core := s.core.set core_idx { c with qhead := { head with head_node := sorted } }
                    dhead := r.2 }

/-- Job overrun handling for the core `core_idx` when the level does not change. -/
def overrun_only_core (s : Sched_state) (core_idx : Nat) : Sched_state :=
  let c := run_core_at s.core core_idx
  if overrun_core c s.timecount then
    let c := { c with curr_exe_job := { c.curr_exe_job with task_no := IDLE_TASK_NO } }
    { s with core := s.core.set core_idx c }
  else s

/-- Criticality level change and job overrun handling. -/
def level_change (inp : Sched_input) (s : Sched_state) : Option Sched_state :=
  if ∃ core_idx ∈ List.range inp.num_cores.toNat, wcet_exceeded_core s core_idx then
    for_cores inp.num_cores (level_change_core inp)
      { s with current_level := s.current_level + 1 }
  else some ((List.range inp.num_cores.toNat).foldl overrun_only_core s)

/-- The loop of the core wake-up over the pending-request queue: the jobs allocated to
`core_no` are inserted into the run queue `qhead` and deleted from the pending-request
queue; `front` is the chain in front of `temp`. -/
def wakeup_walk (core_no : Int) : List Jobs → List Jobs → Int → RQ_HEAD →
    List Jobs × Int × RQ_HEAD
  | front, [], size, qhead => (front, size, qhead)
  | front, temp :: rest, size, qhead =>
    if temp.allocated_core = core_no then
      wakeup_walk core_no (delete_walk temp (front ++ [temp])) rest (size - 1)
        (update_run_queue qhead temp)
    else wakeup_walk core_no (front ++ [temp]) rest size qhead

/-- Core wake-up for the core `core_idx`. -/
def wakeup_core (s : Sched_state) (core_idx : Nat) : Sched_state :=
  let c := run_core_at s.core core_idx
  if c.status = SHUTDOWN ∧ at_decision_time c s.timecount
      ∧ has_event c.decision_point.event WAKEUP_CORE = true then
    let r := wakeup_walk c.alloc.core_no [] s.prhead.head_node s.prhead.size c.qhead
    { s with core := s.core.set core_idx { c with status := ACTIVE, qhead := r.2.2 }
             prhead := { s.prhead with head_node := r.1, size := r.2.1 } }
  else s

/-- Dispatch for the core `core_idx`: the job at the head of the run queue becomes the
running job. -/
def dispatch_core (inp : Sched_input) (s : Sched_state) (core_idx : Nat) : Sched_state :=
  let c := run_core_at s.core core_idx
  let r := schedule_next_job c.qhead inp.next_job
  { s with core := s.core.set core_idx { c with curr_exe_job := r.1, qhead := r.2 } }

/-- Account the time up to `next_decision_point` on the core `core_idx`: the running job
loses execution time and budget, an idle `ACTIVE` core gains idle time.  The budgets are
`int`s and the difference is truncated when it is stored. -/
def account_core (next_decision_point : ℚ) (s : Sched_state) (core_idx : Nat) : Sched_state :=
  let c := run_core_at s.core core_idx
  if c.status = ACTIVE then
    if c.curr_exe_job.task_no ≠ IDLE_TASK_NO then
      let curr_exe_job :=
        { c.curr_exe_job with
          execution_time := c.curr_exe_job.execution_time
            - (next_decision_point - s.timecount)
          wcet_budget := fun i =>
            trunc_to_int (((c.curr_exe_job.wcet_budget i : Int) : ℚ)
              - (next_decision_point - s.timecount)) }
      { s with core := s.core.set core_idx { c with curr_exe_job := curr_exe_job } }
    else
      let c := { c with idle_time := c.idle_time + (next_decision_point - s.timecount) }
      { s with core := s.core.set core_idx c }
  else s

/-- Last part of an iteration: compute the next decision point, account the elapsed time
and advance `timecount`. -/
def advance_time (inp : Sched_input) (s : Sched_state) : Sched_state :=
  let r := get_next_decision_point s.core inp.num_cores inp.task_arr inp.num_tasks
    s.timecount inp.hyperperiod s.current_level
  let next_decision_point :=
    if r.2 > (inp.hyperperiod : ℚ) then (inp.hyperperiod : ℚ) else r.2
  let s := (List.range inp.num_cores.toNat).foldl (account_core next_decision_point)
    { s with core := r.1 }
  { s with timecount := next_decision_point }

/-- State of an iteration after the preemption handling and the job arrivals. -/
def after_arrivals (inp : Sched_input) (s : Sched_state) : Sched_state :=
  (List.range inp.num_cores.toNat).foldl (arrivals_core inp)
    ((List.range inp.num_cores.toNat).foldl (preempt_core inp) s)

/-- State of an iteration after the shutdown evaluation. -/
def after_shutdown (inp : Sched_input) (s : Sched_state) : Option Sched_state :=
  for_cores inp.num_cores (shutdown_core inp) (after_arrivals inp s)

/-- State of an iteration after the discarded job scheduling. -/
def after_discarded (inp : Sched_input) (s : Sched_state) : Option Sched_state :=
  match after_shutdown inp s with
  | none => none
  | some s => for_cores inp.num_cores (discarded_core inp) s

/-- State of an iteration after the criticality level change and overrun handling. -/
def after_level_change (inp : Sched_input) (s : Sched_state) : Option Sched_state :=
  match after_discarded inp s with
  | none => none
  | some s => level_change inp s

/-- State of an iteration after the core wake-up, that is when the next jobs are
dispatched. -/
def after_wakeup (inp : Sched_input) (s : Sched_state) : Option Sched_state :=
  match after_level_change inp s with
  | none => none
  | some s => some ((List.range inp.num_cores.toNat).foldl wakeup_core s)

/-- State of an iteration after the dispatch of the next job on every core. -/
def after_dispatch (inp : Sched_input) (s : Sched_state) : Option Sched_state :=
  match after_wakeup inp s with
  | none => none
  | some s => some ((List.range inp.num_cores.toNat).foldl (dispatch_core inp) s)

/-- One iteration of the loop `while (timecount < hyperperiod)` of `run_scheduler_loop`;
`none` when a called function does not return. -/
def scheduler_iteration (inp : Sched_input) (s : Sched_state) : Option Sched_state :=
  match after_dispatch inp s with
  | none => none
  | some s => some (advance_time inp s)

/-- Initial run-time fields of a core. -/
def init_core (inp : Sched_input) (alloc : Cores) : Core_run :=
  { alloc := alloc
    core_criticality := 1
    slack_available := (List.range MAX_LEVELS).map fun i =>
      if (i : Int) < inp.max_criticality then Dbl.fin (NA : ℚ) else Dbl.fin 0
    status := ACTIVE
    wakeup_time := (NA : ℚ)
    decision_point := { decision_time := 0, event := 0 }
    qhead := create_run_queue
    curr_exe_job := { inp.next_job with task_no := IDLE_TASK_NO }
    preempted_job := inp.next_job
    idle_time := 0 }

/-- State of `run_scheduler_loop` when the loop is entered for the first time, for the
cores produced by the allocator; `current_level` is `1` at program start. -/
def scheduler_init (inp : Sched_input) (core : List Cores) : Sched_state :=
  let cores := (List.range inp.num_cores.toNat).map fun (j : Nat) => init_core inp (core_at core j)
  let r := get_next_decision_point cores inp.num_cores inp.task_arr inp.num_tasks
    (-1 * TIME_GRANULARITY) inp.hyperperiod 1
  { timecount := r.2
    current_level := 1
    core := r.1
    dhead := List.replicate (inp.max_criticality - 1).toNat create_run_queue
    prhead := create_run_queue
    min_arrival := (inp.hyperperiod : ℚ)
    min_idx := 0
    rand_calls := 0 }

/-- State after at most `n` iterations of the loop of `run_scheduler_loop`: the loop stops
as soon as `timecount` reaches `hyperperiod`. -/
def run_scheduler_loop (inp : Sched_input) : Nat → Sched_state → Option Sched_state
  | 0, s => some s
  | n + 1, s =>
    if s.timecount < (inp.hyperperiod : ℚ) then
      match scheduler_iteration inp s with
      | none => none
      | some s => run_scheduler_loop inp n s
    else some s

/-- Test of a property on the state that the scheduler loop returns; `false` when a called
function does not return. -/
def loop_returns_with (r : Option Sched_state) (p : Sched_state → Bool) : Bool :=
  match r with
  | some s => p s
  | none => false

/-- The chain `l2` results from the chain `l1` by insertions (`update_run_queue`) of jobs that
satisfy `A`. -/
inductive Grown (A : Jobs → Prop) : List Jobs → List Jobs → Prop
  | refl (l : List Jobs) : Grown A l l
  | step {l l1 : List Jobs} {j : Jobs} : Grown A l l1 → A j → Grown A l (insert_walk j l1)

/-- Every queue of the array `d2` results from the queue of the same index of `d1` by
insertions of jobs that satisfy `A` at that index. -/
def Grown_all (A : Nat → Jobs → Prop) (d1 d2 : List RQ_HEAD) : Prop :=
  d2.length = d1.length ∧
    ∀ k : Nat, Grown (A k) (queue_at d1 k).head_node (queue_at d2 k).head_node

/-- Every queue of the array `d2` holds a part of the jobs of the queue of the same index
of `d1`, in the same order. -/
def Shrunk_all (d1 d2 : List RQ_HEAD) : Prop :=
  d2.length = d1.length ∧
    ∀ k : Nat, List.Sublist (queue_at d2 k).head_node (queue_at d1 k).head_node

/-- The job `j` was built by `create_job_structure` for one of the first `num_tasks` tasks,
for the core `core_no` at time `timecount`. -/
def Created (task_arr : List Tasks) (num_tasks threshold_criticality core_no : Int)
    (timecount : ℚ) (current_level : Int) (j : Jobs) : Prop :=
  ∃ i : Nat, i < num_tasks.toNat ∧ ∃ rand_value : Int,
    j = create_job_structure task_arr i threshold_criticality core_no timecount current_level
      rand_value

/-- The record `c2` is the record `c1` with, at most, another `slack_available`. -/
def same_but_slack (c1 c2 : Core_run) : Prop :=
  c2 = { c1 with slack_available := c2.slack_available }

/-- Conditions on a property `P` of jobs under which it passes from the jobs that
`create_job_structure` builds to every job that the scheduler loop holds: the loop only
changes the fields named here. -/
structure Job_property (inp : Sched_input) (P : Jobs → Prop) : Prop where
  created : ∀ i : Nat, i < inp.num_tasks.toNat →
    ∀ (threshold_criticality core_no : Int) (timecount : ℚ) (current_level rand_value : Int),
      P (create_job_structure inp.task_arr i threshold_criticality core_no timecount
        current_level rand_value)
  status_flag : ∀ (j : Jobs) (f : Int), P j → P { j with status_flag := f }
  allocated_core : ∀ (j : Jobs) (c : Int), P j → P { j with allocated_core := c }
  sched_deadline : ∀ (j : Jobs) (d : ℚ), P j → P { j with sched_deadline := Dbl.fin d }
  run : ∀ (j : Jobs) (e : ℚ) (b : Fin MAX_LEVELS → Int), P j →
    P { j with execution_time := e, wcet_budget := b }

/-- Invariant of a core: the run queue of a core that is not `ACTIVE` is empty, the run
queue is ascending, and its jobs and the running job have the property `P`. -/
def Core_ok (P : Jobs → Prop) (c : Core_run) : Prop :=
  (c.status ≠ ACTIVE → c.qhead.head_node = []) ∧ ascending c.qhead.head_node ∧
    (∀ j ∈ c.qhead.head_node, P j) ∧
    (c.curr_exe_job.task_no ≠ IDLE_TASK_NO → P c.curr_exe_job)

/-- Invariant of the scheduler loop: every core satisfies `Core_ok`, and the jobs of the
discarded queues and of the pending-request queue have the property `P`. -/
def Sched_ok (P : Jobs → Prop) (s : Sched_state) : Prop :=
  (∀ c ∈ s.core, Core_ok P c) ∧
    (∀ k : Nat, ∀ j ∈ (queue_at s.dhead k).head_node, P j) ∧
    (∀ j ∈ s.prhead.head_node, P j)

/-- States of the scheduler loop at the start of an iteration: the state in which the loop is
entered, and every state that an iteration which returns leaves with `timecount` below
`hyperperiod`. -/
inductive Reachable (inp : Sched_input) (core : List Cores) : Sched_state → Prop
  | init : Reachable inp core (scheduler_init inp core)
  | step {s s1 : Sched_state} : Reachable inp core s → s.timecount < (inp.hyperperiod : ℚ) →
      scheduler_iteration inp s = some s1 → Reachable inp core s1

/-- The running job of a core has a deadline `<=` that of every job of its run queue. -/
def Earliest_runs (c : Core_run) : Prop :=
  c.curr_exe_job.task_no ≠ IDLE_TASK_NO →
    ∀ r ∈ c.qhead.head_node, Dbl.le c.curr_exe_job.sched_deadline r.sched_deadline = true

/-- Invariant of the discarded queues: a job in the queue of index `k` has the criticality
`k + 1` (its index is `job_criticality - 1`), and that criticality is below
`current_level`. -/
def Discarded_ok (s : Sched_state) : Prop :=
  ∀ k : Nat, ∀ j ∈ (queue_at s.dhead k).head_node,
    (j.job_criticality - 1).toNat = k ∧ j.job_criticality < s.current_level

/-- Every job of the run queue of the core is at or above the acceptance level of the core
at the system level `level`. -/
def Queue_accepted (level : Int) (c : Core_run) : Prop :=
  ∀ j ∈ c.qhead.head_node,
    accept_above_criticality_level level c.alloc.threshold_criticality ≤ j.job_criticality

/-- Every job of the run queue of the core and its running job are at or above the
acceptance level of the core at the system level `level`. -/
def Accepted (level : Int) (c : Core_run) : Prop :=
  Queue_accepted level c ∧
    (c.curr_exe_job.task_no ≠ IDLE_TASK_NO →
      accept_above_criticality_level level c.alloc.threshold_criticality
        ≤ c.curr_exe_job.job_criticality)

/-- The criticality of the job is the criticality of one of the first `num_tasks` tasks with
the task number of the job. -/
def Task_criticality (inp : Sched_input) (j : Jobs) : Prop :=
  ∃ i : Nat, i < inp.num_tasks.toNat ∧ (task_at inp.task_arr i).task_no = j.task_no
    ∧ (task_at inp.task_arr i).criticality = j.job_criticality

instance (level : Int) (c : Core_run) : Decidable (Queue_accepted level c) := by
  unfold Queue_accepted
  infer_instance

instance (level : Int) (c : Core_run) : Decidable (Accepted level c) := by
  unfold Accepted
  infer_instance

/-- Invariant of `current_level`: it lies in `1 .. max_criticality`, and it is below
`max_criticality` when the decision point of a core has the flag `JOB_WCET_EXCEEDED`. -/
def Level_ok (inp : Sched_input) (s : Sched_state) : Prop :=
  1 ≤ s.current_level ∧ s.current_level ≤ inp.max_criticality ∧
  ∀ i : Nat, i < inp.num_cores.toNat →
    has_event (run_core_at s.core i).decision_point.event JOB_WCET_EXCEEDED = true →
    s.current_level < inp.max_criticality

/-- The smaller of two doubles, `min (a, b)`: `b` when `b < a`, else `a`. -/
def Dbl.minimum (a b : Dbl) : Dbl :=
  if Dbl.lt b a = true then b else a

/-- One step of the slack calculation as the specification words it, on the pair
(`latest_start`, `window`): a job with `sched_deadline > max_deadline` subtracts
`(max_deadline - arrival) * wcet_budget[l - 1] / (sched_deadline - arrival)` from
`latest_start`; a job with `latest_arrival < sched_deadline <= max_deadline` sets
`latest_start = min (latest_start, sched_deadline)` and then subtracts `wcet_budget[l - 1]` if
`arrival > now` and `execution_time` if not; a job with `sched_deadline <= latest_arrival`
adds that same quantity to `window`. -/
def slack_reference_step (latest_arrival max_deadline : Dbl) (now l : Int) (job : Jobs)
    (acc : Dbl × ℚ) : Dbl × ℚ :=
  let quantity : ℚ :=
    if job.arrival_time > now then ((job.budget (l - 1) : Int) : ℚ) else job.execution_time
  if Dbl.lt max_deadline job.sched_deadline = true then
    (Dbl.sub acc.1
      (Dbl.div
        (Dbl.mul (Dbl.sub max_deadline (Dbl.fin (job.arrival_time : ℚ)))
          (Dbl.fin ((job.budget (l - 1) : Int) : ℚ)))
        (Dbl.sub job.sched_deadline (Dbl.fin (job.arrival_time : ℚ)))), acc.2)
  else if Dbl.lt latest_arrival job.sched_deadline = true
      ∧ Dbl.le job.sched_deadline max_deadline = true then
    (Dbl.sub (Dbl.minimum acc.1 job.sched_deadline) (Dbl.fin quantity), acc.2)
  else if Dbl.le job.sched_deadline latest_arrival = true then
    (acc.1, acc.2 + quantity)
  else acc

/-- The slack as the specification words it: the fold of `slack_reference_step` over the jobs
from the tail to the head, started from `latest_start = max_deadline` and `window = 0`, and
then `(min (latest_start, latest_arrival) - now) - window`. -/
def slack_reference (jobs : List Jobs) (latest_arrival max_deadline : Dbl) (now l : Int) :
    Dbl :=
  let r := jobs.foldr (slack_reference_step latest_arrival max_deadline now l)
    (max_deadline, 0)
  Dbl.sub (Dbl.sub (Dbl.minimum r.1 latest_arrival) (Dbl.fin (now : ℚ))) (Dbl.fin r.2)

/-! ## Merge sort on the nodes, with the `prev` links -/

/-- A node of a run queue (`RQ_NODE`) with its address and its `prev` pointer (`none` is
`NULL`); the `next` pointers of a chain are given by the order of the list that holds its
nodes. -/
structure RQ_NODE where
  addr : Nat
  job : Jobs
  prev : Option Nat

/-- Assignment `head->prev = p` to the first node of a chain. -/
def set_prev (p : Option Nat) : List RQ_NODE → List RQ_NODE
  | [] => []
  | n :: rest => { n with prev := p } :: rest

/-- The pointer walk of `partition` on the nodes; the `prev` pointers are not written. -/
def partition_nodes_walk : List RQ_NODE → List RQ_NODE → List RQ_NODE × List RQ_NODE
  | _ :: _ :: f2 :: frest, s :: srest =>
    ((s :: (partition_nodes_walk (f2 :: frest) srest).1),
      (partition_nodes_walk (f2 :: frest) srest).2)
  | _, s :: srest => ([s], srest)
  | _, [] => ([], [])

/-- Split of a non-empty chain of nodes into its first and its second half. -/
def partition_nodes (head : List RQ_NODE) : List RQ_NODE × List RQ_NODE :=
  partition_nodes_walk head head

/-- The function `merge` on the nodes: the node that goes first gets the merged rest as its
`next`, the first node of that rest gets `prev` set to it, and its own `prev` is set to
`NULL`. -/
def merge_nodes : List RQ_NODE → List RQ_NODE → List RQ_NODE
  | [], second => second
  | f :: fs, [] => f :: fs
  | f :: fs, s :: ss =>
    if Dbl.lt f.job.sched_deadline s.job.sched_deadline = true then
      { f with prev := none } :: set_prev (some f.addr) (merge_nodes fs (s :: ss))
    else
      { s with prev := none } :: set_prev (some s.addr) (merge_nodes (f :: fs) ss)
termination_by first second => first.length + second.length

/-- The function `merge_sort` on the nodes, with a bound on the depth of the recursion. -/
def merge_sort_nodes_fuel : Nat → List RQ_NODE → Option (List RQ_NODE)
  | 0, _ => none
  | _ + 1, [] => some []
  | _ + 1, [x] => some [x]
  | n + 1, x :: y :: rest =>
    match merge_sort_nodes_fuel n (partition_nodes (x :: y :: rest)).1,
      merge_sort_nodes_fuel n (partition_nodes (x :: y :: rest)).2 with
    | some primary, some secondary => some (merge_nodes primary secondary)
    | _, _ => none

/-- The function `merge_sort` on the nodes of a run queue. -/
def merge_sort_nodes (primary_head : List RQ_NODE) : Option (List RQ_NODE) :=
  merge_sort_nodes_fuel (primary_head.length + 1) primary_head

/-- The `prev` links of a chain are consistent with its `next` links: the `prev` of the
first node is `NULL` and the `prev` of every other node is the address of the node in front
of it. -/
def Linked (q : List RQ_NODE) : Prop :=
  (∀ h ∈ q.head?, h.prev = none) ∧ q.Chain' fun a b => b.prev = some a.addr

/-! ## Core selection and the records of allocated tasks: stated properties -/

/-- Frame of a selection loop that visits the cores `j .. j + n - 1` for the task at
`task_idx`, between the arrays before (`core`, `tasks_arr`) and after (`core1`,
`tasks_arr1`): the threshold of a core is unchanged when the core is not visited or its
remaining capacity is below the utilisation of the task, and a task other than the
candidate is unchanged when no visited core with its core number is probed by the EDF-VD
check (capacity for the task and an own-level utilisation above 1 with it). -/
def Selection_frame (task_idx : Int) (core : List Cores) (tasks_arr : List Tasks) (j n : Nat)
    (core1 : List Cores) (tasks_arr1 : List Tasks) : Prop :=
  (∀ k : Nat,
    (k < j ∨ j + n ≤ k ∨
      (core.getD k default).remaining_capacity < (task_at tasks_arr task_idx).util_own) →
    (core1.getD k default).threshold_criticality = (core.getD k default).threshold_criticality) ∧
  (∀ m : Nat, (tasks_arr.getD m default).task_no ≠ (task_at tasks_arr task_idx).task_no →
    (∀ k : Nat, j ≤ k → k < j + n →
      (core.getD k default).core_no = (tasks_arr.getD m default).allocated_core →
      ¬ ((core.getD k default).remaining_capacity ≥ (task_at tasks_arr task_idx).util_own ∧
        (task_at tasks_arr task_idx).util_own + (core.getD k default).utilization > 1)) →
    tasks_arr1.getD m default = tasks_arr.getD m default)

/-- The task numbers recorded in a core: the first `tasks_alloc_count` entries of
`tasks_alloc_ids`. -/
def Cores.alloc_ids (c : Cores) : List Int :=
  c.tasks_alloc_ids.take c.tasks_alloc_count.toNat

/-- The tasks of the array that are allocated to core number `core_no`. -/
def tasks_on (l : List Tasks) (core_no : Int) : List Tasks :=
  l.filter fun t => decide (t.allocated_core = core_no)

/-- Invariant of the allocator on the records of allocated tasks: in every core the array
`tasks_alloc_ids` has `MAX_TASKS` entries, `tasks_alloc_count` is the number of tasks
allocated to the core, and the recorded task numbers are the numbers of those tasks. -/
def Ids (core : List Cores) (l : List Tasks) : Prop :=
  ∀ j : Nat, j < MAX_CORES →
    (core.getD j default).tasks_alloc_ids.length = MAX_TASKS ∧
    (core.getD j default).tasks_alloc_count = ((tasks_on l ((j : Int) + 1)).length : Int) ∧
    (core.getD j default).alloc_ids.Perm ((tasks_on l ((j : Int) + 1)).map Tasks.task_no)

/-! ## Double-precision arithmetic (IEEE 754 binary64) -/

namespace Dbl

/-- Number of halvings that bring `n` below 2, with a bound on their number. -/
def halvings : Nat → Nat → Nat
  | 0, _ => 0
  | fuel + 1, n => if n < 2 then 0 else halvings fuel (n / 2) + 1

/-- Exponent of the binade of the positive rational `n / d`: the integer `e` with
`2 ^ e <= n / d < 2 ^ (e + 1)`, for `n` and `d` positive. -/
def binade (n d : Nat) : Int :=
  let e0 : Int := (halvings n n : Int) - (halvings d d : Int)
  if 0 ≤ e0 then
    if d * 2 ^ e0.toNat ≤ n then e0 else e0 - 1
  else
    if d ≤ n * 2 ^ (-e0).toNat then e0 else e0 - 1

/-- The integer nearest to `n / (d * 2 ^ p)`, the even one of the two when `n / (d * 2 ^ p)`
lies halfway between two integers. -/
def nearest_even (n d : Nat) (p : Int) : Nat :=
  let N := if 0 ≤ p then n else n * 2 ^ (-p).toNat
  let D := if 0 ≤ p then d * 2 ^ p.toNat else d
  let f := N / D
  let rem := N % D
  if 2 * rem < D then f
  else if D < 2 * rem then f + 1
  else if f % 2 = 0 then f
  else f + 1

/-- Rounding of a rational to a `double`, to nearest with ties to even: 53 significant
bits, exponents from `-1022` on (gradual underflow below), overflow to an infinity.  The sign
of a zero is not modelled. -/
def round64 (q : ℚ) : Dbl :=
  if q = 0 then fin 0
  else
    let p := max (binade q.num.natAbs q.den) (-1022) - 52
    let r := nearest_even q.num.natAbs q.den p
    let a : ℚ :=
      if 0 ≤ p then ((r * 2 ^ p.toNat : Nat) : ℚ) else mkRat (r : Int) (2 ^ (-p).toNat)
    if ((2 ^ 1024 : Nat) : ℚ) ≤ a then (if 0 < q then pinf else ninf)
    else fin (if 0 < q then a else -a)

/-- Rounding of the exact result of an operation. -/
def rnd : Dbl → Dbl
  | fin q => round64 q
  | x => x

/-- Addition of two `double`s. -/
def fadd (a b : Dbl) : Dbl := rnd (add a b)

/-- Subtraction of two `double`s. -/
def fsub (a b : Dbl) : Dbl := rnd (sub a b)

/-- Multiplication of two `double`s. -/
def fmul (a b : Dbl) : Dbl := rnd (mul a b)

/-- Division of two `double`s. -/
def fdiv (a b : Dbl) : Dbl := rnd (div a b)

end Dbl

/-! ## The EDF-VD check in double-precision arithmetic

The functions of the section on the EDF-VD offline preprocessing, with every `double`
operation rounded (`Dbl.fadd`, `Dbl.fsub`, `Dbl.fmul`, `Dbl.fdiv`) as the compiled code
performs it.  The utilisations stored in the task array are `double`s, held as the
rationals they denote. -/

namespace Ieee

/-- Body of the per-task loop of `fetch_task_parameters` for the task at array index `i`,
with the division `(double) wcet / period` rounded; periods are assumed non-zero. -/
def fetch_task (i : Nat) (phase period deadline criticality : Int) (wcet : List Int)
    (max_criticality : Int) : Tasks :=
  { task_no := (i : Int) + 1
    phase := phase
    period := period
    wcet := wcet
    criticality := criticality
    deadline := deadline
    virtual_deadline := Dbl.fin deadline
    utilization := (List.range (max criticality max_criticality).toNat).map fun (j : Nat) =>
      if ((j : Nat) : Int) < criticality then
        Dbl.to_rat (Dbl.fdiv (Dbl.fin ((wcet.getD j 0 : Int) : ℚ)) (Dbl.fin (period : ℚ)))
      else
        Dbl.to_rat (Dbl.fdiv (Dbl.fin ((wcet.getD (criticality - 1).toNat 0 : Int) : ℚ))
          (Dbl.fin (period : ℚ)))
    allocated_core := NOT_ALLOCATED }

/-- Total utilisation at level `k = lower_limit - 1` of the tasks of the union whose
criticality lies in `lower_limit..upper_limit`, accumulated in array order from `0.0`. -/
def calculate_utilization_ulk (tasks_arr : List Tasks)
    (lower_limit upper_limit core_no new_task_no : Int) : Dbl :=
  let k := lower_limit - 1
  tasks_arr.foldl
    (fun utilization_ulk t =>
      if in_union t core_no new_task_no then
        if t.criticality ≥ lower_limit ∧ t.criticality ≤ upper_limit then
          Dbl.fadd utilization_ulk (Dbl.fin (t.util (k - 1)))
        else utilization_ulk
      else utilization_ulk)
    (Dbl.fin 0)

/-- Total utilisation at own level of the tasks of the union whose criticality lies in
`lower_limit..upper_limit`, accumulated in array order from `0.0`. -/
def calculate_utilization_ull (tasks_arr : List Tasks)
    (lower_limit upper_limit core_no new_task_no : Int) : Dbl :=
  tasks_arr.foldl
    (fun utilization_ull t =>
      if in_union t core_no new_task_no then
        if t.criticality ≥ lower_limit ∧ t.criticality ≤ upper_limit then
          Dbl.fadd utilization_ull (Dbl.fin (t.util (t.criticality - 1)))
        else utilization_ull
      else utilization_ull)
    (Dbl.fin 0)

/-- Lower bound on the deadline-shortening factor at a threshold. -/
def x_lb (tasks_arr : List Tasks) (max_criticality core_no new_task_no : Int)
    (threshold_criticality : Int) : Dbl :=
  Dbl.fdiv
    (calculate_utilization_ulk tasks_arr (threshold_criticality + 1) max_criticality
      core_no new_task_no)
    (Dbl.fsub (Dbl.fin 1)
      (calculate_utilization_ull tasks_arr 1 threshold_criticality core_no new_task_no))

/-- Upper bound on the deadline-shortening factor at a threshold. -/
def x_ub (tasks_arr : List Tasks) (max_criticality core_no new_task_no : Int)
    (threshold_criticality : Int) : Dbl :=
  Dbl.fdiv
    (Dbl.fsub (Dbl.fin 1)
      (calculate_utilization_ull tasks_arr (threshold_criticality + 1) max_criticality
        core_no new_task_no))
    (calculate_utilization_ull tasks_arr 1 threshold_criticality core_no new_task_no)

/-- Midpoint `(x_lb + x_ub) / 2` chosen as the shortening factor. -/
def x_mid (tasks_arr : List Tasks) (max_criticality core_no new_task_no : Int)
    (threshold_criticality : Int) : Dbl :=
  Dbl.fdiv
    (Dbl.fadd (x_lb tasks_arr max_criticality core_no new_task_no threshold_criticality)
      (x_ub tasks_arr max_criticality core_no new_task_no threshold_criticality))
    (Dbl.fin 2)

/-- Loop writing the virtual deadlines of the union for threshold `threshold_criticality`
and factor `x` (EDF-VD branch), with the product `x * deadline` rounded. -/
def set_deadlines_edfvd (tasks_arr : List Tasks) (core_no new_task_no : Int)
    (threshold_criticality : Int) (x : Dbl) : List Tasks :=
  tasks_arr.map fun t =>
    if in_union t core_no new_task_no then
      if t.criticality ≤ threshold_criticality then
        { t with virtual_deadline := Dbl.fin t.deadline }
      else
        { t with virtual_deadline := Dbl.fmul x (Dbl.fin t.deadline) }
    else t

/-- Condition tested by one iteration of the threshold scan: part 1
(`U_own(1..t) < 1.0`) and part 2 (`x_lb <= x_ub`). -/
def edfvd_condition (tasks_arr : List Tasks) (max_criticality core_no new_task_no : Int)
    (threshold_criticality : Int) : Bool :=
  Dbl.lt (calculate_utilization_ull tasks_arr 1 threshold_criticality core_no new_task_no)
      (Dbl.fin 1) &&
    Dbl.le (x_lb tasks_arr max_criticality core_no new_task_no threshold_criticality)
      (x_ub tasks_arr max_criticality core_no new_task_no threshold_criticality)

/-- The scan `for (threshold_criticality = n; threshold_criticality > 0; threshold_criticality--)`
of the EDF-VD branch, followed by `return -73`. -/
def edfvd_scan (tasks_arr : List Tasks) (max_criticality core_no new_task_no : Int) :
    Nat → Int × List Tasks
  | 0 => (-73, tasks_arr)
  | n + 1 =>
    let threshold_criticality : Int := (n : Int) + 1
    if Dbl.lt (calculate_utilization_ull tasks_arr 1 threshold_criticality core_no new_task_no)
        (Dbl.fin 1) = true then
      if Dbl.le (x_lb tasks_arr max_criticality core_no new_task_no threshold_criticality)
          (x_ub tasks_arr max_criticality core_no new_task_no threshold_criticality) = true then
        (threshold_criticality,
          set_deadlines_edfvd tasks_arr core_no new_task_no threshold_criticality
            (x_mid tasks_arr max_criticality core_no new_task_no threshold_criticality))
      else edfvd_scan tasks_arr max_criticality core_no new_task_no n
    else edfvd_scan tasks_arr max_criticality core_no new_task_no n

/-- EDF-VD schedulability check of a core together with a candidate task: returns the
threshold criticality (or `-73`) and the task array with updated virtual deadlines. -/
def edfvd_schedulability_check (tasks_arr : List Tasks)
    (max_criticality core_no new_task_no : Int) : Int × List Tasks :=
  if Dbl.le (calculate_utilization_ull tasks_arr 1 max_criticality core_no new_task_no)
      (Dbl.fin 1) = true then
    (max_criticality, set_deadlines_edf tasks_arr core_no new_task_no)
  else
    edfvd_scan tasks_arr max_criticality core_no new_task_no (max_criticality - 1).toNat

end Ieee

/-! ## Example task sets -/

/-- Single task `(phase 0, period 10, deadline 10, criticality 1, wcet [3])`, one level. -/
def single_task_set : List Tasks :=
  [fetch_task 0 0 10 10 1 [3] 1]

/-- Two levels: `T1 (period 10, criticality 2, wcet [2, 6])` already on core 1 and
`T2 (period 10, criticality 1, wcet [5])` not yet allocated. -/
def feasible_vd_set : List Tasks :=
  [{ fetch_task 0 0 10 10 2 [2, 6] 2 with allocated_core := 1 }, fetch_task 1 0 10 10 1 [5] 2]

/-- Two levels: `T1 (period 10, criticality 2, wcet [3, 6])` already on core 1 and
`T2 (period 10, criticality 1, wcet [6])` not yet allocated. -/
def infeasible_vd_set : List Tasks :=
  [{ fetch_task 0 0 10 10 2 [3, 6] 2 with allocated_core := 1 }, fetch_task 1 0 10 10 1 [6] 2]

/-- Five tasks over three levels, with pairwise distinct sorting keys. -/
def five_task_set : List Tasks :=
  [fetch_task 0 0 10 10 1 [3] 3, fetch_task 1 0 10 10 2 [3, 4] 3, fetch_task 2 0 10 10 1 [5] 3,
    fetch_task 3 0 10 10 2 [3, 6] 3, fetch_task 4 0 10 10 3 [3, 6, 7] 3]

/-- The five tasks in sorted order. -/
def five_sorted : List Tasks :=
  [fetch_task 4 0 10 10 3 [3, 6, 7] 3, fetch_task 3 0 10 10 2 [3, 6] 3,
    fetch_task 1 0 10 10 2 [3, 4] 3, fetch_task 2 0 10 10 1 [5] 3, fetch_task 0 0 10 10 1 [3] 3]

/-- Three tasks `(period 10, criticality 1, wcet [3])` that differ in `task_no` only. -/
def tie_task_set : List Tasks :=
  [fetch_task 0 0 10 10 1 [3] 1, fetch_task 1 0 10 10 1 [3] 1, fetch_task 2 0 10 10 1 [3] 1]

/-- The three equal-key tasks after one sort. -/
def tie_sorted_once : List Tasks :=
  [fetch_task 2 0 10 10 1 [3] 1, fetch_task 0 0 10 10 1 [3] 1, fetch_task 1 0 10 10 1 [3] 1]

/-- The three equal-key tasks after two sorts. -/
def tie_sorted_twice : List Tasks :=
  [fetch_task 1 0 10 10 1 [3] 1, fetch_task 2 0 10 10 1 [3] 1, fetch_task 0 0 10 10 1 [3] 1]

/-- Two levels, in sorted order: `T1 (period 10, criticality 2, wcet [2, 6])` and
`T2 (period 10, criticality 1, wcet [5])`, both unallocated. -/
def two_level_set : List Tasks :=
  [fetch_task 0 0 10 10 2 [2, 6] 2, fetch_task 1 0 10 10 1 [5] 2]

/-- Six tasks over four levels, in input order; `T1` has a zero execution time at level 3. -/
def probe_task_set : List Tasks :=
  [fetch_task 0 0 4 4 4 [2, 1, 0, 4] 4, fetch_task 1 0 4 4 3 [1, 2, 8] 4,
    fetch_task 2 0 20 20 3 [0, 1, 1] 4, fetch_task 3 0 20 20 1 [40] 4,
    fetch_task 4 0 10 10 1 [20] 4, fetch_task 5 0 5 5 1 [5] 4]

/-- The six tasks in sorted order. -/
def probe_sorted : List Tasks :=
  [fetch_task 0 0 4 4 4 [2, 1, 0, 4] 4, fetch_task 1 0 4 4 3 [1, 2, 8] 4,
    fetch_task 2 0 20 20 3 [0, 1, 1] 4, fetch_task 4 0 10 10 1 [20] 4,
    fetch_task 3 0 20 20 1 [40] 4, fetch_task 5 0 5 5 1 [5] 4]

/-- Two levels, in sorted order: `T1 (period 2, criticality 2, wcet [3, 4])`, whose
utilisation exceeds 1, and `T2 (period 11, criticality 1, wcet [2])`. -/
def over_unit_set : List Tasks :=
  [fetch_task 0 0 2 2 2 [3, 4] 2, fetch_task 1 0 11 11 1 [2] 2]

/-- Two levels, in sorted order: `T1 (period 7, criticality 2, wcet [5, 4])` and
`T2 (period 10, criticality 2, wcet [7, 2])`, whose execution times decrease with the
level, and `T3 (period 9, criticality 1, wcet [7])`. -/
def decreasing_wcet_set : List Tasks :=
  [fetch_task 0 0 7 7 2 [5, 4] 2, fetch_task 1 0 10 10 2 [7, 2] 2, fetch_task 2 0 9 9 1 [7] 2]

/-- A ready job of task `task_no` with the finite deadline `d`; the remaining fields are
zero. -/
def job_with (task_no : Int) (d : ℚ) : Jobs :=
  { job_no := 0
    task_no := task_no
    allocated_core := 0
    arrival_time := 0
    sched_deadline := Dbl.fin d
    execution_time := 0
    wcet_budget := fun _ => 0
    job_criticality := 0
    status_flag := READY }

/-- One task over two levels whose relative deadline `8` is shorter than its period `10`. -/
def constrained_deadline_set : List Tasks :=
  [fetch_task 0 0 10 8 2 [3, 5] 2]

/-- A queue of a single job of task 1 with deadline 5. -/
def tie_queue : RQ_HEAD :=
  { size := 1, parameter := Dbl.fin 5, head_node := [job_with 1 5] }

/-- A queue of three jobs of tasks 1, 2, 3 with the deadlines 3, 5, 7. -/
def three_job_queue : RQ_HEAD :=
  { size := 3, parameter := Dbl.fin 7, head_node := [job_with 1 3, job_with 2 5, job_with 3 7] }

/-- Twenty-two low-period tasks over two levels, in sorted order: eleven tasks
`(period 4, criticality 2, wcet [0, 4])` followed by eleven tasks
`(period 100, criticality 1, wcet [96])`; their own-level utilisations sum to `21.56`. -/
def dense_lpd_set : List Tasks :=
  (List.range 22).map fun (i : Nat) =>
    if i < 11 then fetch_task i 0 4 4 2 [0, 4] 2 else fetch_task i 0 100 100 1 [96] 2

/-- Two levels, in sorted order: `T1 (period 10, criticality 2, wcet [3, 6])` and
`T2 (period 10, criticality 1, wcet [6])`, both unallocated. -/
def infeasible_pair_set : List Tasks :=
  [fetch_task 0 0 10 10 2 [3, 6] 2, fetch_task 1 0 10 10 1 [6] 2]

/-- The same two tasks with `T2` already on core 1 and `T1` not yet allocated. -/
def infeasible_vd_set_swapped : List Tasks :=
  [fetch_task 0 0 10 10 2 [3, 6] 2, { fetch_task 1 0 10 10 1 [6] 2 with allocated_core := 1 }]

/-- Two levels, in sorted order: `T1 (period 20, criticality 2, wcet [4, 8])`,
`T2 (period 20, criticality 1, wcet [10])` and the low-period task
`T3 (period 5, criticality 1, wcet [1])`. -/
def late_lpd_set : List Tasks :=
  [fetch_task 0 0 20 20 2 [4, 8] 2, fetch_task 1 0 20 20 1 [10] 2, fetch_task 2 0 5 5 1 [1] 2]

/-- One core with threshold 2; `T1 (criticality 2, wcet [1, 3], period 20)` and
`T2 (criticality 1, wcet [1], period 20, phase 2)`; every call of `rand()` returns 2, so
the first job of `T1` runs for 3 time units and exceeds its budget at level 1. -/
def admission_input : Sched_input :=
  { rand := fun _ => 2
    next_job := default
    task_arr :=
      [{ fetch_task 0 0 20 20 2 [1, 3] 2 with allocated_core := 1 },
       { fetch_task 1 2 20 20 1 [1] 2 with allocated_core := 1 }]
    num_cores := 1
    num_tasks := 2
    hyperperiod := 20
    max_criticality := 2 }

/-- The core of `admission_input`. -/
def admission_cores : List Cores :=
  [{ (default : Cores) with core_no := 1, threshold_criticality := 2 }]

/-- Two cores with threshold 1; `T1 (period 12, wcet [1])` on core 1 and
`T2 (period 36, wcet [1])` on core 2, both of criticality 1. -/
def stale_arrival_input : Sched_input :=
  { rand := fun _ => 0
    next_job := default
    task_arr :=
      [{ fetch_task 0 0 12 12 1 [1] 1 with allocated_core := 1 },
       { fetch_task 1 0 36 36 1 [1] 1 with allocated_core := 2 }]
    num_cores := 2
    num_tasks := 2
    hyperperiod := 36
    max_criticality := 1 }

/-- The cores of `stale_arrival_input`. -/
def stale_arrival_cores : List Cores :=
  [{ (default : Cores) with core_no := 1, threshold_criticality := 1 },
   { (default : Cores) with core_no := 2, threshold_criticality := 1 }]

/-- One core with threshold 1 and the task `T1 (period 16, wcet [1], criticality 1)`. -/
def idle_core_input : Sched_input :=
  { rand := fun _ => 0
    next_job := default
    task_arr := [{ fetch_task 0 0 16 16 1 [1] 1 with allocated_core := 1 }]
    num_cores := 1
    num_tasks := 1
    hyperperiod := 16
    max_criticality := 1 }

/-- The core of `idle_core_input`. -/
def idle_core_cores : List Cores :=
  [{ (default : Cores) with core_no := 1, threshold_criticality := 1 }]

/-- Two cores with threshold 2; `T1 (criticality 2, wcet [1, 3], period 40)` on core 1,
`T2 (criticality 2, wcet [2, 2], period 40)` and `T3 (criticality 1, wcet [1], period 20,
phase 15)` on core 2.  The first call of `rand()` returns 2, so the first job of `T1` runs
for 3 time units and exceeds its budget at level 1; the other calls return 1. -/
def shutdown_arrival_input : Sched_input :=
  { rand := fun n => if n = 0 then 2 else 1
    next_job := default
    task_arr :=
      [{ fetch_task 0 0 40 40 2 [1, 3] 2 with allocated_core := 1 },
       { fetch_task 1 0 40 40 2 [2, 2] 2 with allocated_core := 2 },
       { fetch_task 2 15 20 20 1 [1] 2 with allocated_core := 2 }]
    num_cores := 2
    num_tasks := 3
    hyperperiod := 40
    max_criticality := 2 }

/-- The cores of `shutdown_arrival_input`. -/
def shutdown_arrival_cores : List Cores :=
  [{ (default : Cores) with core_no := 1, threshold_criticality := 2 },
   { (default : Cores) with core_no := 2, threshold_criticality := 2 }]

/-- Two cores with threshold 2; `T1` and `T2 (criticality 1, wcet [1], period 40, phase 15)`
on core 1, `T3 (criticality 2, wcet [15, 17], period 40)` on core 2.  Every call of `rand()`
returns 15, so the first job of `T3` runs for 16 time units and exceeds its budget at level 1
at time 15, when core 1 wakes up. -/
def wakeup_transfer_input : Sched_input :=
  { rand := fun _ => 15
    next_job := default
    task_arr :=
      [{ fetch_task 0 15 40 40 1 [1] 2 with allocated_core := 1 },
       { fetch_task 1 15 40 40 1 [1] 2 with allocated_core := 1 },
       { fetch_task 2 0 40 40 2 [15, 17] 2 with allocated_core := 2 }]
    num_cores := 2
    num_tasks := 3
    hyperperiod := 40
    max_criticality := 2 }

/-- The cores of `wakeup_transfer_input`. -/
def wakeup_transfer_cores : List Cores :=
  [{ (default : Cores) with core_no := 1, threshold_criticality := 2 },
   { (default : Cores) with core_no := 2, threshold_criticality := 2 }]

/-- A dummy queue with three jobs of different tasks, with the deadlines 8, 15 and 30; each
job has arrived at time 0, has a budget of 2 at every level and 1 unit of execution time
left. -/
def slack_queue : RQ_HEAD :=
  { size := 3, parameter := Dbl.fin 0,
    head_node := [8, 15, 30].zipWith
      (fun (d : Int) (n : Int) =>
        ({ job_no := 0, task_no := n, allocated_core := 1, arrival_time := 0,
           sched_deadline := Dbl.fin (d : ℚ), execution_time := 1, wcet_budget := fun _ => 2,
           job_criticality := 1, status_flag := READY } : Jobs))
      [1, 2, 3] }

/-- A run queue with the jobs of the tasks 1 to 4, of the criticalities 2, 1, 1, 2 and the
deadlines 1 to 4: two consecutive jobs are below level 2. -/
def mixed_queue : RQ_HEAD :=
  { size := 4, parameter := Dbl.fin 4,
    head_node := [2, 1, 1, 2].zipWith
      (fun (c : Int) (n : Int) => { job_with n (n : ℚ) with job_criticality := c })
      [1, 2, 3, 4] }

/-- A chain of three nodes at the addresses 100, 101, 102 with consistent `prev` links; the
jobs have the deadlines 5, 3, 7. -/
def node_queue : List RQ_NODE :=
  [{ addr := 100, job := job_with 1 5, prev := none },
   { addr := 101, job := job_with 2 3, prev := some 100 },
   { addr := 102, job := job_with 3 7, prev := some 101 }]

/-- Two cores with threshold 1 at one criticality level; `T1 (phase 55)` on core 1 and
`T2 (phase 50)` on core 2, both with period 100, deadline 15 and wcet `[1]`.  The loop is
entered at time 50, where core 1 idles with its next arrival 5 time units ahead. -/
def slack_index_input : Sched_input :=
  { rand := fun _ => 0
    next_job := default
    task_arr :=
      [{ fetch_task 0 55 100 15 1 [1] 1 with allocated_core := 1 },
       { fetch_task 1 50 100 15 1 [1] 1 with allocated_core := 2 }]
    num_cores := 2
    num_tasks := 2
    hyperperiod := 100
    max_criticality := 1 }

/-- As `slack_index_input` with the two phases exchanged: at time 50 it is core 2, at array
index 1, that idles with its next arrival 5 time units ahead. -/
def slack_wakeup_input : Sched_input :=
  { rand := fun _ => 0
    next_job := default
    task_arr :=
      [{ fetch_task 0 50 100 15 1 [1] 1 with allocated_core := 1 },
       { fetch_task 1 55 100 15 1 [1] 1 with allocated_core := 2 }]
    num_cores := 2
    num_tasks := 2
    hyperperiod := 100
    max_criticality := 1 }

/-- The cores of `slack_index_input` and of `slack_wakeup_input`. -/
def slack_cores : List Cores :=
  [{ (default : Cores) with core_no := 1, threshold_criticality := 1 },
   { (default : Cores) with core_no := 2, threshold_criticality := 1 }]

/-- One core with threshold 2; `T1 (criticality 2, wcet [1, 3], period 20)`,
`T2 (criticality 1, wcet [1], period 20, phase 2)` and `T3 (criticality 1, wcet [1], period
20, deadline 18, phase 2)`; every call of `rand()` returns 2.  The level is 2 from time 1 on,
and the jobs of `T2` and `T3` released at time 2 are discarded. -/
def discarded_pair_input : Sched_input :=
  { rand := fun _ => 2
    next_job := default
    task_arr :=
      [{ fetch_task 0 0 20 20 2 [1, 3] 2 with allocated_core := 1 },
       { fetch_task 1 2 20 20 1 [1] 2 with allocated_core := 1 },
       { fetch_task 2 2 20 18 1 [1] 2 with allocated_core := 1 }]
    num_cores := 1
    num_tasks := 3
    hyperperiod := 20
    max_criticality := 2 }

/-- Four levels, in sorted order: `T1 (criticality 4, wcet [6, 6, 6, 12])`,
`T2 (criticality 4, wcet [4, 4, 4, 10])` and `T3 (criticality 3, wcet [9, 9, 9])` with
period 20, and three tasks of criticality 1 with period 100 and wcet 85, 84 and 83.  The
share of the tasks above level 2 in the total utilisation is below 40 percent, so these tasks
are placed by worst fit. -/
def probe_set : List Tasks :=
  [fetch_task 0 0 20 20 4 [6, 6, 6, 12] 4, fetch_task 1 0 20 20 4 [4, 4, 4, 10] 4,
   fetch_task 2 0 20 20 3 [9, 9, 9] 4, fetch_task 3 0 100 100 1 [85] 4,
   fetch_task 4 0 100 100 1 [84] 4, fetch_task 5 0 100 100 1 [83] 4]

/-- One level, period 20, with the utilisations as `fetch_task_parameters` stores them in
`double`: the tasks with wcet 6, 5, 6 and 1 on core 1 and the task with wcet 2 not yet
allocated.  The five quotients `wcet / period` sum to 1. -/
def unit_sum_set : List Tasks :=
  [{ Ieee.fetch_task 0 0 20 20 1 [6] 1 with allocated_core := 1 },
   { Ieee.fetch_task 1 0 20 20 1 [5] 1 with allocated_core := 1 },
   { Ieee.fetch_task 2 0 20 20 1 [6] 1 with allocated_core := 1 },
   { Ieee.fetch_task 3 0 20 20 1 [1] 1 with allocated_core := 1 },
   Ieee.fetch_task 4 0 20 20 1 [2] 1]

/-- The tasks of `unit_sum_set` with the utilisations as exact quotients. -/
def unit_sum_exact : List Tasks :=
  [{ fetch_task 0 0 20 20 1 [6] 1 with allocated_core := 1 },
   { fetch_task 1 0 20 20 1 [5] 1 with allocated_core := 1 },
   { fetch_task 2 0 20 20 1 [6] 1 with allocated_core := 1 },
   { fetch_task 3 0 20 20 1 [1] 1 with allocated_core := 1 },
   fetch_task 4 0 20 20 1 [2] 1]

/-- One level, period 50, utilisations stored in `double`: the tasks with wcet 28 and 17 on
core 1 and the task with wcet 5 not yet allocated. -/
def unit_sum_triple : List Tasks :=
  [{ Ieee.fetch_task 0 0 50 50 1 [28] 1 with allocated_core := 1 },
   { Ieee.fetch_task 1 0 50 50 1 [17] 1 with allocated_core := 1 },
   Ieee.fetch_task 2 0 50 50 1 [5] 1]

/-- The tasks of `unit_sum_triple` with the utilisations as exact quotients. -/
def unit_sum_triple_exact : List Tasks :=
  [{ fetch_task 0 0 50 50 1 [28] 1 with allocated_core := 1 },
   { fetch_task 1 0 50 50 1 [17] 1 with allocated_core := 1 },
   fetch_task 2 0 50 50 1 [5] 1]

/-- One level, period 40, utilisations stored in `double`: the tasks with wcet 13, 14, 2
and 7 on core 1 and the task with wcet 4 not yet allocated.  The five quotients sum to 1. -/
def unit_sum_forty : List Tasks :=
  [{ Ieee.fetch_task 0 0 40 40 1 [13] 1 with allocated_core := 1 },
   { Ieee.fetch_task 1 0 40 40 1 [14] 1 with allocated_core := 1 },
   { Ieee.fetch_task 2 0 40 40 1 [2] 1 with allocated_core := 1 },
   { Ieee.fetch_task 3 0 40 40 1 [7] 1 with allocated_core := 1 },
   Ieee.fetch_task 4 0 40 40 1 [4] 1]

/-- The tasks of `unit_sum_forty` with the utilisations as exact quotients. -/
def unit_sum_forty_exact : List Tasks :=
  [{ fetch_task 0 0 40 40 1 [13] 1 with allocated_core := 1 },
   { fetch_task 1 0 40 40 1 [14] 1 with allocated_core := 1 },
   { fetch_task 2 0 40 40 1 [2] 1 with allocated_core := 1 },
   { fetch_task 3 0 40 40 1 [7] 1 with allocated_core := 1 },
   fetch_task 4 0 40 40 1 [4] 1]

/-- Three levels, period 20, utilisations stored in `double`:
`T1 (criticality 3, wcet [1, 2, 12])` and `T2 (criticality 1, wcet [6])` on core 1 and
`T3 (criticality 1, wcet [10])` not yet allocated.  At threshold 2 the two bounds on the
shortening factor are both `1/2` in real arithmetic. -/
def equal_bounds_set : List Tasks :=
  [{ Ieee.fetch_task 0 0 20 20 3 [1, 2, 12] 3 with allocated_core := 1 },
   { Ieee.fetch_task 1 0 20 20 1 [6] 3 with allocated_core := 1 },
   Ieee.fetch_task 2 0 20 20 1 [10] 3]

/-- The tasks of `equal_bounds_set` with the utilisations as exact quotients. -/
def equal_bounds_exact : List Tasks :=
  [{ fetch_task 0 0 20 20 3 [1, 2, 12] 3 with allocated_core := 1 },
   { fetch_task 1 0 20 20 1 [6] 3 with allocated_core := 1 },
   fetch_task 2 0 20 20 1 [10] 3]

/-- Three levels, period 10, utilisations stored in `double`:
`T1 (criticality 3, wcet [1, 3, 8])` and `T2 (criticality 2, wcet [1, 1])` on core 1 and
`T3 (criticality 1, wcet [3])` not yet allocated. -/
def equal_bounds_triple : List Tasks :=
  [{ Ieee.fetch_task 0 0 10 10 3 [1, 3, 8] 3 with allocated_core := 1 },
   { Ieee.fetch_task 1 0 10 10 2 [1, 1] 3 with allocated_core := 1 },
   Ieee.fetch_task 2 0 10 10 1 [3] 3]

/-- The tasks of `equal_bounds_triple` with the utilisations as exact quotients. -/
def equal_bounds_triple_exact : List Tasks :=
  [{ fetch_task 0 0 10 10 3 [1, 3, 8] 3 with allocated_core := 1 },
   { fetch_task 1 0 10 10 2 [1, 1] 3 with allocated_core := 1 },
   fetch_task 2 0 10 10 1 [3] 3]

/-- Two levels, period 10, utilisations stored in `double`:
`T1 (criticality 2, wcet [1, 6])` and `T2 (criticality 1, wcet [5])` on core 1 and
`T3 (criticality 1, wcet [3])` not yet allocated.  At threshold 1 the two bounds on the
shortening factor are both `1/2` in real arithmetic. -/
def equal_bounds_pair : List Tasks :=
  [{ Ieee.fetch_task 0 0 10 10 2 [1, 6] 2 with allocated_core := 1 },
   { Ieee.fetch_task 1 0 10 10 1 [5] 2 with allocated_core := 1 },
   Ieee.fetch_task 2 0 10 10 1 [3] 2]

/-- The tasks of `equal_bounds_pair` with the utilisations as exact quotients. -/
def equal_bounds_pair_exact : List Tasks :=
  [{ fetch_task 0 0 10 10 2 [1, 6] 2 with allocated_core := 1 },
   { fetch_task 1 0 10 10 1 [5] 2 with allocated_core := 1 },
   fetch_task 2 0 10 10 1 [3] 2]

/-- The tasks of `single_task_set` with the utilisation stored in `double`. -/
def single_task_doubles : List Tasks :=
  [Ieee.fetch_task 0 0 10 10 1 [3] 1]

/-- The tasks of `feasible_vd_set` with the utilisations stored in `double`. -/
def feasible_vd_doubles : List Tasks :=
  [{ Ieee.fetch_task 0 0 10 10 2 [2, 6] 2 with allocated_core := 1 },
   Ieee.fetch_task 1 0 10 10 1 [5] 2]

/-- The tasks of `infeasible_vd_set` with the utilisations stored in `double`. -/
def infeasible_vd_doubles : List Tasks :=
  [{ Ieee.fetch_task 0 0 10 10 2 [3, 6] 2 with allocated_core := 1 },
   Ieee.fetch_task 1 0 10 10 1 [6] 2]

/-! ## Properties of the EDF-VD check -/

theorem set_deadlines_edf_length (tasks_arr : List Tasks) (core_no new_task_no : Int) :
    (set_deadlines_edf tasks_arr core_no new_task_no).length = tasks_arr.length := by
  simp [set_deadlines_edf]

/-- The pure-EDF path in exact arithmetic: when the exact own-level utilisation of the union
is at most 1 the exact check returns `max_criticality`, every task of the union gets
`virtual_deadline = deadline`, and nothing else in the array changes. -/
theorem edfvd_pure_edf_path (tasks_arr : List Tasks) (max_criticality core_no new_task_no : Int)
    (h : calculate_utilization_ull tasks_arr 1 max_criticality core_no new_task_no ≤ 1) :
    (edfvd_schedulability_check tasks_arr max_criticality core_no new_task_no).1 = max_criticality ∧
    (edfvd_schedulability_check tasks_arr max_criticality core_no new_task_no).2.length
      = tasks_arr.length ∧
    ∀ (i : Nat) (t : Tasks), tasks_arr.get? i = some t →
      (in_union t core_no new_task_no →
        (edfvd_schedulability_check tasks_arr max_criticality core_no new_task_no).2.get? i
          = some { t with virtual_deadline := Dbl.fin t.deadline }) ∧
      (¬ in_union t core_no new_task_no →
        (edfvd_schedulability_check tasks_arr max_criticality core_no new_task_no).2.get? i
          = some t) := by
  unfold edfvd_schedulability_check
  rw [if_pos h]
  refine ⟨rfl, set_deadlines_edf_length _ _ _, ?_⟩
  intro i t hi
  simp only [set_deadlines_edf, List.get?_eq_getElem?, List.getElem?_map] at hi ⊢
  rw [hi]
  constructor
  · intro hu
    simp [hu]
  · intro hu
    simp [hu]

/-- The pure-EDF path in exact arithmetic at the single-task set, with the task as candidate
for core 1. -/
theorem edfvd_pure_edf_path_witness :
    calculate_utilization_ull single_task_set 1 1 1 1 ≤ 1 ∧
    (edfvd_schedulability_check single_task_set 1 1 1).1 = 1 ∧
    (edfvd_schedulability_check single_task_set 1 1 1).2.get? 0
      = some { fetch_task 0 0 10 10 1 [3] 1 with virtual_deadline := Dbl.fin 10 } :=
  ⟨by decide!, (edfvd_pure_edf_path single_task_set 1 1 1 (by decide!)).1,
    ((edfvd_pure_edf_path single_task_set 1 1 1 (by decide!)).2.2 0 _ rfl).1 (by decide!)⟩

/-- Outcome of the threshold scan started at `n`: either no threshold in `1..n` passes and
the array is untouched, or the largest passing threshold is returned with the virtual
deadlines written for it. -/
theorem edfvd_scan_spec (tasks_arr : List Tasks) (max_criticality core_no new_task_no : Int)
    (n : Nat) :
    ((edfvd_scan tasks_arr max_criticality core_no new_task_no n).1 = -73 ∧
      (edfvd_scan tasks_arr max_criticality core_no new_task_no n).2 = tasks_arr ∧
      ∀ t : Int, 1 ≤ t → t ≤ n →
        edfvd_condition tasks_arr max_criticality core_no new_task_no t = false) ∨
    (∃ t : Int, 1 ≤ t ∧ t ≤ n ∧
      (edfvd_scan tasks_arr max_criticality core_no new_task_no n).1 = t ∧
      edfvd_condition tasks_arr max_criticality core_no new_task_no t = true ∧
      (∀ u : Int, t < u → u ≤ n →
        edfvd_condition tasks_arr max_criticality core_no new_task_no u = false) ∧
      (edfvd_scan tasks_arr max_criticality core_no new_task_no n).2 =
        set_deadlines_edfvd tasks_arr core_no new_task_no t
          (x_mid tasks_arr max_criticality core_no new_task_no t)) := by
  induction n with
  | zero =>
    left
    refine ⟨rfl, rfl, ?_⟩
    intro t h1 h2
    simp at h2
    omega
  | succ n ih =>
    by_cases hc : edfvd_condition tasks_arr max_criticality core_no new_task_no ((n : Int) + 1) = true
    · right
      have hc2 := hc
      simp only [edfvd_condition, Bool.and_eq_true, decide_eq_true_eq] at hc2
      refine ⟨(n : Int) + 1, by omega, by push_cast; omega, ?_, hc, ?_, ?_⟩
      · simp [edfvd_scan, hc2.1, hc2.2]
      · intro u h1 h2
        push_cast at h2
        omega
      · simp [edfvd_scan, hc2.1, hc2.2]
    · have hstep : edfvd_scan tasks_arr max_criticality core_no new_task_no (n + 1)
          = edfvd_scan tasks_arr max_criticality core_no new_task_no n := by
        simp only [edfvd_condition, Bool.and_eq_true, decide_eq_true_eq, not_and] at hc
        by_cases h1 : calculate_utilization_ull tasks_arr 1 ((n : Int) + 1) core_no new_task_no < 1
        · simp [edfvd_scan, h1, hc h1]
        · simp [edfvd_scan, h1]
      have hcf : edfvd_condition tasks_arr max_criticality core_no new_task_no ((n : Int) + 1)
          = false := by
        simpa using hc
      rw [hstep]
      rcases ih with ⟨h1, h2, h3⟩ | ⟨t, h1, h2, h3, h4, h5, h6⟩
      · left
        refine ⟨h1, h2, ?_⟩
        intro t ht1 ht2
        push_cast at ht2
        by_cases hEq : t = (n : Int) + 1
        · rw [hEq]; exact hcf
        · exact h3 t ht1 (by omega)
      · right
        refine ⟨t, h1, by push_cast; omega, h3, h4, ?_, h6⟩
        intro u hu1 hu2
        push_cast at hu2
        by_cases hEq : u = (n : Int) + 1
        · rw [hEq]; exact hcf
        · exact h5 u hu1 (by omega)

/-- The EDF-VD path in exact arithmetic (own-level utilisation of the union above 1): a returned
threshold `t` in `1..max_criticality-1` passes both parts of the EDF-VD condition, no larger
threshold of that range does, every task of the union with criticality above `t` gets
`virtual_deadline = x * deadline` for the midpoint `x` of the bounds, every other task of
the union gets `virtual_deadline = deadline`, and the tasks outside the union are unchanged. -/
theorem edfvd_vd_path (tasks_arr : List Tasks) (max_criticality core_no new_task_no : Int)
    (t : Int)
    (hU : 1 < calculate_utilization_ull tasks_arr 1 max_criticality core_no new_task_no)
    (hret : (edfvd_schedulability_check tasks_arr max_criticality core_no new_task_no).1 = t)
    (ht : 1 ≤ t ∧ t ≤ max_criticality - 1) :
    (calculate_utilization_ull tasks_arr 1 t core_no new_task_no < 1 ∧
      Dbl.le (x_lb tasks_arr max_criticality core_no new_task_no t)
        (x_ub tasks_arr max_criticality core_no new_task_no t) = true) ∧
    (∀ u : Int, t < u → u ≤ max_criticality - 1 →
      ¬ (calculate_utilization_ull tasks_arr 1 u core_no new_task_no < 1 ∧
        Dbl.le (x_lb tasks_arr max_criticality core_no new_task_no u)
          (x_ub tasks_arr max_criticality core_no new_task_no u) = true)) ∧
    ∀ (i : Nat) (tk : Tasks), tasks_arr.get? i = some tk →
      (in_union tk core_no new_task_no → t < tk.criticality →
        (edfvd_schedulability_check tasks_arr max_criticality core_no new_task_no).2.get? i
          = some { tk with virtual_deadline := (Dbl.mul
              (Dbl.div (Dbl.add (x_lb tasks_arr max_criticality core_no new_task_no t)
                (x_ub tasks_arr max_criticality core_no new_task_no t)) (Dbl.fin 2))
              (Dbl.fin tk.deadline)) }) ∧
      (in_union tk core_no new_task_no → tk.criticality ≤ t →
        (edfvd_schedulability_check tasks_arr max_criticality core_no new_task_no).2.get? i
          = some { tk with virtual_deadline := Dbl.fin tk.deadline }) ∧
      (¬ in_union tk core_no new_task_no →
        (edfvd_schedulability_check tasks_arr max_criticality core_no new_task_no).2.get? i
          = some tk) := by
  have hnot : ¬ calculate_utilization_ull tasks_arr 1 max_criticality core_no new_task_no ≤ 1 :=
    not_le.mpr hU
  unfold edfvd_schedulability_check at hret ⊢
  rw [if_neg hnot] at hret ⊢
  rcases edfvd_scan_spec tasks_arr max_criticality core_no new_task_no (max_criticality - 1).toNat
    with ⟨h1, _, _⟩ | ⟨s, hs1, hs2, hs3, hs4, hs5, hs6⟩
  · rw [h1] at hret
    omega
  · have hst : s = t := by rw [← hs3, hret]
    subst hst
    simp only [edfvd_condition, Bool.and_eq_true, decide_eq_true_eq] at hs4
    refine ⟨hs4, ?_, ?_⟩
    · intro u hu1 hu2 hcon
      have := hs5 u hu1 (by omega)
      simp [edfvd_condition, hcon.1, hcon.2] at this
    · intro i tk hi
      rw [hs6]
      simp only [set_deadlines_edfvd, x_mid, List.get?_eq_getElem?, List.getElem?_map] at hi ⊢
      rw [hi]
      refine ⟨?_, ?_, ?_⟩
      · intro hu hc
        have : ¬ tk.criticality ≤ s := by omega
        simp [hu, this]
      · intro hu hc
        simp [hu, hc]
      · intro hu
        simp [hu]

/-- The EDF-VD path in exact arithmetic at `feasible_vd_set`: `T2` is admitted next to `T1`
at threshold 1, with bounds `x_lb = 2/5` and `x_ub = 4/5`. -/
theorem edfvd_vd_path_witness :
    1 < calculate_utilization_ull feasible_vd_set 1 2 1 2 ∧
    (edfvd_schedulability_check feasible_vd_set 2 1 2).1 = 1 ∧
    x_lb feasible_vd_set 2 1 2 1 = Dbl.fin (2 / 5) ∧
    x_ub feasible_vd_set 2 1 2 1 = Dbl.fin (4 / 5) ∧
    (calculate_utilization_ull feasible_vd_set 1 1 1 2 < 1 ∧
      Dbl.le (x_lb feasible_vd_set 2 1 2 1) (x_ub feasible_vd_set 2 1 2 1) = true) :=
  ⟨by decide!, by decide!, by decide!, by decide!,
    (edfvd_vd_path feasible_vd_set 2 1 2 1 (by decide!) (by decide!) (by decide!)).1⟩

/-- The sentinel in exact arithmetic: for a level count other than the sentinel itself, the
exact check returns `-73` exactly when the own-level utilisation of the union exceeds 1 and
no threshold in `1..max_criticality-1` passes both parts of the EDF-VD condition. -/
theorem edfvd_infeasible_iff (tasks_arr : List Tasks) (max_criticality core_no new_task_no : Int)
    (hL : max_criticality ≠ -73) :
    (edfvd_schedulability_check tasks_arr max_criticality core_no new_task_no).1 = -73 ↔
      (1 < calculate_utilization_ull tasks_arr 1 max_criticality core_no new_task_no ∧
        ∀ t : Int, 1 ≤ t → t ≤ max_criticality - 1 →
          ¬ (calculate_utilization_ull tasks_arr 1 t core_no new_task_no < 1 ∧
            Dbl.le (x_lb tasks_arr max_criticality core_no new_task_no t)
              (x_ub tasks_arr max_criticality core_no new_task_no t) = true)) := by
  unfold edfvd_schedulability_check
  by_cases hU : calculate_utilization_ull tasks_arr 1 max_criticality core_no new_task_no ≤ 1
  · rw [if_pos hU]
    constructor
    · intro h
      exact absurd h hL
    · intro h
      exact absurd h.1 (not_lt.mpr hU)
  · rw [if_neg hU]
    rcases edfvd_scan_spec tasks_arr max_criticality core_no new_task_no
      (max_criticality - 1).toNat with ⟨h1, _, h3⟩ | ⟨s, hs1, hs2, hs3, hs4, _, _⟩
    · constructor
      · intro _
        refine ⟨not_le.mp hU, ?_⟩
        intro t ht1 ht2 hcon
        have := h3 t ht1 (by omega)
        simp [edfvd_condition, hcon.1, hcon.2] at this
      · intro _
        exact h1
    · constructor
      · intro h
        rw [hs3] at h
        omega
      · intro h
        simp only [edfvd_condition, Bool.and_eq_true, decide_eq_true_eq] at hs4
        exact absurd hs4 (h.2 s hs1 (by omega))

/-- The sentinel in exact arithmetic at `infeasible_vd_set`: `T2` cannot join `T1`. -/
theorem edfvd_infeasible_iff_witness :
    (2 : Int) ≠ -73 ∧ (edfvd_schedulability_check infeasible_vd_set 2 1 2).1 = -73 ∧
    1 < calculate_utilization_ull infeasible_vd_set 1 2 1 2 :=
  ⟨by decide, by decide!,
    ((edfvd_infeasible_iff infeasible_vd_set 2 1 2 (by decide)).mp (by decide!)).1⟩

/-! ## Feasibility probe and first-fit selection at concrete inputs -/

/-- C8 (evaluation at the failing input): for the single task
`(period 10, criticality 1, wcet [3])` with one level the probe leaves the loop at the task
itself and returns `0`, although the level-1 utilisation of the set is `3/10` with ceiling
`1`. -/
theorem get_min_cores_reqd_single_task :
    get_min_cores_reqd single_task_set 1 = 0 ∧
    ⌈(single_task_set.map fun t => t.util 0).sum⌉ = 1 := by
  decide!

/-- C10 (evaluation at the failing input): with two freshly initialised open cores and the
single-task set, core index 0 accepts the task on the plain EDF branch, yet the selection
goes on and returns index 1. -/
theorem get_first_fit_core_idx_two_empty_cores :
    (core_at (initialize_cores_offline 1) 0).remaining_capacity
      ≥ (task_at single_task_set 0).util_own ∧
    ¬ ((task_at single_task_set 0).util_own + (core_at (initialize_cores_offline 1) 0).utilization
      > 1) ∧
    (get_first_fit_core_idx (initialize_cores_offline 1) 2 single_task_set 0 1).1 = 1 := by
  decide!

/-! ## Super-hyperperiod -/

/-- On natural numbers `hcf` is the greatest common divisor. -/
theorem hcf_natCast (n m : Nat) : hcf (m : Int) (n : Int) = ((Nat.gcd m n : Nat) : Int) := by
  induction n using Nat.strong_induction_on generalizing m with
  | _ n ih =>
    rw [hcf]
    by_cases hn : n = 0
    · subst hn
      simp
    · have hn0 : ¬ ((n : Int) = 0) := by exact_mod_cast hn
      rw [if_neg hn0, Int.tmod_eq_emod (Int.ofNat_nonneg m) (Int.ofNat_nonneg n),
        ← Int.natCast_mod, ih (m % n) (Nat.mod_lt _ (Nat.pos_of_ne_zero hn)) n]
      rw [Nat.gcd_comm n (m % n), ← Nat.gcd_rec, Nat.gcd_comm]

/-- One step of the hyperperiod loop on natural numbers is the least common multiple. -/
theorem lcm_step_natCast (a b : Nat) :
    Int.tdiv ((a : Int) * (b : Int)) (hcf (a : Int) (b : Int)) = ((Nat.lcm a b : Nat) : Int) := by
  rw [hcf_natCast, Int.tdiv_eq_ediv (by positivity) (Int.ofNat_nonneg _), Nat.lcm]
  push_cast
  rfl

/-- Invariant of the hyperperiod loop started from a positive accumulator `s`. -/
theorem superhyperperiod_fold (task_arr : List Tasks) (hpos : ∀ t ∈ task_arr, 0 < t.period)
    (s : Int) (hs : 0 < s) :
    0 < task_arr.foldl
        (fun superhyperperiod t =>
          Int.tdiv (superhyperperiod * t.period) (hcf superhyperperiod t.period)) s ∧
    s ∣ task_arr.foldl
        (fun superhyperperiod t =>
          Int.tdiv (superhyperperiod * t.period) (hcf superhyperperiod t.period)) s ∧
    (∀ t ∈ task_arr, t.period ∣ task_arr.foldl
        (fun superhyperperiod t =>
          Int.tdiv (superhyperperiod * t.period) (hcf superhyperperiod t.period)) s) ∧
    (∀ m : Int, s ∣ m → (∀ t ∈ task_arr, t.period ∣ m) → task_arr.foldl
        (fun superhyperperiod t =>
          Int.tdiv (superhyperperiod * t.period) (hcf superhyperperiod t.period)) s ∣ m) := by
  induction task_arr generalizing s with
  | nil =>
    simp only [List.foldl_nil]
    exact ⟨hs, dvd_refl s, by simp, fun m hm _ => hm⟩
  | cons t rest ih =>
    simp only [List.foldl_cons]
    have hp : 0 < t.period := hpos t (List.mem_cons_self _ _)
    obtain ⟨a, ha⟩ := Int.eq_ofNat_of_zero_le (le_of_lt hs)
    obtain ⟨b, hb⟩ := Int.eq_ofNat_of_zero_le (le_of_lt hp)
    have ha0 : 0 < a := by omega
    have hb0 : 0 < b := by omega
    have hstep : Int.tdiv (s * t.period) (hcf s t.period) = ((Nat.lcm a b : Nat) : Int) := by
      rw [ha, hb]
      exact lcm_step_natCast a b
    rw [hstep]
    have hl : (0 : Int) < ((Nat.lcm a b : Nat) : Int) := by
      exact_mod_cast Nat.lcm_pos ha0 hb0
    obtain ⟨h1, h2, h3, h4⟩ := ih (fun u hu => hpos u (List.mem_cons_of_mem _ hu)) _ hl
    have hsl : s ∣ ((Nat.lcm a b : Nat) : Int) := by
      rw [ha]
      exact Int.natCast_dvd_natCast.mpr (Nat.dvd_lcm_left a b)
    have hpl : t.period ∣ ((Nat.lcm a b : Nat) : Int) := by
      rw [hb]
      exact Int.natCast_dvd_natCast.mpr (Nat.dvd_lcm_right a b)
    refine ⟨h1, dvd_trans hsl h2, ?_, ?_⟩
    · intro u hu
      rcases List.mem_cons.mp hu with hu | hu
      · rw [hu]
        exact dvd_trans hpl h2
      · exact h3 u hu
    · intro m hm hall
      apply h4 m
      · have h5 : t.period ∣ m := hall t (List.mem_cons_self _ _)
        rw [ha] at hm
        rw [hb] at h5
        have h6 : (a : Int) ∣ (m.natAbs : Int) := by
          rw [Int.dvd_natAbs]
          exact hm
        have h7 : (b : Int) ∣ (m.natAbs : Int) := by
          rw [Int.dvd_natAbs]
          exact h5
        have h8 : Nat.lcm a b ∣ m.natAbs :=
          Nat.lcm_dvd (Int.natCast_dvd_natCast.mp h6) (Int.natCast_dvd_natCast.mp h7)
        exact Int.dvd_natAbs.mp (Int.natCast_dvd_natCast.mpr h8)
      · intro u hu
        exact hall u (List.mem_cons_of_mem _ hu)

/-- C9: on non-negative integers `hcf` is the greatest common divisor, and for a task array
with positive periods `calculate_superhyperperiod` is their least common multiple: it is
positive, every period divides it, and it divides every common multiple of the periods. -/
theorem superhyperperiod_is_lcm :
    (∀ a b : Int, 0 ≤ a → 0 ≤ b → hcf a b = ((Int.gcd a b : Nat) : Int)) ∧
    ∀ task_arr : List Tasks, (∀ t ∈ task_arr, 0 < t.period) →
      0 < calculate_superhyperperiod task_arr ∧
      (∀ t ∈ task_arr, t.period ∣ calculate_superhyperperiod task_arr) ∧
      (∀ m : Int, (∀ t ∈ task_arr, t.period ∣ m) → calculate_superhyperperiod task_arr ∣ m) := by
  constructor
  · intro a b ha hb
    obtain ⟨m, hm⟩ := Int.eq_ofNat_of_zero_le ha
    obtain ⟨n, hn⟩ := Int.eq_ofNat_of_zero_le hb
    rw [hm, hn, hcf_natCast]
    rfl
  · intro task_arr hpos
    obtain ⟨h1, _, h3, h4⟩ := superhyperperiod_fold task_arr hpos 1 one_pos
    exact ⟨h1, h3, fun m hm => h4 m (one_dvd m) hm⟩

/-- Witness for C9: periods 10, 4 and 6 give the super-hyperperiod 60. -/
theorem superhyperperiod_is_lcm_witness :
    hcf 12 18 = 6 ∧
    calculate_superhyperperiod
      [fetch_task 0 0 10 10 1 [3] 1, fetch_task 1 0 4 4 1 [1] 1, fetch_task 2 0 6 6 1 [1] 1] = 60 ∧
    (4 : Int) ∣ calculate_superhyperperiod
      [fetch_task 0 0 10 10 1 [3] 1, fetch_task 1 0 4 4 1 [1] 1, fetch_task 2 0 6 6 1 [1] 1] :=
  ⟨by rw [superhyperperiod_is_lcm.1 12 18 (by decide) (by decide)]; decide, by decide!,
    (superhyperperiod_is_lcm.2 _ (by decide)).2.1 (fetch_task 1 0 4 4 1 [1] 1) (by decide!)⟩

/-! ## Quick sort -/

theorem swap_length (a : List Tasks) (i j : Int) : (swap a i j).length = a.length := by
  simp [swap]

theorem task_at_eq_getD (a : List Tasks) (i : Int) : task_at a i = a.getD i.toNat default := rfl

/-- Element of a swapped array at a position `k`. -/
theorem swap_getD (a : List Tasks) (i j : Int) (hi : i.toNat < a.length) (hj : j.toNat < a.length)
    (k : Nat) :
    (swap a i j).getD k default =
      if k = j.toNat then a.getD i.toNat default
      else if k = i.toNat then a.getD j.toNat default
      else a.getD k default := by
  simp only [swap, task_at, List.getD_eq_getElem?_getD, List.getElem?_set, List.length_set]
  by_cases h1 : j.toNat = k
  · subst h1
    simp [hj]
  · have h1b : ¬ k = j.toNat := fun h => h1 h.symm
    rw [if_neg h1, if_neg h1b]
    by_cases h2 : i.toNat = k
    · subst h2
      simp [hi]
    · have h2b : ¬ k = i.toNat := fun h => h2 h.symm
      rw [if_neg h2, if_neg h2b]

/-- Swapping two positions of an array permutes it. -/
theorem swap_perm (a : List Tasks) (i j : Int) (hi : i.toNat < a.length) (hj : j.toNat < a.length) :
    (swap a i j).Perm a := by
  rw [List.perm_iff_count]
  intro b
  have e1 : task_at a j = a[j.toNat] := by
    simp [task_at, List.getD_eq_getElem?_getD, List.getElem?_eq_getElem hj]
  have e2 : task_at a i = a[i.toNat] := by
    simp [task_at, List.getD_eq_getElem?_getD, List.getElem?_eq_getElem hi]
  have hj2 : j.toNat < (a.set i.toNat a[j.toNat]).length := by simpa using hj
  simp only [swap, e1, e2]
  rw [List.count_set _ _ _ _ hj2, List.count_set _ _ _ _ hi, List.getElem_set, ite_self]
  have hc : (a[i.toNat] == b) = true → 0 < List.count b a := by
    intro h
    have : a[i.toNat] = b := by simpa using h
    rw [← this]
    exact List.count_pos_iff.mpr (List.getElem_mem _)
  by_cases h1 : (a[i.toNat] == b) = true
  · have := hc h1
    by_cases h2 : (a[j.toNat] == b) = true
    · simp only [h1, h2, if_true]
      omega
    · simp only [h1, h2, if_true]
      simp
      omega
  · by_cases h2 : (a[j.toNat] == b) = true
    · simp [h1, h2]
    · simp [h1, h2]

theorem partition_loop_succ (pu : ℚ) (pc : Int) (n : Nat) (j i : Int) (a : List Tasks) :
    partition_loop pu pc (n + 1) j i a =
      if precedes pu pc (task_at a j) then
        partition_loop pu pc n (j + 1) (i + 1) (swap a (i + 1) j)
      else partition_loop pu pc n (j + 1) i a := by
  rw [partition_loop]
  by_cases h1 : (task_at a j).criticality > pc
  · have hp : precedes pu pc (task_at a j) := Or.inl h1
    rw [if_pos h1, if_pos hp]
  · rw [if_neg h1]
    by_cases h2 : (task_at a j).criticality = pc ∧
        (task_at a j).util ((task_at a j).criticality - 1) > pu
    · have hp : precedes pu pc (task_at a j) := Or.inr h2
      rw [if_pos h2, if_pos hp]
    · have hp : ¬ precedes pu pc (task_at a j) := by
        intro h
        rcases h with h | h
        · exact h1 h
        · exact h2 h
      rw [if_neg h2, if_neg hp]

/-- Invariant of the partition loop: positions `low..i` hold tasks that go left of the
pivot, positions `i+1..j-1` hold tasks that do not, and the rest of the array is untouched. -/
theorem partition_loop_spec (pu : ℚ) (pc : Int) (low : Int) (hlow : 0 ≤ low) :
    ∀ (n : Nat) (j i : Int) (a : List Tasks),
      low - 1 ≤ i → i < j → j + (n : Int) ≤ (a.length : Int) →
      (∀ k : Nat, low ≤ (k : Int) → (k : Int) ≤ i → precedes pu pc (a.getD k default)) →
      (∀ k : Nat, i < (k : Int) → (k : Int) < j → ¬ precedes pu pc (a.getD k default)) →
      (partition_loop pu pc n j i a).2.Perm a ∧
      low - 1 ≤ (partition_loop pu pc n j i a).1 ∧
      (partition_loop pu pc n j i a).1 < j + (n : Int) ∧
      (∀ k : Nat, low ≤ (k : Int) → (k : Int) ≤ (partition_loop pu pc n j i a).1 →
        precedes pu pc ((partition_loop pu pc n j i a).2.getD k default)) ∧
      (∀ k : Nat, (partition_loop pu pc n j i a).1 < (k : Int) → (k : Int) < j + (n : Int) →
        ¬ precedes pu pc ((partition_loop pu pc n j i a).2.getD k default)) ∧
      (∀ k : Nat, ((k : Int) < low ∨ j + (n : Int) ≤ (k : Int)) →
        (partition_loop pu pc n j i a).2.getD k default = a.getD k default) ∧
      (∀ Q : Tasks → Prop,
        (∀ k : Nat, low ≤ (k : Int) → (k : Int) < j + (n : Int) → Q (a.getD k default)) →
        ∀ k : Nat, low ≤ (k : Int) → (k : Int) < j + (n : Int) →
          Q ((partition_loop pu pc n j i a).2.getD k default)) := by
  intro n
  induction n with
  | zero =>
    intro j i a h1 h2 _ h4 h5
    have e : partition_loop pu pc 0 j i a = (i, a) := rfl
    rw [e]
    exact ⟨List.Perm.refl _, h1, by simpa using h2, h4, by simpa using h5, fun _ _ => rfl,
      fun _ hQ => by simpa using hQ⟩
  | succ n ih =>
    intro j i a h1 h2 h3 h4 h5
    rw [partition_loop_succ]
    push_cast at h3 ⊢
    by_cases hp : precedes pu pc (task_at a j)
    · rw [if_pos hp]
      have hi : (i + 1).toNat < a.length := by omega
      have hj : j.toNat < a.length := by omega
      have hg := swap_getD a (i + 1) j hi hj
      have hlen := swap_length a (i + 1) j
      have ih1 := ih (j + 1) (i + 1) (swap a (i + 1) j) (by omega) (by omega)
        (by rw [hlen]; omega)
        (by
          intro k hk1 hk2
          rw [hg k]
          by_cases e1 : k = j.toNat
          · rw [if_pos e1]
            have : (i + 1).toNat = j.toNat := by omega
            rw [this]
            exact hp
          · rw [if_neg e1]
            by_cases e2 : k = (i + 1).toNat
            · rw [if_pos e2]
              exact hp
            · rw [if_neg e2]
              exact h4 k hk1 (by omega))
        (by
          intro k hk1 hk2
          rw [hg k]
          by_cases e1 : k = j.toNat
          · rw [if_pos e1]
            exact h5 (i + 1).toNat (by omega) (by omega)
          · rw [if_neg e1]
            have e2 : ¬ k = (i + 1).toNat := by omega
            rw [if_neg e2]
            exact h5 k (by omega) (by omega))
      obtain ⟨r1, r2, r3, r4, r5, r6, r7⟩ := ih1
      refine ⟨r1.trans (swap_perm a (i + 1) j hi hj), by omega, by omega, r4, ?_, ?_, ?_⟩
      · intro k hk1 hk2
        exact r5 k hk1 (by omega)
      · intro k hk
        rw [r6 k (by omega), hg k]
        have e1 : ¬ k = j.toNat := by omega
        have e2 : ¬ k = (i + 1).toNat := by omega
        rw [if_neg e1, if_neg e2]
      · intro Q hQ k hk1 hk2
        apply r7 Q ?_ k hk1 (by omega)
        intro k hk1 hk2
        rw [hg k]
        by_cases e1 : k = j.toNat
        · rw [if_pos e1]
          exact hQ (i + 1).toNat (by omega) (by omega)
        · rw [if_neg e1]
          by_cases e2 : k = (i + 1).toNat
          · rw [if_pos e2]
            exact hQ j.toNat (by omega) (by omega)
          · rw [if_neg e2]
            exact hQ k hk1 (by omega)
    · rw [if_neg hp]
      have ih1 := ih (j + 1) i a h1 (by omega) (by omega) h4
        (by
          intro k hk1 hk2
          by_cases e1 : k = j.toNat
          · rw [e1]
            exact hp
          · exact h5 k hk1 (by omega))
      obtain ⟨r1, r2, r3, r4, r5, r6, r7⟩ := ih1
      refine ⟨r1, r2, by omega, r4, ?_, ?_, ?_⟩
      · intro k hk1 hk2
        exact r5 k hk1 (by omega)
      · intro k hk
        exact r6 k (by omega)
      · intro Q hQ k hk1 hk2
        exact r7 Q (fun k hk1 hk2 => hQ k hk1 (by omega)) k hk1 (by omega)

/-- Result of `partition_array` on a range `low..high` inside the array: the pivot lands at
the returned position, the tasks that go left of it are exactly the ones before that
position, and the array is permuted inside the range only. -/
theorem partition_array_spec (a : List Tasks) (low high : Int) (hlow : 0 ≤ low)
    (hlh : low ≤ high) (hhigh : high < (a.length : Int)) :
    (partition_array a low high).2.Perm a ∧
    low ≤ (partition_array a low high).1 ∧ (partition_array a low high).1 ≤ high ∧
    (partition_array a low high).2.getD (partition_array a low high).1.toNat default
      = a.getD high.toNat default ∧
    (∀ k : Nat, low ≤ (k : Int) → (k : Int) < (partition_array a low high).1 →
      precedes ((a.getD high.toNat default).util ((a.getD high.toNat default).criticality - 1))
        (a.getD high.toNat default).criticality
        ((partition_array a low high).2.getD k default)) ∧
    (∀ k : Nat, (partition_array a low high).1 < (k : Int) → (k : Int) ≤ high →
      ¬ precedes ((a.getD high.toNat default).util ((a.getD high.toNat default).criticality - 1))
        (a.getD high.toNat default).criticality
        ((partition_array a low high).2.getD k default)) ∧
    (∀ k : Nat, ((k : Int) < low ∨ high < (k : Int)) →
      (partition_array a low high).2.getD k default = a.getD k default) ∧
    (∀ Q : Tasks → Prop,
      (∀ k : Nat, low ≤ (k : Int) → (k : Int) ≤ high → Q (a.getD k default)) →
      ∀ k : Nat, low ≤ (k : Int) → (k : Int) ≤ high →
        Q ((partition_array a low high).2.getD k default)) := by
  have hn : low + (((high - low).toNat : Nat) : Int) = high := by omega
  obtain ⟨r1, r2, r3, r4, r5, r6, r7⟩ :=
    partition_loop_spec
      ((a.getD high.toNat default).util ((a.getD high.toNat default).criticality - 1))
      (a.getD high.toNat default).criticality low hlow (high - low).toNat low (low - 1) a
      (le_refl _) (by omega) (by omega)
      (fun k h1 h2 => absurd h2 (by omega)) (fun k h1 h2 => absurd h2 (by omega))
  rw [hn] at r3 r5 r6 r7
  simp only [partition_array, task_at_eq_getD]
  generalize partition_loop
    ((a.getD high.toNat default).util ((a.getD high.toNat default).criticality - 1))
    (a.getD high.toNat default).criticality (high - low).toNat low (low - 1) a = r
    at r1 r2 r3 r4 r5 r6 r7
  have hlen : r.2.length = a.length := r1.length_eq
  have hi : (r.1 + 1).toNat < r.2.length := by omega
  have hj : high.toNat < r.2.length := by omega
  have hg := swap_getD r.2 (r.1 + 1) high hi hj
  have hpiv : r.2.getD high.toNat default = a.getD high.toNat default :=
    r6 high.toNat (by omega)
  refine ⟨(swap_perm r.2 (r.1 + 1) high hi hj).trans r1, by omega, by omega, ?_, ?_, ?_, ?_, ?_⟩
  · rw [hg]
    by_cases e1 : (r.1 + 1).toNat = high.toNat
    · rw [if_pos e1, e1]
      exact hpiv
    · rw [if_neg e1, if_pos rfl]
      exact hpiv
  · intro k hk1 hk2
    rw [hg]
    have e1 : ¬ k = high.toNat := by omega
    have e2 : ¬ k = (r.1 + 1).toNat := by omega
    rw [if_neg e1, if_neg e2]
    exact r4 k hk1 (by omega)
  · intro k hk1 hk2
    rw [hg]
    by_cases e1 : k = high.toNat
    · rw [if_pos e1]
      exact r5 (r.1 + 1).toNat (by omega) (by omega)
    · rw [if_neg e1]
      have e2 : ¬ k = (r.1 + 1).toNat := by omega
      rw [if_neg e2]
      exact r5 k (by omega) (by omega)
  · intro k hk
    rw [hg]
    have e1 : ¬ k = high.toNat := by omega
    have e2 : ¬ k = (r.1 + 1).toNat := by omega
    rw [if_neg e1, if_neg e2]
    exact r6 k (by omega)
  · intro Q hQ k hk1 hk2
    have hQr : ∀ k : Nat, low ≤ (k : Int) → (k : Int) ≤ high → Q (r.2.getD k default) := by
      intro k hk1 hk2
      by_cases e : (k : Int) < high
      · exact r7 Q (fun k h1 h2 => hQ k h1 (by omega)) k hk1 e
      · rw [r6 k (by omega)]
        exact hQ k hk1 hk2
    rw [hg]
    by_cases e1 : k = high.toNat
    · rw [if_pos e1]
      exact hQr _ (by omega) (by omega)
    · rw [if_neg e1]
      by_cases e2 : k = (r.1 + 1).toNat
      · rw [if_pos e2]
        exact hQr _ (by omega) (by omega)
      · rw [if_neg e2]
        exact hQr k hk1 hk2

theorem in_order_of_precedes (t p : Tasks)
    (h : precedes (p.util (p.criticality - 1)) p.criticality t) : in_order t p := by
  rcases h with h | ⟨h1, h2⟩
  · exact Or.inl h
  · exact Or.inr ⟨h1, le_of_lt h2⟩

theorem in_order_of_not_precedes (t p : Tasks)
    (h : ¬ precedes (p.util (p.criticality - 1)) p.criticality t) : in_order p t := by
  unfold precedes at h
  unfold in_order Tasks.util_own
  by_cases h1 : p.criticality > t.criticality
  · exact Or.inl h1
  · right
    have h2 : ¬ t.criticality > p.criticality := fun hc => h (Or.inl hc)
    have h3 : t.criticality = p.criticality := by omega
    refine ⟨h3.symm, ?_⟩
    by_contra hc
    exact h (Or.inr ⟨h3, not_le.mp hc⟩)

theorem in_order_of_precedes_of_not (t s p : Tasks)
    (h1 : precedes (p.util (p.criticality - 1)) p.criticality t)
    (h2 : ¬ precedes (p.util (p.criticality - 1)) p.criticality s) : in_order t s := by
  have a1 := in_order_of_not_precedes s p h2
  unfold in_order Tasks.util_own at a1 ⊢
  unfold precedes at h1
  rcases h1 with h | ⟨h, h'⟩
  · rcases a1 with b | ⟨b, _⟩
    · exact Or.inl (by omega)
    · exact Or.inl (by omega)
  · rcases a1 with b | ⟨b, b'⟩
    · exact Or.inl (by omega)
    · exact Or.inr ⟨by omega, le_trans b' (le_of_lt h')⟩

/-- Correctness of the depth-bounded quick sort: with more fuel than elements in the range
it returns an array that is a permutation of the input, equal to it outside the range, and
in sorting order inside the range. -/
theorem quick_sort_fuel_spec :
    ∀ (fuel : Nat) (a : List Tasks) (low high : Int), 0 ≤ low → high < (a.length : Int) →
      (high - low + 1).toNat < fuel →
      ∃ b : List Tasks, quick_sort_fuel fuel a low high = some b ∧ b.Perm a ∧
        (∀ k : Nat, ((k : Int) < low ∨ high < (k : Int)) → b.getD k default = a.getD k default) ∧
        (∀ Q : Tasks → Prop,
          (∀ k : Nat, low ≤ (k : Int) → (k : Int) ≤ high → Q (a.getD k default)) →
          ∀ k : Nat, low ≤ (k : Int) → (k : Int) ≤ high → Q (b.getD k default)) ∧
        (∀ k1 k2 : Nat, low ≤ (k1 : Int) → k1 < k2 → (k2 : Int) ≤ high →
          in_order (b.getD k1 default) (b.getD k2 default)) := by
  intro fuel
  induction fuel with
  | zero =>
    intro a low high _ _ h
    exact absurd h (Nat.not_lt_zero _)
  | succ fuel ih =>
    intro a low high hlow hhigh hfuel
    rw [quick_sort_fuel]
    by_cases hlt : low < high
    · rw [if_pos hlt]
      obtain ⟨p1, p2, p3, p4, p5, p6, p7, p8⟩ :=
        partition_array_spec a low high hlow (le_of_lt hlt) hhigh
      generalize partition_array a low high = p at p1 p2 p3 p4 p5 p6 p7 p8
      have hlen : p.2.length = a.length := p1.length_eq
      obtain ⟨b1, hb1, l1, l2, l3, l4⟩ :=
        ih p.2 low (p.1 - 1) hlow (by omega) (by omega)
      have hlen1 : b1.length = a.length := by rw [l1.length_eq, hlen]
      obtain ⟨b2, hb2, r1, r2, r3, r4⟩ :=
        ih b1 (p.1 + 1) high (by omega) (by omega) (by omega)
      simp only [hb1]
      refine ⟨b2, hb2, r1.trans (l1.trans p1), ?_, ?_, ?_⟩
      · intro k hk
        rw [r2 k (by omega), l2 k (by omega), p7 k hk]
      · intro Q hQ k hk1 hk2
        have hQp := p8 Q hQ
        have hQ1 : ∀ k : Nat, low ≤ (k : Int) → (k : Int) ≤ high → Q (b1.getD k default) := by
          intro k hk1 hk2
          by_cases e : (k : Int) ≤ p.1 - 1
          · exact l3 Q (fun k h1 h2 => hQp k h1 (by omega)) k hk1 e
          · rw [l2 k (by omega)]
            exact hQp k hk1 hk2
        by_cases e : p.1 + 1 ≤ (k : Int)
        · exact r3 Q (fun k h1 h2 => hQ1 k (by omega) h2) k e hk2
        · rw [r2 k (by omega)]
          exact hQ1 k hk1 hk2
      · have hpiv : b2.getD p.1.toNat default = a.getD high.toNat default := by
          rw [r2 _ (by omega), l2 _ (by omega)]
          exact p4
        have hleft : ∀ k : Nat, low ≤ (k : Int) → (k : Int) < p.1 →
            precedes ((a.getD high.toNat default).util
              ((a.getD high.toNat default).criticality - 1))
              (a.getD high.toNat default).criticality (b2.getD k default) := by
          intro k hk1 hk2
          rw [r2 k (by omega)]
          exact l3 _ (fun k h1 h2 => p5 k h1 (by omega)) k hk1 (by omega)
        have hright : ∀ k : Nat, p.1 < (k : Int) → (k : Int) ≤ high →
            ¬ precedes ((a.getD high.toNat default).util
              ((a.getD high.toNat default).criticality - 1))
              (a.getD high.toNat default).criticality (b2.getD k default) := by
          intro k hk1 hk2
          refine r3 (fun t => ¬ precedes ((a.getD high.toNat default).util
              ((a.getD high.toNat default).criticality - 1))
              (a.getD high.toNat default).criticality t) ?_ k (by omega) hk2
          intro k h1 h2
          rw [l2 k (by omega)]
          exact p6 k (by omega) h2
        intro k1 k2 h1 h12 h2
        by_cases c1 : (k2 : Int) < p.1
        · rw [r2 k1 (by omega), r2 k2 (by omega)]
          exact l4 k1 k2 h1 h12 (by omega)
        · by_cases c2 : p.1 < (k1 : Int)
          · exact r4 k1 k2 (by omega) h12 h2
          · by_cases c3 : (k2 : Int) = p.1
            · have e : k2 = p.1.toNat := by omega
              rw [e, hpiv]
              exact in_order_of_precedes _ _ (hleft k1 h1 (by omega))
            · by_cases c4 : (k1 : Int) = p.1
              · have e : k1 = p.1.toNat := by omega
                rw [e, hpiv]
                exact in_order_of_not_precedes _ _ (hright k2 (by omega) h2)
              · exact in_order_of_precedes_of_not _ _ _ (hleft k1 h1 (by omega))
                  (hright k2 (by omega) h2)
    · rw [if_neg hlt]
      refine ⟨a, rfl, List.Perm.refl _, fun _ _ => rfl, fun _ hQ => hQ, ?_⟩
      intro k1 k2 h1 h12 h2
      omega

/-- Result of sorting a whole array `quick_sort (tasks_arr, 0, num_tasks - 1)`. -/
theorem quick_sort_whole (a : List Tasks) :
    ∃ b : List Tasks, quick_sort a 0 ((a.length : Int) - 1) = some b ∧ b.Perm a ∧
      b.Pairwise in_order := by
  obtain ⟨b, hb, h1, _, _, h4⟩ :=
    quick_sort_fuel_spec (((a.length : Int) - 1 - 0 + 1).toNat + 1) a 0 ((a.length : Int) - 1)
      (le_refl _) (by omega) (Nat.lt_succ_self _)
  refine ⟨b, hb, h1, ?_⟩
  rw [List.pairwise_iff_getElem]
  intro i j hi hj hij
  have hlen : b.length = a.length := h1.length_eq
  have := h4 i j (by omega) hij (by omega)
  rw [List.getD_eq_getElem _ _ hi, List.getD_eq_getElem _ _ hj] at this
  exact this

/-- C6: on a range `low..high` that lies inside the array, `quick_sort` returns an array
that is a permutation of its input, unchanged outside the range, and ordered inside the
range by criticality descending and, among tasks of equal criticality, by own-level
utilisation descending. -/
theorem quick_sort_sorted_perm (tasks_arr : List Tasks) (low high : Int) (hlow : 0 ≤ low)
    (hhigh : high < (tasks_arr.length : Int)) :
    ∃ sorted : List Tasks, quick_sort tasks_arr low high = some sorted ∧
      sorted.Perm tasks_arr ∧
      (∀ k : Nat, ((k : Int) < low ∨ high < (k : Int)) →
        sorted.getD k default = tasks_arr.getD k default) ∧
      (∀ k1 k2 : Nat, low ≤ (k1 : Int) → k1 < k2 → (k2 : Int) ≤ high →
        (sorted.getD k1 default).criticality > (sorted.getD k2 default).criticality ∨
        ((sorted.getD k1 default).criticality = (sorted.getD k2 default).criticality ∧
          (sorted.getD k1 default).util_own ≥ (sorted.getD k2 default).util_own)) := by
  obtain ⟨b, hb, h1, h2, _, h4⟩ :=
    quick_sort_fuel_spec ((high - low + 1).toNat + 1) tasks_arr low high hlow hhigh
      (Nat.lt_succ_self _)
  exact ⟨b, hb, h1, h2, h4⟩

/-- Witness for C6: five tasks over three levels are sorted into the order 5, 4, 2, 3, 1. -/
theorem quick_sort_sorted_perm_witness :
    (0 : Int) ≤ 0 ∧ (4 : Int) < (five_task_set.length : Int) ∧
    (quick_sort five_task_set 0 4).map (List.map Tasks.task_no) = some [5, 4, 2, 3, 1] ∧
    (quick_sort five_task_set 0 4).isSome = true :=
  ⟨by decide, by decide, by decide!, by
    obtain ⟨b, hb, _⟩ := quick_sort_sorted_perm five_task_set 0 4 (by decide) (by decide)
    rw [hb]
    rfl⟩

/-- Counterexample to C7 as stated: three tasks with the same criticality and utilisation
come out of a first sort in the order 3, 1, 2 and out of a second sort in the order
2, 3, 1. -/
theorem quick_sort_twice_differs :
    quick_sort tie_task_set 0 2 = some tie_sorted_once ∧
    quick_sort tie_sorted_once 0 2 = some tie_sorted_twice ∧
    tie_sorted_once.map Tasks.task_no = [3, 1, 2] ∧
    tie_sorted_twice.map Tasks.task_no = [2, 3, 1] := by
  decide!

instance key_order_antisymm : IsAntisymm (Int × ℚ) key_order :=
  ⟨by
    intro x y h1 h2
    unfold key_order at h1 h2
    rcases h1 with a | ⟨a, a'⟩
    · rcases h2 with b | ⟨b, _⟩
      · omega
      · omega
    · rcases h2 with b | ⟨_, b'⟩
      · omega
      · exact Prod.ext a (le_antisymm b' a')⟩

/-- Two lists with the same image under a map that is injective on their elements are
equal. -/
theorem eq_of_map_eq_of_inj_on {α β : Type} (f : α → β) :
    ∀ (l1 l2 : List α), l1.map f = l2.map f →
      (∀ x ∈ l1, ∀ y ∈ l2, f x = f y → x = y) → l1 = l2 := by
  intro l1
  induction l1 with
  | nil =>
    intro l2 h _
    cases l2 with
    | nil => rfl
    | cons y ys => simp at h
  | cons x xs ih =>
    intro l2 h hinj
    cases l2 with
    | nil => simp at h
    | cons y ys =>
      simp only [List.map_cons, List.cons.injEq] at h
      have hxy : x = y := hinj x (List.mem_cons_self _ _) y (List.mem_cons_self _ _) h.1
      have hrest : xs = ys :=
        ih ys h.2 (fun a ha b hb => hinj a (List.mem_cons_of_mem _ ha) b (List.mem_cons_of_mem _ hb))
      rw [hxy, hrest]

/-- C7 (amended): sorting the whole array and sorting the result again both succeed; the
second sort leaves the criticality and the own-level utilisation at every position
unchanged, and leaves the whole sequence of tasks unchanged when no two tasks of the
array share both criticality and own-level utilisation. -/
theorem quick_sort_twice_keys (tasks_arr : List Tasks) :
    ∃ once twice : List Tasks,
      quick_sort tasks_arr 0 ((tasks_arr.length : Int) - 1) = some once ∧
      quick_sort once 0 ((once.length : Int) - 1) = some twice ∧
      twice.map sort_key = once.map sort_key ∧
      ((tasks_arr.map sort_key).Nodup → twice = once) := by
  obtain ⟨b, hb, pb, sb⟩ := quick_sort_whole tasks_arr
  obtain ⟨c, hc, pc, sc⟩ := quick_sort_whole b
  have hkeys : c.map sort_key = b.map sort_key := by
    apply List.eq_of_perm_of_sorted (r := key_order) (pc.map sort_key)
    · exact (List.pairwise_map).mpr sc
    · exact (List.pairwise_map).mpr sb
  refine ⟨b, c, hb, hc, hkeys, ?_⟩
  intro hnd
  apply eq_of_map_eq_of_inj_on sort_key c b hkeys
  intro x hx y hy hxy
  have hxa : x ∈ tasks_arr := pb.subset (pc.subset hx)
  have hya : y ∈ tasks_arr := pb.subset hy
  exact List.inj_on_of_nodup_map hnd hxa hya hxy

/-- Witness for C7 (amended): the five tasks have pairwise distinct keys and a second sort
returns the same array. -/
theorem quick_sort_twice_keys_witness :
    (five_task_set.map sort_key).Nodup ∧
    (quick_sort five_task_set 0 4).bind (fun once => quick_sort once 0 4)
      = quick_sort five_task_set 0 4 := by
  refine ⟨by decide!, ?_⟩
  obtain ⟨b, c, hb, hc, _, h⟩ := quick_sort_twice_keys five_task_set
  have hlen : ((five_task_set.length : Int) - 1) = 4 := by decide
  have hcb : c = b := h (by decide!)
  rw [hlen] at hb
  have hlenb : ((b.length : Int) - 1) = 4 := by
    have e : quick_sort five_task_set 0 4 = some five_sorted := by decide!
    rw [e] at hb
    cases hb
    decide
  rw [hlenb, hcb] at hc
  rw [hb]
  exact hc

/-! ## Conditional sums over the task array -/

theorem csum_nil (p : Tasks → Prop) [DecidablePred p] (f : Tasks → ℚ) : csum [] p f = 0 := rfl

theorem csum_cons (t : Tasks) (l : List Tasks) (p : Tasks → Prop) [DecidablePred p]
    (f : Tasks → ℚ) : csum (t :: l) p f = (if p t then f t else 0) + csum l p f := by
  simp [csum]

theorem csum_append (l1 l2 : List Tasks) (p : Tasks → Prop) [DecidablePred p] (f : Tasks → ℚ) :
    csum (l1 ++ l2) p f = csum l1 p f + csum l2 p f := by
  simp [csum]

theorem csum_congr (l : List Tasks) (p q : Tasks → Prop) [DecidablePred p] [DecidablePred q]
    (f g : Tasks → ℚ) (hp : ∀ t ∈ l, (p t ↔ q t)) (hf : ∀ t ∈ l, p t → f t = g t) :
    csum l p f = csum l q g := by
  induction l with
  | nil => rfl
  | cons t l ih =>
    rw [csum_cons, csum_cons,
      ih (fun u hu => hp u (List.mem_cons_of_mem _ hu)) (fun u hu => hf u (List.mem_cons_of_mem _ hu))]
    have h1 := hp t (List.mem_cons_self _ _)
    have h2 := hf t (List.mem_cons_self _ _)
    by_cases c : p t
    · rw [if_pos c, if_pos (h1.mp c), h2 c]
    · rw [if_neg c, if_neg (fun h => c (h1.mpr h))]

theorem csum_le (l : List Tasks) (p q : Tasks → Prop) [DecidablePred p] [DecidablePred q]
    (f g : Tasks → ℚ) (hpq : ∀ t ∈ l, p t → q t) (hfg : ∀ t ∈ l, p t → f t ≤ g t)
    (hg : ∀ t ∈ l, q t → 0 ≤ g t) : csum l p f ≤ csum l q g := by
  induction l with
  | nil => exact le_refl _
  | cons t l ih =>
    rw [csum_cons, csum_cons]
    have ih1 := ih (fun u hu => hpq u (List.mem_cons_of_mem _ hu))
      (fun u hu => hfg u (List.mem_cons_of_mem _ hu)) (fun u hu => hg u (List.mem_cons_of_mem _ hu))
    have h1 := hpq t (List.mem_cons_self _ _)
    have h2 := hfg t (List.mem_cons_self _ _)
    have h3 := hg t (List.mem_cons_self _ _)
    by_cases c : p t
    · rw [if_pos c, if_pos (h1 c)]
      exact add_le_add (h2 c) ih1
    · rw [if_neg c]
      by_cases d : q t
      · rw [if_pos d]
        exact add_le_add (h3 d) ih1
      · rw [if_neg d]
        exact add_le_add (le_refl _) ih1

theorem csum_nonneg (l : List Tasks) (p : Tasks → Prop) [DecidablePred p] (f : Tasks → ℚ)
    (hf : ∀ t ∈ l, p t → 0 ≤ f t) : 0 ≤ csum l p f := by
  have h := csum_le l (fun _ => False) p (fun _ => 0) f (fun _ _ h => h.elim)
    (fun _ _ h => h.elim) hf
  have h0 : csum l (fun _ => False) (fun _ => 0) = 0 := by
    induction l with
    | nil => rfl
    | cons t l ih =>
      rw [csum_cons, ih (fun u hu => hf u (List.mem_cons_of_mem _ hu))
        (csum_le l (fun _ => False) p (fun _ => 0) f (fun _ _ h => h.elim)
          (fun _ _ h => h.elim) (fun u hu => hf u (List.mem_cons_of_mem _ hu)))]
      simp
  rw [h0] at h
  exact h

theorem csum_false (l : List Tasks) (p : Tasks → Prop) [DecidablePred p] (f : Tasks → ℚ)
    (hp : ∀ t ∈ l, ¬ p t) : csum l p f = 0 := by
  induction l with
  | nil => rfl
  | cons t l ih =>
    rw [csum_cons, ih (fun u hu => hp u (List.mem_cons_of_mem _ hu)),
      if_neg (hp t (List.mem_cons_self _ _))]
    simp

/-- Splitting a sum along a disjoint case distinction. -/
theorem csum_split (l : List Tasks) (p q r : Tasks → Prop) [DecidablePred p] [DecidablePred q]
    [DecidablePred r] (f : Tasks → ℚ)
    (h : ∀ t ∈ l, (p t ↔ (q t ∨ r t)) ∧ ¬ (q t ∧ r t)) :
    csum l p f = csum l q f + csum l r f := by
  induction l with
  | nil => simp [csum_nil]
  | cons t l ih =>
    rw [csum_cons, csum_cons, csum_cons, ih (fun u hu => h u (List.mem_cons_of_mem _ hu))]
    obtain ⟨h1, h2⟩ := h t (List.mem_cons_self _ _)
    by_cases cq : q t
    · have cr : ¬ r t := fun hr => h2 ⟨cq, hr⟩
      rw [if_pos cq, if_neg cr, if_pos (h1.mpr (Or.inl cq))]
      ring
    · by_cases cr : r t
      · rw [if_neg cq, if_pos cr, if_pos (h1.mpr (Or.inr cr))]
        ring
      · have cp : ¬ p t := fun hp => (h1.mp hp).elim cq cr
        rw [if_neg cq, if_neg cr, if_neg cp]
        ring

/-- A sum restricted to the tasks that carry the task number of a given member: with
pairwise distinct task numbers only that member contributes. -/
theorem csum_task_no (l : List Tasks) (hnd : (l.map Tasks.task_no).Nodup) (τ : Tasks)
    (hτ : τ ∈ l) (q : Tasks → Prop) [DecidablePred q] (f : Tasks → ℚ) :
    csum l (fun t => t.task_no = τ.task_no ∧ q t) f = if q τ then f τ else 0 := by
  induction l with
  | nil => exact absurd hτ (List.not_mem_nil _)
  | cons x xs ih =>
    rw [csum_cons]
    simp only [List.map_cons, List.nodup_cons] at hnd
    rcases List.mem_cons.mp hτ with h | h
    · subst h
      have h0 : csum xs (fun t => t.task_no = τ.task_no ∧ q t) f = 0 := by
        apply csum_false
        intro t ht hc
        exact hnd.1 (hc.1 ▸ List.mem_map_of_mem _ ht)
      rw [h0]
      by_cases c : q τ
      · simp [c]
      · simp [c]
    · have hne : ¬ x.task_no = τ.task_no := by
        intro hc
        exact hnd.1 (hc ▸ List.mem_map_of_mem _ h)
      rw [ih hnd.2 h]
      simp [hne]

theorem csum_map (l : List Tasks) (g : Tasks → Tasks) (p : Tasks → Prop) [DecidablePred p]
    (f : Tasks → ℚ) : csum (l.map g) p f = csum l (fun t => p (g t)) (fun t => f (g t)) := by
  simp only [csum, List.map_map]
  rfl

/-- Effect of overwriting one array element on a sum. -/
theorem csum_set (l : List Tasks) (i : Nat) (hi : i < l.length) (τ : Tasks)
    (p : Tasks → Prop) [DecidablePred p] (f : Tasks → ℚ) :
    csum (l.set i τ) p f =
      csum l p f - (if p (l.getD i default) then f (l.getD i default) else 0)
        + (if p τ then f τ else 0) := by
  induction l generalizing i with
  | nil => simp at hi
  | cons x xs ih =>
    cases i with
    | zero =>
      simp only [List.set_cons_zero, csum_cons, List.getD_cons_zero]
      ring
    | succ i =>
      simp only [List.set_cons_succ, csum_cons, List.getD_cons_succ]
      rw [ih i (by simpa using hi)]
      ring

theorem foldl_cond_add (l : List Tasks) (p : Tasks → Prop) [DecidablePred p] (f : Tasks → ℚ)
    (acc : ℚ) :
    l.foldl (fun s t => if p t then s + f t else s) acc = acc + csum l p f := by
  induction l generalizing acc with
  | nil => simp [csum_nil]
  | cons x xs ih =>
    rw [List.foldl_cons, ih, csum_cons]
    by_cases c : p x
    · simp only [if_pos c]
      ring
    · simp only [if_neg c]
      ring

theorem ull_eq_csum (l : List Tasks) (lo hi c n : Int) :
    calculate_utilization_ull l lo hi c n =
      csum l (fun t => in_union t c n ∧ t.criticality ≥ lo ∧ t.criticality ≤ hi)
        (fun t => t.util (t.criticality - 1)) := by
  have h := foldl_cond_add l
    (fun t => in_union t c n ∧ t.criticality ≥ lo ∧ t.criticality ≤ hi)
    (fun t => t.util (t.criticality - 1)) 0
  rw [zero_add] at h
  rw [← h]
  unfold calculate_utilization_ull
  congr 1
  funext s t
  by_cases c1 : in_union t c n
  · by_cases c2 : t.criticality ≥ lo ∧ t.criticality ≤ hi
    · simp [c1, c2]
    · simp [c1, c2]
  · simp [c1]

theorem ulk_eq_csum (l : List Tasks) (lo hi c n : Int) :
    calculate_utilization_ulk l lo hi c n =
      csum l (fun t => in_union t c n ∧ t.criticality ≥ lo ∧ t.criticality ≤ hi)
        (fun t => t.util (lo - 1 - 1)) := by
  have h := foldl_cond_add l
    (fun t => in_union t c n ∧ t.criticality ≥ lo ∧ t.criticality ≤ hi)
    (fun t => t.util (lo - 1 - 1)) 0
  rw [zero_add] at h
  rw [← h]
  unfold calculate_utilization_ulk
  show List.foldl _ 0 l = List.foldl _ 0 l
  congr 1
  funext s t
  by_cases c1 : in_union t c n
  · by_cases c2 : t.criticality ≥ lo ∧ t.criticality ≤ hi
    · simp [c1, c2]
    · simp [c1, c2]
  · simp [c1]

/-! ## Arrays that differ in virtual deadlines only -/

theorem vd_equiv_refl (l : List Tasks) : vd_equiv l l := rfl

theorem vd_equiv_trans {l1 l2 l3 : List Tasks} (h1 : vd_equiv l1 l2) (h2 : vd_equiv l2 l3) :
    vd_equiv l1 l3 := by
  unfold vd_equiv at *
  rw [h2, h1]

theorem vd_equiv_length {l l' : List Tasks} (h : vd_equiv l l') : l'.length = l.length := by
  have := congrArg List.length h
  simpa using this

theorem erase_vd_default : erase_vd (default : Tasks) = default := rfl

theorem erase_vd_idem (t : Tasks) : erase_vd (erase_vd t) = erase_vd t := rfl

theorem vd_equiv_getD {l l' : List Tasks} (h : vd_equiv l l') (i : Nat) :
    erase_vd (l'.getD i default) = erase_vd (l.getD i default) := by
  have h1 : (l'.map erase_vd).getD i default = (l.map erase_vd).getD i default := by rw [h]
  simp only [List.getD_eq_getElem?_getD, List.getElem?_map] at h1 ⊢
  cases h2 : l'[i]? <;> cases h3 : l[i]? <;> simp_all [erase_vd_default, erase_vd_idem]

theorem vd_equiv_task_at {l l' : List Tasks} (h : vd_equiv l l') (i : Int) :
    erase_vd (task_at l' i) = erase_vd (task_at l i) :=
  vd_equiv_getD h i.toNat

theorem erase_vd_eq_iff (a b : Tasks) :
    erase_vd a = erase_vd b ↔
      (a.task_no = b.task_no ∧ a.phase = b.phase ∧ a.period = b.period ∧ a.wcet = b.wcet ∧
        a.criticality = b.criticality ∧ a.deadline = b.deadline ∧
        a.utilization = b.utilization ∧ a.allocated_core = b.allocated_core) := by
  cases a
  cases b
  simp [erase_vd]

theorem vd_equiv_mem {l l' : List Tasks} (h : vd_equiv l l') (t' : Tasks) (ht : t' ∈ l') :
    ∃ t ∈ l, erase_vd t' = erase_vd t := by
  have h1 : erase_vd t' ∈ l'.map erase_vd := List.mem_map_of_mem _ ht
  rw [h] at h1
  obtain ⟨t, ht1, ht2⟩ := List.mem_map.mp h1
  exact ⟨t, ht1, ht2.symm⟩

theorem vd_equiv_symm {l l' : List Tasks} (h : vd_equiv l l') : vd_equiv l' l := h.symm

/-- A sum that does not read virtual deadlines is the same on arrays that differ in
virtual deadlines only. -/
theorem csum_vd_equiv {l l' : List Tasks} (h : vd_equiv l l') (p : Tasks → Prop)
    [DecidablePred p] (f : Tasks → ℚ) (hp : ∀ t, p (erase_vd t) ↔ p t)
    (hf : ∀ t, f (erase_vd t) = f t) : csum l' p f = csum l p f := by
  have e : ∀ m : List Tasks, csum (m.map erase_vd) p f = csum m p f := by
    intro m
    rw [csum_map]
    exact csum_congr m _ _ _ _ (fun t _ => hp t) (fun t _ _ => hf t)
  rw [← e l', ← e l, h]

theorem ull_vd_equiv {l l' : List Tasks} (h : vd_equiv l l') (lo hi c n : Int) :
    calculate_utilization_ull l' lo hi c n = calculate_utilization_ull l lo hi c n := by
  rw [ull_eq_csum, ull_eq_csum]
  exact csum_vd_equiv h _ _ (fun _ => Iff.rfl) (fun _ => rfl)

theorem ulk_vd_equiv {l l' : List Tasks} (h : vd_equiv l l') (lo hi c n : Int) :
    calculate_utilization_ulk l' lo hi c n = calculate_utilization_ulk l lo hi c n := by
  rw [ulk_eq_csum, ulk_eq_csum]
  exact csum_vd_equiv h _ _ (fun _ => Iff.rfl) (fun _ => rfl)

theorem x_lb_vd_equiv {l l' : List Tasks} (h : vd_equiv l l') (L c n t : Int) :
    x_lb l' L c n t = x_lb l L c n t := by
  unfold x_lb
  rw [ull_vd_equiv h, ulk_vd_equiv h]

theorem x_ub_vd_equiv {l l' : List Tasks} (h : vd_equiv l l') (L c n t : Int) :
    x_ub l' L c n t = x_ub l L c n t := by
  unfold x_ub
  rw [ull_vd_equiv h, ull_vd_equiv h]

theorem x_mid_vd_equiv {l l' : List Tasks} (h : vd_equiv l l') (L c n t : Int) :
    x_mid l' L c n t = x_mid l L c n t := by
  unfold x_mid
  rw [x_lb_vd_equiv h, x_ub_vd_equiv h]

theorem edfvd_condition_vd_equiv {l l' : List Tasks} (h : vd_equiv l l') (L c n t : Int) :
    edfvd_condition l' L c n t = edfvd_condition l L c n t := by
  unfold edfvd_condition
  rw [ull_vd_equiv h, x_lb_vd_equiv h, x_ub_vd_equiv h]

theorem set_deadlines_edf_vd_equiv (l : List Tasks) (c n : Int) :
    vd_equiv l (set_deadlines_edf l c n) := by
  unfold vd_equiv set_deadlines_edf
  rw [List.map_map]
  apply List.map_congr_left
  intro t _
  simp only [Function.comp]
  by_cases hu : in_union t c n
  · rw [if_pos hu]
    rfl
  · rw [if_neg hu]

theorem set_deadlines_edfvd_vd_equiv (l : List Tasks) (c n thr : Int) (x : Dbl) :
    vd_equiv l (set_deadlines_edfvd l c n thr x) := by
  unfold vd_equiv set_deadlines_edfvd
  rw [List.map_map]
  apply List.map_congr_left
  intro t _
  simp only [Function.comp]
  by_cases hu : in_union t c n
  · rw [if_pos hu]
    by_cases hc : t.criticality ≤ thr
    · rw [if_pos hc]
      rfl
    · rw [if_neg hc]
      rfl
  · rw [if_neg hu]

/-- Outcome of the check when the own-level utilisation of the union exceeds 1: either the
sentinel with the array untouched, or a passing threshold in `1..max_criticality-1` with
the deadlines written for it. -/
theorem edfvd_check_cases (l : List Tasks) (L c n : Int)
    (hU : 1 < calculate_utilization_ull l 1 L c n) :
    ((edfvd_schedulability_check l L c n).1 = -73 ∧ (edfvd_schedulability_check l L c n).2 = l) ∨
    (1 ≤ (edfvd_schedulability_check l L c n).1 ∧
      (edfvd_schedulability_check l L c n).1 ≤ L - 1 ∧
      edfvd_condition l L c n (edfvd_schedulability_check l L c n).1 = true ∧
      (edfvd_schedulability_check l L c n).2 =
        set_deadlines_edfvd l c n (edfvd_schedulability_check l L c n).1
          (x_mid l L c n (edfvd_schedulability_check l L c n).1)) := by
  unfold edfvd_schedulability_check
  rw [if_neg (not_le.mpr hU)]
  rcases edfvd_scan_spec l L c n (L - 1).toNat with ⟨h1, h2, _⟩ | ⟨t, h1, h2, h3, h4, _, h6⟩
  · exact Or.inl ⟨h1, h2⟩
  · right
    rw [h3]
    exact ⟨h1, by omega, h4, h6⟩

theorem edfvd_check_vd_equiv (l : List Tasks) (L c n : Int) :
    vd_equiv l (edfvd_schedulability_check l L c n).2 := by
  unfold edfvd_schedulability_check
  by_cases hU : calculate_utilization_ull l 1 L c n ≤ 1
  · rw [if_pos hU]
    exact set_deadlines_edf_vd_equiv l c n
  · rw [if_neg hU]
    rcases edfvd_scan_spec l L c n (L - 1).toNat with ⟨_, h2, _⟩ | ⟨t, _, _, _, _, _, h6⟩
    · rw [h2]
      exact vd_equiv_refl l
    · rw [h6]
      exact set_deadlines_edfvd_vd_equiv l c n t _

/-! ## One probe of a core by the selection loops -/

theorem WF_vd_equiv {L : Int} {l l' : List Tasks} (h : vd_equiv l l') (hWF : WF L l) :
    WF L l' := by
  obtain ⟨h1, h2⟩ := hWF
  constructor
  · have e : l'.map Tasks.task_no = l.map Tasks.task_no := by
      have : (l'.map erase_vd).map Tasks.task_no = (l.map erase_vd).map Tasks.task_no := by rw [h]
      simpa [List.map_map, Function.comp, erase_vd] using this
    rw [e]
    exact h1
  · intro t' ht'
    obtain ⟨t, ht, e⟩ := vd_equiv_mem h t' ht'
    rw [erase_vd_eq_iff] at e
    have := h2 t ht
    omega

/-- With pairwise distinct task numbers, two array members with the same task number are
the same task. -/
theorem eq_of_task_no_eq {l : List Tasks} (hnd : (l.map Tasks.task_no).Nodup) {a b : Tasks}
    (ha : a ∈ l) (hb : b ∈ l) (h : a.task_no = b.task_no) : a = b :=
  List.inj_on_of_nodup_map hnd ha hb h

theorem getD_mem {l : List Tasks} {i : Nat} (hi : i < l.length) : l.getD i default ∈ l := by
  rw [List.getD_eq_getElem _ _ hi]
  exact List.getElem_mem _

theorem cores_getD_set (core : List Cores) (j k : Nat) (hj : j < core.length) (c : Cores) :
    (core.set j c).getD k default = if k = j then c else core.getD k default := by
  simp only [List.getD_eq_getElem?_getD, List.getElem?_set]
  by_cases h : j = k
  · subst h
    simp [hj]
  · have h' : ¬ k = j := fun e => h e.symm
    simp [h, h']

/-- Own-level utilisation of the union of a core and an unallocated candidate. -/
theorem ull_union {L : Int} {core : List Cores} {l : List Tasks} (hInv : Inv L core l)
    (hWF : WF L l) {i : Nat} (hi : i < l.length)
    (hun : (l.getD i default).allocated_core = NOT_ALLOCATED) {j : Nat} (hj : j < MAX_CORES) :
    calculate_utilization_ull l 1 L ((j : Int) + 1) (l.getD i default).task_no =
      (core.getD j default).utilization + (l.getD i default).util_own := by
  rw [ull_eq_csum, hInv.util j hj]
  have hmem := getD_mem hi
  have h1 := csum_task_no l hWF.1 (l.getD i default) hmem
    (fun t => ¬ t.allocated_core = (j : Int) + 1) (fun t => t.util (t.criticality - 1))
  have hne : ¬ (l.getD i default).allocated_core = (j : Int) + 1 := by
    rw [hun]
    unfold NOT_ALLOCATED
    omega
  rw [if_pos hne] at h1
  have h2 := csum_split l
    (fun t => in_union t ((j : Int) + 1) (l.getD i default).task_no ∧ t.criticality ≥ 1 ∧
      t.criticality ≤ L)
    (fun t => t.allocated_core = (j : Int) + 1)
    (fun t => t.task_no = (l.getD i default).task_no ∧ ¬ t.allocated_core = (j : Int) + 1)
    (fun t => t.util (t.criticality - 1))
    (by
      intro t ht
      have hc := hWF.2 t ht
      unfold in_union
      constructor
      · constructor
        · rintro ⟨h | h, _⟩
          · exact Or.inl h
          · by_cases e : t.allocated_core = (j : Int) + 1
            · exact Or.inl e
            · exact Or.inr ⟨h, e⟩
        · rintro (h | ⟨h, _⟩)
          · exact ⟨Or.inl h, hc.1, hc.2⟩
          · exact ⟨Or.inr h, hc.1, hc.2⟩
      · rintro ⟨h, _, h'⟩
        exact h' h)
  rw [h2, h1]
  rfl

theorem VD_on_weaken {L : Int} {l : List Tasks} {c thr n : Int} (h : VD_on L l c thr n True) :
    VD_on L l c thr n False := by
  obtain ⟨h1, h2, h3, h4⟩ := h
  refine ⟨h1, h2, h3, ?_⟩
  intro t ht hc
  rcases hc with hc | ⟨hf, _⟩
  · exact h4 t ht (Or.inl hc)
  · exact hf.elim

/-- The invariant after the threshold of core `j` is overwritten and virtual deadlines are
rewritten, given the facts about virtual deadlines that the caller supplies. -/
theorem Inv_update {L : Int} {core : List Cores} {l l' : List Tasks} (hInv : Inv L core l)
    (hve : vd_equiv l l') (j : Nat) (hj : j < MAX_CORES) (t : Int)
    (hj_vd : t < L → ∃ n : Int, VD_on L l' ((j : Int) + 1) t n False)
    (hk_vd : ∀ k : Nat, k < MAX_CORES → k ≠ j → ∀ thr n : Int,
      VD_on L l ((k : Int) + 1) thr n False → VD_on L l' ((k : Int) + 1) thr n False) :
    Inv L (core.set j { core.getD j default with threshold_criticality := t }) l' := by
  have hlen : j < core.length := by rw [hInv.len]; exact hj
  constructor
  · rw [List.length_set]
    exact hInv.len
  · intro k hk
    rw [cores_getD_set core j k hlen]
    by_cases e : k = j
    · rw [if_pos e, e]
      exact hInv.core_no j hj
    · rw [if_neg e]
      exact hInv.core_no k hk
  · intro k hk
    rw [cores_getD_set core j k hlen]
    have hs : csum l' (fun t => t.allocated_core = (k : Int) + 1) Tasks.util_own =
        csum l (fun t => t.allocated_core = (k : Int) + 1) Tasks.util_own :=
      csum_vd_equiv hve _ _ (fun _ => Iff.rfl) (fun _ => rfl)
    rw [hs]
    by_cases e : k = j
    · rw [if_pos e, e]
      exact hInv.util j hj
    · rw [if_neg e]
      exact hInv.util k hk
  · intro k hk
    rw [cores_getD_set core j k hlen]
    by_cases e : k = j
    · rw [if_pos e, e]
      exact hj_vd
    · rw [if_neg e]
      intro hthr
      obtain ⟨n, hn⟩ := hInv.vd k hk hthr
      exact ⟨n, hk_vd k hk e _ n hn⟩

theorem mem_set_deadlines_edfvd {l : List Tasks} {c n thr : Int} {x : Dbl} {τ' : Tasks}
    (h : τ' ∈ set_deadlines_edfvd l c n thr x) :
    ∃ τ ∈ l, erase_vd τ' = erase_vd τ ∧
      (in_union τ c n → τ'.virtual_deadline = vd_for thr x τ') ∧
      (¬ in_union τ c n → τ' = τ) := by
  unfold set_deadlines_edfvd at h
  obtain ⟨τ, hτ, e⟩ := List.mem_map.mp h
  refine ⟨τ, hτ, ?_⟩
  by_cases hu : in_union τ c n
  · rw [if_pos hu] at e
    by_cases hc : τ.criticality ≤ thr
    · rw [if_pos hc] at e
      subst e
      refine ⟨rfl, fun _ => ?_, fun h => absurd hu h⟩
      simp [vd_for, hc]
    · rw [if_neg hc] at e
      subst e
      refine ⟨rfl, fun _ => ?_, fun h => absurd hu h⟩
      simp [vd_for, hc]
  · rw [if_neg hu] at e
    subst e
    exact ⟨rfl, fun h => absurd h hu, fun _ => rfl⟩

/-- A probe whose union exceeds utilisation 1: the check either fails and changes nothing,
or passes, and then the invariant holds again with the new threshold and the core accepts
the candidate. -/
theorem probe_check {L : Int} {core : List Cores} {l : List Tasks} (hInv : Inv L core l)
    (hWF : WF L l) {i : Nat} (hi : i < l.length)
    (hun : (l.getD i default).allocated_core = NOT_ALLOCATED) {j : Nat} (hj : j < MAX_CORES)
    (hu : 1 < (l.getD i default).util_own + (core.getD j default).utilization) :
    ((edfvd_schedulability_check l L ((j : Int) + 1) (l.getD i default).task_no).1 = -73 ∧
      (edfvd_schedulability_check l L ((j : Int) + 1) (l.getD i default).task_no).2 = l) ∨
    (1 ≤ (edfvd_schedulability_check l L ((j : Int) + 1) (l.getD i default).task_no).1 ∧
      (edfvd_schedulability_check l L ((j : Int) + 1) (l.getD i default).task_no).1 ≤ L - 1 ∧
      vd_equiv l (edfvd_schedulability_check l L ((j : Int) + 1) (l.getD i default).task_no).2 ∧
      Inv L
        (core.set j { core.getD j default with
          threshold_criticality :=
            (edfvd_schedulability_check l L ((j : Int) + 1) (l.getD i default).task_no).1 })
        (edfvd_schedulability_check l L ((j : Int) + 1) (l.getD i default).task_no).2 ∧
      Accepts L
        (core.set j { core.getD j default with
          threshold_criticality :=
            (edfvd_schedulability_check l L ((j : Int) + 1) (l.getD i default).task_no).1 })
        (edfvd_schedulability_check l L ((j : Int) + 1) (l.getD i default).task_no).2 i j) := by
  have hU := ull_union hInv hWF hi hun hj
  have hlen : j < core.length := by rw [hInv.len]; exact hj
  rcases edfvd_check_cases l L ((j : Int) + 1) (l.getD i default).task_no
    (by rw [hU]; linarith) with h | ⟨h1, h2, h3, h4⟩
  · exact Or.inl h
  · right
    have hve := edfvd_check_vd_equiv l L ((j : Int) + 1) (l.getD i default).task_no
    generalize (edfvd_schedulability_check l L ((j : Int) + 1) (l.getD i default).task_no).1 = t
      at h1 h2 h3 h4 ⊢
    generalize (edfvd_schedulability_check l L ((j : Int) + 1) (l.getD i default).task_no).2 = l'
      at h4 hve ⊢
    have hxm := x_mid_vd_equiv hve L ((j : Int) + 1) (l.getD i default).task_no t
    have hcond : edfvd_condition l' L ((j : Int) + 1) (l.getD i default).task_no t = true := by
      rw [edfvd_condition_vd_equiv hve]
      exact h3
    have hVD : VD_on L l' ((j : Int) + 1) t (l.getD i default).task_no True := by
      refine ⟨h1, h2, hcond, ?_⟩
      intro τ' hτ' hc
      rw [h4] at hτ'
      obtain ⟨τ, _, e, hin, _⟩ := mem_set_deadlines_edfvd hτ'
      rw [erase_vd_eq_iff] at e
      rw [hxm]
      apply hin
      unfold in_union
      rcases hc with hc | ⟨_, hc⟩
      · exact Or.inl (by rw [← e.2.2.2.2.2.2.2]; exact hc)
      · exact Or.inr (by rw [← e.1]; exact hc)
    refine ⟨h1, h2, hve, ?_, ?_⟩
    · apply Inv_update hInv hve j hj t (fun _ => ⟨_, VD_on_weaken hVD⟩)
      intro k hk hkj thr n hold
      obtain ⟨o1, o2, o3, o4⟩ := hold
      refine ⟨o1, o2, by rw [edfvd_condition_vd_equiv hve]; exact o3, ?_⟩
      intro τ' hτ' hc
      rcases hc with hc | ⟨hf, _⟩
      · have hτ'' := hτ'
        rw [h4] at hτ''
        obtain ⟨τ, hτ, e, _, hout⟩ := mem_set_deadlines_edfvd hτ''
        rw [erase_vd_eq_iff] at e
        have hnot : ¬ in_union τ ((j : Int) + 1) (l.getD i default).task_no := by
          unfold in_union
          rintro (h | h)
          · have : (k : Int) + 1 = (j : Int) + 1 := by rw [← hc, e.2.2.2.2.2.2.2, h]
            omega
          · have heq := eq_of_task_no_eq hWF.1 hτ (getD_mem hi) h
            rw [heq, hun] at e
            rw [e.2.2.2.2.2.2.2] at hc
            unfold NOT_ALLOCATED at hc
            omega
        have hsame := hout hnot
        rw [x_mid_vd_equiv hve, hsame]
        exact o4 τ hτ (Or.inl (by rw [← hsame]; exact hc))
      · exact hf.elim
    · have hn : (l'.getD i default).task_no = (l.getD i default).task_no := by
        have := vd_equiv_getD hve i
        rw [erase_vd_eq_iff] at this
        exact this.1
      constructor
      · intro _
        rw [cores_getD_set core j j hlen, if_pos rfl, hn]
        exact hVD
      · right
        refine ⟨t, h1, h2, ?_⟩
        rw [hn]
        exact hcond

/-- The same statement with the core number read from the core record, as the loops do. -/
theorem probe_check_core_no {L : Int} {core : List Cores} {l : List Tasks} (hInv : Inv L core l)
    (hWF : WF L l) {i : Nat} (hi : i < l.length)
    (hun : (l.getD i default).allocated_core = NOT_ALLOCATED) {j : Nat} (hj : j < MAX_CORES)
    (hu : 1 < (l.getD i default).util_own + (core.getD j default).utilization) :
    ((edfvd_schedulability_check l L (core.getD j default).core_no
        (l.getD i default).task_no).1 = -73 ∧
      (edfvd_schedulability_check l L (core.getD j default).core_no
        (l.getD i default).task_no).2 = l) ∨
    (1 ≤ (edfvd_schedulability_check l L (core.getD j default).core_no
        (l.getD i default).task_no).1 ∧
      (edfvd_schedulability_check l L (core.getD j default).core_no
        (l.getD i default).task_no).1 ≤ L - 1 ∧
      vd_equiv l (edfvd_schedulability_check l L (core.getD j default).core_no
        (l.getD i default).task_no).2 ∧
      Inv L
        (core.set j { core.getD j default with
          threshold_criticality :=
            (edfvd_schedulability_check l L (core.getD j default).core_no
              (l.getD i default).task_no).1 })
        (edfvd_schedulability_check l L (core.getD j default).core_no
          (l.getD i default).task_no).2 ∧
      Accepts L
        (core.set j { core.getD j default with
          threshold_criticality :=
            (edfvd_schedulability_check l L (core.getD j default).core_no
              (l.getD i default).task_no).1 })
        (edfvd_schedulability_check l L (core.getD j default).core_no
          (l.getD i default).task_no).2 i j) := by
  have h := probe_check hInv hWF hi hun hj hu
  rw [← hInv.core_no j hj] at h
  exact h

/-- A probe whose union stays within utilisation 1: the core accepts the candidate on the
plain EDF branch and the invariant holds with threshold `L`. -/
theorem probe_edf {L : Int} {core : List Cores} {l : List Tasks} (hInv : Inv L core l)
    {i : Nat} {j : Nat} (hj : j < MAX_CORES)
    (hu : ¬ 1 < (l.getD i default).util_own + (core.getD j default).utilization) :
    Inv L (core.set j { core.getD j default with threshold_criticality := L }) l ∧
    Accepts L (core.set j { core.getD j default with threshold_criticality := L }) l i j := by
  have hlen : j < core.length := by rw [hInv.len]; exact hj
  constructor
  · exact Inv_update hInv (vd_equiv_refl l) j hj L (fun h => absurd h (lt_irrefl L))
      (fun _ _ _ _ _ h => h)
  · constructor
    · rw [cores_getD_set core j j hlen, if_pos rfl]
      intro h
      exact absurd h (lt_irrefl L)
    · left
      rw [cores_getD_set core j j hlen, if_pos rfl]
      exact not_lt.mp hu

/-! ## The selection loops keep the invariant -/

theorem task_at_natCast (l : List Tasks) (i : Nat) : task_at l (i : Int) = l.getD i default := by
  simp [task_at]

theorem core_at_eq (core : List Cores) (j : Int) : core_at core j = core.getD j.toNat default :=
  rfl

theorem cand_vd_equiv {l l' : List Tasks} (h : vd_equiv l l') {i : Nat} (hi : i < l.length)
    (hun : (l.getD i default).allocated_core = NOT_ALLOCATED) :
    i < l'.length ∧ (l'.getD i default).allocated_core = NOT_ALLOCATED := by
  constructor
  · rw [vd_equiv_length h]
    exact hi
  · have := vd_equiv_getD h i
    rw [erase_vd_eq_iff] at this
    rw [this.2.2.2.2.2.2.2]
    exact hun

theorem worst_fit_loop_inv (L : Int) (i : Nat) :
    ∀ (n : Nat) (j : Int) (s : Worst_fit_state), 0 ≤ j → j + (n : Int) ≤ (MAX_CORES : Int) →
      Inv L s.core s.tasks_arr → WF L s.tasks_arr → i < s.tasks_arr.length →
      (s.tasks_arr.getD i default).allocated_core = NOT_ALLOCATED →
      Best L s.core s.tasks_arr i s.worst_fit_idx j →
      vd_equiv s.tasks_arr (worst_fit_loop (i : Int) L n j s).tasks_arr ∧
      Inv L (worst_fit_loop (i : Int) L n j s).core (worst_fit_loop (i : Int) L n j s).tasks_arr ∧
      Best L (worst_fit_loop (i : Int) L n j s).core (worst_fit_loop (i : Int) L n j s).tasks_arr i
        (worst_fit_loop (i : Int) L n j s).worst_fit_idx (j + (n : Int)) := by
  intro n
  induction n with
  | zero =>
    intro j s _ _ hInv _ _ _ hB
    simp only [worst_fit_loop, Nat.cast_zero, add_zero]
    exact ⟨vd_equiv_refl _, hInv, hB⟩
  | succ n ih =>
    intro j s hj0 hjn hInv hWF hi hun hB
    have hjN : j.toNat < MAX_CORES := by
      unfold MAX_CORES at hjn ⊢
      omega
    rw [worst_fit_loop]
    simp only [task_at_natCast, core_at_eq]
    have hbound : j + 1 + (n : Int) = j + ((n + 1 : Nat) : Int) := by push_cast; ring
    rw [← hbound]
    split_ifs with h1 h2 h3
    · -- the check passes and is accepted
      have hpc := probe_check_core_no hInv hWF hi hun hjN h2
      rcases hpc with ⟨p1, _⟩ | ⟨p1, p2, p3, p4, p5⟩
      · rw [p1] at h3
        omega
      · obtain ⟨c1, c2⟩ := cand_vd_equiv p3 hi hun
        obtain ⟨r1, r2, r3⟩ := ih (j + 1)
          { worst_fit_idx := j
            max_remaining_capacity :=
              (s.core.getD j.toNat default).remaining_capacity -
                (s.tasks_arr.getD i default).util ((s.tasks_arr.getD i default).criticality - 1)
            core := s.core.set j.toNat
              { s.core.getD j.toNat default with
                threshold_criticality :=
                  (edfvd_schedulability_check s.tasks_arr L
                    (s.core.getD j.toNat default).core_no
                    (s.tasks_arr.getD i default).task_no).1 }
            tasks_arr :=
              (edfvd_schedulability_check s.tasks_arr L (s.core.getD j.toNat default).core_no
                (s.tasks_arr.getD i default).task_no).2 }
          (by omega) (by omega) p4 (WF_vd_equiv p3 hWF) c1 c2
          (Or.inr ⟨hj0, (by show j < j + 1; omega), p5⟩)
        exact ⟨vd_equiv_trans p3 r1, r2, r3⟩
    · -- the check fails
      have hpc := probe_check_core_no hInv hWF hi hun hjN h2
      rcases hpc with ⟨_, p2⟩ | ⟨p1, p2, _⟩
      · have hs : ({ s with tasks_arr :=
            (edfvd_schedulability_check s.tasks_arr L (s.core.getD j.toNat default).core_no
              (s.tasks_arr.getD i default).task_no).2 } : Worst_fit_state) = s := by
          rw [p2]
        rw [hs]
        have hB' : Best L s.core s.tasks_arr i s.worst_fit_idx (j + 1) := by
          rcases hB with h | ⟨b1, b2, b3⟩
          · exact Or.inl h
          · exact Or.inr ⟨b1, by omega, b3⟩
        exact ih (j + 1) s (by omega) (by omega) hInv hWF hi hun hB'
      · exact absurd ⟨by omega, by omega⟩ h3
    · -- plain EDF
      obtain ⟨p1, p2⟩ := probe_edf (i := i) hInv hjN h2
      exact ih (j + 1)
        { worst_fit_idx := j
          max_remaining_capacity :=
            (s.core.getD j.toNat default).remaining_capacity -
              (s.tasks_arr.getD i default).util ((s.tasks_arr.getD i default).criticality - 1)
          core := s.core.set j.toNat
            { s.core.getD j.toNat default with threshold_criticality := L }
          tasks_arr := s.tasks_arr }
        (by omega) (by omega) p1 hWF hi hun (Or.inr ⟨hj0, (by show j < j + 1; omega), p2⟩)
    · -- the core is skipped
      have hB' : Best L s.core s.tasks_arr i s.worst_fit_idx (j + 1) := by
        rcases hB with h | ⟨b1, b2, b3⟩
        · exact Or.inl h
        · exact Or.inr ⟨b1, by omega, b3⟩
      exact ih (j + 1) s (by omega) (by omega) hInv hWF hi hun hB'

theorem Best_mono {L : Int} {core : List Cores} {l : List Tasks} {i : Nat} {r b b' : Int}
    (h : Best L core l i r b) (hb : b ≤ b') : Best L core l i r b' := by
  rcases h with h | ⟨b1, b2, b3⟩
  · exact Or.inl h
  · exact Or.inr ⟨b1, by omega, b3⟩

theorem first_fit_loop_inv (L : Int) (i : Nat) :
    ∀ (n : Nat) (j first_fit_idx : Int) (core : List Cores) (l : List Tasks), 0 ≤ j →
      j + (n : Int) ≤ (MAX_CORES : Int) →
      Inv L core l → WF L l → i < l.length →
      (l.getD i default).allocated_core = NOT_ALLOCATED →
      Best L core l i first_fit_idx j →
      vd_equiv l (first_fit_loop (i : Int) L n j first_fit_idx core l).2.2 ∧
      Inv L (first_fit_loop (i : Int) L n j first_fit_idx core l).2.1
        (first_fit_loop (i : Int) L n j first_fit_idx core l).2.2 ∧
      Best L (first_fit_loop (i : Int) L n j first_fit_idx core l).2.1
        (first_fit_loop (i : Int) L n j first_fit_idx core l).2.2 i
        (first_fit_loop (i : Int) L n j first_fit_idx core l).1 (j + (n : Int)) := by
  intro n
  induction n with
  | zero =>
    intro j ffi core l _ _ hInv _ _ _ hB
    simp only [first_fit_loop, Nat.cast_zero, add_zero]
    exact ⟨vd_equiv_refl _, hInv, hB⟩
  | succ n ih =>
    intro j ffi core l hj0 hjn hInv hWF hi hun hB
    have hjN : j.toNat < MAX_CORES := by
      unfold MAX_CORES at hjn ⊢
      omega
    rw [first_fit_loop]
    simp only [task_at_natCast, core_at_eq]
    have hbound : j + 1 + (n : Int) = j + ((n + 1 : Nat) : Int) := by push_cast; ring
    rw [← hbound]
    split_ifs with h1 h2 h3
    · -- the check passes: leave the loop
      have hpc := probe_check_core_no hInv hWF hi hun hjN h2
      rcases hpc with ⟨p1, _⟩ | ⟨p1, p2, p3, p4, p5⟩
      · rw [p1] at h3
        omega
      · exact ⟨p3, p4, Or.inr ⟨hj0, (by show j < j + 1 + (n : Int); omega), p5⟩⟩
    · -- the check fails
      have hpc := probe_check_core_no hInv hWF hi hun hjN h2
      rcases hpc with ⟨_, p2⟩ | ⟨p1, p2, _⟩
      · rw [p2]
        exact ih (j + 1) ffi core l (by omega) (by omega) hInv hWF hi hun
          (Best_mono hB (by omega))
      · exact absurd ⟨by omega, by omega⟩ h3
    · -- plain EDF: record the core and go on
      obtain ⟨p1, p2⟩ := probe_edf (i := i) hInv hjN h2
      exact ih (j + 1) j _ l (by omega) (by omega) p1 hWF hi hun
        (Or.inr ⟨hj0, (by omega), p2⟩)
    · -- the core is skipped
      exact ih (j + 1) ffi core l (by omega) (by omega) hInv hWF hi hun
        (Best_mono hB (by omega))

/-- What a selection returns: the invariant holds on the returned arrays, the task array
differs from the input in virtual deadlines only, and a returned index other than `-1`
names an open core that accepted the task. -/
theorem get_worst_fit_core_idx_inv {L : Int} {core : List Cores} {l : List Tasks}
    (num_cores : Int) (hnc : num_cores ≤ (MAX_CORES : Int)) (hInv : Inv L core l) (hWF : WF L l)
    {i : Nat} (hi : i < l.length) (hun : (l.getD i default).allocated_core = NOT_ALLOCATED) :
    vd_equiv l (get_worst_fit_core_idx core num_cores l (i : Int) L).2.2 ∧
    Inv L (get_worst_fit_core_idx core num_cores l (i : Int) L).2.1
      (get_worst_fit_core_idx core num_cores l (i : Int) L).2.2 ∧
    Best L (get_worst_fit_core_idx core num_cores l (i : Int) L).2.1
      (get_worst_fit_core_idx core num_cores l (i : Int) L).2.2 i
      (get_worst_fit_core_idx core num_cores l (i : Int) L).1 num_cores := by
  have h := worst_fit_loop_inv L i num_cores.toNat 0
    { worst_fit_idx := -1, max_remaining_capacity := -1, core := core, tasks_arr := l }
    (le_refl _) (by omega) hInv hWF hi hun (Or.inl rfl)
  obtain ⟨h1, h2, h3⟩ := h
  refine ⟨h1, h2, ?_⟩
  show Best L _ _ i (worst_fit_loop (i : Int) L num_cores.toNat 0
    { worst_fit_idx := -1, max_remaining_capacity := -1, core := core,
      tasks_arr := l }).worst_fit_idx num_cores
  rcases h3 with h3 | ⟨b1, b2, b3⟩
  · exact Or.inl h3
  · exact Or.inr ⟨b1, by omega, b3⟩

theorem get_first_fit_core_idx_inv {L : Int} {core : List Cores} {l : List Tasks}
    (num_cores : Int) (hnc : num_cores ≤ (MAX_CORES : Int)) (hInv : Inv L core l) (hWF : WF L l)
    {i : Nat} (hi : i < l.length) (hun : (l.getD i default).allocated_core = NOT_ALLOCATED) :
    vd_equiv l (get_first_fit_core_idx core num_cores l (i : Int) L).2.2 ∧
    Inv L (get_first_fit_core_idx core num_cores l (i : Int) L).2.1
      (get_first_fit_core_idx core num_cores l (i : Int) L).2.2 ∧
    Best L (get_first_fit_core_idx core num_cores l (i : Int) L).2.1
      (get_first_fit_core_idx core num_cores l (i : Int) L).2.2 i
      (get_first_fit_core_idx core num_cores l (i : Int) L).1 num_cores := by
  have h := first_fit_loop_inv L i num_cores.toNat 0 (-1) core l
    (le_refl _) (by omega) hInv hWF hi hun (Or.inl rfl)
  obtain ⟨h1, h2, h3⟩ := h
  refine ⟨h1, h2, ?_⟩
  show Best L _ _ i (first_fit_loop (i : Int) L num_cores.toNat 0 (-1) core l).1 num_cores
  rcases h3 with h3 | ⟨b1, b2, b3⟩
  · exact Or.inl h3
  · exact Or.inr ⟨b1, by omega, b3⟩

/-! ## Resetting capacities, marking core types, allocating -/

/-- An update of the first `n` records of the core array by a function `f` leaves at each
position the old record or its image under `f`. -/
theorem getD_map_take_append_drop (core : List Cores) (f : Cores → Cores) (n k : Nat) :
    ((core.take n).map f ++ core.drop n).getD k default = core.getD k default ∨
    ((core.take n).map f ++ core.drop n).getD k default = f (core.getD k default) := by
  induction core generalizing n k with
  | nil => simp
  | cons c cs ih =>
    cases n with
    | zero => simp
    | succ n =>
      cases k with
      | zero => simp
      | succ k =>
        simpa using ih n k

theorem Inv_of_fields {L : Int} {core core' : List Cores} {l : List Tasks} (hInv : Inv L core l)
    (hlen : core'.length = core.length)
    (h : ∀ k : Nat, (core'.getD k default).core_no = (core.getD k default).core_no ∧
      (core'.getD k default).utilization = (core.getD k default).utilization ∧
      (core'.getD k default).threshold_criticality = (core.getD k default).threshold_criticality) :
    Inv L core' l := by
  constructor
  · rw [hlen]
    exact hInv.len
  · intro k hk
    rw [(h k).1]
    exact hInv.core_no k hk
  · intro k hk
    rw [(h k).2.1]
    exact hInv.util k hk
  · intro k hk
    rw [(h k).2.2]
    exact hInv.vd k hk

theorem reset_core_capacities_fields (core : List Cores) (num_cores : Int) (l : List Tasks)
    (criticality idx : Int) :
    (reset_core_capacities core num_cores l criticality idx).length = core.length ∧
    ∀ k : Nat,
      ((reset_core_capacities core num_cores l criticality idx).getD k default).core_no
        = (core.getD k default).core_no ∧
      ((reset_core_capacities core num_cores l criticality idx).getD k default).utilization
        = (core.getD k default).utilization ∧
      ((reset_core_capacities core num_cores l criticality idx).getD k default).threshold_criticality
        = (core.getD k default).threshold_criticality := by
  constructor
  · unfold reset_core_capacities
    simp only [List.length_append, List.length_map, List.length_take, List.length_drop]
    omega
  · intro k
    unfold reset_core_capacities
    rcases getD_map_take_append_drop core
      (fun c => { c with remaining_capacity := reset_capacity c l criticality idx })
      num_cores.toNat k with h | h
    · rw [h]
      exact ⟨rfl, rfl, rfl⟩
    · rw [h]
      exact ⟨rfl, rfl, rfl⟩

theorem Inv_reset {L : Int} {core : List Cores} {l : List Tasks} (hInv : Inv L core l)
    (num_cores criticality idx : Int) :
    Inv L (reset_core_capacities core num_cores l criticality idx) l :=
  Inv_of_fields hInv (reset_core_capacities_fields core num_cores l criticality idx).1
    (reset_core_capacities_fields core num_cores l criticality idx).2

theorem mark_core_type_fields (b : Bool) (core : List Cores) (idx : Int) :
    (mark_core_type b core idx).length = core.length ∧
    ∀ k : Nat,
      ((mark_core_type b core idx).getD k default).core_no = (core.getD k default).core_no ∧
      ((mark_core_type b core idx).getD k default).utilization
        = (core.getD k default).utilization ∧
      ((mark_core_type b core idx).getD k default).threshold_criticality
        = (core.getD k default).threshold_criticality := by
  unfold mark_core_type
  cases b with
  | false => exact ⟨rfl, fun _ => ⟨rfl, rfl, rfl⟩⟩
  | true =>
    simp only [if_true]
    refine ⟨List.length_set _ _ _, ?_⟩
    intro k
    by_cases hlt : idx.toNat < core.length
    · rw [cores_getD_set core idx.toNat k hlt]
      by_cases e : k = idx.toNat
      · rw [if_pos e, e]
        exact ⟨rfl, rfl, rfl⟩
      · rw [if_neg e]
        exact ⟨rfl, rfl, rfl⟩
    · rw [List.set_eq_of_length_le (not_lt.mp hlt)]
      exact ⟨rfl, rfl, rfl⟩

theorem Inv_mark_core_type {L : Int} {core : List Cores} {l : List Tasks} (hInv : Inv L core l)
    (b : Bool) (idx : Int) : Inv L (mark_core_type b core idx) l :=
  Inv_of_fields hInv (mark_core_type_fields b core idx).1 (mark_core_type_fields b core idx).2

theorem allocate_task_to_core_tasks (core : List Cores) (l : List Tasks) (r i : Nat) :
    (allocate_task_to_core core l (r : Int) (i : Int)).2
      = realloc l i (core.getD r default).core_no := by
  simp [allocate_task_to_core, realloc, task_at, core_at]

theorem realloc_length (l : List Tasks) (i : Nat) (cn : Int) :
    (realloc l i cn).length = l.length := by
  simp [realloc]

theorem realloc_getD (l : List Tasks) (i : Nat) (hi : i < l.length) (cn : Int) (k : Nat) :
    (realloc l i cn).getD k default =
      if k = i then { l.getD i default with allocated_core := cn } else l.getD k default := by
  simp only [realloc, List.getD_eq_getElem?_getD, List.getElem?_set]
  by_cases h : i = k
  · subst h
    simp [hi]
  · have h' : ¬ k = i := fun e => h e.symm
    simp [h, h']

theorem realloc_map_task_no (l : List Tasks) (i : Nat) (hi : i < l.length) (cn : Int) :
    (realloc l i cn).map Tasks.task_no = l.map Tasks.task_no := by
  apply List.ext_getElem
  · simp [realloc]
  · intro k h1 h2
    simp only [List.getElem_map, realloc, List.getElem_set]
    by_cases e : i = k
    · subst e
      simp [List.getElem?_eq_getElem hi]
    · simp [e]

theorem mem_realloc {l : List Tasks} {i : Nat} {cn : Int} {τ : Tasks}
    (h : τ ∈ realloc l i cn) :
    τ ∈ l ∨ τ = { l.getD i default with allocated_core := cn } :=
  List.mem_or_eq_of_mem_set h

theorem realloc_self_mem (l : List Tasks) (i : Nat) (hi : i < l.length) (cn : Int) :
    ({ l.getD i default with allocated_core := cn } : Tasks) ∈ realloc l i cn := by
  have h := realloc_getD l i hi cn i
  rw [if_pos rfl] at h
  rw [← h]
  exact getD_mem (by rw [realloc_length]; exact hi)

theorem WF_realloc {L : Int} {l : List Tasks} (hWF : WF L l) (i : Nat) (hi : i < l.length)
    (cn : Int) : WF L (realloc l i cn) := by
  constructor
  · rw [realloc_map_task_no l i hi]
    exact hWF.1
  · intro τ hτ
    rcases mem_realloc hτ with h | h
    · exact hWF.2 τ h
    · rw [h]
      exact hWF.2 (l.getD i default) (getD_mem hi)

/-- In the reallocated array the only task with the number of task `i` is task `i`. -/
theorem realloc_task_no_unique {L : Int} {l : List Tasks} (hWF : WF L l) {i : Nat}
    (hi : i < l.length) (cn : Int) {τ : Tasks} (hτ : τ ∈ realloc l i cn)
    (hno : τ.task_no = (l.getD i default).task_no) :
    τ = { l.getD i default with allocated_core := cn } :=
  eq_of_task_no_eq (WF_realloc hWF i hi cn).1 hτ (realloc_self_mem l i hi cn) hno

/-- A sum is unchanged by the reallocation of task `i` when the task counts in the same
way before and after. -/
theorem csum_realloc (l : List Tasks) (i : Nat) (hi : i < l.length) (cn : Int)
    (p : Tasks → Prop) [DecidablePred p] (f : Tasks → ℚ)
    (hp : p { l.getD i default with allocated_core := cn } ↔ p (l.getD i default))
    (hf : f { l.getD i default with allocated_core := cn } = f (l.getD i default)) :
    csum (realloc l i cn) p f = csum l p f := by
  unfold realloc
  rw [csum_set l i hi, hf]
  by_cases c : p (l.getD i default)
  · rw [if_pos c, if_pos (hp.mpr c)]
    ring
  · rw [if_neg c, if_neg (fun h => c (hp.mp h))]
    ring

theorem edfvd_condition_realloc (l : List Tasks) (i : Nat) (hi : i < l.length) (cn : Int)
    (L c n t : Int)
    (hu : in_union { l.getD i default with allocated_core := cn } c n ↔
      in_union (l.getD i default) c n) :
    edfvd_condition (realloc l i cn) L c n t = edfvd_condition l L c n t ∧
    x_mid (realloc l i cn) L c n t = x_mid l L c n t := by
  have e1 : ∀ lo hi' : Int, calculate_utilization_ull (realloc l i cn) lo hi' c n
      = calculate_utilization_ull l lo hi' c n := by
    intro lo hi'
    rw [ull_eq_csum, ull_eq_csum]
    apply csum_realloc l i hi cn
    · constructor
      · rintro ⟨h1, h2⟩
        exact ⟨hu.mp h1, h2⟩
      · rintro ⟨h1, h2⟩
        exact ⟨hu.mpr h1, h2⟩
    · rfl
  have e2 : ∀ lo hi' : Int, calculate_utilization_ulk (realloc l i cn) lo hi' c n
      = calculate_utilization_ulk l lo hi' c n := by
    intro lo hi'
    rw [ulk_eq_csum, ulk_eq_csum]
    apply csum_realloc l i hi cn
    · constructor
      · rintro ⟨h1, h2⟩
        exact ⟨hu.mp h1, h2⟩
      · rintro ⟨h1, h2⟩
        exact ⟨hu.mpr h1, h2⟩
    · rfl
  constructor
  · unfold edfvd_condition x_lb x_ub
    simp only [e1, e2]
  · unfold x_mid x_lb x_ub
    simp only [e1, e2]

theorem allocate_task_to_core_cores (core : List Cores) (l : List Tasks) (r i : Nat) :
    (allocate_task_to_core core l (r : Int) (i : Int)).1 =
      core.set r
        { core.getD r default with
          remaining_capacity := (core.getD r default).remaining_capacity - (l.getD i default).util_own
          utilization := (core.getD r default).utilization + (l.getD i default).util_own
          tasks_alloc_count := (core.getD r default).tasks_alloc_count + 1
          tasks_alloc_ids :=
            (core.getD r default).tasks_alloc_ids.set
              ((core.getD r default).tasks_alloc_count + 1 - 1).toNat
              (l.getD i default).task_no } := by
  simp [allocate_task_to_core, task_at, core_at, Tasks.util_own]

/-- Allocating the unallocated task `i` to an accepting core keeps the invariant. -/
theorem Inv_allocate {L : Int} {core : List Cores} {l : List Tasks} (hInv : Inv L core l)
    {i : Nat} (hi : i < l.length)
    (hun : (l.getD i default).allocated_core = NOT_ALLOCATED) {r : Nat} (hr : r < MAX_CORES)
    (hVD : (core.getD r default).threshold_criticality < L →
      VD_on L l ((r : Int) + 1) (core.getD r default).threshold_criticality
        (l.getD i default).task_no True) :
    Inv L (allocate_task_to_core core l (r : Int) (i : Int)).1
      (allocate_task_to_core core l (r : Int) (i : Int)).2 := by
  rw [allocate_task_to_core_cores, allocate_task_to_core_tasks, hInv.core_no r hr]
  have hlen : r < core.length := by rw [hInv.len]; exact hr
  have hne : ∀ k : Nat, ¬ (l.getD i default).allocated_core = (k : Int) + 1 := by
    intro k
    rw [hun]
    unfold NOT_ALLOCATED
    omega
  constructor
  · rw [List.length_set]
    exact hInv.len
  · intro k hk
    rw [cores_getD_set core r k hlen]
    by_cases e : k = r
    · rw [if_pos e, e]
      exact hInv.core_no r hr
    · rw [if_neg e]
      exact hInv.core_no k hk
  · intro k hk
    rw [cores_getD_set core r k hlen]
    by_cases e : k = r
    · rw [if_pos e, e]
      show (core.getD r default).utilization + (l.getD i default).util_own = _
      unfold realloc
      rw [csum_set l i hi, if_neg (hne r), hInv.util r hr, if_pos rfl]
      show _ = _ - 0 + (l.getD i default).util_own
      ring
    · rw [if_neg e, hInv.util k hk]
      symm
      apply csum_realloc l i hi
      · constructor
        · intro h
          have h' : (r : Int) + 1 = (k : Int) + 1 := h
          omega
        · intro h
          exact absurd h (hne k)
      · rfl
  · intro k hk
    rw [cores_getD_set core r k hlen]
    by_cases e : k = r
    · rw [if_pos e, e]
      intro hthr
      obtain ⟨v1, v2, v3, v4⟩ := hVD hthr
      have hu : in_union { l.getD i default with allocated_core := (r : Int) + 1 } ((r : Int) + 1)
          (l.getD i default).task_no ↔
          in_union (l.getD i default) ((r : Int) + 1) (l.getD i default).task_no :=
        ⟨fun _ => Or.inr rfl, fun _ => Or.inr rfl⟩
      obtain ⟨e1, e2⟩ := edfvd_condition_realloc l i hi ((r : Int) + 1) L ((r : Int) + 1)
        (l.getD i default).task_no (core.getD r default).threshold_criticality hu
      refine ⟨(l.getD i default).task_no, v1, v2, by rw [e1]; exact v3, ?_⟩
      intro τ hτ hc
      rw [e2]
      rcases hc with hc | ⟨hf, _⟩
      · rcases mem_realloc hτ with h | h
        · exact v4 τ h (Or.inl hc)
        · rw [h]
          exact v4 (l.getD i default) (getD_mem hi) (Or.inr ⟨trivial, rfl⟩)
      · exact hf.elim
    · rw [if_neg e]
      intro hthr
      obtain ⟨n, v1, v2, v3, v4⟩ := hInv.vd k hk hthr
      have hu : in_union { l.getD i default with allocated_core := (r : Int) + 1 } ((k : Int) + 1)
          n ↔ in_union (l.getD i default) ((k : Int) + 1) n := by
        unfold in_union
        constructor
        · rintro (h | h)
          · have h' : (r : Int) + 1 = (k : Int) + 1 := h
            omega
          · exact Or.inr h
        · rintro (h | h)
          · exact absurd h (hne k)
          · exact Or.inr h
      obtain ⟨e1, e2⟩ := edfvd_condition_realloc l i hi ((r : Int) + 1) L ((k : Int) + 1)
        n (core.getD k default).threshold_criticality hu
      refine ⟨n, v1, v2, by rw [e1]; exact v3, ?_⟩
      intro τ hτ hc
      rw [e2]
      rcases hc with hc | ⟨hf, _⟩
      · rcases mem_realloc hτ with h | h
        · exact v4 τ h (Or.inl hc)
        · rw [h] at hc
          have h' : (r : Int) + 1 = (k : Int) + 1 := hc
          omega
      · exact hf.elim

/-- Allocating the unallocated task `i` to a core that accepted it keeps the feasibility
record. -/
theorem Cap_allocate {L : Int} {core : List Cores} {l : List Tasks} (hInv : Inv L core l)
    (hCap : Cap L core l) (hWF : WF L l) {i : Nat} (hi : i < l.length)
    (hun : (l.getD i default).allocated_core = NOT_ALLOCATED) {r : Nat} (hr : r < MAX_CORES)
    (hacc : (l.getD i default).util_own + (core.getD r default).utilization ≤ 1 ∨
      ∃ t : Int, 1 ≤ t ∧ t ≤ L - 1 ∧
        edfvd_condition l L ((r : Int) + 1) (l.getD i default).task_no t = true) :
    Cap L (allocate_task_to_core core l (r : Int) (i : Int)).1
      (allocate_task_to_core core l (r : Int) (i : Int)).2 := by
  rw [allocate_task_to_core_cores, allocate_task_to_core_tasks, hInv.core_no r hr]
  have hlen : r < core.length := by rw [hInv.len]; exact hr
  have hne : ∀ k : Nat, ¬ (l.getD i default).allocated_core = (k : Int) + 1 := by
    intro k
    rw [hun]
    unfold NOT_ALLOCATED
    omega
  intro k hk
  rw [cores_getD_set core r k hlen]
  by_cases e : k = r
  · rw [if_pos e, e]
    rcases hacc with h | ⟨t, t1, t2, t3⟩
    · left
      show (core.getD r default).utilization + (l.getD i default).util_own ≤ 1
      linarith
    · right
      have hu : in_union { l.getD i default with allocated_core := (r : Int) + 1 } ((r : Int) + 1)
          (l.getD i default).task_no ↔
          in_union (l.getD i default) ((r : Int) + 1) (l.getD i default).task_no :=
        ⟨fun _ => Or.inr rfl, fun _ => Or.inr rfl⟩
      obtain ⟨e1, _⟩ := edfvd_condition_realloc l i hi ((r : Int) + 1) L ((r : Int) + 1)
        (l.getD i default).task_no t hu
      refine ⟨t, (l.getD i default).task_no, t1, t2, by rw [e1]; exact t3, ?_⟩
      intro τ hτ hno
      rw [realloc_task_no_unique hWF hi _ hτ hno]
  · rw [if_neg e]
    rcases hCap k hk with h | ⟨t, n, t1, t2, t3, t4⟩
    · exact Or.inl h
    · right
      have hu : in_union { l.getD i default with allocated_core := (r : Int) + 1 } ((k : Int) + 1)
          n ↔ in_union (l.getD i default) ((k : Int) + 1) n := by
        unfold in_union
        constructor
        · rintro (h | h)
          · have h' : (r : Int) + 1 = (k : Int) + 1 := h
            omega
          · exact Or.inr h
        · rintro (h | h)
          · exact absurd h (hne k)
          · exact Or.inr h
      obtain ⟨e1, _⟩ := edfvd_condition_realloc l i hi ((r : Int) + 1) L ((k : Int) + 1) n t hu
      refine ⟨t, n, t1, t2, by rw [e1]; exact t3, ?_⟩
      intro τ hτ hno
      rcases mem_realloc hτ with h | h
      · exact t4 τ h hno
      · rw [h] at hno
        have := t4 (l.getD i default) (getD_mem hi) hno
        exact absurd this (hne k)

theorem Cap_of_fields {L : Int} {core core' : List Cores} {l l' : List Tasks}
    (hCap : Cap L core l) (hve : vd_equiv l l')
    (h : ∀ k : Nat, k < MAX_CORES →
      (core'.getD k default).utilization = (core.getD k default).utilization) :
    Cap L core' l' := by
  intro k hk
  rw [h k hk]
  rcases hCap k hk with h1 | ⟨t, n, t1, t2, t3, t4⟩
  · exact Or.inl h1
  · right
    refine ⟨t, n, t1, t2, by rw [edfvd_condition_vd_equiv hve]; exact t3, ?_⟩
    intro τ' hτ' hno
    obtain ⟨τ, hτ, e⟩ := vd_equiv_mem hve τ' hτ'
    rw [erase_vd_eq_iff] at e
    rw [e.2.2.2.2.2.2.2]
    exact t4 τ hτ (by rw [← e.1]; exact hno)

/-- Utilisations of the cores are determined by the invariant, so two core arrays that
satisfy it for arrays differing in virtual deadlines agree on them. -/
theorem Inv_utilization_eq {L : Int} {core core' : List Cores} {l l' : List Tasks}
    (hInv : Inv L core l) (hInv' : Inv L core' l') (hve : vd_equiv l l') (k : Nat)
    (hk : k < MAX_CORES) :
    (core'.getD k default).utilization = (core.getD k default).utilization := by
  rw [hInv.util k hk, hInv'.util k hk]
  exact csum_vd_equiv hve _ _ (fun _ => Iff.rfl) (fun _ => rfl)

/-! ## Placing one task -/

theorem stat_equiv_refl (l : List Tasks) : stat_equiv l l := rfl

theorem stat_equiv_trans {l1 l2 l3 : List Tasks} (h1 : stat_equiv l1 l2) (h2 : stat_equiv l2 l3) :
    stat_equiv l1 l3 := by
  unfold stat_equiv at *
  rw [h2, h1]

theorem stat_equiv_of_vd_equiv {l l' : List Tasks} (h : vd_equiv l l') : stat_equiv l l' := by
  unfold stat_equiv
  have e : ∀ m : List Tasks, m.map erase_dyn = (m.map erase_vd).map erase_dyn := by
    intro m
    rw [List.map_map]
    rfl
  rw [e l', e l, h]

theorem stat_equiv_realloc (l : List Tasks) (i : Nat) (cn : Int) : stat_equiv l (realloc l i cn) := by
  unfold stat_equiv
  apply List.ext_getElem
  · simp [realloc]
  · intro k h1 h2
    simp only [List.getElem_map, realloc, List.getElem_set]
    have hk : k < l.length := by simpa using h2
    by_cases e : i = k
    · subst e
      simp [List.getD_eq_getElem?_getD, List.getElem?_eq_getElem hk, erase_dyn]
    · simp [e]

theorem stat_equiv_length {l l' : List Tasks} (h : stat_equiv l l') : l'.length = l.length := by
  have := congrArg List.length h
  simpa using this

theorem erase_dyn_eq_iff (a b : Tasks) :
    erase_dyn a = erase_dyn b ↔
      (a.task_no = b.task_no ∧ a.phase = b.phase ∧ a.period = b.period ∧ a.wcet = b.wcet ∧
        a.criticality = b.criticality ∧ a.deadline = b.deadline ∧
        a.utilization = b.utilization) := by
  cases a
  cases b
  simp [erase_dyn]

theorem stat_equiv_getD {l l' : List Tasks} (h : stat_equiv l l') (i : Nat) :
    erase_dyn (l'.getD i default) = erase_dyn (l.getD i default) := by
  have h1 : (l'.map erase_dyn).getD i default = (l.map erase_dyn).getD i default := by rw [h]
  have hd : erase_dyn (default : Tasks) = default := rfl
  have hid : ∀ t : Tasks, erase_dyn (erase_dyn t) = erase_dyn t := fun _ => rfl
  simp only [List.getD_eq_getElem?_getD, List.getElem?_map] at h1 ⊢
  cases h2 : l'[i]? <;> cases h3 : l[i]? <;> simp_all

theorem stat_equiv_mem {l l' : List Tasks} (h : stat_equiv l l') (t' : Tasks) (ht : t' ∈ l') :
    ∃ t ∈ l, erase_dyn t' = erase_dyn t := by
  have h1 : erase_dyn t' ∈ l'.map erase_dyn := List.mem_map_of_mem _ ht
  rw [h] at h1
  obtain ⟨t, ht1, ht2⟩ := List.mem_map.mp h1
  exact ⟨t, ht1, ht2.symm⟩

theorem select_core_inv {L : Int} (wfd : Int) {i : Nat} {s : Alloc_state} (hS : SInv L s)
    (hnc : s.num_cores ≤ (MAX_CORES : Int)) (hi : i < s.tasks_arr.length)
    (hun : (s.tasks_arr.getD i default).allocated_core = NOT_ALLOCATED) :
    vd_equiv s.tasks_arr (select_core L wfd (i : Int) s).2.2 ∧
    Inv L (select_core L wfd (i : Int) s).2.1 (select_core L wfd (i : Int) s).2.2 ∧
    Best L (select_core L wfd (i : Int) s).2.1 (select_core L wfd (i : Int) s).2.2 i
      (select_core L wfd (i : Int) s).1 s.num_cores := by
  have key : ∀ core1 : List Cores, Inv L core1 s.tasks_arr →
      vd_equiv s.tasks_arr
        (if (task_at s.tasks_arr (i : Int)).criticality > wfd then
          get_worst_fit_core_idx core1 s.num_cores s.tasks_arr (i : Int) L
        else get_first_fit_core_idx core1 s.num_cores s.tasks_arr (i : Int) L).2.2 ∧
      Inv L
        (if (task_at s.tasks_arr (i : Int)).criticality > wfd then
          get_worst_fit_core_idx core1 s.num_cores s.tasks_arr (i : Int) L
        else get_first_fit_core_idx core1 s.num_cores s.tasks_arr (i : Int) L).2.1
        (if (task_at s.tasks_arr (i : Int)).criticality > wfd then
          get_worst_fit_core_idx core1 s.num_cores s.tasks_arr (i : Int) L
        else get_first_fit_core_idx core1 s.num_cores s.tasks_arr (i : Int) L).2.2 ∧
      Best L
        (if (task_at s.tasks_arr (i : Int)).criticality > wfd then
          get_worst_fit_core_idx core1 s.num_cores s.tasks_arr (i : Int) L
        else get_first_fit_core_idx core1 s.num_cores s.tasks_arr (i : Int) L).2.1
        (if (task_at s.tasks_arr (i : Int)).criticality > wfd then
          get_worst_fit_core_idx core1 s.num_cores s.tasks_arr (i : Int) L
        else get_first_fit_core_idx core1 s.num_cores s.tasks_arr (i : Int) L).2.2 i
        (if (task_at s.tasks_arr (i : Int)).criticality > wfd then
          get_worst_fit_core_idx core1 s.num_cores s.tasks_arr (i : Int) L
        else get_first_fit_core_idx core1 s.num_cores s.tasks_arr (i : Int) L).1 s.num_cores := by
    intro core1 h1
    split_ifs
    · exact get_worst_fit_core_idx_inv s.num_cores hnc h1 hS.wf hi hun
    · exact get_first_fit_core_idx_inv s.num_cores hnc h1 hS.wf hi hun
  have hcore1 : Inv L
      (if (i : Int) ≠ 0 ∧ (task_at s.tasks_arr ((i : Int) - 1)).criticality >
          (task_at s.tasks_arr (i : Int)).criticality then
        reset_core_capacities s.core s.num_cores s.tasks_arr
          (task_at s.tasks_arr (i : Int)).criticality (i : Int)
      else s.core) s.tasks_arr := by
    split_ifs
    · exact Inv_reset hS.inv _ _ _
    · exact hS.inv
  exact key _ hcore1

theorem Alloc_range_realloc {n n' : Int} {l l' : List Tasks} (hR : Alloc_range n l)
    (hve : vd_equiv l l') (i : Nat) (cn : Int) (hn : n ≤ n') (hcn : 1 ≤ cn ∧ cn ≤ n') :
    Alloc_range n' (realloc l' i cn) := by
  intro τ hτ
  rcases mem_realloc hτ with h | h
  · obtain ⟨τ0, hτ0, e⟩ := vd_equiv_mem hve τ h
    rw [erase_vd_eq_iff] at e
    rw [e.2.2.2.2.2.2.2]
    rcases hR τ0 hτ0 with h1 | h1
    · exact Or.inl h1
    · exact Or.inr ⟨h1.1, by omega⟩
  · rw [h]
    exact Or.inr hcn

/-- The part of `place_task` that follows the selection, for a selected core `m`. -/
theorem place_on_selected {L : Int} (lpd : Bool) {i m : Nat} {s : Alloc_state}
    {rc : List Cores} {rt : List Tasks} (hS : SInv L s) (hi : i < s.tasks_arr.length)
    (hun : (s.tasks_arr.getD i default).allocated_core = NOT_ALLOCATED)
    (hve : vd_equiv s.tasks_arr rt) (hInv2 : Inv L rc rt) (hm : (m : Int) < s.num_cores)
    (hnc : s.num_cores ≤ (MAX_CORES : Int)) (hAcc : Accepts L rc rt i m) :
    SInv L
      { num_cores := s.num_cores
        core := mark_core_type lpd (allocate_task_to_core rc rt (m : Int) (i : Int)).1 (m : Int)
        tasks_arr := (allocate_task_to_core rc rt (m : Int) (i : Int)).2 } ∧
    stat_equiv s.tasks_arr (allocate_task_to_core rc rt (m : Int) (i : Int)).2 ∧
    (∀ k : Nat, k ≠ i →
      ((allocate_task_to_core rc rt (m : Int) (i : Int)).2.getD k default).allocated_core
        = (s.tasks_arr.getD k default).allocated_core) ∧
    (Cap L s.core s.tasks_arr →
      Cap L (mark_core_type lpd (allocate_task_to_core rc rt (m : Int) (i : Int)).1 (m : Int))
        (allocate_task_to_core rc rt (m : Int) (i : Int)).2) := by
  have hm20 : m < MAX_CORES := by
    unfold MAX_CORES at hnc ⊢
    omega
  obtain ⟨hi', hun'⟩ := cand_vd_equiv hve hi hun
  have hWF' := WF_vd_equiv hve hS.wf
  have hInv3 := Inv_allocate hInv2 hi' hun' hm20 hAcc.1
  refine ⟨⟨Inv_mark_core_type hInv3 lpd _, ?_, hS.nc0, ?_⟩, ?_, ?_, ?_⟩
  · rw [allocate_task_to_core_tasks]
    exact WF_realloc hWF' i hi' _
  · rw [allocate_task_to_core_tasks, hInv2.core_no m hm20]
    show Alloc_range s.num_cores _
    exact Alloc_range_realloc hS.range hve i _ (le_refl _) ⟨by omega, by omega⟩
  · rw [allocate_task_to_core_tasks]
    exact stat_equiv_trans (stat_equiv_of_vd_equiv hve) (stat_equiv_realloc rt i _)
  · intro k hk
    rw [allocate_task_to_core_tasks, realloc_getD rt i hi', if_neg hk]
    have := vd_equiv_getD hve k
    rw [erase_vd_eq_iff] at this
    exact this.2.2.2.2.2.2.2
  · intro hCap
    have hCap2 : Cap L rc rt :=
      Cap_of_fields hCap hve (fun k hk => Inv_utilization_eq hS.inv hInv2 hve k hk)
    have hCap3 := Cap_allocate hInv2 hCap2 hWF' hi' hun' hm20 hAcc.2
    exact Cap_of_fields hCap3 (vd_equiv_refl _)
      (fun k _ => ((mark_core_type_fields lpd _ _).2 k).2.1)

/-- The part of `place_task` that opens a new core `m = num_cores`; `c'` is the record
written to the new core before the allocation. -/
theorem place_on_new {L : Int} (lpd : Bool) {i m : Nat} {s : Alloc_state}
    {rc : List Cores} {rt : List Tasks} (hS : SInv L s) (hi : i < s.tasks_arr.length)
    (hun : (s.tasks_arr.getD i default).allocated_core = NOT_ALLOCATED)
    (hve : vd_equiv s.tasks_arr rt) (hInv2 : Inv L rc rt) (hm : (m : Int) = s.num_cores)
    (hnc : s.num_cores + 1 ≤ (MAX_CORES : Int)) (c' : Cores)
    (hc1 : c'.core_no = (rc.getD m default).core_no)
    (hc2 : c'.utilization = (rc.getD m default).utilization)
    (hc3 : c'.threshold_criticality = L) :
    SInv L
      { num_cores := s.num_cores + 1
        core := mark_core_type lpd
          (allocate_task_to_core (rc.set m c') rt (m : Int) (i : Int)).1 (m : Int)
        tasks_arr := (allocate_task_to_core (rc.set m c') rt (m : Int) (i : Int)).2 } ∧
    stat_equiv s.tasks_arr (allocate_task_to_core (rc.set m c') rt (m : Int) (i : Int)).2 ∧
    (∀ k : Nat, k ≠ i →
      ((allocate_task_to_core (rc.set m c') rt (m : Int) (i : Int)).2.getD k default).allocated_core
        = (s.tasks_arr.getD k default).allocated_core) ∧
    (Cap L s.core s.tasks_arr → (s.tasks_arr.getD i default).util_own ≤ 1 →
      Cap L
        (mark_core_type lpd
          (allocate_task_to_core (rc.set m c') rt (m : Int) (i : Int)).1 (m : Int))
        (allocate_task_to_core (rc.set m c') rt (m : Int) (i : Int)).2) := by
  have hm20 : m < MAX_CORES := by
    unfold MAX_CORES at hnc ⊢
    omega
  have hlen : m < rc.length := by rw [hInv2.len]; exact hm20
  obtain ⟨hi', hun'⟩ := cand_vd_equiv hve hi hun
  have hWF' := WF_vd_equiv hve hS.wf
  have hInvA : Inv L (rc.set m { rc.getD m default with threshold_criticality := L }) rt :=
    Inv_update hInv2 (vd_equiv_refl rt) m hm20 L (fun h => absurd h (lt_irrefl L))
      (fun _ _ _ _ _ h => h)
  have hfields : ∀ k : Nat,
      ((rc.set m c').getD k default).core_no
        = ((rc.set m { rc.getD m default with threshold_criticality := L }).getD k default).core_no ∧
      ((rc.set m c').getD k default).utilization
        = ((rc.set m { rc.getD m default with
            threshold_criticality := L }).getD k default).utilization ∧
      ((rc.set m c').getD k default).threshold_criticality
        = ((rc.set m { rc.getD m default with
            threshold_criticality := L }).getD k default).threshold_criticality := by
    intro k
    rw [cores_getD_set rc m k hlen, cores_getD_set rc m k hlen]
    by_cases e : k = m
    · rw [if_pos e, if_pos e]
      exact ⟨hc1, hc2, hc3⟩
    · rw [if_neg e, if_neg e]
      exact ⟨rfl, rfl, rfl⟩
  have hInvB : Inv L (rc.set m c') rt := Inv_of_fields hInvA (by simp) hfields
  have hthr : ((rc.set m c').getD m default).threshold_criticality = L := by
    rw [cores_getD_set rc m m hlen, if_pos rfl]
    exact hc3
  have hInv3 := Inv_allocate hInvB hi' hun' hm20
    (fun h => absurd h (by rw [hthr]; exact lt_irrefl L))
  have hcn := hInvB.core_no m hm20
  refine ⟨⟨Inv_mark_core_type hInv3 lpd _, ?_, ?_, ?_⟩, ?_, ?_, ?_⟩
  · rw [allocate_task_to_core_tasks]
    exact WF_realloc hWF' i hi' _
  · show 0 ≤ s.num_cores + 1
    have := hS.nc0
    omega
  · rw [allocate_task_to_core_tasks, hcn]
    show Alloc_range (s.num_cores + 1) _
    exact Alloc_range_realloc hS.range hve i _ (by omega) ⟨by omega, by omega⟩
  · rw [allocate_task_to_core_tasks]
    exact stat_equiv_trans (stat_equiv_of_vd_equiv hve) (stat_equiv_realloc rt i _)
  · intro k hk
    rw [allocate_task_to_core_tasks, realloc_getD rt i hi', if_neg hk]
    have := vd_equiv_getD hve k
    rw [erase_vd_eq_iff] at this
    exact this.2.2.2.2.2.2.2
  · intro hCap hu1
    have hCap2 : Cap L (rc.set m c') rt :=
      Cap_of_fields hCap hve (fun k hk => Inv_utilization_eq hS.inv hInvB hve k hk)
    have hzero : ((rc.set m c').getD m default).utilization = 0 := by
      rw [hInvB.util m hm20]
      apply csum_false
      intro τ hτ hc
      obtain ⟨τ0, hτ0, e⟩ := vd_equiv_mem hve τ hτ
      rw [erase_vd_eq_iff] at e
      rw [e.2.2.2.2.2.2.2] at hc
      rcases hS.range τ0 hτ0 with h1 | h1
      · rw [h1] at hc
        unfold NOT_ALLOCATED at hc
        omega
      · omega
    have hu2 : (rt.getD i default).util_own = (s.tasks_arr.getD i default).util_own := by
      have := vd_equiv_getD hve i
      rw [erase_vd_eq_iff] at this
      unfold Tasks.util_own Tasks.util
      rw [this.2.2.2.2.1, this.2.2.2.2.2.2.1]
    have hCap3 := Cap_allocate hInvB hCap2 hWF' hi' hun' hm20
      (Or.inl (by rw [hzero, hu2]; linarith))
    exact Cap_of_fields hCap3 (vd_equiv_refl _)
      (fun k _ => ((mark_core_type_fields lpd _ _).2 k).2.1)

/-- One call of `place_task` that returns normally keeps the invariant of the allocator
state, changes no static task parameter, allocates only task `i`, and keeps the
feasibility record when task `i` has own-level utilisation at most 1. -/
theorem place_task_inv {L : Int} (lpd : Bool) (wfd : Int) {i : Nat} {s s' : Alloc_state}
    (hS : SInv L s) (hi : i < s.tasks_arr.length)
    (hun : (s.tasks_arr.getD i default).allocated_core = NOT_ALLOCATED)
    (h : place_task lpd L wfd (i : Int) s = Except.ok s')
    (hle : s'.num_cores ≤ (MAX_CORES : Int)) :
    SInv L s' ∧ s.num_cores ≤ s'.num_cores ∧ stat_equiv s.tasks_arr s'.tasks_arr ∧
    (∀ k : Nat, k ≠ i →
      (s'.tasks_arr.getD k default).allocated_core = (s.tasks_arr.getD k default).allocated_core) ∧
    (Cap L s.core s.tasks_arr → (s.tasks_arr.getD i default).util_own ≤ 1 →
      Cap L s'.core s'.tasks_arr) := by
  unfold place_task at h
  simp only [] at h
  by_cases c1 : (select_core L wfd (i : Int) s).1 ≥ 0 ∧
      (select_core L wfd (i : Int) s).1 < s.num_cores
  · rw [if_pos c1] at h
    have h' := Except.ok.inj h
    have hnc : s.num_cores ≤ (MAX_CORES : Int) := by
      rw [← h'] at hle
      exact hle
    obtain ⟨hve, hInv2, hB⟩ := select_core_inv wfd hS hnc hi hun
    rcases hB with hB | ⟨b1, b2, b3⟩
    · omega
    · obtain ⟨m, hm⟩ := Int.eq_ofNat_of_zero_le b1
      have hmt : (select_core L wfd (i : Int) s).1.toNat = m := by omega
      rw [hmt] at b3
      rw [hm] at h' b2
      obtain ⟨p1, p2, p3, p4⟩ := place_on_selected lpd hS hi hun hve hInv2 b2 hnc b3
      rw [← h']
      exact ⟨p1, le_refl _, p2, p3, fun hC _ => p4 hC⟩
  · rw [if_neg c1] at h
    by_cases c2 : s.num_cores + 1 > (MAX_CORES : Int)
    · rw [if_pos c2] at h
      cases h
    · rw [if_neg c2] at h
      have h' := Except.ok.inj h
      have hnc1 : s.num_cores + 1 ≤ (MAX_CORES : Int) := not_lt.mp c2
      have hnc : s.num_cores ≤ (MAX_CORES : Int) := by omega
      obtain ⟨hve, hInv2, _⟩ := select_core_inv wfd hS hnc hi hun
      obtain ⟨m, hm⟩ := Int.eq_ofNat_of_zero_le hS.nc0
      have hidx : s.num_cores + 1 - 1 = (m : Int) := by omega
      rw [hidx] at h'
      have hmt : ((m : Int)).toNat = m := by omega
      rw [hmt, core_at_eq, hmt] at h'
      obtain ⟨p1, p2, p3, p4⟩ := place_on_new lpd hS hi hun hve hInv2 hm.symm hnc1
        { (select_core L wfd (i : Int) s).2.1.getD m default with
          remaining_capacity := 1
          threshold_criticality := L } rfl rfl rfl
      rw [← h']
      exact ⟨p1, by show s.num_cores ≤ s.num_cores + 1; omega, p2, p3, p4⟩

/-! ## The two allocation loops -/

theorem place_task_mono (lpd : Bool) (L wfd i : Int) (s s' : Alloc_state)
    (h : place_task lpd L wfd i s = Except.ok s') : s.num_cores ≤ s'.num_cores := by
  unfold place_task at h
  simp only [] at h
  split_ifs at h
  · have h' := Except.ok.inj h
    rw [← h']
  · have h' := Except.ok.inj h
    rw [← h']
    show s.num_cores ≤ s.num_cores + 1
    omega

theorem lpd_alloc_loop_mono (L wfd : Int) :
    ∀ (n : Nat) (i : Int) (s s' : Alloc_state),
      lpd_alloc_loop L wfd n i s = Except.ok s' → s.num_cores ≤ s'.num_cores := by
  intro n
  induction n with
  | zero =>
    intro i s s' h
    rw [lpd_alloc_loop] at h
    rw [← Except.ok.inj h]
  | succ n ih =>
    intro i s s' h
    rw [lpd_alloc_loop] at h
    split_ifs at h
    · cases hp : place_task true L wfd i s with
      | error e =>
        rw [hp] at h
        cases h
      | ok s1 =>
        rw [hp] at h
        exact le_trans (place_task_mono _ _ _ _ _ _ hp) (ih _ _ _ h)
    · exact ih _ _ _ h

theorem remaining_alloc_loop_mono (L wfd : Int) :
    ∀ (n : Nat) (i : Int) (s s' : Alloc_state),
      remaining_alloc_loop L wfd n i s = Except.ok s' → s.num_cores ≤ s'.num_cores := by
  intro n
  induction n with
  | zero =>
    intro i s s' h
    rw [remaining_alloc_loop] at h
    rw [← Except.ok.inj h]
  | succ n ih =>
    intro i s s' h
    rw [remaining_alloc_loop] at h
    split_ifs at h
    · cases hp : place_task false L wfd i s with
      | error e =>
        rw [hp] at h
        cases h
      | ok s1 =>
        rw [hp] at h
        exact le_trans (place_task_mono _ _ _ _ _ _ hp) (ih _ _ _ h)
    · exact ih _ _ _ h

theorem util_own_le_stat_equiv {l l' : List Tasks} (h : stat_equiv l l')
    (hu : ∀ τ ∈ l, τ.util_own ≤ 1) : ∀ τ ∈ l', τ.util_own ≤ 1 := by
  intro τ' hτ'
  obtain ⟨τ, hτ, e⟩ := stat_equiv_mem h τ' hτ'
  rw [erase_dyn_eq_iff] at e
  have : τ'.util_own = τ.util_own := by
    unfold Tasks.util_own Tasks.util
    rw [e.2.2.2.2.1, e.2.2.2.2.2.2]
  rw [this]
  exact hu τ hτ

/-- The low-period loop keeps the invariant of the allocator state. -/
theorem lpd_alloc_loop_inv {L : Int} (wfd : Int) :
    ∀ (n i : Nat) (s s' : Alloc_state), SInv L s →
      (∀ k : Nat, i ≤ k → k < s.tasks_arr.length →
        (s.tasks_arr.getD k default).allocated_core = NOT_ALLOCATED) →
      i + n ≤ s.tasks_arr.length →
      lpd_alloc_loop L wfd n (i : Int) s = Except.ok s' →
      s'.num_cores ≤ (MAX_CORES : Int) →
      SInv L s' ∧ stat_equiv s.tasks_arr s'.tasks_arr ∧
      (Cap L s.core s.tasks_arr → (∀ τ ∈ s.tasks_arr, τ.util_own ≤ 1) →
        Cap L s'.core s'.tasks_arr) := by
  intro n
  induction n with
  | zero =>
    intro i s s' hS _ _ h _
    rw [lpd_alloc_loop] at h
    rw [← Except.ok.inj h]
    exact ⟨hS, stat_equiv_refl _, fun hC _ => hC⟩
  | succ n ih =>
    intro i s s' hS hun hlen h hle
    rw [lpd_alloc_loop] at h
    have hcast : ((i : Int) + 1) = ((i + 1 : Nat) : Int) := by push_cast; ring
    rw [hcast] at h
    split_ifs at h
    · cases hp : place_task true L wfd (i : Int) s with
      | error e =>
        rw [hp] at h
        cases h
      | ok s1 =>
        rw [hp] at h
        have hmono := lpd_alloc_loop_mono L wfd n _ s1 s' h
        obtain ⟨q1, _, q3, q4, q5⟩ := place_task_inv true wfd hS (by omega)
          (hun i (le_refl _) (by omega)) hp (by omega)
        have hl1 := stat_equiv_length q3
        obtain ⟨r1, r2, r3⟩ := ih (i + 1) s1 s' q1
          (by
            intro k hk1 hk2
            rw [q4 k (by omega)]
            exact hun k (by omega) (by omega))
          (by omega) h hle
        refine ⟨r1, stat_equiv_trans q3 r2, ?_⟩
        intro hC hu
        exact r3 (q5 hC (hu _ (getD_mem (by omega)))) (util_own_le_stat_equiv q3 hu)
    · exact ih (i + 1) s s' hS (fun k hk1 hk2 => hun k (by omega) hk2) (by omega) h hle

/-- The loop over the remaining tasks keeps the invariant of the allocator state. -/
theorem remaining_alloc_loop_inv {L : Int} (wfd : Int) :
    ∀ (n i : Nat) (s s' : Alloc_state), SInv L s →
      i + n ≤ s.tasks_arr.length →
      remaining_alloc_loop L wfd n (i : Int) s = Except.ok s' →
      s'.num_cores ≤ (MAX_CORES : Int) →
      SInv L s' ∧ stat_equiv s.tasks_arr s'.tasks_arr ∧
      (Cap L s.core s.tasks_arr → (∀ τ ∈ s.tasks_arr, τ.util_own ≤ 1) →
        Cap L s'.core s'.tasks_arr) := by
  intro n
  induction n with
  | zero =>
    intro i s s' hS _ h _
    rw [remaining_alloc_loop] at h
    rw [← Except.ok.inj h]
    exact ⟨hS, stat_equiv_refl _, fun hC _ => hC⟩
  | succ n ih =>
    intro i s s' hS hlen h hle
    rw [remaining_alloc_loop] at h
    have hcast : ((i : Int) + 1) = ((i + 1 : Nat) : Int) := by push_cast; ring
    rw [hcast] at h
    split_ifs at h with hun
    · cases hp : place_task false L wfd (i : Int) s with
      | error e =>
        rw [hp] at h
        cases h
      | ok s1 =>
        rw [hp] at h
        have hmono := remaining_alloc_loop_mono L wfd n _ s1 s' h
        rw [task_at_natCast] at hun
        obtain ⟨q1, _, q3, _, q5⟩ := place_task_inv false wfd hS (by omega) hun hp (by omega)
        have hl1 := stat_equiv_length q3
        obtain ⟨r1, r2, r3⟩ := ih (i + 1) s1 s' q1 (by omega) h hle
        refine ⟨r1, stat_equiv_trans q3 r2, ?_⟩
        intro hC hu
        exact r3 (q5 hC (hu _ (getD_mem (by omega)))) (util_own_le_stat_equiv q3 hu)
    · exact ih (i + 1) s s' hS (by omega) h hle

/-! ## The invariant holds in every state of a run -/

theorem initialize_cores_offline_getD (L : Int) (j : Nat) (hj : j < MAX_CORES) :
    (initialize_cores_offline L).getD j default = initial_core L j := by
  unfold initialize_cores_offline
  rw [List.getD_eq_getElem _ _ (by simpa using hj)]
  simp

theorem Inv_initial (L : Int) (l : List Tasks)
    (hun : ∀ t ∈ l, t.allocated_core = NOT_ALLOCATED) :
    Inv L (initialize_cores_offline L) l := by
  constructor
  · simp [initialize_cores_offline]
  · intro j hj
    rw [initialize_cores_offline_getD L j hj]
    rfl
  · intro j hj
    rw [initialize_cores_offline_getD L j hj]
    symm
    apply csum_false
    intro t ht hc
    rw [hun t ht] at hc
    unfold NOT_ALLOCATED at hc
    omega
  · intro j hj h
    rw [initialize_cores_offline_getD L j hj] at h
    have h' : L + 1 < L := h
    omega

theorem Cap_initial (L : Int) (l : List Tasks) : Cap L (initialize_cores_offline L) l := by
  intro j hj
  left
  rw [initialize_cores_offline_getD L j hj]
  show (0 : ℚ) ≤ 1
  norm_num

theorem SInv_initial (L : Int) (l : List Tasks) (n : Int) (hn : 0 ≤ n)
    (hun : ∀ t ∈ l, t.allocated_core = NOT_ALLOCATED) (hWF : WF L l) :
    SInv L { num_cores := n, core := initialize_cores_offline L, tasks_arr := l } :=
  ⟨Inv_initial L l hun, hWF, hn, fun τ hτ => Or.inl (hun τ hτ)⟩

/-- Invariant of the states of the low-period phase. -/
theorem lpd_phase_steps_inv {L : Int} {l : List Tasks}
    (hun : ∀ t ∈ l, t.allocated_core = NOT_ALLOCATED) (hWF : WF L l) (n : Nat)
    (hn : n ≤ l.length) {s : Alloc_state} (h : lpd_phase_steps l L n = Except.ok s)
    (hle : s.num_cores ≤ (MAX_CORES : Int)) :
    SInv L s ∧ stat_equiv l s.tasks_arr ∧
    ((∀ τ ∈ l, τ.util_own ≤ 1) → Cap L s.core s.tasks_arr) := by
  unfold lpd_phase_steps at h
  simp only [] at h
  split_ifs at h with hpos
  · have hS0 : SInv L (lpd_start l L) := by
      unfold lpd_start
      apply SInv_initial L l _ _ hun hWF
      exact Int.ceil_nonneg (le_of_lt hpos)
    obtain ⟨r1, r2, r3⟩ := lpd_alloc_loop_inv _ n 0 (lpd_start l L) s hS0
      (fun k _ hk => hun _ (getD_mem hk)) (by simpa [lpd_start] using hn)
      (by simpa using h) hle
    exact ⟨r1, r2, fun hu => r3 (Cap_initial L l) hu⟩
  · rw [← Except.ok.inj h]
    exact ⟨SInv_initial L l 0 (le_refl _) hun hWF, stat_equiv_refl _, fun _ => Cap_initial L l⟩

/-- Invariant of the states of the second phase. -/
theorem remaining_phase_steps_inv {L : Int} {l : List Tasks} (min_cores : Int)
    {sA : Alloc_state} (hSA : SInv L sA) (hlen : sA.tasks_arr.length = l.length) (n : Nat)
    (hn : n ≤ l.length) {s : Alloc_state}
    (h : remaining_phase_steps l min_cores L sA n = Except.ok s)
    (hle : s.num_cores ≤ (MAX_CORES : Int)) :
    SInv L s ∧ stat_equiv sA.tasks_arr s.tasks_arr ∧ sA.num_cores ≤ s.num_cores ∧
    (Cap L sA.core sA.tasks_arr → (∀ τ ∈ sA.tasks_arr, τ.util_own ≤ 1) →
      Cap L s.core s.tasks_arr) := by
  unfold remaining_phase_steps at h
  simp only [] at h
  have hmono := remaining_alloc_loop_mono _ _ _ _ _ _ h
  have hS0 : SInv L
      { sA with num_cores := if sA.num_cores < min_cores then min_cores else sA.num_cores } := by
    refine ⟨hSA.inv, hSA.wf, ?_, ?_⟩
    · show 0 ≤ (if sA.num_cores < min_cores then min_cores else sA.num_cores)
      have := hSA.nc0
      split_ifs <;> omega
    · intro τ hτ
      rcases hSA.range τ hτ with h1 | h1
      · exact Or.inl h1
      · right
        refine ⟨h1.1, ?_⟩
        show τ.allocated_core ≤ (if sA.num_cores < min_cores then min_cores else sA.num_cores)
        split_ifs <;> omega
  obtain ⟨r1, r2, r3⟩ := remaining_alloc_loop_inv _ n 0 _ s hS0
    (by show 0 + n ≤ sA.tasks_arr.length; omega) (by simpa using h) hle
  refine ⟨r1, r2, ?_, r3⟩
  have h2 : (if sA.num_cores < min_cores then min_cores else sA.num_cores) ≤ s.num_cores := hmono
  split_ifs at h2 <;> omega

/-- Every state that a run of the allocator reaches before its `n`-th task, in either
phase, satisfies the invariant if it has at most `MAX_CORES` open cores. -/
theorem reachable_inv {L : Int} {l : List Tasks} (min_cores : Int)
    (hun : ∀ t ∈ l, t.allocated_core = NOT_ALLOCATED) (hWF : WF L l) (n : Nat)
    (hn : n ≤ l.length) {s : Alloc_state}
    (h : lpd_phase_steps l L n = Except.ok s ∨
      ∃ sA : Alloc_state, lpd_phase l L = Except.ok sA ∧
        remaining_phase_steps l min_cores L sA n = Except.ok s)
    (hle : s.num_cores ≤ (MAX_CORES : Int)) :
    SInv L s ∧ stat_equiv l s.tasks_arr ∧
    ((∀ τ ∈ l, τ.util_own ≤ 1) → Cap L s.core s.tasks_arr) := by
  rcases h with h | ⟨sA, hA, hB⟩
  · exact lpd_phase_steps_inv hun hWF n hn h hle
  · have hmono : sA.num_cores ≤ s.num_cores := by
      unfold remaining_phase_steps at hB
      simp only [] at hB
      have h2 : (if sA.num_cores < min_cores then min_cores else sA.num_cores) ≤ s.num_cores :=
        remaining_alloc_loop_mono _ _ _ _ _ _ hB
      split_ifs at h2 <;> omega
    obtain ⟨a1, a2, a3⟩ := lpd_phase_steps_inv hun hWF l.length (le_refl _) hA (by omega)
    obtain ⟨b1, b2, _, b4⟩ := remaining_phase_steps_inv min_cores a1 (stat_equiv_length a2) n hn
      hB hle
    exact ⟨b1, stat_equiv_trans a2 b2, fun hu => b4 (a3 hu) (util_own_le_stat_equiv a2 hu)⟩

/-! ## Arithmetic of the bounds on the shortening factor -/

theorem Dbl.div_fin (x y : ℚ) (hy : y ≠ 0) : Dbl.div (Dbl.fin x) (Dbl.fin y) = Dbl.fin (x / y) := by
  simp [Dbl.div, hy]

theorem Dbl.div_fin_zero (x : ℚ) :
    Dbl.div (Dbl.fin x) (Dbl.fin 0) =
      if 0 < x then Dbl.pinf else if x < 0 then Dbl.ninf else Dbl.nan := by
  simp [Dbl.div]

theorem Dbl.le_fin_fin (x y : ℚ) : Dbl.le (Dbl.fin x) (Dbl.fin y) = true ↔ x ≤ y := by
  simp [Dbl.le]

/-- If the bounds computed from the sums `a, b, c` admit a factor, the midpoint of those
bounds also lies within the bounds computed from smaller sums `a', b', c'`. -/
theorem bounds_widen (a b c a' b' c' : ℚ) (ha' : 0 ≤ a') (haa : a' ≤ a) (hb' : 0 ≤ b')
    (hbb : b' ≤ b) (hb1 : b < 1) (hcc : c' ≤ c) (hpos : 0 < c' → 0 < a')
    (hle : Dbl.le (Dbl.div (Dbl.fin a) (Dbl.fin (1 - b)))
      (Dbl.div (Dbl.fin (1 - c)) (Dbl.fin b)) = true) :
    Dbl.le (Dbl.div (Dbl.fin a') (Dbl.fin (1 - b')))
      (Dbl.div (Dbl.add (Dbl.div (Dbl.fin a) (Dbl.fin (1 - b)))
        (Dbl.div (Dbl.fin (1 - c)) (Dbl.fin b))) (Dbl.fin 2)) = true ∧
    Dbl.le
      (Dbl.div (Dbl.add (Dbl.div (Dbl.fin a) (Dbl.fin (1 - b)))
        (Dbl.div (Dbl.fin (1 - c)) (Dbl.fin b))) (Dbl.fin 2))
      (Dbl.div (Dbl.fin (1 - c')) (Dbl.fin b')) = true := by
  have h1b : (1 - b) ≠ 0 := by linarith
  have h1b' : (1 - b') ≠ 0 := by linarith
  have h1bp : 0 < 1 - b := by linarith
  have h1bp' : 0 < 1 - b' := by linarith
  have ha : 0 ≤ a := le_trans ha' haa
  have hlb : a' / (1 - b') ≤ a / (1 - b) :=
    div_le_div₀ ha haa h1bp (by linarith)
  have hlb0 : 0 ≤ a / (1 - b) := div_nonneg ha (le_of_lt h1bp)
  rw [Dbl.div_fin a (1 - b) h1b, Dbl.div_fin a' (1 - b') h1b'] at *
  by_cases hb0 : b = 0
  · subst hb0
    have hb'0 : b' = 0 := le_antisymm hbb hb'
    subst hb'0
    rw [Dbl.div_fin_zero] at hle ⊢
    by_cases hc : 0 < 1 - c
    · rw [if_pos hc] at hle ⊢
      have hc2 : 0 < 1 - c' := by linarith
      rw [Dbl.div_fin_zero, if_pos hc2]
      simp [Dbl.add, Dbl.div, Dbl.le]
    · rw [if_neg hc] at hle
      split_ifs at hle <;> simp [Dbl.le] at hle
  · have hbp : 0 < b := lt_of_le_of_ne (le_trans hb' hbb) (Ne.symm hb0)
    rw [Dbl.div_fin (1 - c) b hb0] at hle ⊢
    rw [Dbl.le_fin_fin] at hle
    have hc0 : 0 ≤ 1 - c := by
      have h2 : 0 ≤ (1 - c) / b := le_trans hlb0 hle
      by_contra hneg
      have : (1 - c) / b < 0 := div_neg_of_neg_of_pos (not_le.mp hneg) hbp
      linarith
    simp only [Dbl.add]
    rw [Dbl.div_fin _ 2 (by norm_num), Dbl.le_fin_fin]
    constructor
    · linarith
    · by_cases hb'0 : b' = 0
      · subst hb'0
        rw [Dbl.div_fin_zero]
        have hc2 : 0 < 1 - c' := by
          by_contra hneg
          have hc'1 : 0 < c' := by linarith
          have ha'p := hpos hc'1
          have hap : 0 < a := lt_of_lt_of_le ha'p haa
          have h3 : 0 < a / (1 - b) := div_pos hap h1bp
          have h4 : (1 - c) / b ≤ 0 := by
            apply div_nonpos_of_nonpos_of_nonneg _ (le_of_lt hbp)
            linarith
          linarith
        rw [if_pos hc2]
        simp [Dbl.le]
      · have hbp' : 0 < b' := lt_of_le_of_ne hb' (Ne.symm hb'0)
        rw [Dbl.div_fin _ b' hb'0, Dbl.le_fin_fin]
        have h5 : (1 - c) / b ≤ (1 - c') / b' :=
          div_le_div₀ (by linarith) (by linarith) hbp' hbb
        linarith

/-- If the bounds computed from the sums `a ≤ c` and `b < 1` admit a factor, then `c ≤ 1`
and `a + b ≤ 1`. -/
theorem bounds_feasible (a b c : ℚ) (ha : 0 ≤ a) (hac : a ≤ c) (hb : 0 ≤ b) (hb1 : b < 1)
    (hle : Dbl.le (Dbl.div (Dbl.fin a) (Dbl.fin (1 - b)))
      (Dbl.div (Dbl.fin (1 - c)) (Dbl.fin b)) = true) :
    c ≤ 1 ∧ a + b ≤ 1 := by
  have h1b : (1 - b) ≠ 0 := by linarith
  have h1bp : 0 < 1 - b := by linarith
  have hlb0 : 0 ≤ a / (1 - b) := div_nonneg ha (le_of_lt h1bp)
  rw [Dbl.div_fin a (1 - b) h1b] at hle
  by_cases hb0 : b = 0
  · subst hb0
    rw [Dbl.div_fin_zero] at hle
    by_cases hc : 0 < 1 - c
    · constructor <;> linarith
    · rw [if_neg hc] at hle
      split_ifs at hle <;> simp [Dbl.le] at hle
  · have hbp : 0 < b := lt_of_le_of_ne hb (Ne.symm hb0)
    rw [Dbl.div_fin (1 - c) b hb0, Dbl.le_fin_fin] at hle
    have hc0 : 0 ≤ 1 - c := by
      have h2 : 0 ≤ (1 - c) / b := le_trans hlb0 hle
      by_contra hneg
      have : (1 - c) / b < 0 := div_neg_of_neg_of_pos (not_le.mp hneg) hbp
      linarith
    constructor
    · linarith
    · have h3 : (1 - c) / b ≤ (1 - a) / b :=
        div_le_div_of_nonneg_right (by linarith) (le_of_lt hbp)
      have h4 : a / (1 - b) ≤ (1 - a) / b := le_trans hle h3
      rw [div_le_div_iff₀ h1bp hbp] at h4
      nlinarith

/-! ## Positive utilisations -/

theorem util_pos_of {t : Tasks} (h : Util_pos t) {k : Int} (h0 : 0 ≤ k) (hk : k < t.criticality) :
    0 < t.util k := by
  obtain ⟨h1, h2⟩ := h
  unfold Tasks.util
  rw [if_pos h0]
  have hlt : k.toNat < t.utilization.length := by omega
  rw [List.getD_eq_getElem _ _ hlt]
  exact h2 _ (List.getElem_mem hlt)

theorem Util_pos_stat_equiv {l l' : List Tasks} (h : stat_equiv l l')
    (hu : ∀ τ ∈ l, Util_pos τ) : ∀ τ ∈ l', Util_pos τ := by
  intro τ' hτ'
  obtain ⟨τ, hτ, e⟩ := stat_equiv_mem h τ' hτ'
  rw [erase_dyn_eq_iff] at e
  have := hu τ hτ
  unfold Util_pos at *
  rw [e.2.2.2.2.1, e.2.2.2.2.2.2]
  exact this

theorem csum_pos (l : List Tasks) (p : Tasks → Prop) [DecidablePred p] (f : Tasks → ℚ)
    (hf : ∀ t ∈ l, p t → 0 ≤ f t) (τ : Tasks) (hτ : τ ∈ l) (hp : p τ) (hpos : 0 < f τ) :
    0 < csum l p f := by
  induction l with
  | nil => exact absurd hτ (List.not_mem_nil _)
  | cons x xs ih =>
    rw [csum_cons]
    have hxs : 0 ≤ csum xs p f := csum_nonneg xs p f fun t ht => hf t (List.mem_cons_of_mem _ ht)
    have hx : 0 ≤ (if p x then f x else 0) := by
      split_ifs with hpx
      · exact hf x (List.mem_cons_self _ _) hpx
      · exact le_refl _
    rcases List.mem_cons.mp hτ with e | hmem
    · subst e
      rw [if_pos hp]
      linarith
    · have := ih (fun t ht => hf t (List.mem_cons_of_mem _ ht)) hmem
      linarith

theorem csum_exists_of_pos (l : List Tasks) (p : Tasks → Prop) [DecidablePred p] (f : Tasks → ℚ)
    (h : 0 < csum l p f) : ∃ τ ∈ l, p τ := by
  by_contra hne
  have h0 : csum l p f = 0 := csum_false l p f fun t ht hp => hne ⟨t, ht, hp⟩
  rw [h0] at h
  exact lt_irrefl _ h

/-- The bounds on the factor that a core's own tasks give are met by the midpoint that a
passed check computed for the core together with a candidate. -/
theorem bounds_of_check {L : Int} {l : List Tasks} (hcrit : ∀ t ∈ l, 1 ≤ t.criticality)
    (hpos : ∀ t ∈ l, Util_pos t) (cn n n0 thr : Int) (hthr : 1 ≤ thr)
    (hn0 : ∀ τ ∈ l, τ.task_no = n0 → τ.allocated_core = cn)
    (hcond : edfvd_condition l L cn n thr = true) :
    Dbl.le (x_lb l L cn n0 thr) (x_mid l L cn n thr) = true ∧
    Dbl.le (x_mid l L cn n thr) (x_ub l L cn n0 thr) = true := by
  unfold edfvd_condition at hcond
  rw [Bool.and_eq_true, decide_eq_true_eq] at hcond
  obtain ⟨hb1, hle⟩ := hcond
  have hsub : ∀ τ ∈ l, ∀ lo hi : Int,
      in_union τ cn n0 ∧ τ.criticality ≥ lo ∧ τ.criticality ≤ hi →
      in_union τ cn n ∧ τ.criticality ≥ lo ∧ τ.criticality ≤ hi := by
    intro τ hτ lo hi h
    refine ⟨Or.inl ?_, h.2⟩
    rcases h.1 with h1 | h1
    · exact h1
    · exact hn0 τ hτ h1
  have hown : ∀ τ ∈ l, 0 ≤ τ.util (τ.criticality - 1) := fun τ hτ =>
    le_of_lt (util_pos_of (hpos τ hτ) (by have := hcrit τ hτ; omega) (by omega))
  have hlev : ∀ τ ∈ l, τ.criticality ≥ thr + 1 → 0 < τ.util (thr + 1 - 1 - 1) := fun τ hτ h =>
    util_pos_of (hpos τ hτ) (by omega) (by omega)
  have ha' : 0 ≤ calculate_utilization_ulk l (thr + 1) L cn n0 := by
    rw [ulk_eq_csum]
    exact csum_nonneg _ _ _ fun τ hτ h => le_of_lt (hlev τ hτ h.2.1)
  have haa : calculate_utilization_ulk l (thr + 1) L cn n0 ≤
      calculate_utilization_ulk l (thr + 1) L cn n := by
    rw [ulk_eq_csum, ulk_eq_csum]
    exact csum_le _ _ _ _ _ (fun τ hτ h => hsub τ hτ _ _ h) (fun _ _ _ => le_refl _)
      fun τ hτ h => le_of_lt (hlev τ hτ h.2.1)
  have hb' : 0 ≤ calculate_utilization_ull l 1 thr cn n0 := by
    rw [ull_eq_csum]
    exact csum_nonneg _ _ _ fun τ hτ _ => hown τ hτ
  have hbb : calculate_utilization_ull l 1 thr cn n0 ≤ calculate_utilization_ull l 1 thr cn n := by
    rw [ull_eq_csum, ull_eq_csum]
    exact csum_le _ _ _ _ _ (fun τ hτ h => hsub τ hτ _ _ h) (fun _ _ _ => le_refl _)
      fun τ hτ _ => hown τ hτ
  have hcc : calculate_utilization_ull l (thr + 1) L cn n0 ≤
      calculate_utilization_ull l (thr + 1) L cn n := by
    rw [ull_eq_csum, ull_eq_csum]
    exact csum_le _ _ _ _ _ (fun τ hτ h => hsub τ hτ _ _ h) (fun _ _ _ => le_refl _)
      fun τ hτ _ => hown τ hτ
  have hp : 0 < calculate_utilization_ull l (thr + 1) L cn n0 →
      0 < calculate_utilization_ulk l (thr + 1) L cn n0 := by
    rw [ull_eq_csum, ulk_eq_csum]
    intro h
    obtain ⟨τ, hτ, hpτ⟩ := csum_exists_of_pos _ _ _ h
    exact csum_pos _ _ _ (fun t ht h => le_of_lt (hlev t ht h.2.1)) τ hτ hpτ (hlev τ hτ hpτ.2.1)
  exact bounds_widen _ _ _ _ _ _ ha' haa hb' hbb hb1 hcc hp hle

/-! ## Virtual deadlines after a run of the allocator -/

theorem returns_with_spec {r : Except Alloc_state Alloc_state} {p : Alloc_state → Bool}
    (h : returns_with r p = true) : ∃ s : Alloc_state, r = Except.ok s ∧ p s = true := by
  cases r with
  | error e => simp [returns_with] at h
  | ok s => exact ⟨s, rfl, h⟩

theorem Dbl.le_nan (x : Dbl) : Dbl.le x Dbl.nan = false := by
  cases x <;> rfl

/-- A successful run of the allocator ends in a state that the second phase reaches after
all of its iterations. -/
theorem offline_task_allocator_ok {tasks_arr : List Tasks} {min_cores L : Int} {s : Alloc_state}
    (h : offline_task_allocator tasks_arr min_cores L = Except.ok s) :
    ∃ sA : Alloc_state, lpd_phase tasks_arr L = Except.ok sA ∧
      remaining_phase_steps tasks_arr min_cores L sA tasks_arr.length = Except.ok s := by
  unfold offline_task_allocator at h
  cases hA : lpd_phase tasks_arr L with
  | error e =>
    rw [hA] at h
    cases h
  | ok sA =>
    rw [hA] at h
    exact ⟨sA, rfl, h⟩

theorem util_nonneg_of {t : Tasks} (h : Util_mono t) (k : Int) : 0 ≤ t.util k := by
  unfold Tasks.util
  split_ifs with h0
  · by_cases hlt : k.toNat < t.utilization.length
    · rw [List.getD_eq_getElem _ _ hlt]
      exact h.2.1 _ (List.getElem_mem hlt)
    · rw [List.getD_eq_default _ _ (not_lt.mp hlt)]
  · exact le_refl _

theorem util_mono_le {t : Tasks} (h : Util_mono t) {a b : Int} (h0 : 0 ≤ a) (hab : a ≤ b)
    (hb : b < t.criticality) : t.util a ≤ t.util b := by
  obtain ⟨h1, _, h3⟩ := h
  unfold Tasks.util
  rw [if_pos h0, if_pos (le_trans h0 hab)]
  have hbl : b.toNat < t.utilization.length := by omega
  have hal : a.toNat < t.utilization.length := by omega
  rw [List.getD_eq_getElem _ _ hal, List.getD_eq_getElem _ _ hbl]
  rcases eq_or_lt_of_le hab with e | hlt
  · subst e
    exact le_refl _
  · exact List.pairwise_iff_getElem.mp h3 a.toNat b.toNat hal hbl (by omega)

theorem util_le_own {t : Tasks} (h : Util_mono t) {k : Int} (hk : k ≤ t.criticality) :
    t.util (k - 1) ≤ t.util_own := by
  unfold Tasks.util_own
  by_cases h0 : 0 ≤ k - 1
  · exact util_mono_le h h0 (by omega) (by omega)
  · have e : t.util (k - 1) = 0 := by
      unfold Tasks.util
      rw [if_neg h0]
    rw [e]
    exact util_nonneg_of h _

theorem Util_mono_stat_equiv {l l' : List Tasks} (h : stat_equiv l l')
    (hu : ∀ τ ∈ l, Util_mono τ) : ∀ τ ∈ l', Util_mono τ := by
  intro τ' hτ'
  obtain ⟨τ, hτ, e⟩ := stat_equiv_mem h τ' hτ'
  rw [erase_dyn_eq_iff] at e
  have := hu τ hτ
  unfold Util_mono at *
  rw [e.2.2.2.2.1, e.2.2.2.2.2.2]
  exact this

theorem criticality_stat_equiv {l l' : List Tasks} (h : stat_equiv l l') :
    l'.map Tasks.criticality = l.map Tasks.criticality := by
  have e : ∀ m : List Tasks, m.map Tasks.criticality = (m.map erase_dyn).map Tasks.criticality := by
    intro m
    rw [List.map_map]
    rfl
  rw [e l', e l, h]

theorem foldl_cond_sub (l : List Tasks) (p : Tasks → Prop) [DecidablePred p] (f : Tasks → ℚ)
    (acc : ℚ) :
    l.foldl (fun s t => if p t then s - f t else s) acc = acc - csum l p f := by
  induction l generalizing acc with
  | nil => simp [csum_nil]
  | cons x xs ih =>
    rw [List.foldl_cons, ih, csum_cons]
    split_ifs <;> ring

theorem reset_capacity_eq_csum (c : Cores) (l : List Tasks) (criticality idx : Int) :
    reset_capacity c l criticality idx =
      1 - csum (l.take idx.toNat) (fun t => t.allocated_core = c.core_no)
        (fun t => t.util (criticality - 1)) := by
  unfold reset_capacity
  exact foldl_cond_sub _ _ _ 1

theorem csum_eq_filter_sum (l : List Tasks) (p : Tasks → Prop) [DecidablePred p] (f : Tasks → ℚ) :
    csum l p f = ((l.filter fun t => decide (p t)).map f).sum := by
  induction l with
  | nil => rfl
  | cons x xs ih =>
    rw [csum_cons, ih]
    by_cases hp : p x
    · simp [hp]
    · simp [hp]

theorem getD_map_take_of_lt (core : List Cores) (f : Cores → Cores) (n k : Nat) (hk : k < n)
    (hl : k < core.length) :
    ((core.take n).map f ++ core.drop n).getD k default = f (core.getD k default) := by
  induction core generalizing n k with
  | nil => simp at hl
  | cons c cs ih =>
    cases n with
    | zero => omega
    | succ n =>
      cases k with
      | zero => simp
      | succ k =>
        have := ih n k (by omega) (by simpa using hl)
        simpa using this

theorem reset_core_capacities_remaining (core : List Cores) (num_cores : Int) (l : List Tasks)
    (criticality idx : Int) (j : Nat) (hj : (j : Int) < num_cores) (hl : j < core.length) :
    (core_at (reset_core_capacities core num_cores l criticality idx) j).remaining_capacity =
      reset_capacity (core_at core j) l criticality idx := by
  have e1 : ∀ cs : List Cores, core_at cs (j : Int) = cs.getD j default := fun cs => by
    simp [core_at]
  rw [e1, e1]
  unfold reset_core_capacities
  rw [getD_map_take_of_lt _ _ _ _ (by omega) hl]

theorem util_le_of_le {t : Tasks} (h : Util_mono t) {a b : Int} (hab : a ≤ b)
    (hb : b < t.criticality) : t.util a ≤ t.util b := by
  by_cases h0 : 0 ≤ a
  · exact util_mono_le h h0 hab hb
  · have e : t.util a = 0 := by
      unfold Tasks.util
      rw [if_neg h0]
    rw [e]
    exact util_nonneg_of h _

/-- On a core that satisfies the feasibility record, the level-`k` utilisations of its
tasks of criticality at least `k` sum to at most 1. -/
theorem level_sum_le {L : Int} {core : List Cores} {l : List Tasks} (hInv : Inv L core l)
    (hCap : Cap L core l) (hcrit : ∀ t ∈ l, 1 ≤ t.criticality ∧ t.criticality ≤ L)
    (hmono : ∀ t ∈ l, Util_mono t) (j : Nat) (hj : j < MAX_CORES) (k : Int) :
    csum l (fun t => t.allocated_core = (j : Int) + 1 ∧ k ≤ t.criticality)
      (fun t => t.util (k - 1)) ≤ 1 := by
  have hown : ∀ τ ∈ l, 0 ≤ τ.util (τ.criticality - 1) := fun τ hτ => util_nonneg_of (hmono τ hτ) _
  rcases hCap j hj with h1 | ⟨t, n, t1, t2, hcond, hn⟩
  · rw [hInv.util j hj] at h1
    refine le_trans (csum_le _ _ _ _ _ (fun τ _ h => h.1)
      (fun τ hτ h => util_le_own (hmono τ hτ) h.2) (fun τ hτ _ => hown τ hτ)) h1
  · unfold edfvd_condition at hcond
    rw [Bool.and_eq_true, decide_eq_true_eq] at hcond
    obtain ⟨hb1, hle⟩ := hcond
    have hiu : ∀ τ ∈ l, τ.allocated_core = (j : Int) + 1 → in_union τ ((j : Int) + 1) n :=
      fun _ _ h => Or.inl h
    have ha : 0 ≤ calculate_utilization_ulk l (t + 1) L ((j : Int) + 1) n := by
      rw [ulk_eq_csum]
      exact csum_nonneg _ _ _ fun τ hτ _ => util_nonneg_of (hmono τ hτ) _
    have hac : calculate_utilization_ulk l (t + 1) L ((j : Int) + 1) n ≤
        calculate_utilization_ull l (t + 1) L ((j : Int) + 1) n := by
      rw [ulk_eq_csum, ull_eq_csum]
      exact csum_le _ _ _ _ _ (fun _ _ h => h)
        (fun τ hτ h => util_le_of_le (hmono τ hτ) (by omega) (by omega))
        (fun τ hτ _ => hown τ hτ)
    have hb : 0 ≤ calculate_utilization_ull l 1 t ((j : Int) + 1) n := by
      rw [ull_eq_csum]
      exact csum_nonneg _ _ _ fun τ hτ _ => hown τ hτ
    obtain ⟨hc1, hab⟩ := bounds_feasible _ _ _ ha hac hb hb1 hle
    by_cases hk : k ≤ t
    · have hsplit := csum_split l
        (fun τ => τ.allocated_core = (j : Int) + 1 ∧ k ≤ τ.criticality)
        (fun τ => τ.allocated_core = (j : Int) + 1 ∧ k ≤ τ.criticality ∧ t + 1 ≤ τ.criticality)
        (fun τ => τ.allocated_core = (j : Int) + 1 ∧ k ≤ τ.criticality ∧ τ.criticality ≤ t)
        (fun τ => τ.util (k - 1))
        (by
          intro τ _
          constructor
          · constructor
            · intro h
              by_cases hc : t + 1 ≤ τ.criticality
              · exact Or.inl ⟨h.1, h.2, hc⟩
              · exact Or.inr ⟨h.1, h.2, by omega⟩
            · intro h
              rcases h with h | h
              · exact ⟨h.1, h.2.1⟩
              · exact ⟨h.1, h.2.1⟩
          · intro h
            have h1 := h.1.2.2
            have h2 := h.2.2.2
            omega)
      rw [hsplit]
      have e1 : csum l
          (fun τ => τ.allocated_core = (j : Int) + 1 ∧ k ≤ τ.criticality ∧ t + 1 ≤ τ.criticality)
          (fun τ => τ.util (k - 1)) ≤ calculate_utilization_ulk l (t + 1) L ((j : Int) + 1) n := by
        rw [ulk_eq_csum]
        exact csum_le _ _ _ _ _
          (fun τ hτ h => ⟨hiu τ hτ h.1, h.2.2, (hcrit τ hτ).2⟩)
          (fun τ hτ h => util_le_of_le (hmono τ hτ) (by omega) (by have := h.2.2; omega))
          (fun τ hτ _ => util_nonneg_of (hmono τ hτ) _)
      have e2 : csum l
          (fun τ => τ.allocated_core = (j : Int) + 1 ∧ k ≤ τ.criticality ∧ τ.criticality ≤ t)
          (fun τ => τ.util (k - 1)) ≤ calculate_utilization_ull l 1 t ((j : Int) + 1) n := by
        rw [ull_eq_csum]
        exact csum_le _ _ _ _ _
          (fun τ hτ h => ⟨hiu τ hτ h.1, (hcrit τ hτ).1, h.2.2⟩)
          (fun τ hτ h => util_le_own (hmono τ hτ) h.2.1)
          (fun τ hτ _ => hown τ hτ)
      linarith
    · have e3 : csum l (fun τ => τ.allocated_core = (j : Int) + 1 ∧ k ≤ τ.criticality)
          (fun τ => τ.util (k - 1)) ≤ calculate_utilization_ull l (t + 1) L ((j : Int) + 1) n := by
        rw [ull_eq_csum]
        exact csum_le _ _ _ _ _
          (fun τ hτ h => ⟨hiu τ hτ h.1, by have := h.2; omega, (hcrit τ hτ).2⟩)
          (fun τ hτ h => util_le_own (hmono τ hτ) h.2)
          (fun τ hτ _ => hown τ hτ)
      linarith

/-- In an array sorted by decreasing criticality, the level utilisation of a core over the
tasks before index `i`, at the level of the task at index `i`, is bounded by the sum over
the core's tasks of at least that criticality. -/
theorem level_utilization_le_csum (l : List Tasks)
    (hsorted : (l.map Tasks.criticality).Pairwise fun a b => a ≥ b)
    (hmono : ∀ t ∈ l, Util_mono t) (i : Nat) (hi : i < l.length) (cn : Int) :
    level_utilization l cn (l.getD i default).criticality i ≤
      csum l (fun t => t.allocated_core = cn ∧ (l.getD i default).criticality ≤ t.criticality)
        (fun t => t.util ((l.getD i default).criticality - 1)) := by
  unfold level_utilization
  rw [← csum_eq_filter_sum (l.take i) (fun t => t.allocated_core = cn)]
  have hsplit : l = l.take i ++ l.drop i := (List.take_append_drop i l).symm
  have hpw := List.pairwise_map.mp hsorted
  rw [hsplit, List.pairwise_append] at hpw
  have hmem : l.getD i default ∈ l.drop i := by
    rw [List.getD_eq_getElem _ _ hi, List.drop_eq_getElem_cons hi]
    exact List.mem_cons_self _ _
  have hge : ∀ τ ∈ l.take i, (l.getD i default).criticality ≤ τ.criticality := fun τ hτ =>
    hpw.2.2 τ hτ _ hmem
  have e1 : csum (l.take i) (fun t => t.allocated_core = cn)
      (fun t => t.util ((l.getD i default).criticality - 1)) =
      csum (l.take i)
        (fun t => t.allocated_core = cn ∧ (l.getD i default).criticality ≤ t.criticality)
        (fun t => t.util ((l.getD i default).criticality - 1)) :=
    csum_congr _ _ _ _ _ (fun τ hτ => ⟨fun h => ⟨h, hge τ hτ⟩, fun h => h.1⟩) (fun _ _ _ => rfl)
  rw [e1]
  have e2 : csum l
      (fun t => t.allocated_core = cn ∧ (l.getD i default).criticality ≤ t.criticality)
      (fun t => t.util ((l.getD i default).criticality - 1)) =
      csum (l.take i)
        (fun t => t.allocated_core = cn ∧ (l.getD i default).criticality ≤ t.criticality)
        (fun t => t.util ((l.getD i default).criticality - 1)) +
      csum (l.drop i)
        (fun t => t.allocated_core = cn ∧ (l.getD i default).criticality ≤ t.criticality)
        (fun t => t.util ((l.getD i default).criticality - 1)) := by
    rw [← csum_append, List.take_append_drop]
  rw [e2]
  have e3 : 0 ≤ csum (l.drop i)
      (fun t => t.allocated_core = cn ∧ (l.getD i default).criticality ≤ t.criticality)
      (fun t => t.util ((l.getD i default).criticality - 1)) :=
    csum_nonneg _ _ _ fun τ hτ _ => util_nonneg_of (hmono τ (List.mem_of_mem_drop hτ)) _
  linarith

theorem Dbl.le_of_lt {a b : Dbl} (h : Dbl.lt a b = true) : Dbl.le a b = true := by
  cases a <;> cases b <;> simp [Dbl.lt, Dbl.le] at h ⊢
  exact h.le

theorem Dbl.lt_false_of_le {a b : Dbl} (h : Dbl.le a b = true) : Dbl.lt b a = false := by
  cases a <;> cases b <;> simp [Dbl.lt, Dbl.le] at h ⊢
  exact h

theorem Dbl.lt_of_lt_of_le {a b c : Dbl} (h1 : Dbl.lt a b = true) (h2 : Dbl.le b c = true) :
    Dbl.lt a c = true := by
  cases a <;> cases b <;> cases c <;> simp [Dbl.lt, Dbl.le] at h1 h2 ⊢
  exact h1.trans_le h2

theorem Dbl.lt_irrefl (a : Dbl) : Dbl.lt a a = false := by
  cases a <;> simp [Dbl.lt]

/-! ## Level below which jobs are discarded -/

/-- C15: `accept_above_criticality_level L t` is `L` when `L <= t` and `t + 1` otherwise;
its result never exceeds `L` nor `t + 1`. -/
theorem accept_above_criticality_level_spec (level threshold_criticality : Int) :
    (level ≤ threshold_criticality →
      accept_above_criticality_level level threshold_criticality = level) ∧
    (¬ level ≤ threshold_criticality →
      accept_above_criticality_level level threshold_criticality = threshold_criticality + 1) ∧
    accept_above_criticality_level level threshold_criticality ≤ level ∧
    accept_above_criticality_level level threshold_criticality ≤ threshold_criticality + 1 := by
  unfold accept_above_criticality_level
  split_ifs with h
  · exact ⟨fun _ => rfl, fun h' => absurd h h', le_refl _, by omega⟩
  · exact ⟨fun h' => absurd h' h, fun _ => rfl, by omega, le_refl _⟩

/-! ## Job creation -/

/-- C18: on an empty queue `schedule_next_job` returns a job with
`task_no = IDLE_TASK_NO = 0` and leaves the queue and its size as they are; on a non-empty
queue it returns a copy of the head job, the queue that remains is the former tail in the
same order, and the size has decreased by exactly 1. -/
theorem schedule_next_job_spec (head : RQ_HEAD) (next_job : Jobs) :
    (head.head_node = [] →
      (schedule_next_job head next_job).1.task_no = IDLE_TASK_NO ∧ IDLE_TASK_NO = 0 ∧
      (schedule_next_job head next_job).2 = head) ∧
    (∀ (temp : Jobs) (rest : List Jobs), head.head_node = temp :: rest →
      (schedule_next_job head next_job).1 = temp ∧
      (schedule_next_job head next_job).2.head_node = rest ∧
      (schedule_next_job head next_job).2.size = head.size - 1 ∧
      (schedule_next_job head next_job).2.parameter = head.parameter) := by
  constructor
  · intro h
    simp [schedule_next_job, h, IDLE_TASK_NO]
  · intro temp rest h
    simp [schedule_next_job, h, copy_job_structure]

/-! ## Insertion into a run queue -/

/-- The walk of `update_run_queue` splits the chain in two and puts the job between the
parts: no job of the first part has a deadline `>=` that of the job, and the second part
is empty or starts with a job whose deadline is `>=` that of the job. -/
theorem insert_walk_split (j : Jobs) (q : List Jobs) :
    ∃ l1 l2 : List Jobs, q = l1 ++ l2 ∧ insert_walk j q = l1 ++ j :: l2 ∧
      (∀ b ∈ l1, Dbl.le j.sched_deadline b.sched_deadline = false) ∧
      (∀ e ∈ l2.head?, Dbl.le j.sched_deadline e.sched_deadline = true) := by
  induction q with
  | nil => exact ⟨[], [], rfl, rfl, by simp, by simp⟩
  | cons temp rest ih =>
    by_cases h : Dbl.le j.sched_deadline temp.sched_deadline = true
    · refine ⟨[], temp :: rest, rfl, ?_, by simp, ?_⟩
      · simp [insert_walk, h]
      · intro e he
        simp only [List.head?_cons, Option.mem_def, Option.some.injEq] at he
        rw [← he]
        exact h
    · obtain ⟨l1, l2, h1, h2, h3, h4⟩ := ih
      refine ⟨temp :: l1, l2, by rw [h1]; rfl, ?_, ?_, h4⟩
      · simp [insert_walk, h, h2]
      · intro b hb
        rcases List.mem_cons.mp hb with e | hb
        · rw [e]
          simpa using h
        · exact h3 b hb

theorem update_run_queue_head_node (head : RQ_HEAD) (j : Jobs) :
    (update_run_queue head j).head_node = insert_walk j head.head_node := by
  unfold update_run_queue
  cases head.head_node <;> rfl

/-- In an ascending queue, no job behind one whose deadline is `>=` that of `j` has a
deadline strictly smaller than that of `j`. -/
theorem ascending_tail_not_lt (j : Jobs) (l2 : List Jobs) (h : ascending l2)
    (hhead : ∀ e ∈ l2.head?, Dbl.le j.sched_deadline e.sched_deadline = true) :
    ∀ c ∈ l2, Dbl.lt c.sched_deadline j.sched_deadline = false := by
  cases l2 with
  | nil => simp
  | cons e rest =>
    have he : Dbl.le j.sched_deadline e.sched_deadline = true := hhead e (by simp)
    intro c hc
    rcases List.mem_cons.mp hc with rfl | hc
    · exact Dbl.lt_false_of_le he
    · have h1 : Dbl.lt c.sched_deadline e.sched_deadline = false :=
        (List.pairwise_cons.mp h).1 c hc
      by_contra hne
      have hlt : Dbl.lt c.sched_deadline j.sched_deadline = true := by
        simpa using hne
      rw [Dbl.lt_of_lt_of_le hlt he] at h1
      exact Bool.noConfusion h1

/-- Position and order after an insertion into an ascending queue. -/
theorem insert_walk_ascending (j : Jobs) (q : List Jobs) (h : ascending q) :
    ∃ l1 l2 : List Jobs, q = l1 ++ l2 ∧ insert_walk j q = l1 ++ j :: l2 ∧
      (∀ b ∈ l1, Dbl.le j.sched_deadline b.sched_deadline = false) ∧
      (∀ c ∈ l2, Dbl.lt c.sched_deadline j.sched_deadline = false) ∧
      ascending (insert_walk j q) := by
  obtain ⟨l1, l2, h1, h2, h3, h4⟩ := insert_walk_split j q
  have hq : ascending (l1 ++ l2) := by
    rw [← h1]
    exact h
  unfold ascending at hq
  rw [List.pairwise_append] at hq
  have h5 := ascending_tail_not_lt j l2 hq.2.1 h4
  refine ⟨l1, l2, h1, h2, h3, h5, ?_⟩
  rw [h2]
  unfold ascending
  rw [List.pairwise_append]
  refine ⟨hq.1, List.pairwise_cons.mpr ⟨h5, hq.2.1⟩, ?_⟩
  intro a ha b hb
  rcases List.mem_cons.mp hb with rfl | hb
  · by_contra hne
    have hlt : Dbl.lt b.sched_deadline a.sched_deadline = true := by
      simpa using hne
    have h6 := h3 a ha
    rw [Dbl.le_of_lt hlt] at h6
    exact Bool.noConfusion h6
  · exact hq.2.2 a ha b hb

/-- For deadlines that are numbers, a queue is ascending exactly when every job has a
deadline `<=` that of every job behind it. -/
theorem ascending_iff_pairwise_le (q : List Jobs)
    (h : ∀ x ∈ q, x.sched_deadline ≠ Dbl.nan) :
    ascending q ↔ q.Pairwise fun a b => Dbl.le a.sched_deadline b.sched_deadline = true := by
  have key : ∀ a b : Dbl, a ≠ Dbl.nan → b ≠ Dbl.nan →
      (Dbl.lt b a = false ↔ Dbl.le a b = true) := by
    intro a b ha hb
    cases a <;> cases b <;> simp [Dbl.lt, Dbl.le] at ha hb ⊢
  unfold ascending
  induction q with
  | nil => simp
  | cons x xs ih =>
    have ih' := ih fun y hy => h y (List.mem_cons_of_mem _ hy)
    have hx := h x (List.mem_cons_self _ _)
    rw [List.pairwise_cons, List.pairwise_cons]
    constructor
    · rintro ⟨h1, h2⟩
      exact ⟨fun y hy => (key _ _ hx (h y (List.mem_cons_of_mem _ hy))).mp (h1 y hy),
        ih'.mp h2⟩
    · rintro ⟨h1, h2⟩
      exact ⟨fun y hy => (key _ _ hx (h y (List.mem_cons_of_mem _ hy))).mpr (h1 y hy),
        ih'.mpr h2⟩

/-- C16: for every run queue in ascending order of `sched_deadline` and every job `j`,
`update_run_queue` yields a queue that is again in ascending order and whose jobs are the
previous jobs, in their previous order, with `j` put in between; the size grows by 1. -/
theorem update_run_queue_sorted (head : RQ_HEAD) (j : Jobs) (h : ascending head.head_node) :
    ascending (update_run_queue head j).head_node ∧
    (∃ l1 l2 : List Jobs, head.head_node = l1 ++ l2 ∧
      (update_run_queue head j).head_node = l1 ++ j :: l2) ∧
    (update_run_queue head j).size = head.size + 1 := by
  rw [update_run_queue_head_node]
  obtain ⟨l1, l2, h1, h2, _, _, h5⟩ := insert_walk_ascending j head.head_node h
  exact ⟨h5, ⟨l1, l2, h1, h2⟩, rfl⟩

/-- Witness for C16: a job of task 4 with deadline 6 goes between the jobs with the
deadlines 5 and 7. -/
theorem update_run_queue_sorted_witness :
    ascending three_job_queue.head_node ∧
    (update_run_queue three_job_queue (job_with 4 6)).head_node.map Jobs.task_no = [1, 2, 4, 3] ∧
    ascending (update_run_queue three_job_queue (job_with 4 6)).head_node ∧
    (∃ l1 l2 : List Jobs, three_job_queue.head_node = l1 ++ l2 ∧
      (update_run_queue three_job_queue (job_with 4 6)).head_node = l1 ++ job_with 4 6 :: l2) ∧
    (update_run_queue three_job_queue (job_with 4 6)).size = three_job_queue.size + 1 :=
  ⟨by decide!, by decide!,
    (update_run_queue_sorted three_job_queue (job_with 4 6) (by decide!)).1,
    (update_run_queue_sorted three_job_queue (job_with 4 6) (by decide!)).2.1,
    (update_run_queue_sorted three_job_queue (job_with 4 6) (by decide!)).2.2⟩

/-- Counterexample to C17 as stated: a job of task 2 with deadline 5 inserted into a queue
that holds a job of task 1 with the same deadline 5 ends up in front of it. -/
theorem update_run_queue_tie_in_front :
    ascending tie_queue.head_node ∧
    tie_queue.head_node.map Jobs.sched_deadline = [(job_with 2 5).sched_deadline] ∧
    (update_run_queue tie_queue (job_with 2 5)).head_node.map Jobs.task_no = [2, 1] := by
  decide!

/-- C17 (amended): `update_run_queue` puts a job `j` into an ascending queue in front of
every queued job whose `sched_deadline` is equal to or greater than that of `j`, and
behind the queued jobs with a smaller one: no job in front of `j` has a deadline `>=`
that of `j` and no job behind `j` has a deadline `<` that of `j`. -/
theorem update_run_queue_position (head : RQ_HEAD) (j : Jobs) (h : ascending head.head_node) :
    ∃ l1 l2 : List Jobs, head.head_node = l1 ++ l2 ∧
      (update_run_queue head j).head_node = l1 ++ j :: l2 ∧
      (∀ b ∈ l1, Dbl.le j.sched_deadline b.sched_deadline = false) ∧
      (∀ c ∈ l2, Dbl.lt c.sched_deadline j.sched_deadline = false) := by
  rw [update_run_queue_head_node]
  obtain ⟨l1, l2, h1, h2, h3, h4, _⟩ := insert_walk_ascending j head.head_node h
  exact ⟨l1, l2, h1, h2, h3, h4⟩

/-- Witness for C17: in the three-job queue a job with deadline 5 goes in front of the
queued job with deadline 5 and behind the one with deadline 3. -/
theorem update_run_queue_position_witness :
    ascending three_job_queue.head_node ∧
    (update_run_queue three_job_queue (job_with 4 5)).head_node.map Jobs.task_no = [1, 4, 2, 3] ∧
    ∃ l1 l2 : List Jobs, three_job_queue.head_node = l1 ++ l2 ∧
      (update_run_queue three_job_queue (job_with 4 5)).head_node = l1 ++ job_with 4 5 :: l2 ∧
      (∀ b ∈ l1, Dbl.le (job_with 4 5).sched_deadline b.sched_deadline = false) ∧
      (∀ c ∈ l2, Dbl.lt c.sched_deadline (job_with 4 5).sched_deadline = false) :=
  ⟨by decide!, by decide!, update_run_queue_position three_job_queue (job_with 4 5) (by decide!)⟩

/-! ## Merge sort of a run queue -/

theorem partition_walk_append (f s : List Jobs) :
    (partition_walk f s).1 ++ (partition_walk f s).2 = s := by
  induction s generalizing f with
  | nil =>
    match f with
    | [] => rfl
    | [_] => rfl
    | [_, _] => rfl
    | _ :: _ :: _ :: _ => rfl
  | cons x srest ih =>
    match f with
    | [] => rfl
    | [_] => rfl
    | [_, _] => rfl
    | a :: b :: c :: rest =>
      have e : partition_walk (a :: b :: c :: rest) (x :: srest) =
          (x :: (partition_walk (c :: rest) srest).1, (partition_walk (c :: rest) srest).2) := rfl
      rw [e]
      simp only [List.cons_append, ih (c :: rest)]

theorem partition_walk_length (f s : List Jobs) (h2 : 2 ≤ s.length) (hf : f.length ≤ s.length) :
    1 ≤ (partition_walk f s).1.length ∧ 1 ≤ (partition_walk f s).2.length := by
  induction s generalizing f with
  | nil => simp at h2
  | cons x srest ih =>
    have hs : 1 ≤ srest.length := by
      simp only [List.length_cons] at h2
      omega
    have stop : ∀ g : List Jobs, partition_walk g (x :: srest) = ([x], srest) →
        1 ≤ (partition_walk g (x :: srest)).1.length ∧
        1 ≤ (partition_walk g (x :: srest)).2.length := by
      intro g e
      rw [e]
      exact ⟨le_refl _, hs⟩
    match f with
    | [] => exact stop _ rfl
    | [_] => exact stop _ rfl
    | [_, _] => exact stop _ rfl
    | a :: b :: c :: rest =>
      have e : partition_walk (a :: b :: c :: rest) (x :: srest) =
          (x :: (partition_walk (c :: rest) srest).1, (partition_walk (c :: rest) srest).2) := rfl
      simp only [List.length_cons] at hf
      have := ih (c :: rest) (by omega) (by simp only [List.length_cons]; omega)
      rw [e]
      exact ⟨by simp only [List.length_cons]; omega, this.2⟩

/-- Both halves that `partition` makes of a queue of at least two jobs are shorter than the
queue, and the queue is the first half followed by the second. -/
theorem partition_spec (q : List Jobs) (h2 : 2 ≤ q.length) :
    (partition q).1 ++ (partition q).2 = q ∧ (partition q).1.length < q.length ∧
    (partition q).2.length < q.length := by
  have h1 := partition_walk_append q q
  have h3 := partition_walk_length q q h2 (le_refl _)
  have h4 := congrArg List.length h1
  rw [List.length_append] at h4
  unfold partition
  exact ⟨h1, by omega, by omega⟩

/-- Merging two queues of which every job of the first has a strictly smaller deadline
than every job of the second puts the second behind the first. -/
theorem merge_separated (l1 l2 : List Jobs)
    (h : ∀ a ∈ l1, ∀ b ∈ l2, Dbl.lt a.sched_deadline b.sched_deadline = true) :
    merge l1 l2 = l1 ++ l2 := by
  induction l1 with
  | nil => simp [merge]
  | cons f fs ih =>
    cases l2 with
    | nil => simp [merge]
    | cons s ss =>
      rw [merge, if_pos (h f (List.mem_cons_self _ _) s (List.mem_cons_self _ _)),
        ih fun a ha b hb => h a (List.mem_cons_of_mem _ ha) b hb]
      rfl

theorem merge_sort_fuel_strict :
    ∀ (n : Nat) (q : List Jobs), q.length < n → strictly_ascending q →
      merge_sort_fuel n q = some q := by
  intro n
  induction n with
  | zero => intro q h _; omega
  | succ n ih =>
    intro q hlen hq
    match q with
    | [] => rfl
    | [_] => rfl
    | x :: y :: rest =>
      obtain ⟨h1, h2, h3⟩ := partition_spec (x :: y :: rest) (by simp)
      have hq2 : strictly_ascending ((partition (x :: y :: rest)).1 ++
          (partition (x :: y :: rest)).2) := by
        rw [h1]
        exact hq
      unfold strictly_ascending at hq2
      rw [List.pairwise_append] at hq2
      have e1 := ih _ (by omega) hq2.1
      have e2 := ih _ (by omega) hq2.2.1
      simp only [merge_sort_fuel, e1, e2]
      rw [merge_separated _ _ hq2.2.2, h1]

theorem Dbl.eq_of_le_of_le {a b : Dbl} (h1 : Dbl.le a b = true) (h2 : Dbl.le b a = true) :
    a = b := by
  cases a <;> cases b <;> simp [Dbl.le] at h1 h2 ⊢
  exact le_antisymm h1 h2

theorem Dbl.le_of_not_lt {a b : Dbl} (h1 : Dbl.le a b = true) (h2 : ¬ Dbl.lt a b = true) :
    Dbl.le b a = true := by
  cases a <;> cases b <;> simp [Dbl.le, Dbl.lt] at h1 h2 ⊢
  exact h2

theorem cons_append_of_all_eq {α : Type} (d : α) (l t : List α) (h : ∀ x ∈ l, x = d) :
    d :: (l ++ t) = l ++ d :: t := by
  induction l with
  | nil => rfl
  | cons x xs ih =>
    have hx : x = d := h x (List.mem_cons_self _ _)
    rw [List.cons_append, List.cons_append, ← ih fun y hy => h y (List.mem_cons_of_mem _ hy), hx]

/-- Merging two ascending queues of which no job of the first has a greater deadline than
a job of the second gives the deadlines of the first followed by those of the second. -/
theorem merge_deadlines (l1 l2 : List Jobs)
    (h1 : (l1.map Jobs.sched_deadline).Pairwise fun x y => Dbl.le x y = true)
    (hc : ∀ x ∈ l1.map Jobs.sched_deadline, ∀ y ∈ l2.map Jobs.sched_deadline,
      Dbl.le x y = true) :
    (merge l1 l2).map Jobs.sched_deadline =
      l1.map Jobs.sched_deadline ++ l2.map Jobs.sched_deadline := by
  induction l1 generalizing l2 with
  | nil => simp [merge]
  | cons f fs ih1 =>
    induction l2 with
    | nil => simp [merge]
    | cons s ss ih2 =>
      rw [merge]
      by_cases hlt : Dbl.lt f.sched_deadline s.sched_deadline = true
      · rw [if_pos hlt, List.map_cons, ih1 (s :: ss) (List.pairwise_cons.mp h1).2
          fun x hx y hy => hc x (List.mem_cons_of_mem _ hx) y hy]
        rfl
      · rw [if_neg hlt, List.map_cons, ih2
          fun x hx y hy => hc x hx y (List.mem_cons_of_mem _ hy)]
        have hfs : Dbl.le f.sched_deadline s.sched_deadline = true :=
          hc _ (List.mem_cons_self _ _) _ (List.mem_cons_self _ _)
        have hsf : Dbl.le s.sched_deadline f.sched_deadline = true := Dbl.le_of_not_lt hfs hlt
        have hall : ∀ x ∈ (f :: fs).map Jobs.sched_deadline, x = s.sched_deadline := by
          intro x hx
          have hxs : Dbl.le x s.sched_deadline = true := hc x hx _ (List.mem_cons_self _ _)
          rcases List.mem_cons.mp hx with e | hx'
          · rw [e]
            exact Dbl.eq_of_le_of_le hfs hsf
          · have hfx : Dbl.le f.sched_deadline x = true := (List.pairwise_cons.mp h1).1 x hx'
            rw [← Dbl.eq_of_le_of_le hfs hsf]
            rw [← Dbl.eq_of_le_of_le hfs hsf] at hxs
            exact Dbl.eq_of_le_of_le hxs hfx
        have e : (s :: ss).map Jobs.sched_deadline =
            s.sched_deadline :: ss.map Jobs.sched_deadline := rfl
        rw [e]
        exact cons_append_of_all_eq _ _ _ hall

theorem merge_sort_fuel_deadlines :
    ∀ (n : Nat) (q : List Jobs), q.length < n →
      ((q.map Jobs.sched_deadline).Pairwise fun x y => Dbl.le x y = true) →
      ∃ r : List Jobs, merge_sort_fuel n q = some r ∧
        r.map Jobs.sched_deadline = q.map Jobs.sched_deadline := by
  intro n
  induction n with
  | zero => intro q h _; omega
  | succ n ih =>
    intro q hlen hq
    match q with
    | [] => exact ⟨[], rfl, rfl⟩
    | [x] => exact ⟨[x], rfl, rfl⟩
    | x :: y :: rest =>
      obtain ⟨h1, h2, h3⟩ := partition_spec (x :: y :: rest) (by simp)
      have hq2 : (((partition (x :: y :: rest)).1 ++
          (partition (x :: y :: rest)).2).map Jobs.sched_deadline).Pairwise
          fun x y => Dbl.le x y = true := by
        rw [h1]
        exact hq
      rw [List.map_append, List.pairwise_append] at hq2
      obtain ⟨r1, e1, d1⟩ := ih _ (by omega) hq2.1
      obtain ⟨r2, e2, d2⟩ := ih _ (by omega) hq2.2.1
      refine ⟨merge r1 r2, by simp only [merge_sort_fuel, e1, e2], ?_⟩
      rw [merge_deadlines r1 r2 (by rw [d1]; exact hq2.1) (by rw [d1, d2]; exact hq2.2.2),
        d1, d2, ← List.map_append, h1]

/-- Counterexample to C19 as stated: a queue of two jobs with the same deadline 5 is
ascending, and `merge_sort` returns the two jobs in the opposite order. -/
theorem merge_sort_swaps_ties :
    ascending [job_with 1 5, job_with 2 5] ∧
    (merge_sort [job_with 1 5, job_with 2 5]).map (List.map Jobs.task_no) = some [2, 1] := by
  decide!

/-- C19 (amended): for every run queue in ascending order of `sched_deadline`,
`merge_sort` returns a queue with the same sequence of deadlines; when the order is
strictly ascending (no two jobs with equal deadlines) it returns the jobs in exactly the
same order.  Jobs with equal deadlines may change places. -/
theorem merge_sort_sorted_queue (q : List Jobs) :
    (((q.map Jobs.sched_deadline).Pairwise fun x y => Dbl.le x y = true) →
      ∃ r : List Jobs, merge_sort q = some r ∧
        r.map Jobs.sched_deadline = q.map Jobs.sched_deadline) ∧
    (strictly_ascending q → merge_sort q = some q) :=
  ⟨fun h => merge_sort_fuel_deadlines _ q (Nat.lt_succ_self _) h,
    fun h => merge_sort_fuel_strict _ q (Nat.lt_succ_self _) h⟩

/-- Witness for C19: the queue with the deadlines 3, 5, 7 comes back unchanged, and the
deadlines 5, 5 of the two-job queue stay in place. -/
theorem merge_sort_sorted_queue_witness :
    strictly_ascending three_job_queue.head_node ∧
    merge_sort three_job_queue.head_node = some three_job_queue.head_node ∧
    ∃ r : List Jobs, merge_sort [job_with 1 5, job_with 2 5] = some r ∧
      r.map Jobs.sched_deadline = [Dbl.fin 5, Dbl.fin 5] :=
  ⟨by decide!, (merge_sort_sorted_queue three_job_queue.head_node).2 (by decide!),
    (merge_sort_sorted_queue [job_with 1 5, job_with 2 5]).1 (by decide!)⟩

/-! ## Worst-fit selection -/

theorem edfvd_scan_fst_vd_equiv {l l' : List Tasks} (h : vd_equiv l l') (L c n : Int) (m : Nat) :
    (edfvd_scan l' L c n m).1 = (edfvd_scan l L c n m).1 := by
  induction m with
  | zero => rfl
  | succ m ih =>
    simp only [edfvd_scan, ull_vd_equiv h, x_lb_vd_equiv h, x_ub_vd_equiv h]
    split_ifs <;> first | rfl | exact ih

/-- The threshold that the EDF-VD check returns does not depend on the virtual deadlines
in the task array. -/
theorem edfvd_check_fst_vd_equiv {l l' : List Tasks} (h : vd_equiv l l') (L c n : Int) :
    (edfvd_schedulability_check l' L c n).1 = (edfvd_schedulability_check l L c n).1 := by
  unfold edfvd_schedulability_check
  rw [ull_vd_equiv h]
  split_ifs
  · rfl
  · exact edfvd_scan_fst_vd_equiv h L c n _

/-- Writing the threshold of one core leaves the capacities, utilisations and numbers of
all cores as they are. -/
theorem core_at_set_threshold (core : List Cores) (j : Int) (thr : Int) (k : Int) :
    (core_at (core.set j.toNat { core_at core j with threshold_criticality := thr })
        k).remaining_capacity = (core_at core k).remaining_capacity ∧
    (core_at (core.set j.toNat { core_at core j with threshold_criticality := thr })
        k).utilization = (core_at core k).utilization ∧
    (core_at (core.set j.toNat { core_at core j with threshold_criticality := thr })
        k).core_no = (core_at core k).core_no := by
  simp only [core_at]
  by_cases hj : j.toNat < core.length
  · rw [cores_getD_set core j.toNat k.toNat hj]
    by_cases hk : k.toNat = j.toNat
    · rw [if_pos hk, hk]
      exact ⟨rfl, rfl, rfl⟩
    · rw [if_neg hk]
      exact ⟨rfl, rfl, rfl⟩
  · rw [List.set_eq_of_length_le (not_lt.mp hj)]
    exact ⟨rfl, rfl, rfl⟩

/-- Relation between the arrays that the worst-fit loop carries and the arrays it started
from: same tasks up to virtual deadlines, same cores up to thresholds. -/
theorem worst_fit_loop_spec (core0 : List Cores) (tasks0 : List Tasks) (i L : Int) :
    ∀ (n : Nat) (j : Int) (s : Worst_fit_state), 0 ≤ j →
      vd_equiv tasks0 s.tasks_arr →
      (∀ k : Int, (core_at s.core k).remaining_capacity = (core_at core0 k).remaining_capacity ∧
        (core_at s.core k).utilization = (core_at core0 k).utilization ∧
        (core_at s.core k).core_no = (core_at core0 k).core_no) →
      ((s.worst_fit_idx = -1 ∧ s.max_remaining_capacity = -1 ∧
          ∀ k : Int, 0 ≤ k → k < j → ¬ core_accepts core0 tasks0 i L k) ∨
        (0 ≤ s.worst_fit_idx ∧ s.worst_fit_idx < j ∧
          core_accepts core0 tasks0 i L s.worst_fit_idx ∧
          s.max_remaining_capacity = capacity_left core0 tasks0 i s.worst_fit_idx ∧
          ∀ k : Int, 0 ≤ k → k < j → core_accepts core0 tasks0 i L k →
            capacity_left core0 tasks0 i k ≤ s.max_remaining_capacity ∧
            (capacity_left core0 tasks0 i k = s.max_remaining_capacity →
              s.worst_fit_idx ≤ k))) →
      (((worst_fit_loop i L n j s).worst_fit_idx = -1 ∧
          ∀ k : Int, 0 ≤ k → k < j + (n : Int) → ¬ core_accepts core0 tasks0 i L k) ∨
        (0 ≤ (worst_fit_loop i L n j s).worst_fit_idx ∧
          (worst_fit_loop i L n j s).worst_fit_idx < j + (n : Int) ∧
          core_accepts core0 tasks0 i L (worst_fit_loop i L n j s).worst_fit_idx ∧
          ∀ k : Int, 0 ≤ k → k < j + (n : Int) → core_accepts core0 tasks0 i L k →
            capacity_left core0 tasks0 i k ≤
              capacity_left core0 tasks0 i (worst_fit_loop i L n j s).worst_fit_idx ∧
            (capacity_left core0 tasks0 i k =
                capacity_left core0 tasks0 i (worst_fit_loop i L n j s).worst_fit_idx →
              (worst_fit_loop i L n j s).worst_fit_idx ≤ k))) := by
  intro n
  induction n with
  | zero =>
    intro j s _ _ _ hB
    simp only [worst_fit_loop, Nat.cast_zero, add_zero]
    rcases hB with ⟨h1, _, h3⟩ | ⟨h1, h2, h3, h4, h5⟩
    · exact Or.inl ⟨h1, h3⟩
    · right
      rw [← h4]
      exact ⟨h1, h2, h3, h5⟩
  | succ n ih =>
    intro j s hj0 hvd hcore hB
    have hbound : j + 1 + (n : Int) = j + ((n + 1 : Nat) : Int) := by push_cast; ring
    rw [← hbound]
    have htask := vd_equiv_task_at hvd i
    rw [erase_vd_eq_iff] at htask
    have hu : (task_at s.tasks_arr i).util ((task_at s.tasks_arr i).criticality - 1) =
        (task_at tasks0 i).util_own := by
      unfold Tasks.util_own Tasks.util
      rw [htask.2.2.2.2.1, htask.2.2.2.2.2.2.1]
    have hno : (task_at s.tasks_arr i).task_no = (task_at tasks0 i).task_no := htask.1
    obtain ⟨hrc, hut, hcn⟩ := hcore j
    have hchk : ∀ c no : Int, (edfvd_schedulability_check s.tasks_arr L c no).1 =
        (edfvd_schedulability_check tasks0 L c no).1 := fun c no =>
      edfvd_check_fst_vd_equiv hvd L c no
    -- the three ways in which the loop goes on
    have hkeep : ∀ s' : Worst_fit_state, vd_equiv tasks0 s'.tasks_arr → s'.core = s.core →
        s'.worst_fit_idx = s.worst_fit_idx →
        s'.max_remaining_capacity = s.max_remaining_capacity →
        (¬ core_accepts core0 tasks0 i L j ∨
          (0 ≤ s.worst_fit_idx ∧
            capacity_left core0 tasks0 i j ≤ s.max_remaining_capacity)) →
        _ := fun s' hv hc hi hm hrej =>
      ih (j + 1) s' (by omega) hv (by rw [hc]; exact hcore) (by
        rw [hi, hm]
        rcases hB with ⟨h1, h2, h3⟩ | ⟨h1, h2, h3, h4, h5⟩
        · left
          refine ⟨h1, h2, fun k hk0 hk => ?_⟩
          by_cases hkj : k = j
          · rw [hkj]
            rcases hrej with hr | ⟨hr, _⟩
            · exact hr
            · omega
          · exact h3 k hk0 (by omega)
        · right
          refine ⟨h1, by omega, h3, h4, fun k hk0 hk hacc => ?_⟩
          by_cases hkj : k = j
          · rw [hkj] at hacc ⊢
            rcases hrej with hr | ⟨_, hr⟩
            · exact absurd hacc hr
            · exact ⟨hr, fun _ => by omega⟩
          · exact h5 k hk0 (by omega) hacc)
    have htake : ∀ s' : Worst_fit_state, vd_equiv tasks0 s'.tasks_arr →
        (∃ thr : Int, s'.core = s.core.set j.toNat
          { core_at s.core j with threshold_criticality := thr }) →
        s'.worst_fit_idx = j →
        s'.max_remaining_capacity = (core_at s.core j).remaining_capacity -
          (task_at s.tasks_arr i).util ((task_at s.tasks_arr i).criticality - 1) →
        core_accepts core0 tasks0 i L j →
        capacity_left core0 tasks0 i j > s.max_remaining_capacity →
        _ := fun s' hv hc hi hm hacc hgt =>
      ih (j + 1) s' (by omega) hv (by
        obtain ⟨thr, hc⟩ := hc
        intro k
        rw [hc]
        obtain ⟨a1, a2, a3⟩ := core_at_set_threshold s.core j thr k
        obtain ⟨b1, b2, b3⟩ := hcore k
        exact ⟨a1.trans b1, a2.trans b2, a3.trans b3⟩) (by
        rw [hi, hm, hu, hrc]
        right
        refine ⟨hj0, by omega, hacc, rfl, fun k hk0 hk hk_acc => ?_⟩
        by_cases hkj : k = j
        · rw [hkj]
          exact ⟨le_refl _, fun _ => le_refl _⟩
        · have hlt : capacity_left core0 tasks0 i k < capacity_left core0 tasks0 i j := by
            rcases hB with ⟨_, h2, h3⟩ | ⟨_, _, _, _, h5⟩
            · exact absurd hk_acc (h3 k hk0 (by omega))
            · exact lt_of_le_of_lt (h5 k hk0 (by omega) hk_acc).1 hgt
          exact ⟨le_of_lt hlt, fun e => absurd e (ne_of_lt hlt)⟩)
    rw [worst_fit_loop]
    dsimp only
    split_ifs with h1 h2 h3
    · rw [hu, hrc] at h1
      rw [hcn, hno, hchk] at h3
      exact htake _ (vd_equiv_trans hvd (edfvd_check_vd_equiv _ _ _ _)) ⟨_, rfl⟩ rfl rfl
        ⟨h1.1, fun _ => h3⟩ h1.2
    · rw [hu, hut] at h2
      rw [hcn, hno, hchk] at h3
      refine hkeep _ (vd_equiv_trans hvd (edfvd_check_vd_equiv _ _ _ _)) rfl rfl rfl (Or.inl ?_)
      intro hacc
      exact h3 (hacc.2 h2)
    · rw [hu, hrc] at h1
      rw [hu, hut] at h2
      exact htake _ hvd ⟨_, rfl⟩ rfl rfl ⟨h1.1, fun h => absurd h h2⟩ h1.2
    · rw [hu, hrc] at h1
      refine hkeep s hvd rfl rfl rfl ?_
      by_cases hge : (core_at core0 j).remaining_capacity ≥ (task_at tasks0 i).util_own
      · have hle : capacity_left core0 tasks0 i j ≤ s.max_remaining_capacity := by
          by_contra hgt
          exact h1 ⟨hge, not_le.mp hgt⟩
        rcases hB with ⟨_, h2, _⟩ | ⟨h0, _⟩
        · left
          intro _
          rw [h2] at hle
          unfold capacity_left at hle
          linarith
        · exact Or.inr ⟨h0, hle⟩
      · exact Or.inl fun hacc => hge hacc.1

/-- C12 (evaluation at the failing input): on `late_lpd_set` the low-period task 3 is put
on core 1 in the first phase and task 1 joins it in the second phase.  Before task 2 the
level drops from 2 to 1 and the capacities are reset with `task_array_idx = 1`: core 1
gets `1 - 1/5 = 4/5`, the utilisation of task 1 only, although the level-1 utilisations
of the tasks allocated to core 1 at that moment (tasks 1 and 3) sum to `2/5`. -/
theorem reset_core_capacities_skips_later_tasks :
    quick_sort late_lpd_set 0 2 = some late_lpd_set ∧
    get_min_cores_reqd late_lpd_set 2 = 1 ∧
    ∃ sA s : Alloc_state, lpd_phase late_lpd_set 2 = Except.ok sA ∧
      remaining_phase_steps late_lpd_set 1 2 sA 1 = Except.ok s ∧
      s.num_cores = 1 ∧
      s.tasks_arr.map Tasks.allocated_core = [1, NOT_ALLOCATED, 1] ∧
      (task_at s.tasks_arr 0).criticality > (task_at s.tasks_arr 1).criticality ∧
      (task_at s.tasks_arr 1).criticality = 1 ∧ (core_at s.core 0).core_no = 1 ∧
      (core_at (reset_core_capacities s.core s.num_cores s.tasks_arr 1 1) 0).remaining_capacity
        = 4 / 5 ∧
      level_utilization s.tasks_arr 1 1 1 = 1 / 5 ∧
      level_utilization s.tasks_arr 1 1 s.tasks_arr.length = 2 / 5 := by
  have key : returns_with (lpd_phase late_lpd_set 2) (fun sA =>
      returns_with (remaining_phase_steps late_lpd_set 1 2 sA 1) (fun s =>
        decide (s.num_cores = 1 ∧
          s.tasks_arr.map Tasks.allocated_core = [1, NOT_ALLOCATED, 1] ∧
          (task_at s.tasks_arr 0).criticality > (task_at s.tasks_arr 1).criticality ∧
          (task_at s.tasks_arr 1).criticality = 1 ∧ (core_at s.core 0).core_no = 1 ∧
          (core_at (reset_core_capacities s.core s.num_cores s.tasks_arr 1 1)
            0).remaining_capacity = 4 / 5 ∧
          level_utilization s.tasks_arr 1 1 1 = 1 / 5 ∧
          level_utilization s.tasks_arr 1 1 s.tasks_arr.length = 2 / 5))) = true := by
    decide!
  refine ⟨by decide!, by decide!, ?_⟩
  obtain ⟨sA, hA, h1⟩ := returns_with_spec key
  obtain ⟨s, hs, h2⟩ := returns_with_spec h1
  exact ⟨sA, s, hA, hs, of_decide_eq_true h2⟩

/-- Counterexample to C14 as stated: for the core that holds `T1` with `T2` as candidate
the lower bound at threshold 1 is `x_lb = (3/10) / (1 - 6/10) = 3/4`, not `1.5`. -/
theorem edfvd_infeasible_pair_x_lb :
    calculate_utilization_ulk infeasible_vd_set 2 2 1 2 = 3 / 10 ∧
    calculate_utilization_ull infeasible_vd_set 1 1 1 2 = 6 / 10 ∧
    x_lb infeasible_vd_set 2 1 2 1 = Dbl.fin (3 / 4) ∧
    x_lb infeasible_vd_set_swapped 2 1 1 1 = Dbl.fin (3 / 4) ∧
    x_lb infeasible_vd_set 2 1 2 1 ≠ Dbl.fin (3 / 2) := by
  decide!

/-- C14 (amended): for `T1 (period 10, criticality 2, wcet [3, 6])` and
`T2 (period 10, criticality 1, wcet [6])` with two levels, the EDF-VD check of a core that
holds one task with the other as candidate returns the sentinel `-73`
(`x_lb = 3/4 > x_ub = 2/3`), and `offline_task_allocator`, started with 0, 1 or 2 cores,
puts the two tasks on two different cores and returns 2. -/
theorem infeasible_pair_two_cores :
    (edfvd_schedulability_check infeasible_vd_set 2 1 2).1 = -73 ∧
    (edfvd_schedulability_check infeasible_vd_set_swapped 2 1 1).1 = -73 ∧
    x_lb infeasible_vd_set 2 1 2 1 = Dbl.fin (3 / 4) ∧
    x_ub infeasible_vd_set 2 1 2 1 = Dbl.fin (2 / 3) ∧
    Dbl.le (x_lb infeasible_vd_set 2 1 2 1) (x_ub infeasible_vd_set 2 1 2 1) = false ∧
    quick_sort infeasible_pair_set 0 1 = some infeasible_pair_set ∧
    get_min_cores_reqd infeasible_pair_set 2 = 1 ∧
    allocator_return (offline_task_allocator infeasible_pair_set 0 2) = 2 ∧
    allocator_return (offline_task_allocator infeasible_pair_set 1 2) = 2 ∧
    allocator_return (offline_task_allocator infeasible_pair_set 2 2) = 2 ∧
    ∃ s : Alloc_state, offline_task_allocator infeasible_pair_set 1 2 = Except.ok s ∧
      s.num_cores = 2 ∧
      s.tasks_arr.map (fun t => (t.task_no, t.allocated_core)) = [(1, 2), (2, 1)] := by
  have key : returns_with (offline_task_allocator infeasible_pair_set 1 2) (fun s =>
      decide (s.num_cores = 2 ∧
        s.tasks_arr.map (fun t => (t.task_no, t.allocated_core)) = [(1, 2), (2, 1)])) = true := by
    decide!
  refine ⟨by decide!, by decide!, by decide!, by decide!, by decide!, by decide!, by decide!,
    by decide!, by decide!, by decide!, ?_⟩
  obtain ⟨s, hs, h⟩ := returns_with_spec key
  exact ⟨s, hs, of_decide_eq_true h⟩

/-! ## Return value of the allocator -/

theorem place_task_error_iff (lpd : Bool) (L wfd i : Int) (s : Alloc_state) :
    (∃ e : Alloc_state, place_task lpd L wfd i s = Except.error e) ↔
      needs_core_beyond_max L wfd i s := by
  unfold place_task needs_core_beyond_max
  dsimp only
  constructor
  · rintro ⟨e, h⟩
    split_ifs at h with h1 h2
    · exact ⟨h1, h2⟩
  · rintro ⟨h1, h2⟩
    rw [if_neg h1, if_pos h2]
    exact ⟨_, rfl⟩

/-- A successful placement keeps the number of open cores within `MAX_CORES` and leaves at
least one core open. -/
theorem place_task_ok_bounds (lpd : Bool) (L wfd i : Int) (s s' : Alloc_state)
    (h : place_task lpd L wfd i s = Except.ok s') :
    (s.num_cores ≤ (MAX_CORES : Int) → s'.num_cores ≤ (MAX_CORES : Int)) ∧
    (0 ≤ s.num_cores → 1 ≤ s'.num_cores) := by
  unfold place_task at h
  dsimp only at h
  split_ifs at h with h1 h2
  · have h' := Except.ok.inj h
    rw [← h']
    exact ⟨fun hle => hle, fun _ => by show 1 ≤ s.num_cores; omega⟩
  · have h' := Except.ok.inj h
    rw [← h']
    exact ⟨fun _ => by show s.num_cores + 1 ≤ _; omega,
      fun h0 => by show 1 ≤ s.num_cores + 1; omega⟩

theorem lpd_alloc_loop_succ (L wfd : Int) :
    ∀ (n : Nat) (i : Int) (s : Alloc_state),
      lpd_alloc_loop L wfd (n + 1) i s =
        match lpd_alloc_loop L wfd n i s with
        | Except.error e => Except.error e
        | Except.ok s' =>
          if is_lpd (task_at s'.tasks_arr (i + (n : Int))) then
            place_task true L wfd (i + (n : Int)) s'
          else Except.ok s' := by
  intro n
  induction n with
  | zero =>
    intro i s
    simp only [lpd_alloc_loop, Nat.cast_zero, add_zero]
    split_ifs
    · cases place_task true L wfd i s <;> rfl
    · rfl
  | succ n ih =>
    intro i s
    have e : i + 1 + (n : Int) = i + ((n + 1 : Nat) : Int) := by push_cast; ring
    rw [lpd_alloc_loop]
    conv_rhs => rw [lpd_alloc_loop]
    split_ifs with h
    · cases place_task true L wfd i s with
      | error e' => rfl
      | ok s1 =>
        dsimp only
        rw [ih (i + 1) s1, e]
    · rw [ih (i + 1) s, e]

theorem remaining_alloc_loop_succ (L wfd : Int) :
    ∀ (n : Nat) (i : Int) (s : Alloc_state),
      remaining_alloc_loop L wfd (n + 1) i s =
        match remaining_alloc_loop L wfd n i s with
        | Except.error e => Except.error e
        | Except.ok s' =>
          if (task_at s'.tasks_arr (i + (n : Int))).allocated_core = NOT_ALLOCATED then
            place_task false L wfd (i + (n : Int)) s'
          else Except.ok s' := by
  intro n
  induction n with
  | zero =>
    intro i s
    simp only [remaining_alloc_loop, Nat.cast_zero, add_zero]
    split_ifs
    · cases place_task false L wfd i s <;> rfl
    · rfl
  | succ n ih =>
    intro i s
    have e : i + 1 + (n : Int) = i + ((n + 1 : Nat) : Int) := by push_cast; ring
    rw [remaining_alloc_loop]
    conv_rhs => rw [remaining_alloc_loop]
    split_ifs with h
    · cases place_task false L wfd i s with
      | error e' => rfl
      | ok s1 =>
        dsimp only
        rw [ih (i + 1) s1, e]
    · rw [ih (i + 1) s, e]

/-- The low-period loop ends on the `return -1` exit exactly when, before one of its
iterations, the task is a low-period task whose placement requires a core beyond
`MAX_CORES`. -/
theorem lpd_alloc_loop_error_iff (L wfd : Int) (i : Int) (s : Alloc_state) :
    ∀ n : Nat, (∃ e : Alloc_state, lpd_alloc_loop L wfd n i s = Except.error e) ↔
      ∃ k : Nat, k < n ∧ ∃ s' : Alloc_state, lpd_alloc_loop L wfd k i s = Except.ok s' ∧
        is_lpd (task_at s'.tasks_arr (i + (k : Int))) ∧
        needs_core_beyond_max L wfd (i + (k : Int)) s' := by
  intro n
  induction n with
  | zero =>
    constructor
    · rintro ⟨e, h⟩
      rw [lpd_alloc_loop] at h
      cases h
    · rintro ⟨k, hk, _⟩
      omega
  | succ n ih =>
    rw [lpd_alloc_loop_succ]
    cases hn : lpd_alloc_loop L wfd n i s with
    | error e =>
      have h1 := ih.mp ⟨e, hn⟩
      obtain ⟨k, hk, h2⟩ := h1
      exact ⟨fun _ => ⟨k, by omega, h2⟩, fun _ => ⟨e, rfl⟩⟩
    | ok s' =>
      dsimp only
      constructor
      · rintro ⟨e, h⟩
        split_ifs at h with hl
        exact ⟨n, by omega, s', hn, hl, (place_task_error_iff _ _ _ _ _).mp ⟨e, h⟩⟩
      · rintro ⟨k, hk, s'', h1, h2, h3⟩
        by_cases hkn : k = n
        · subst hkn
          rw [hn] at h1
          have e := Except.ok.inj h1
          subst e
          rw [if_pos h2]
          exact (place_task_error_iff _ _ _ _ _).mpr h3
        · have h4 := ih.mpr ⟨k, by omega, s'', h1, h2, h3⟩
          obtain ⟨e, h5⟩ := h4
          rw [hn] at h5
          cases h5

/-- The loop of the second phase ends on the `return -1` exit exactly when, before one of
its iterations, the task is unallocated and its placement requires a core beyond
`MAX_CORES`. -/
theorem remaining_alloc_loop_error_iff (L wfd : Int) (i : Int) (s : Alloc_state) :
    ∀ n : Nat, (∃ e : Alloc_state, remaining_alloc_loop L wfd n i s = Except.error e) ↔
      ∃ k : Nat, k < n ∧ ∃ s' : Alloc_state, remaining_alloc_loop L wfd k i s = Except.ok s' ∧
        (task_at s'.tasks_arr (i + (k : Int))).allocated_core = NOT_ALLOCATED ∧
        needs_core_beyond_max L wfd (i + (k : Int)) s' := by
  intro n
  induction n with
  | zero =>
    constructor
    · rintro ⟨e, h⟩
      rw [remaining_alloc_loop] at h
      cases h
    · rintro ⟨k, hk, _⟩
      omega
  | succ n ih =>
    rw [remaining_alloc_loop_succ]
    cases hn : remaining_alloc_loop L wfd n i s with
    | error e =>
      have h1 := ih.mp ⟨e, hn⟩
      obtain ⟨k, hk, h2⟩ := h1
      exact ⟨fun _ => ⟨k, by omega, h2⟩, fun _ => ⟨e, rfl⟩⟩
    | ok s' =>
      dsimp only
      constructor
      · rintro ⟨e, h⟩
        split_ifs at h with hl
        exact ⟨n, by omega, s', hn, hl, (place_task_error_iff _ _ _ _ _).mp ⟨e, h⟩⟩
      · rintro ⟨k, hk, s'', h1, h2, h3⟩
        by_cases hkn : k = n
        · subst hkn
          rw [hn] at h1
          have e := Except.ok.inj h1
          subst e
          rw [if_pos h2]
          exact (place_task_error_iff _ _ _ _ _).mpr h3
        · have h4 := ih.mpr ⟨k, by omega, s'', h1, h2, h3⟩
          obtain ⟨e, h5⟩ := h4
          rw [hn] at h5
          cases h5

theorem lpd_phase_steps_eq (tasks_arr : List Tasks) (L : Int) (n : Nat) :
    lpd_phase_steps tasks_arr L n =
      if lpd_utilization tasks_arr L > 0 then
        lpd_alloc_loop L (lpd_wfd_threshold_crit tasks_arr L) n 0 (lpd_start tasks_arr L)
      else
        Except.ok { num_cores := 0, core := initialize_cores_offline L, tasks_arr := tasks_arr } :=
  rfl

theorem remaining_phase_steps_eq (tasks_arr : List Tasks) (min_cores L : Int) (s : Alloc_state)
    (n : Nat) :
    remaining_phase_steps tasks_arr min_cores L s n =
      remaining_alloc_loop L (remaining_wfd_threshold_crit tasks_arr L) n 0
        { s with num_cores := if s.num_cores < min_cores then min_cores else s.num_cores } :=
  rfl

/-- The allocator ends on the `return -1` exit exactly when some placement requires a core
beyond `MAX_CORES`. -/
theorem offline_task_allocator_error_iff (tasks_arr : List Tasks) (min_cores L : Int) :
    (∃ e : Alloc_state, offline_task_allocator tasks_arr min_cores L = Except.error e) ↔
      run_needs_core_beyond_max tasks_arr min_cores L := by
  unfold run_needs_core_beyond_max offline_task_allocator
  have hA : (∃ e : Alloc_state, lpd_phase tasks_arr L = Except.error e) ↔
      (lpd_utilization tasks_arr L > 0 ∧
        ∃ i : Nat, i < tasks_arr.length ∧ ∃ s : Alloc_state,
          lpd_phase_steps tasks_arr L i = Except.ok s ∧ is_lpd (task_at s.tasks_arr i) ∧
          needs_core_beyond_max L (lpd_wfd_threshold_crit tasks_arr L) i s) := by
    unfold lpd_phase
    simp only [lpd_phase_steps_eq]
    by_cases hU : lpd_utilization tasks_arr L > 0
    · simp only [if_pos hU]
      have := lpd_alloc_loop_error_iff L (lpd_wfd_threshold_crit tasks_arr L) 0
        (lpd_start tasks_arr L) tasks_arr.length
      simp only [zero_add] at this
      exact ⟨fun h => ⟨hU, this.mp h⟩, fun h => this.mpr h.2⟩
    · simp only [if_neg hU]
      constructor
      · rintro ⟨e, h⟩
        cases h
      · rintro ⟨h, _⟩
        exact absurd h hU
  have hB : ∀ sA : Alloc_state,
      (∃ e : Alloc_state, remaining_phase tasks_arr min_cores L sA = Except.error e) ↔
      ∃ i : Nat, i < tasks_arr.length ∧ ∃ s : Alloc_state,
        remaining_phase_steps tasks_arr min_cores L sA i = Except.ok s ∧
        (task_at s.tasks_arr i).allocated_core = NOT_ALLOCATED ∧
        needs_core_beyond_max L (remaining_wfd_threshold_crit tasks_arr L) i s := by
    intro sA
    unfold remaining_phase
    simp only [remaining_phase_steps_eq]
    have := remaining_alloc_loop_error_iff L (remaining_wfd_threshold_crit tasks_arr L) 0
      { sA with num_cores := if sA.num_cores < min_cores then min_cores else sA.num_cores }
      tasks_arr.length
    simp only [zero_add] at this
    exact this
  cases hl : lpd_phase tasks_arr L with
  | error e =>
    dsimp only
    constructor
    · intro _
      exact Or.inl (hA.mp ⟨e, hl⟩)
    · intro _
      exact ⟨e, rfl⟩
  | ok sA =>
    dsimp only
    constructor
    · intro h
      exact Or.inr ⟨sA, rfl, (hB sA).mp h⟩
    · rintro (h | ⟨sA', h1, h2⟩)
      · obtain ⟨e, he⟩ := hA.mpr h
        rw [hl] at he
        cases he
      · have e := Except.ok.inj h1
        subst e
        exact (hB _).mpr h2

theorem lpd_alloc_loop_le_max (L wfd : Int) (i : Int) (s : Alloc_state)
    (hs : s.num_cores ≤ (MAX_CORES : Int)) :
    ∀ (n : Nat) (s' : Alloc_state), lpd_alloc_loop L wfd n i s = Except.ok s' →
      s'.num_cores ≤ (MAX_CORES : Int) := by
  intro n
  induction n with
  | zero =>
    intro s' h
    rw [lpd_alloc_loop] at h
    rw [← Except.ok.inj h]
    exact hs
  | succ n ih =>
    intro s' h
    rw [lpd_alloc_loop_succ] at h
    cases hn : lpd_alloc_loop L wfd n i s with
    | error e =>
      rw [hn] at h
      cases h
    | ok s1 =>
      rw [hn] at h
      dsimp only at h
      split_ifs at h
      · exact (place_task_ok_bounds _ _ _ _ _ _ h).1 (ih s1 hn)
      · rw [← Except.ok.inj h]
        exact ih s1 hn

theorem remaining_alloc_loop_le_max (L wfd : Int) (i : Int) (s : Alloc_state)
    (hs : s.num_cores ≤ (MAX_CORES : Int)) :
    ∀ (n : Nat) (s' : Alloc_state), remaining_alloc_loop L wfd n i s = Except.ok s' →
      s'.num_cores ≤ (MAX_CORES : Int) := by
  intro n
  induction n with
  | zero =>
    intro s' h
    rw [remaining_alloc_loop] at h
    rw [← Except.ok.inj h]
    exact hs
  | succ n ih =>
    intro s' h
    rw [remaining_alloc_loop_succ] at h
    cases hn : remaining_alloc_loop L wfd n i s with
    | error e =>
      rw [hn] at h
      cases h
    | ok s1 =>
      rw [hn] at h
      dsimp only at h
      split_ifs at h
      · exact (place_task_ok_bounds _ _ _ _ _ _ h).1 (ih s1 hn)
      · rw [← Except.ok.inj h]
        exact ih s1 hn

/-- State left by a successful low-period phase: either the phase was entered, with
`ceil U_LPD >= 1` cores open at its start, or it was skipped and no core is open. -/
theorem lpd_phase_ok_cases {tasks_arr : List Tasks} {L : Int} {sA : Alloc_state}
    (h : lpd_phase tasks_arr L = Except.ok sA) :
    (0 < lpd_utilization tasks_arr L ∧ 1 ≤ ⌈lpd_utilization tasks_arr L⌉ ∧
      ⌈lpd_utilization tasks_arr L⌉ ≤ sA.num_cores ∧
      (⌈lpd_utilization tasks_arr L⌉ ≤ (MAX_CORES : Int) → sA.num_cores ≤ (MAX_CORES : Int))) ∨
    (¬ 0 < lpd_utilization tasks_arr L ∧
      sA = { num_cores := 0, core := initialize_cores_offline L, tasks_arr := tasks_arr }) := by
  unfold lpd_phase at h
  rw [lpd_phase_steps_eq] at h
  by_cases hU : lpd_utilization tasks_arr L > 0
  · rw [if_pos hU] at h
    left
    have hstart : (lpd_start tasks_arr L).num_cores = ⌈lpd_utilization tasks_arr L⌉ := rfl
    refine ⟨hU, Int.ceil_pos.mpr hU, ?_, fun hle => ?_⟩
    · rw [← hstart]
      exact lpd_alloc_loop_mono _ _ _ _ _ _ h
    · exact lpd_alloc_loop_le_max _ _ _ _ (by rw [hstart]; exact hle) _ _ h
  · rw [if_neg hU] at h
    exact Or.inr ⟨hU, (Except.ok.inj h).symm⟩

/-- Bounds on the number of open cores that a successful run returns. -/
theorem offline_task_allocator_ok_bounds {tasks_arr : List Tasks} {min_cores L : Int}
    {s : Alloc_state} (h : offline_task_allocator tasks_arr min_cores L = Except.ok s) :
    0 ≤ s.num_cores ∧
    (tasks_arr ≠ [] → (∀ t ∈ tasks_arr, t.allocated_core = NOT_ALLOCATED) → 1 ≤ s.num_cores) ∧
    (min_cores ≤ (MAX_CORES : Int) → ⌈lpd_utilization tasks_arr L⌉ ≤ (MAX_CORES : Int) →
      s.num_cores ≤ (MAX_CORES : Int)) := by
  obtain ⟨sA, hA, hB⟩ := offline_task_allocator_ok h
  rw [remaining_phase_steps_eq] at hB
  have hmono := remaining_alloc_loop_mono _ _ _ _ _ _ hB
  have hstart : sA.num_cores ≤ (if sA.num_cores < min_cores then min_cores else sA.num_cores) := by
    split_ifs <;> omega
  dsimp only at hmono
  rcases lpd_phase_ok_cases hA with ⟨_, h1, h2, h3⟩ | ⟨hU, hsA⟩
  · refine ⟨by omega, fun _ _ => by omega, fun hm hl => ?_⟩
    refine remaining_alloc_loop_le_max _ _ _ _ ?_ _ _ hB
    dsimp only
    have := h3 hl
    split_ifs <;> omega
  · have h0 : sA.num_cores = 0 := by rw [hsA]
    refine ⟨by omega, fun hne hun => ?_, fun hm _ => ?_⟩
    · cases htl : tasks_arr with
      | nil => exact absurd htl hne
      | cons t rest =>
        have hlen : tasks_arr.length = rest.length + 1 := by rw [htl]; rfl
        rw [hlen, remaining_alloc_loop] at hB
        have hguard : (task_at sA.tasks_arr 0).allocated_core = NOT_ALLOCATED := by
          rw [hsA]
          show (task_at tasks_arr 0).allocated_core = NOT_ALLOCATED
          rw [htl]
          exact hun t (by rw [htl]; exact List.mem_cons_self _ _)
        dsimp only at hB
        rw [if_pos hguard] at hB
        cases hp : place_task false L (remaining_wfd_threshold_crit tasks_arr L) 0
            { sA with
              num_cores := if sA.num_cores < min_cores then min_cores else sA.num_cores } with
        | error e =>
          rw [hp] at hB
          cases hB
        | ok s1 =>
          rw [hp] at hB
          dsimp only at hB
          have hb := (place_task_ok_bounds _ _ _ _ _ _ hp).2 (by dsimp only; omega)
          have hm2 := remaining_alloc_loop_mono _ _ _ _ _ _ hB
          omega
    · refine remaining_alloc_loop_le_max _ _ _ _ ?_ _ _ hB
      dsimp only
      have : (0 : Int) ≤ (MAX_CORES : Int) := by decide
      split_ifs <;> omega

/-- Return value of `offline_task_allocator`: it is `-1` exactly when placing some task
requires opening a core beyond `MAX_CORES`; otherwise it is the number of opened cores,
which is at least 1 for a non-empty set of unallocated tasks and at most `MAX_CORES` when
`min_cores <= MAX_CORES` and the number of cores opened for the low-period tasks,
`ceil U_LPD`, is at most `MAX_CORES` as well. -/
theorem offline_task_allocator_return_value (tasks_arr : List Tasks) (min_cores L : Int) :
    (allocator_return (offline_task_allocator tasks_arr min_cores L) = -1 ↔
      run_needs_core_beyond_max tasks_arr min_cores L) ∧
    (∀ s : Alloc_state, offline_task_allocator tasks_arr min_cores L = Except.ok s →
      allocator_return (offline_task_allocator tasks_arr min_cores L) = s.num_cores ∧
      (tasks_arr ≠ [] → (∀ t ∈ tasks_arr, t.allocated_core = NOT_ALLOCATED) →
        1 ≤ s.num_cores) ∧
      (min_cores ≤ (MAX_CORES : Int) → ⌈lpd_utilization tasks_arr L⌉ ≤ (MAX_CORES : Int) →
        s.num_cores ≤ (MAX_CORES : Int))) := by
  constructor
  · rw [← offline_task_allocator_error_iff]
    cases hr : offline_task_allocator tasks_arr min_cores L with
    | error e => exact ⟨fun _ => ⟨e, rfl⟩, fun _ => rfl⟩
    | ok s =>
      have h0 := (offline_task_allocator_ok_bounds hr).1
      constructor
      · intro h
        have : s.num_cores = -1 := h
        omega
      · rintro ⟨e, he⟩
        cases he
  · intro s hs
    obtain ⟨_, h1, h2⟩ := offline_task_allocator_ok_bounds hs
    rw [hs]
    exact ⟨rfl, h1, h2⟩

/-- The return value at `infeasible_pair_set`: the run with `min_cores = 1` returns 2, which
lies in `1 .. MAX_CORES`, and no placement of that run requires a core beyond
`MAX_CORES`. -/
theorem offline_task_allocator_return_value_witness :
    allocator_return (offline_task_allocator infeasible_pair_set 1 2) = 2 ∧
    ¬ run_needs_core_beyond_max infeasible_pair_set 1 2 ∧
    ∃ s : Alloc_state, offline_task_allocator infeasible_pair_set 1 2 = Except.ok s ∧
      allocator_return (offline_task_allocator infeasible_pair_set 1 2) = s.num_cores ∧
      1 ≤ s.num_cores ∧ s.num_cores ≤ (MAX_CORES : Int) := by
  have hret : allocator_return (offline_task_allocator infeasible_pair_set 1 2) = 2 := by
    decide!
  have key : returns_with (offline_task_allocator infeasible_pair_set 1 2)
      (fun _ => true) = true := by
    decide!
  obtain ⟨s, hs, _⟩ := returns_with_spec key
  have h := offline_task_allocator_return_value infeasible_pair_set 1 2
  refine ⟨hret, fun hn => ?_, s, hs, (h.2 s hs).1, (h.2 s hs).2.1 (by decide) (by decide),
    (h.2 s hs).2.2 (by decide) (by decide!)⟩
  have := h.1.mpr hn
  rw [hret] at this
  exact absurd this (by decide)

/-- C13 (evaluation at the failing input): for `dense_lpd_set` (22 low-period tasks with
`U_LPD = 21.56`) sorting gives the minimum core count `0 <= MAX_CORES`; the low-period
phase starts with `num_cores = ceil U_LPD = 22` open cores, without the comparison with
`MAX_CORES` that is made wherever one more core is opened; every task then finds an open
core, no `-1` is returned, and the allocator returns 22, which is above `MAX_CORES = 20`. -/
theorem offline_task_allocator_exceeds_max_cores :
    dense_lpd_set.length = 22 ∧
    (quick_sort dense_lpd_set 0 21).map (fun l => get_min_cores_reqd l 2) = some 0 ∧
    (quick_sort dense_lpd_set 0 21).map (fun l => ⌈lpd_utilization l 2⌉) = some 22 ∧
    (quick_sort dense_lpd_set 0 21).map (fun l => (lpd_start l 2).num_cores) = some 22 ∧
    (quick_sort dense_lpd_set 0 21).map
      (fun l => allocator_return (offline_task_allocator l 0 2)) = some 22 ∧
    (0 : Int) ≤ (MAX_CORES : Int) ∧ (22 : Int) > (MAX_CORES : Int) := by
  decide!

/-! ## Job creation and release instants -/

/-- C21: the job built by `create_job_structure` for a task of criticality `c` has, at every
level `k = i + 1` up to `MAX_LEVELS`, the budget `wcet[k - 1]` when `k <= c` and the budget
`wcet[c - 1]` when `c < k`; its criticality is `c` and its status is `READY`. -/
theorem create_job_structure_budgets (task_arr : List Tasks)
    (task_array_idx threshold_criticality core_no : Int) (timecount : ℚ)
    (current_level rand_value : Int) (i : Fin MAX_LEVELS) :
    (((i : Nat) : Int) + 1 ≤ (task_at task_arr task_array_idx).criticality →
        (create_job_structure task_arr task_array_idx threshold_criticality core_no timecount
          current_level rand_value).wcet_budget i
          = (task_at task_arr task_array_idx).wcet.getD i 0) ∧
    ((task_at task_arr task_array_idx).criticality < ((i : Nat) : Int) + 1 →
        (create_job_structure task_arr task_array_idx threshold_criticality core_no timecount
          current_level rand_value).wcet_budget i
          = (task_at task_arr task_array_idx).wcet.getD
              ((task_at task_arr task_array_idx).criticality - 1).toNat 0) ∧
    (create_job_structure task_arr task_array_idx threshold_criticality core_no timecount
        current_level rand_value).job_criticality
      = (task_at task_arr task_array_idx).criticality ∧
    (create_job_structure task_arr task_array_idx threshold_criticality core_no timecount
        current_level rand_value).status_flag = READY := by
  refine ⟨fun h => ?_, fun h => ?_, rfl, rfl⟩
  · have h1 : ((i : Nat) : Int) < (task_at task_arr task_array_idx).criticality := by omega
    simp only [create_job_structure, if_pos h1]
  · have h1 : ¬ ((i : Nat) : Int) < (task_at task_arr task_array_idx).criticality := by omega
    simp only [create_job_structure, if_neg h1]

theorem find_modulo_loop_eq (b : ℚ) (hb : 0 < b) :
    ∀ (n : Nat) (a : ℚ), (n : ℚ) * b ≤ a → a < ((n : ℚ) + 1) * b →
      find_modulo_loop b n a = a - (n : ℚ) * b := by
  intro n
  induction n with
  | zero =>
    intro a _ _
    simp [find_modulo_loop]
  | succ n ih =>
    intro a h1 h2
    have h3 : a ≥ b ∧ b ≠ 0 := by
      refine ⟨?_, hb.ne.symm⟩
      push_cast at h1
      nlinarith [Nat.cast_nonneg (α := ℚ) n]
    rw [find_modulo_loop, if_pos h3, ih (a - b)]
    · push_cast
      ring
    · push_cast at h1
      linarith
    · push_cast at h2
      linarith

/-- The loop of `find_modulo` leaves the remainder of `|a|` by `|b|`: for a divisor other
than zero and a dividend that is not negative, the result is the dividend minus the
largest multiple of `|b|` below it, and it is smaller than `|b|`. -/
theorem find_modulo_nonneg (a b : ℚ) (ha : 0 ≤ a) (hb : b ≠ 0) :
    find_modulo a b = a - (⌊a / |b|⌋ : ℚ) * |b| ∧ 0 ≤ find_modulo a b
      ∧ find_modulo a b < |b| := by
  have hB : 0 < |b| := abs_pos.mpr hb
  have hB' : (if b < 0 then -b else b) = |b| := by
    split_ifs with h
    · exact (abs_of_neg h).symm
    · exact (abs_of_nonneg (not_lt.mp h)).symm
  have hfl : 0 ≤ ⌊a / |b|⌋ := Int.floor_nonneg.mpr (div_nonneg ha hB.le)
  have hn : ((⌊a / |b|⌋.toNat : Nat) : ℚ) = (⌊a / |b|⌋ : ℚ) := by
    have := Int.toNat_of_nonneg hfl
    exact_mod_cast this
  have h1 : (⌊a / |b|⌋ : ℚ) * |b| ≤ a := by
    have := Int.floor_le (a / |b|)
    rwa [le_div_iff₀ hB] at this
  have h2 : a < ((⌊a / |b|⌋ : ℚ) + 1) * |b| := by
    have := Int.lt_floor_add_one (a / |b|)
    rwa [div_lt_iff₀ hB] at this
  have key : find_modulo a b = a - (⌊a / |b|⌋ : ℚ) * |b| := by
    unfold find_modulo
    simp only [hB', if_neg (not_lt.mpr ha), if_neg hB.ne.symm]
    rw [find_modulo_loop_eq |b| hB _ a (by rw [hn]; exact h1) (by rw [hn]; exact h2), hn]
  refine ⟨key, ?_, ?_⟩
  · rw [key]
    linarith
  · rw [key]
    linarith

/-- The arrival test of `add_ready_jobs`: for a period other than zero and a time that is
not before the phase, `find_modulo` is zero exactly at the multiples of the period. -/
theorem find_modulo_eq_zero_iff (a b : ℚ) (ha : 0 ≤ a) (hb : b ≠ 0) :
    find_modulo a b = 0 ↔ ∃ k : Int, a = (k : ℚ) * b := by
  have hB : 0 < |b| := abs_pos.mpr hb
  obtain ⟨key, _, hlt⟩ := find_modulo_nonneg a b ha hb
  constructor
  · intro h
    rw [key] at h
    rcases abs_choice b with hb' | hb'
    · refine ⟨⌊a / |b|⌋, ?_⟩
      have h' : a = (⌊a / |b|⌋ : ℚ) * |b| := by linarith
      have h2 : (⌊a / |b|⌋ : ℚ) * |b| = (⌊a / |b|⌋ : ℚ) * b := by
        nth_rewrite 2 [hb']
        rfl
      exact h'.trans h2
    · refine ⟨-⌊a / |b|⌋, ?_⟩
      have h' : a = (⌊a / |b|⌋ : ℚ) * |b| := by linarith
      have h2 : (⌊a / |b|⌋ : ℚ) * |b| = ((-⌊a / |b|⌋ : Int) : ℚ) * b := by
        rw [hb']
        push_cast
        ring
      exact h'.trans h2
  · rintro ⟨k, hk⟩
    have hk' : a = (|k| : Int) * |b| := by
      have : |a| = |(k : ℚ)| * |b| := by rw [hk, abs_mul]
      rw [abs_of_nonneg ha] at this
      rw [this]
      push_cast
      rfl
    have hfl : ⌊a / |b|⌋ = |k| := by
      rw [hk', mul_div_assoc, div_self hB.ne.symm, mul_one, Int.floor_intCast]
    rw [key, hfl]
    linarith

theorem add_ready_jobs_succ (rand : Nat → Int) (core : Core_run) (task_arr : List Tasks)
    (timecount : ℚ) (current_level : Int) (q : Ready_queues) (n : Nat) :
    add_ready_jobs rand core task_arr ((n : Int) + 1) timecount current_level q
      = add_ready_jobs_body rand core task_arr timecount current_level
          (add_ready_jobs rand core task_arr (n : Int) timecount current_level q) n := by
  have h : ((n : Int) + 1).toNat = n + 1 := by omega
  simp only [add_ready_jobs, h, Int.toNat_ofNat, List.range_succ, List.foldl_append,
    List.foldl_cons, List.foldl_nil]

/-- C23: `add_ready_jobs` handles the tasks in the order of the array; with `q1` the queues
after the first `n` tasks and `job` the job built for the task at index `n` (period other
than zero), the call for `n + 1` tasks changes `q1` as follows.  When the task is on the
core and `timecount` is one of its release instants, the job goes into exactly one queue
and the other two are left as they are: the run queue of the core when
`job_criticality >= accept_above` and the core is `ACTIVE`, the pending-request queue when
`job_criticality >= accept_above` and the core is not `ACTIVE`, the discarded queue at index
`job_criticality - 1` otherwise.  When the task is not on the core or is not released at
`timecount`, no queue changes. -/
theorem add_ready_jobs_routes (rand : Nat → Int) (core : Core_run) (task_arr : List Tasks)
    (timecount : ℚ) (current_level : Int) (q q1 : Ready_queues) (job : Jobs) (n : Nat)
    (hp : (task_at task_arr n).period ≠ 0)
    (hq : q1 = add_ready_jobs rand core task_arr (n : Int) timecount current_level q)
    (hj : job = create_job_structure task_arr n core.alloc.threshold_criticality
      core.alloc.core_no timecount current_level (rand q1.rand_calls)) :
    (((task_at task_arr n).allocated_core = core.alloc.core_no
        ∧ ((task_at task_arr n).phase : ℚ) ≤ timecount
        ∧ ∃ k : Int, timecount - ((task_at task_arr n).phase : ℚ)
            = (k : ℚ) * ((task_at task_arr n).period : ℚ)) →
      (job.job_criticality
            ≥ accept_above_criticality_level current_level core.alloc.threshold_criticality →
          core.status = ACTIVE →
          add_ready_jobs rand core task_arr ((n : Int) + 1) timecount current_level q
            = { q1 with qhead := update_run_queue q1.qhead job
                        rand_calls := q1.rand_calls + 1 }) ∧
      (job.job_criticality
            ≥ accept_above_criticality_level current_level core.alloc.threshold_criticality →
          core.status ≠ ACTIVE →
          add_ready_jobs rand core task_arr ((n : Int) + 1) timecount current_level q
            = { q1 with prhead := update_run_queue q1.prhead job
                        rand_calls := q1.rand_calls + 1 }) ∧
      (job.job_criticality
            < accept_above_criticality_level current_level core.alloc.threshold_criticality →
          add_ready_jobs rand core task_arr ((n : Int) + 1) timecount current_level q
            = { q1 with dhead := update_queue_at q1.dhead (job.job_criticality - 1) job
                        rand_calls := q1.rand_calls + 1 })) ∧
    (¬ ((task_at task_arr n).allocated_core = core.alloc.core_no
        ∧ ((task_at task_arr n).phase : ℚ) ≤ timecount
        ∧ ∃ k : Int, timecount - ((task_at task_arr n).phase : ℚ)
            = (k : ℚ) * ((task_at task_arr n).period : ℚ)) →
      add_ready_jobs rand core task_arr ((n : Int) + 1) timecount current_level q = q1) := by
  have hpq : ((task_at task_arr n).period : ℚ) ≠ 0 := by exact_mod_cast hp
  rw [add_ready_jobs_succ, ← hq]
  subst hj
  constructor
  · rintro ⟨hcore, hph, hk⟩
    have ha : timecount - ((task_at task_arr n).phase : ℚ) ≥ 0 := by linarith
    have hm : find_modulo (timecount - ((task_at task_arr n).phase : ℚ))
        ((task_at task_arr n).period : ℚ) = 0 :=
      (find_modulo_eq_zero_iff _ _ ha hpq).mpr hk
    have hcore' : (task_at task_arr ((n : Nat) : Int)).allocated_core = core.alloc.core_no :=
      hcore
    refine ⟨fun h1 h2 => ?_, fun h1 h2 => ?_, fun h1 => ?_⟩
    · unfold add_ready_jobs_body
      rw [if_pos hcore']
      dsimp only
      rw [if_pos ⟨ha, hm⟩, if_pos h1, if_pos h2]
    · unfold add_ready_jobs_body
      rw [if_pos hcore']
      dsimp only
      rw [if_pos ⟨ha, hm⟩, if_pos h1, if_neg h2]
    · unfold add_ready_jobs_body
      rw [if_pos hcore']
      dsimp only
      rw [if_pos ⟨ha, hm⟩, if_neg (not_le.mpr h1)]
  · intro hnot
    unfold add_ready_jobs_body
    by_cases hcore : (task_at task_arr ((n : Nat) : Int)).allocated_core = core.alloc.core_no
    · rw [if_pos hcore]
      dsimp only
      rw [if_neg]
      rintro ⟨ha, hm⟩
      exact hnot ⟨hcore, by linarith, (find_modulo_eq_zero_iff _ _ ha hpq).mp hm⟩
    · rw [if_neg hcore]

/-- Witness for C23: at level 1 on the `ACTIVE` core of `admission_input` (threshold 2), the
job of `T1` (criticality 2) released at time 0 goes to the run queue of the core. -/
theorem add_ready_jobs_routes_witness :
    (task_at admission_input.task_arr 0).period ≠ 0 ∧
    add_ready_jobs admission_input.rand
        (init_core admission_input (core_at admission_cores 0))
        admission_input.task_arr (((0 : Nat) : Int) + 1) 0 1
        { qhead := create_run_queue, dhead := [create_run_queue], prhead := create_run_queue,
          rand_calls := 0 }
      = { qhead := update_run_queue create_run_queue
            (create_job_structure admission_input.task_arr 0 2 1 0 1 2)
          dhead := [create_run_queue]
          prhead := create_run_queue
          rand_calls := 1 } :=
  ⟨by decide,
   ((add_ready_jobs_routes admission_input.rand
      (init_core admission_input (core_at admission_cores 0)) admission_input.task_arr 0 1
      { qhead := create_run_queue, dhead := [create_run_queue], prhead := create_run_queue,
        rand_calls := 0 }
      { qhead := create_run_queue, dhead := [create_run_queue], prhead := create_run_queue,
        rand_calls := 0 }
      (create_job_structure admission_input.task_arr 0 2 1 0 1 2) 0
      (by decide) rfl rfl).1
      ⟨by decide, by decide!, ⟨0, by decide!⟩⟩).1 (by decide) (by decide)⟩

/-! ## Lists of cores and of queues -/

theorem run_core_at_set (l : List Core_run) (i : Nat) (x : Core_run) (j : Nat) :
    run_core_at (l.set i x) j = if j = i ∧ i < l.length then x else run_core_at l j := by
  unfold run_core_at
  simp only [Int.toNat_ofNat, List.getD_eq_getElem?_getD, List.getElem?_set]
  by_cases h : i = j
  · subst h
    by_cases h2 : i < l.length
    · simp [h2]
    · simp [h2, List.getElem?_eq_none (not_lt.mp h2)]
  · have h' : ¬ (j = i ∧ i < l.length) := fun hh => h hh.1.symm
    simp [h, h']

theorem run_core_at_mem (l : List Core_run) (i : Nat) (h : i < l.length) :
    run_core_at l i ∈ l := by
  unfold run_core_at
  simp only [Int.toNat_ofNat, List.getD_eq_getElem?_getD, List.getElem?_eq_getElem h,
    Option.getD_some]
  exact List.getElem_mem h

/-- A property of every core of the array survives the assignment to `core[i]` of a record
that has it whenever the previous record had it. -/
theorem forall_core_set {R : Core_run → Prop} {l : List Core_run} {i : Nat} {x : Core_run}
    (h : ∀ c ∈ l, R c) (hx : R (run_core_at l i) → R x) : ∀ c ∈ l.set i x, R c := by
  intro c hc
  by_cases hi : i < l.length
  · rcases List.mem_or_eq_of_mem_set hc with hc | hc
    · exact h c hc
    · rw [hc]
      exact hx (h _ (run_core_at_mem l i hi))
  · rw [List.set_eq_of_length_le (not_lt.mp hi)] at hc
    exact h c hc

theorem queue_at_set (l : List RQ_HEAD) (i : Nat) (x : RQ_HEAD) (k : Nat) :
    queue_at (l.set i x) k = if k = i ∧ i < l.length then x else queue_at l k := by
  unfold queue_at
  simp only [Int.toNat_ofNat, List.getD_eq_getElem?_getD, List.getElem?_set]
  by_cases h : i = k
  · subst h
    by_cases h2 : i < l.length
    · simp [h2]
    · simp [h2, List.getElem?_eq_none (not_lt.mp h2)]
  · have h' : ¬ (k = i ∧ i < l.length) := fun hh => h hh.1.symm
    simp [h, h']

theorem foldl_inv {α β : Type} (I : α → Prop) (f : α → β → α)
    (h : ∀ a b, I a → I (f a b)) (l : List β) (a : α) (ha : I a) : I (l.foldl f a) := by
  induction l generalizing a with
  | nil => exact ha
  | cons b l ih => exact ih _ (h a b ha)

theorem for_cores_inv (I : Sched_state → Prop) (num_cores : Int)
    (body : Sched_state → Nat → Option Sched_state)
    (h : ∀ s i s1, I s → body s i = some s1 → I s1) (s s1 : Sched_state) (hs : I s)
    (hr : for_cores num_cores body s = some s1) : I s1 := by
  unfold for_cores at hr
  have key : ∀ (l : List Nat) (r : Option Sched_state), (∀ s, r = some s → I s) →
      ∀ s1, l.foldl (fun r core_idx => match r with
        | none => none
        | some s => body s core_idx) r = some s1 → I s1 := by
    intro l
    induction l with
    | nil =>
      intro r hr s1 h1
      exact hr s1 h1
    | cons i l ih =>
      intro r hr s1 h1
      rw [List.foldl_cons] at h1
      refine ih _ ?_ s1 h1
      intro s2 h2
      cases r with
      | none => simp at h2
      | some s0 => exact h s0 i s2 (hr s0 rfl) h2
  exact key _ (some s) (fun s0 h0 => by cases h0; exact hs) s1 hr

/-! ## Insertions into a queue -/

theorem Grown.grown_trans {A : Jobs → Prop} {l1 l2 l3 : List Jobs} (h1 : Grown A l1 l2)
    (h2 : Grown A l2 l3) : Grown A l1 l3 := by
  induction h2 with
  | refl => exact h1
  | step _ hj ih => exact Grown.step ih hj

theorem Grown.grown_mono {A B : Jobs → Prop} (hAB : ∀ j, A j → B j) {l1 l2 : List Jobs}
    (h : Grown A l1 l2) : Grown B l1 l2 := by
  induction h with
  | refl => exact Grown.refl _
  | step _ hj ih => exact Grown.step ih (hAB _ hj)

theorem Grown.grown_update {A : Jobs → Prop} {l : List Jobs} {head : RQ_HEAD} {j : Jobs}
    (h : Grown A l head.head_node) (hj : A j) : Grown A l (update_run_queue head j).head_node := by
  rw [update_run_queue_head_node]
  exact Grown.step h hj

theorem mem_insert_walk (j x : Jobs) (q : List Jobs) :
    x ∈ insert_walk j q ↔ x = j ∨ x ∈ q := by
  obtain ⟨l1, l2, h1, h2, _, _⟩ := insert_walk_split j q
  rw [h2, h1]
  simp only [List.mem_append, List.mem_cons]
  tauto

theorem Grown.grown_mem {A : Jobs → Prop} {l1 l2 : List Jobs} (h : Grown A l1 l2) :
    ∀ x ∈ l2, x ∈ l1 ∨ A x := by
  induction h with
  | refl => exact fun x hx => Or.inl hx
  | step _ hj ih =>
    intro x hx
    rcases (mem_insert_walk _ _ _).mp hx with e | hx
    · rw [e]
      exact Or.inr hj
    · exact ih x hx

theorem Grown.grown_forall {A P : Jobs → Prop} {l1 l2 : List Jobs} (h : Grown A l1 l2)
    (h1 : ∀ x ∈ l1, P x) (hA : ∀ x, A x → P x) : ∀ x ∈ l2, P x := by
  intro x hx
  rcases h.grown_mem x hx with hx | hx
  · exact h1 x hx
  · exact hA x hx

theorem Grown.grown_ascending {A : Jobs → Prop} {l1 l2 : List Jobs} (h : Grown A l1 l2)
    (h1 : ascending l1) : ascending l2 := by
  induction h with
  | refl => exact h1
  | step _ _ ih =>
    obtain ⟨_, _, _, _, _, _, h5⟩ := insert_walk_ascending _ _ ih
    exact h5

/-- Without a job that may be inserted the queue does not change. -/
theorem Grown.grown_eq_of_false {A : Jobs → Prop} {l1 l2 : List Jobs} (h : Grown A l1 l2)
    (hA : ∀ j, ¬ A j) : l2 = l1 := by
  induction h with
  | refl => rfl
  | step _ hj _ => exact absurd hj (hA _)

theorem Grown_all.all_refl (A : Nat → Jobs → Prop) (d : List RQ_HEAD) : Grown_all A d d :=
  ⟨rfl, fun _ => Grown.refl _⟩

theorem Grown_all.all_trans {A : Nat → Jobs → Prop} {d1 d2 d3 : List RQ_HEAD}
    (h1 : Grown_all A d1 d2) (h2 : Grown_all A d2 d3) : Grown_all A d1 d3 :=
  ⟨h2.1.trans h1.1, fun k => (h1.2 k).grown_trans (h2.2 k)⟩

theorem Grown_all.all_mono {A B : Nat → Jobs → Prop} (hAB : ∀ k j, A k j → B k j)
    {d1 d2 : List RQ_HEAD} (h : Grown_all A d1 d2) : Grown_all B d1 d2 :=
  ⟨h.1, fun k => (h.2 k).grown_mono (hAB k)⟩

/-- The call `update_run_queue (dhead[idx], j)` inserts `j` into the queue of index
`idx.toNat`. -/
theorem Grown_all.all_update {A : Nat → Jobs → Prop} {d1 d2 : List RQ_HEAD} {idx : Int} {j : Jobs}
    (h : Grown_all A d1 d2) (hj : A idx.toNat j) : Grown_all A d1 (update_queue_at d2 idx j) := by
  refine ⟨by rw [update_queue_at, List.length_set]; exact h.1, fun k => ?_⟩
  rw [update_queue_at, queue_at_set]
  split_ifs with hk
  · have e : queue_at d2 idx = queue_at d2 k := by
      unfold queue_at
      rw [hk.1]
      rfl
    rw [e]
    exact (h.2 k).grown_update (by rw [hk.1]; exact hj)
  · exact h.2 k

theorem Shrunk_all.shrunk_refl (d : List RQ_HEAD) : Shrunk_all d d :=
  ⟨rfl, fun _ => List.Sublist.refl _⟩

theorem Shrunk_all.shrunk_trans {d1 d2 d3 : List RQ_HEAD}
    (h1 : Shrunk_all d1 d2) (h2 : Shrunk_all d2 d3) : Shrunk_all d1 d3 :=
  ⟨h2.1.trans h1.1, fun k => (h2.2 k).trans (h1.2 k)⟩

theorem Shrunk_all.shrunk_set {d1 d2 : List RQ_HEAD} {i : Nat} {q : RQ_HEAD}
    (h : Shrunk_all d1 d2) (hq : List.Sublist q.head_node (queue_at d2 i).head_node) :
    Shrunk_all d1 (d2.set i q) := by
  refine ⟨by rw [List.length_set]; exact h.1, fun k => ?_⟩
  rw [queue_at_set]
  split_ifs with hk
  · exact (hk.1 ▸ hq).trans (h.2 k)
  · exact h.2 k

/-! ## Effect of the queue functions of the scheduler loop -/

theorem foldl_inv_mem {α β : Type} (I : α → Prop) (f : α → β → α) (l : List β)
    (h : ∀ a b, b ∈ l → I a → I (f a b)) (a : α) (ha : I a) : I (l.foldl f a) := by
  induction l generalizing a with
  | nil => exact ha
  | cons b l ih =>
    exact ih (fun a c hc => h a c (List.mem_cons_of_mem _ hc)) _
      (h a b (List.mem_cons_self _ _) ha)

/-- The jobs that `add_ready_jobs` inserts: into the run queue only for an `ACTIVE` core and
only jobs at or above the acceptance level, into the pending-request queue only for a core
that is not `ACTIVE`, into the discarded queue of index `job_criticality - 1` only jobs
below the acceptance level. -/
theorem add_ready_jobs_effect (rand : Nat → Int) (core : Core_run) (task_arr : List Tasks)
    (num_tasks : Int) (timecount : ℚ) (current_level : Int) (q : Ready_queues) :
    Grown (fun j => Created task_arr num_tasks core.alloc.threshold_criticality
          core.alloc.core_no timecount current_level j
        ∧ accept_above_criticality_level current_level core.alloc.threshold_criticality
            ≤ j.job_criticality ∧ core.status = ACTIVE)
      q.qhead.head_node
      (add_ready_jobs rand core task_arr num_tasks timecount current_level q).qhead.head_node ∧
    Grown (fun j => Created task_arr num_tasks core.alloc.threshold_criticality
          core.alloc.core_no timecount current_level j
        ∧ accept_above_criticality_level current_level core.alloc.threshold_criticality
            ≤ j.job_criticality ∧ core.status ≠ ACTIVE)
      q.prhead.head_node
      (add_ready_jobs rand core task_arr num_tasks timecount current_level q).prhead.head_node ∧
    Grown_all (fun k j => Created task_arr num_tasks core.alloc.threshold_criticality
          core.alloc.core_no timecount current_level j
        ∧ j.job_criticality
            < accept_above_criticality_level current_level core.alloc.threshold_criticality
        ∧ (j.job_criticality - 1).toNat = k)
      q.dhead
      (add_ready_jobs rand core task_arr num_tasks timecount current_level q).dhead := by
  unfold add_ready_jobs
  refine foldl_inv_mem
    (fun q1 : Ready_queues =>
      Grown (fun j => Created task_arr num_tasks core.alloc.threshold_criticality
            core.alloc.core_no timecount current_level j
          ∧ accept_above_criticality_level current_level core.alloc.threshold_criticality
              ≤ j.job_criticality ∧ core.status = ACTIVE)
        q.qhead.head_node q1.qhead.head_node ∧
      Grown (fun j => Created task_arr num_tasks core.alloc.threshold_criticality
            core.alloc.core_no timecount current_level j
          ∧ accept_above_criticality_level current_level core.alloc.threshold_criticality
              ≤ j.job_criticality ∧ core.status ≠ ACTIVE)
        q.prhead.head_node q1.prhead.head_node ∧
      Grown_all (fun k j => Created task_arr num_tasks core.alloc.threshold_criticality
            core.alloc.core_no timecount current_level j
          ∧ j.job_criticality
              < accept_above_criticality_level current_level core.alloc.threshold_criticality
          ∧ (j.job_criticality - 1).toNat = k)
        q.dhead q1.dhead)
    _ _ ?_ q ⟨Grown.refl _, Grown.refl _, Grown_all.all_refl _ _⟩
  rintro q1 i hi ⟨h1, h2, h3⟩
  have hi' : i < num_tasks.toNat := List.mem_range.mp hi
  have hc : ∀ rv, Created task_arr num_tasks core.alloc.threshold_criticality
      core.alloc.core_no timecount current_level
      (create_job_structure task_arr i core.alloc.threshold_criticality core.alloc.core_no
        timecount current_level rv) := fun rv => ⟨i, hi', rv, rfl⟩
  unfold add_ready_jobs_body
  dsimp only
  split_ifs with c1 c2 c3 c4
  · exact ⟨h1.grown_update ⟨hc _, c3, c4⟩, h2, h3⟩
  · exact ⟨h1, h2.grown_update ⟨hc _, c3, c4⟩, h3⟩
  · exact ⟨h1, h2, h3.all_update ⟨hc _, not_le.mp c3, rfl⟩⟩
  · exact ⟨h1, h2, h3⟩
  · exact ⟨h1, h2, h3⟩

theorem delete_walk_sublist (j : Jobs) (l : List Jobs) : List.Sublist (delete_walk j l) l := by
  induction l with
  | nil => exact List.Sublist.refl _
  | cons temp rest ih =>
    unfold delete_walk
    split_ifs
    · exact List.sublist_cons_self _ _
    · exact List.Sublist.cons₂ _ ih

/-- When no node in front of `temp` has the numbers of its job, `delete_job_from_queue`
removes `temp` itself. -/
theorem delete_walk_append_self (temp : Jobs) (front : List Jobs)
    (h : ∀ x ∈ front, ¬ (x.task_no = temp.task_no ∧ x.job_no = temp.job_no)) :
    delete_walk temp (front ++ [temp]) = front := by
  induction front with
  | nil => simp [delete_walk]
  | cons x front ih =>
    have hx := h x (List.mem_cons_self _ _)
    rw [List.cons_append, delete_walk, if_neg hx,
      ih fun y hy => h y (List.mem_cons_of_mem _ hy)]

theorem delete_job_from_queue_sublist (head : RQ_HEAD) (j : Jobs) :
    List.Sublist (delete_job_from_queue head j).head_node head.head_node := by
  unfold delete_job_from_queue
  split
  · exact List.Sublist.refl _
  · rename_i temp rest e
    rw [e]
    exact delete_walk_sublist _ _

theorem sublist_front_step (temp : Jobs) (front rest l : List Jobs)
    (h : List.Sublist l (delete_walk temp (front ++ [temp]) ++ rest)) :
    List.Sublist l (front ++ temp :: rest) := by
  have h1 : List.Sublist (delete_walk temp (front ++ [temp]) ++ rest)
      ((front ++ [temp]) ++ rest) :=
    List.Sublist.append (delete_walk_sublist _ _) (List.Sublist.refl _)
  rw [List.append_assoc] at h1
  exact h.trans h1

/-- The loop of `discard_below_criticality_level` keeps a part of the chain, in its order, and
inserts into the discarded queue of index `job_criticality - 1` only jobs of the chain with
a criticality below `level`. -/
theorem discard_walk_effect (level : Int) (suf : List Jobs) :
    ∀ (front : List Jobs) (size : Int) (dhead : List RQ_HEAD),
      List.Sublist (discard_walk level front suf size dhead).1 (front ++ suf) ∧
      Grown_all (fun k j => j ∈ suf ∧ j.job_criticality < level
          ∧ (j.job_criticality - 1).toNat = k)
        dhead (discard_walk level front suf size dhead).2.2 := by
  induction suf with
  | nil =>
    intro front size dhead
    simp only [discard_walk, List.append_nil]
    exact ⟨List.Sublist.refl _, Grown_all.all_refl _ _⟩
  | cons temp rest ih =>
    intro front size dhead
    unfold discard_walk
    split_ifs with h
    · obtain ⟨h1, h2⟩ := ih (delete_walk temp (front ++ [temp])) (size - 1)
        (update_queue_at dhead (temp.job_criticality - 1) temp)
      refine ⟨sublist_front_step _ _ _ _ h1, ?_⟩
      have h3 : Grown_all (fun k j => j ∈ temp :: rest ∧ j.job_criticality < level
          ∧ (j.job_criticality - 1).toNat = k) dhead
          (update_queue_at dhead (temp.job_criticality - 1) temp) :=
        (Grown_all.all_refl _ dhead).all_update ⟨List.mem_cons_self _ _, h, rfl⟩
      exact h3.all_trans (h2.all_mono fun k j hj => ⟨List.mem_cons_of_mem _ hj.1, hj.2⟩)
    · obtain ⟨h1, h2⟩ := ih (front ++ [temp]) size dhead
      rw [List.append_assoc] at h1
      exact ⟨h1, h2.all_mono fun k j hj => ⟨List.mem_cons_of_mem _ hj.1, hj.2⟩⟩

/-- When jobs with the same task and job number have the same criticality, the loop of
`discard_below_criticality_level` leaves no job with a criticality below `level`. -/
theorem discard_walk_level (level : Int) (suf : List Jobs) :
    ∀ (front : List Jobs) (size : Int) (dhead : List RQ_HEAD),
      (∀ x ∈ front, level ≤ x.job_criticality) →
      (∀ a ∈ front ++ suf, ∀ b ∈ front ++ suf,
        a.task_no = b.task_no ∧ a.job_no = b.job_no → a.job_criticality = b.job_criticality) →
      ∀ x ∈ (discard_walk level front suf size dhead).1, level ≤ x.job_criticality := by
  induction suf with
  | nil =>
    intro front size dhead h1 _
    simpa only [discard_walk] using h1
  | cons temp rest ih =>
    intro front size dhead h1 h2
    unfold discard_walk
    have hmem : temp ∈ front ++ temp :: rest := by simp
    split_ifs with h
    · have e : delete_walk temp (front ++ [temp]) = front := by
        refine delete_walk_append_self _ _ fun x hx hk => ?_
        have := h2 x (List.mem_append_left _ hx) temp hmem hk
        have := h1 x hx
        omega
      rw [e]
      refine ih front _ _ h1 fun a ha b hb => h2 a ?_ b ?_
      · rcases List.mem_append.mp ha with ha | ha
        · exact List.mem_append_left _ ha
        · exact List.mem_append_right _ (List.mem_cons_of_mem _ ha)
      · rcases List.mem_append.mp hb with hb | hb
        · exact List.mem_append_left _ hb
        · exact List.mem_append_right _ (List.mem_cons_of_mem _ hb)
    · refine ih (front ++ [temp]) _ _ ?_ ?_
      · intro x hx
        rcases List.mem_append.mp hx with hx | hx
        · exact h1 x hx
        · rw [List.mem_singleton.mp hx]
          exact not_lt.mp h
      · rw [List.append_assoc]
        exact h2

theorem discard_below_criticality_level_effect (head : RQ_HEAD) (dhead : List RQ_HEAD)
    (level : Int) :
    List.Sublist (discard_below_criticality_level head dhead level).1.head_node head.head_node ∧
    Grown_all (fun k j => j ∈ head.head_node ∧ j.job_criticality < level
        ∧ (j.job_criticality - 1).toNat = k)
      dhead (discard_below_criticality_level head dhead level).2 := by
  have h := discard_walk_effect level head.head_node [] head.size dhead
  rw [List.nil_append] at h
  exact h

theorem discard_below_criticality_level_level (head : RQ_HEAD) (dhead : List RQ_HEAD)
    (level : Int)
    (h : ∀ a ∈ head.head_node, ∀ b ∈ head.head_node,
      a.task_no = b.task_no ∧ a.job_no = b.job_no → a.job_criticality = b.job_criticality) :
    ∀ x ∈ (discard_below_criticality_level head dhead level).1.head_node,
      level ≤ x.job_criticality :=
  discard_walk_level level head.head_node [] head.size dhead (by simp) (by simpa using h)

/-- The loop of the core wake-up inserts into the run queue only jobs of the pending-request
queue that are allocated to the core, and keeps a part of the pending-request queue. -/
theorem wakeup_walk_effect (core_no : Int) (suf : List Jobs) :
    ∀ (front : List Jobs) (size : Int) (qhead : RQ_HEAD),
      List.Sublist (wakeup_walk core_no front suf size qhead).1 (front ++ suf) ∧
      Grown (fun j => j ∈ suf ∧ j.allocated_core = core_no) qhead.head_node
        (wakeup_walk core_no front suf size qhead).2.2.head_node := by
  induction suf with
  | nil =>
    intro front size qhead
    simp only [wakeup_walk, List.append_nil]
    exact ⟨List.Sublist.refl _, Grown.refl _⟩
  | cons temp rest ih =>
    intro front size qhead
    unfold wakeup_walk
    split_ifs with h
    · obtain ⟨h1, h2⟩ := ih (delete_walk temp (front ++ [temp])) (size - 1)
        (update_run_queue qhead temp)
      refine ⟨sublist_front_step _ _ _ _ h1, ?_⟩
      have h3 : Grown (fun j => j ∈ temp :: rest ∧ j.allocated_core = core_no)
          qhead.head_node (update_run_queue qhead temp).head_node :=
        (Grown.refl _).grown_update ⟨List.mem_cons_self _ _, h⟩
      exact h3.grown_trans (h2.grown_mono fun j hj => ⟨List.mem_cons_of_mem _ hj.1, hj.2⟩)
    · obtain ⟨h1, h2⟩ := ih (front ++ [temp]) size qhead
      rw [List.append_assoc] at h1
      exact ⟨h1, h2.grown_mono fun j hj => ⟨List.mem_cons_of_mem _ hj.1, hj.2⟩⟩

theorem expired_walk_sublist (current_level : Int) (current_time : ℚ) (suf : List Jobs) :
    ∀ (front : List Jobs) (size : Int),
      List.Sublist (expired_walk current_level current_time front suf size).1
        (front ++ suf) := by
  induction suf with
  | nil =>
    intro front size
    simp only [expired_walk, List.append_nil]
    exact List.Sublist.refl _
  | cons temp rest ih =>
    intro front size
    unfold expired_walk
    split_ifs with h
    · exact sublist_front_step _ _ _ _ (ih _ _)
    · have h1 := ih (front ++ [temp]) size
      rw [List.append_assoc] at h1
      exact h1

theorem delete_expired_jobs_shrunk (dhead : List RQ_HEAD) (current_level : Int)
    (current_time : ℚ) :
    Shrunk_all dhead (delete_expired_jobs dhead current_level current_time) := by
  unfold delete_expired_jobs
  refine foldl_inv (fun d => Shrunk_all dhead d) _ ?_ _ dhead (Shrunk_all.shrunk_refl _)
  intro d i hd
  refine hd.shrunk_set ?_
  have h := expired_walk_sublist current_level current_time (queue_at d i).head_node []
    (queue_at d i).size
  rw [List.nil_append] at h
  exact h

theorem copy_job_structure_eq (dest src : Jobs) : copy_job_structure dest src = src := rfl

theorem foldl_opt_none {α β : Type} (f : Option α → β → Option α) (hf : ∀ b, f none b = none)
    (l : List β) : l.foldl f none = none := by
  induction l with
  | nil => rfl
  | cons b l ih => rw [List.foldl_cons, hf, ih]

/-- A property of the state survives a loop whose body may fail to return, when every
iteration that returns keeps it. -/
theorem foldl_opt_inv {α β : Type} (I : α → Prop) (f : Option α → β → Option α)
    (hf : ∀ b, f none b = none)
    (h : ∀ a b a1, I a → f (some a) b = some a1 → I a1) (l : List β) :
    ∀ a a1, I a → l.foldl f (some a) = some a1 → I a1 := by
  induction l with
  | nil =>
    intro a a1 ha e
    simp only [List.foldl_nil, Option.some.injEq] at e
    rw [← e]
    exact ha
  | cons b l ih =>
    intro a a1 ha e
    rw [List.foldl_cons] at e
    cases hfa : f (some a) b with
    | none =>
      rw [hfa, foldl_opt_none f hf] at e
      exact Option.noConfusion e
    | some a2 =>
      rw [hfa] at e
      exact ih a2 a1 (h a b a2 ha hfa) e

/-- The slack computation for a discarded job changes neither the run queue nor the discarded
queues nor `i` nor `temp_count`. -/
theorem discarded_slack_body_frame (rand : Nat → Int) (discarded_job : Jobs)
    (task_ptr : List Tasks)
    (num_tasks threshold_criticality current_level core_no hyperperiod : Int)
    (current_time : ℚ) (st st1 : Discarded_state) (ii : Nat)
    (h : discarded_slack_body rand discarded_job task_ptr num_tasks threshold_criticality
      current_level core_no hyperperiod current_time (some st) ii = some st1) :
    st1.head = st.head ∧ st1.dhead = st.dhead ∧ st1.i = st.i
      ∧ st1.temp_count = st.temp_count := by
  unfold discarded_slack_body at h
  dsimp only at h
  split at h
  · exact Option.noConfusion h
  · split at h
    · exact Option.noConfusion h
    · split at h
      · exact Option.noConfusion h
      · split at h
        · exact Option.noConfusion h
        · split at h
          · exact Option.noConfusion h
          · simp only [Option.some.injEq] at h
            rw [← h]
            exact ⟨rfl, rfl, rfl, rfl⟩

theorem discarded_slack_frame (rand : Nat → Int) (discarded_job : Jobs)
    (task_ptr : List Tasks)
    (num_tasks threshold_criticality current_level core_no hyperperiod : Int)
    (current_time : ℚ) (l : List Nat) (st st1 : Discarded_state)
    (h : l.foldl (discarded_slack_body rand discarded_job task_ptr num_tasks
      threshold_criticality current_level core_no hyperperiod current_time) (some st)
      = some st1) :
    st1.head = st.head ∧ st1.dhead = st.dhead ∧ st1.i = st.i
      ∧ st1.temp_count = st.temp_count := by
  refine foldl_opt_inv
    (fun a => a.head = st.head ∧ a.dhead = st.dhead ∧ a.i = st.i
      ∧ a.temp_count = st.temp_count) _ (fun _ => rfl) ?_ l st st1 ⟨rfl, rfl, rfl, rfl⟩ h
  intro a b a1 ha e
  obtain ⟨h1, h2, h3, h4⟩ := discarded_slack_body_frame _ _ _ _ _ _ _ _ _ _ _ _ e
  exact ⟨h1.trans ha.1, h2.trans ha.2.1, h3.trans ha.2.2.1, h4.trans ha.2.2.2⟩

/-- The loop of `schedule_discarded_job` inserts into the run queue only jobs taken from the
discarded queues, with `allocated_core` set to the core, and inserts nothing into the
discarded queues. -/
theorem schedule_discarded_loop_effect (rand : Nat → Int) (next_job : Jobs)
    (task_ptr : List Tasks)
    (num_tasks threshold_criticality max_criticality current_level core_no hyperperiod : Int)
    (current_time : ℚ) (head0 : List Jobs) (dhead0 : List RQ_HEAD) (fuel : Nat) :
    ∀ st st1 : Discarded_state,
      Grown (fun j => ∃ (k : Nat) (j0 : Jobs), j0 ∈ (queue_at dhead0 k).head_node
          ∧ j = { j0 with allocated_core := core_no }) head0 st.head.head_node →
      Shrunk_all dhead0 st.dhead →
      schedule_discarded_loop rand next_job task_ptr num_tasks threshold_criticality
        max_criticality current_level core_no hyperperiod current_time fuel st = some st1 →
      Grown (fun j => ∃ (k : Nat) (j0 : Jobs), j0 ∈ (queue_at dhead0 k).head_node
          ∧ j = { j0 with allocated_core := core_no }) head0 st1.head.head_node ∧
      Shrunk_all dhead0 st1.dhead := by
  induction fuel with
  | zero =>
    intro st st1 hg hs h
    unfold schedule_discarded_loop at h
    split_ifs at h with hne
    simp only [Option.some.injEq] at h
    rw [← h]
    exact ⟨hg, hs⟩
  | succ fuel ih =>
    intro st st1 hg hs h
    unfold schedule_discarded_loop at h
    split_ifs at h with hne
    · dsimp only at h
      split at h
      · exact Option.noConfusion h
      · rename_i st2 hfold
        obtain ⟨f1, f2, f3, f4⟩ := discarded_slack_frame _ _ _ _ _ _ _ _ _ _ _ _ hfold
        dsimp only at f1 f2 f3 f4
        -- the popped job comes from the queue `i`
        obtain ⟨temp, rest, hq⟩ : ∃ temp rest,
            (queue_at st.dhead st.i).head_node = temp :: rest := by
          cases e : (queue_at st.dhead st.i).head_node with
          | nil => rw [e] at hne; simp at hne
          | cons temp rest => exact ⟨temp, rest, rfl⟩
        have hpop1 : (schedule_next_job (queue_at st.dhead st.i) next_job).1 = temp := by
          unfold schedule_next_job
          rw [hq]
          rfl
        have hpop2 : (schedule_next_job (queue_at st.dhead st.i) next_job).2.head_node = rest := by
          unfold schedule_next_job
          rw [hq]
        have hqi : queue_at st.dhead st.i = queue_at st.dhead (st.i.toNat : Nat) := by
          unfold queue_at
          rfl
        have htemp : temp ∈ (queue_at dhead0 (st.i.toNat : Nat)).head_node := by
          refine (hs.2 st.i.toNat).subset ?_
          rw [← hqi, hq]
          exact List.mem_cons_self _ _
        have hs2 : Shrunk_all dhead0 st2.dhead := by
          rw [f2]
          refine hs.shrunk_set ?_
          rw [hpop2, ← hqi, hq]
          exact List.sublist_cons_self _ _
        have hgB : Grown (fun j => ∃ (k : Nat) (j0 : Jobs), j0 ∈ (queue_at dhead0 k).head_node
            ∧ j = { j0 with allocated_core := core_no }) head0 st2.head.head_node := by
          rw [f1]
          exact hg
        have hgA : Grown (fun j => ∃ (k : Nat) (j0 : Jobs), j0 ∈ (queue_at dhead0 k).head_node
            ∧ j = { j0 with allocated_core := core_no }) head0
            (update_run_queue st2.head
              { (schedule_next_job (queue_at st.dhead st.i) next_job).1 with
                allocated_core := core_no }).head_node :=
          hgB.grown_update ⟨st.i.toNat, temp, htemp, by rw [hpop1]⟩
        split_ifs at h
        · simp only [Option.some.injEq] at h
          rw [← h]
          exact ⟨hgA, hs2⟩
        · simp only [Option.some.injEq] at h
          rw [← h]
          exact ⟨hgB, hs2⟩
        · exact ih _ _ (by exact hgA) (by exact hs2) h
        · exact ih _ _ (by exact hgB) (by exact hs2) h
        · exact ih _ _ (by exact hgA) (by exact hs2) h
        · exact ih _ _ (by exact hgB) (by exact hs2) h
    · simp only [Option.some.injEq] at h
      rw [← h]
      exact ⟨hg, hs⟩

/-- `schedule_discarded_job` inserts into the run queue only jobs taken from the discarded
queues, with `allocated_core` set to the core, and inserts nothing into the discarded
queues. -/
theorem schedule_discarded_job_effect (rand : Nat → Int) (next_job : Jobs) (head : RQ_HEAD)
    (dhead : List RQ_HEAD) (task_ptr : List Tasks)
    (num_tasks threshold_criticality max_criticality current_level core_no hyperperiod : Int)
    (current_time : ℚ) (rand_calls : Nat) (head1 : RQ_HEAD) (dhead1 : List RQ_HEAD)
    (rand_calls1 : Nat)
    (h : schedule_discarded_job rand next_job head dhead task_ptr num_tasks
      threshold_criticality max_criticality current_level core_no hyperperiod current_time
      rand_calls = some (head1, dhead1, rand_calls1)) :
    Grown (fun j => ∃ (k : Nat) (j0 : Jobs), j0 ∈ (queue_at dhead k).head_node
        ∧ j = { j0 with allocated_core := core_no }) head.head_node head1.head_node ∧
    Shrunk_all dhead dhead1 := by
  unfold schedule_discarded_job at h
  dsimp only at h
  have hexp := delete_expired_jobs_shrunk dhead current_level current_time
  split_ifs at h with hi
  · split at h
    · exact Option.noConfusion h
    · rename_i st1 hloop
      simp only [Option.some.injEq, Prod.mk.injEq] at h
      obtain ⟨h1, h2⟩ := schedule_discarded_loop_effect rand next_job task_ptr num_tasks
        threshold_criticality max_criticality current_level core_no hyperperiod current_time
        head.head_node (delete_expired_jobs dhead current_level current_time) _ _ st1
        (Grown.refl _) (Shrunk_all.shrunk_refl _) hloop
      rw [← h.1, ← h.2.1]
      refine ⟨h1.grown_mono ?_, hexp.shrunk_trans h2⟩
      rintro j ⟨k, j0, hj0, e⟩
      exact ⟨k, j0, (hexp.2 k).subset hj0, e⟩
  · simp only [Option.some.injEq, Prod.mk.injEq] at h
    rw [← h.1, ← h.2.1]
    exact ⟨Grown.refl _, hexp⟩

/-! ## Merge sort of any queue -/

theorem merge_perm (l1 l2 : List Jobs) : (merge l1 l2).Perm (l1 ++ l2) := by
  induction l1 generalizing l2 with
  | nil => simp [merge]
  | cons f fs ih1 =>
    induction l2 with
    | nil => simp [merge]
    | cons s ss ih2 =>
      rw [merge]
      split_ifs with hlt
      · exact (ih1 (s :: ss)).cons f
      · refine (ih2.cons s).trans ?_
        exact List.perm_middle.symm

theorem Dbl.lt_trans {a b c : Dbl} (h1 : Dbl.lt a b = true) (h2 : Dbl.lt b c = true) :
    Dbl.lt a c = true := by
  cases a <;> cases b <;> cases c <;> simp [Dbl.lt] at h1 h2 ⊢
  exact h1.trans h2

theorem Dbl.le_of_lt_false {a b : Dbl} (ha : a ≠ Dbl.nan) (hb : b ≠ Dbl.nan)
    (h : Dbl.lt a b = false) : Dbl.le b a = true := by
  cases a <;> cases b <;> simp [Dbl.lt, Dbl.le] at h ha hb ⊢
  exact h

/-- Merging two ascending queues whose deadlines are numbers gives an ascending queue. -/
theorem merge_ascending (l1 l2 : List Jobs)
    (n1 : ∀ x ∈ l1, x.sched_deadline ≠ Dbl.nan) (n2 : ∀ x ∈ l2, x.sched_deadline ≠ Dbl.nan)
    (h1 : ascending l1) (h2 : ascending l2) : ascending (merge l1 l2) := by
  induction l1 generalizing l2 with
  | nil => simpa [merge] using h2
  | cons f fs ih1 =>
    induction l2 with
    | nil => simpa [merge] using h1
    | cons s ss ih2 =>
      have hf := n1 f (List.mem_cons_self _ _)
      have hs := n2 s (List.mem_cons_self _ _)
      rw [merge]
      split_ifs with hlt
      · have hrec := ih1 (s :: ss) (fun x hx => n1 x (List.mem_cons_of_mem _ hx)) n2
          (List.pairwise_cons.mp h1).2 h2
        refine List.pairwise_cons.mpr ⟨fun x hx => ?_, hrec⟩
        rcases List.mem_append.mp ((merge_perm fs (s :: ss)).subset hx) with hx | hx
        · exact (List.pairwise_cons.mp h1).1 x hx
        · by_contra hne
          have hxf : Dbl.lt x.sched_deadline f.sched_deadline = true := by simpa using hne
          have hxs := Dbl.lt_trans hxf hlt
          rcases List.mem_cons.mp hx with e | hx
          · rw [e, Dbl.lt_irrefl] at hxs
            exact Bool.noConfusion hxs
          · rw [(List.pairwise_cons.mp h2).1 x hx] at hxs
            exact Bool.noConfusion hxs
      · have hrec := ih2 (fun x hx => n2 x (List.mem_cons_of_mem _ hx))
          (List.pairwise_cons.mp h2).2
        have hsf : Dbl.le s.sched_deadline f.sched_deadline = true :=
          Dbl.le_of_lt_false hf hs (by simpa using hlt)
        refine List.pairwise_cons.mpr ⟨fun x hx => ?_, hrec⟩
        rcases List.mem_append.mp ((merge_perm (f :: fs) ss).subset hx) with hx | hx
        · by_contra hne
          have hxs : Dbl.lt x.sched_deadline s.sched_deadline = true := by simpa using hne
          have hxf := Dbl.lt_of_lt_of_le hxs hsf
          rcases List.mem_cons.mp hx with e | hx
          · rw [e, Dbl.lt_irrefl] at hxf
            exact Bool.noConfusion hxf
          · rw [(List.pairwise_cons.mp h1).1 x hx] at hxf
            exact Bool.noConfusion hxf
        · exact (List.pairwise_cons.mp h2).1 x hx

/-- With a bound above the length of the queue, merge sort returns a permutation of the
queue, which is ascending when the deadlines are numbers. -/
theorem merge_sort_fuel_spec :
    ∀ (n : Nat) (q : List Jobs), q.length < n →
      ∃ r : List Jobs, merge_sort_fuel n q = some r ∧ r.Perm q ∧
        ((∀ x ∈ q, x.sched_deadline ≠ Dbl.nan) → ascending r) := by
  intro n
  induction n with
  | zero => intro q h; omega
  | succ n ih =>
    intro q hlen
    match q with
    | [] => exact ⟨[], rfl, List.Perm.refl _, fun _ => List.Pairwise.nil⟩
    | [x] => exact ⟨[x], rfl, List.Perm.refl _, fun _ => List.pairwise_singleton _ _⟩
    | x :: y :: rest =>
      obtain ⟨h1, h2, h3⟩ := partition_spec (x :: y :: rest) (by simp)
      obtain ⟨r1, e1, p1, a1⟩ := ih _ (by omega : (partition (x :: y :: rest)).1.length < n)
      obtain ⟨r2, e2, p2, a2⟩ := ih _ (by omega : (partition (x :: y :: rest)).2.length < n)
      have hp : (merge r1 r2).Perm (x :: y :: rest) := by
        refine (merge_perm r1 r2).trans ?_
        rw [← h1]
        exact p1.append p2
      refine ⟨merge r1 r2, by simp only [merge_sort_fuel, e1, e2], hp, fun hn => ?_⟩
      have hn1 : ∀ z ∈ (partition (x :: y :: rest)).1, z.sched_deadline ≠ Dbl.nan :=
        fun z hz => hn z (by rw [← h1]; exact List.mem_append_left _ hz)
      have hn2 : ∀ z ∈ (partition (x :: y :: rest)).2, z.sched_deadline ≠ Dbl.nan :=
        fun z hz => hn z (by rw [← h1]; exact List.mem_append_right _ hz)
      exact merge_ascending r1 r2 (fun z hz => hn1 z (p1.subset hz))
        (fun z hz => hn2 z (p2.subset hz)) (a1 hn1) (a2 hn2)

/-- `merge_sort` returns for every queue: the result is a permutation of the queue, and it
is ascending when the deadlines are numbers. -/
theorem merge_sort_spec (q : List Jobs) :
    ∃ r : List Jobs, merge_sort q = some r ∧ r.Perm q ∧
      ((∀ x ∈ q, x.sched_deadline ≠ Dbl.nan) → ascending r) :=
  merge_sort_fuel_spec (q.length + 1) q (Nat.lt_succ_self _)

/-! ## Slack of a core -/

theorem same_but_slack.slack_refl (c : Core_run) : same_but_slack c c := rfl

theorem same_but_slack.slack_trans {c1 c2 c3 : Core_run} (h1 : same_but_slack c1 c2)
    (h2 : same_but_slack c2 c3) : same_but_slack c1 c3 := by
  unfold same_but_slack at *
  rw [h2, h1]

/-- `get_dynamic_procrastination_slack` changes only the array `slack_available` of the
cores. -/
theorem get_dynamic_procrastination_slack_frame (rand : Nat → Int) (core : List Core_run)
    (core_idx : Int) (task_arr : List Tasks) (num_tasks : Int) (next_job_deadline : ℚ)
    (max_criticality current_level hyperperiod : Int) (current_time : ℚ) (rand_calls : Nat)
    (core1 : List Core_run) (rand_calls1 : Nat)
    (h : get_dynamic_procrastination_slack rand core core_idx task_arr num_tasks
      next_job_deadline max_criticality current_level hyperperiod current_time rand_calls
      = some (core1, rand_calls1)) :
    core1.length = core.length ∧
      ∀ j : Nat, same_but_slack (run_core_at core j) (run_core_at core1 j) := by
  unfold get_dynamic_procrastination_slack at h
  refine foldl_opt_inv
    (fun a : List Core_run × Nat => a.1.length = core.length ∧
      ∀ j : Nat, same_but_slack (run_core_at core j) (run_core_at a.1 j))
    _ (fun _ => rfl) ?_ _ (core, rand_calls) (core1, rand_calls1)
    ⟨rfl, fun j => same_but_slack.slack_refl _⟩ h
  rintro ⟨c0, r0⟩ i ⟨c1, r1⟩ ⟨hlen, hsame⟩ e
  unfold get_dynamic_procrastination_slack_body at e
  dsimp only at e
  split at e
  · exact Option.noConfusion e
  · split at e
    · exact Option.noConfusion e
    · split at e
      · exact Option.noConfusion e
      · simp only [Option.some.injEq, Prod.mk.injEq] at e
        rw [← e.1]
        refine ⟨by rw [List.length_set]; exact hlen, fun j => ?_⟩
        rw [run_core_at_set]
        split_ifs with hj
        · have hc : run_core_at c0 core_idx = run_core_at c0 (core_idx.toNat : Nat) := rfl
          rw [hc, ← hj.1]
          exact (hsame j).slack_trans rfl
        · exact hsame j

/-! ## Invariant of the scheduler loop -/

theorem Grown_all.all_forall {A : Nat → Jobs → Prop} {P : Jobs → Prop} {d1 d2 : List RQ_HEAD}
    (h : Grown_all A d1 d2) (h1 : ∀ k : Nat, ∀ j ∈ (queue_at d1 k).head_node, P j)
    (hA : ∀ k j, A k j → P j) : ∀ k : Nat, ∀ j ∈ (queue_at d2 k).head_node, P j :=
  fun k => (h.2 k).grown_forall (h1 k) (hA k)

theorem Shrunk_all.shrunk_forall {P : Jobs → Prop} {d1 d2 : List RQ_HEAD}
    (h : Shrunk_all d1 d2) (h1 : ∀ k : Nat, ∀ j ∈ (queue_at d1 k).head_node, P j) :
    ∀ k : Nat, ∀ j ∈ (queue_at d2 k).head_node, P j :=
  fun k j hj => h1 k j ((h.2 k).subset hj)

theorem ascending_sublist {l1 l2 : List Jobs} (h : List.Sublist l1 l2) (h2 : ascending l2) :
    ascending l1 :=
  List.Pairwise.sublist h h2

theorem preempt_core_ok (inp : Sched_input) (P : Jobs → Prop) (hP : Job_property inp P)
    (s : Sched_state) (i : Nat) (h : Sched_ok P s) : Sched_ok P (preempt_core inp s i) := by
  unfold preempt_core
  dsimp only
  split_ifs with h1 h2
  · refine ⟨forall_core_set h.1 ?_, h.2.1, h.2.2⟩
    rintro ⟨c1, c2, c3, c4⟩
    have hcurr := hP.status_flag _ PREEMPTED (c4 h2.1)
    refine ⟨fun hne => absurd h1 hne, ?_, ?_, fun _ => hcurr⟩
    · exact ((Grown.refl (A := fun _ => True) _).grown_update trivial).grown_ascending c2
    · exact ((Grown.refl (A := fun j => P j) _).grown_update hcurr).grown_forall c3 fun _ hx => hx
  · exact h
  · exact h

theorem arrivals_core_ok (inp : Sched_input) (P : Jobs → Prop) (hP : Job_property inp P)
    (s : Sched_state) (i : Nat) (h : Sched_ok P s) : Sched_ok P (arrivals_core inp s i) := by
  unfold arrivals_core
  dsimp only
  split_ifs with h1
  · obtain ⟨e1, e2, e3⟩ := add_ready_jobs_effect inp.rand (run_core_at s.core i) inp.task_arr
      inp.num_tasks s.timecount s.current_level
      { qhead := (run_core_at s.core i).qhead, dhead := s.dhead, prhead := s.prhead,
        rand_calls := s.rand_calls }
    have hcr : ∀ j, Created inp.task_arr inp.num_tasks
        (run_core_at s.core i).alloc.threshold_criticality (run_core_at s.core i).alloc.core_no
        s.timecount s.current_level j → P j := by
      rintro j ⟨k, hk, rv, e⟩
      rw [e]
      exact hP.created k hk _ _ _ _ _
    refine ⟨forall_core_set h.1 ?_, e3.all_forall h.2.1 fun k j hj => hcr j hj.1,
      e2.grown_forall h.2.2 fun j hj => hcr j hj.1⟩
    rintro ⟨c1, c2, c3, c4⟩
    refine ⟨fun hne => ?_, e1.grown_ascending c2, e1.grown_forall c3 fun j hj => hcr j hj.1, c4⟩
    rw [e1.grown_eq_of_false fun j hj => hne hj.2.2]
    exact c1 hne
  · exact h

theorem Core_ok.of_same_but_slack {P : Jobs → Prop} {c1 c2 : Core_run}
    (h : same_but_slack c1 c2) (h1 : Core_ok P c1) : Core_ok P c2 := by
  unfold same_but_slack at h
  rw [h]
  exact h1

theorem slack_frame_mem {core core1 : List Core_run} (hlen : core1.length = core.length)
    (h : ∀ j : Nat, same_but_slack (run_core_at core j) (run_core_at core1 j)) :
    ∀ c ∈ core1, ∃ c0 ∈ core, same_but_slack c0 c := by
  intro c hc
  obtain ⟨j, hj, e⟩ := List.getElem_of_mem hc
  have e1 : run_core_at core1 j = c := by
    unfold run_core_at
    simp only [Int.toNat_ofNat, List.getD_eq_getElem?_getD, List.getElem?_eq_getElem hj,
      Option.getD_some]
    exact e
  exact ⟨run_core_at core j, run_core_at_mem core j (hlen ▸ hj), e1 ▸ h j⟩

theorem isEmpty_eq_nil {l : List Jobs} (h : l.isEmpty = true) : l = [] :=
  List.isEmpty_iff.mp h

theorem shutdown_core_ok (inp : Sched_input) (P : Jobs → Prop)
    (s s1 : Sched_state) (i : Nat) (h : Sched_ok P s)
    (e : shutdown_core inp s i = some s1) : Sched_ok P s1 := by
  unfold shutdown_core at e
  dsimp only at e
  split_ifs at e with h1 h2 h3
  · simp only [Option.some.injEq] at e
    rw [← e]
    refine ⟨forall_core_set h.1 ?_, h.2.1, h.2.2⟩
    rintro ⟨c1, c2, c3, c4⟩
    exact ⟨fun _ => isEmpty_eq_nil h2, c2, c3, c4⟩
  · split at e
    · exact Option.noConfusion e
    · rename_i core1 rc1 hg
      obtain ⟨hlen, hsame⟩ := get_dynamic_procrastination_slack_frame _ _ _ _ _ _ _ _ _ _ _ _ _
        hg
      have hall : ∀ c ∈ core1, Core_ok P c := by
        intro c hc
        obtain ⟨c0, hc0, hs⟩ := slack_frame_mem hlen hsame c hc
        exact Core_ok.of_same_but_slack hs (h.1 c0 hc0)
      have hq : (run_core_at core1 i).qhead = (run_core_at s.core i).qhead := by
        have := hsame i
        unfold same_but_slack at this
        rw [this]
      split_ifs at e with h4
      · simp only [Option.some.injEq] at e
        rw [← e]
        refine ⟨forall_core_set hall ?_, h.2.1, h.2.2⟩
        rintro ⟨c1, c2, c3, c4⟩
        exact ⟨fun _ => by rw [hq]; exact isEmpty_eq_nil h2, c2, c3, c4⟩
      · simp only [Option.some.injEq] at e
        rw [← e]
        exact ⟨hall, h.2.1, h.2.2⟩
  · simp only [Option.some.injEq] at e
    rw [← e]
    exact h
  · simp only [Option.some.injEq] at e
    rw [← e]
    exact h

theorem discarded_core_ok (inp : Sched_input) (P : Jobs → Prop) (hP : Job_property inp P)
    (s s1 : Sched_state) (i : Nat) (h : Sched_ok P s)
    (e : discarded_core inp s i = some s1) : Sched_ok P s1 := by
  unfold discarded_core at e
  dsimp only at e
  split_ifs at e with h1
  · split at e
    · exact Option.noConfusion e
    · rename_i head dhead rc hsd
      obtain ⟨e1, e2⟩ := schedule_discarded_job_effect _ _ _ _ _ _ _ _ _ _ _ _ _ _ _ _ hsd
      simp only [Option.some.injEq] at e
      rw [← e]
      refine ⟨forall_core_set h.1 ?_, e2.shrunk_forall h.2.1, h.2.2⟩
      rintro ⟨c1, c2, c3, c4⟩
      refine ⟨fun hne => absurd h1.2.1 hne, e1.grown_ascending c2, e1.grown_forall c3 ?_, c4⟩
      rintro j ⟨k, j0, hj0, ej⟩
      rw [ej]
      exact hP.allocated_core _ _ (h.2.1 k j0 hj0)
  · simp only [Option.some.injEq] at e
    rw [← e]
    exact h

theorem level_change_job_ok (inp : Sched_input) (P : Jobs → Prop) (hP : Job_property inp P)
    (timecount : ℚ) (c : Core_run) (h : Core_ok P c) :
    Core_ok P (level_change_job inp timecount c) := by
  obtain ⟨c1, c2, c3, c4⟩ := h
  unfold level_change_job
  dsimp only
  split_ifs with h1 h2
  · have hcurr := hP.status_flag _ PREEMPTED (c4 h1.2.1)
    refine ⟨fun hne => absurd h1.1 hne, ?_, ?_, fun hne => absurd rfl hne⟩
    · exact ((Grown.refl (A := fun _ => True) _).grown_update trivial).grown_ascending c2
    · exact ((Grown.refl (A := fun j => P j) _).grown_update hcurr).grown_forall c3 fun _ hx => hx
  · exact ⟨c1, c2, c3, fun hne => absurd rfl hne⟩
  · exact ⟨c1, c2, c3, c4⟩

theorem level_change_core_ok (inp : Sched_input) (P : Jobs → Prop) (hP : Job_property inp P)
    (s s1 : Sched_state) (i : Nat) (h : Sched_ok P s)
    (e : level_change_core inp s i = some s1) : Sched_ok P s1 := by
  unfold level_change_core at e
  dsimp only at e
  split_ifs at e with h1
  · simp only [Option.some.injEq] at e
    rw [← e]
    have hd := discard_below_criticality_level_effect
      (level_change_job inp s.timecount
        { run_core_at s.core i with
          core_criticality := (run_core_at s.core i).core_criticality + 1 }).qhead
      s.dhead s.current_level
    have hg : Core_ok P (run_core_at s.core i) → Core_ok P (level_change_job inp s.timecount
        { run_core_at s.core i with
          core_criticality := (run_core_at s.core i).core_criticality + 1 }) :=
      fun hc => level_change_job_ok inp P hP _ _ hc
    refine ⟨forall_core_set h.1 fun hc => ?_, ?_, h.2.2⟩
    · obtain ⟨c1, c2, c3, c4⟩ := hg hc
      refine ⟨fun hne => ?_, ascending_sublist hd.1 c2, fun j hj => c3 j (hd.1.subset hj), c4⟩
      have := hd.1
      rw [c1 hne] at this
      exact List.eq_nil_of_sublist_nil this
    · by_cases hi : i < s.core.length
      · obtain ⟨_, _, c3, _⟩ := hg (h.1 _ (run_core_at_mem _ _ hi))
        exact hd.2.all_forall h.2.1 fun k j hj => c3 j hj.1
      · -- the core record is the default one; its queue is inspected all the same
        have hdef : run_core_at s.core i = default := by
          unfold run_core_at
          simp only [Int.toNat_ofNat, List.getD_eq_getElem?_getD,
            List.getElem?_eq_none (not_lt.mp hi), Option.getD_none]
        have hq : (level_change_job inp s.timecount
            { run_core_at s.core i with
              core_criticality := (run_core_at s.core i).core_criticality + 1 }).qhead.head_node
            = [] := by
          rw [hdef]
          unfold level_change_job
          dsimp only
          split_ifs with a1 a2
          · exact absurd a1.1 (by decide)
          · rfl
          · rfl
        refine hd.2.all_forall h.2.1 fun k j hj => ?_
        rw [hq] at hj
        exact absurd hj.1 (List.not_mem_nil _)
  · have hd := discard_below_criticality_level_effect
      (level_change_job inp s.timecount
        { run_core_at s.core i with
          core_criticality := (run_core_at s.core i).core_criticality + 1 }).qhead
      s.dhead
      ((level_change_job inp s.timecount
        { run_core_at s.core i with
          core_criticality := (run_core_at s.core i).core_criticality + 1 }).alloc.threshold_criticality
        + 1)
    have hg : Core_ok P (run_core_at s.core i) → Core_ok P (level_change_job inp s.timecount
        { run_core_at s.core i with
          core_criticality := (run_core_at s.core i).core_criticality + 1 }) :=
      fun hc => level_change_job_ok inp P hP _ _ hc
    obtain ⟨r, er, pr, ar⟩ := merge_sort_spec
      (update_sched_deadlines (discard_below_criticality_level
        (level_change_job inp s.timecount
          { run_core_at s.core i with
            core_criticality := (run_core_at s.core i).core_criticality + 1 }).qhead
        s.dhead
        ((level_change_job inp s.timecount
          { run_core_at s.core i with
            core_criticality := (run_core_at s.core i).core_criticality + 1 }).alloc.threshold_criticality
          + 1)).1 inp.task_arr inp.num_tasks).head_node
    rw [er] at e
    simp only [Option.some.injEq] at e
    rw [← e]
    have hfin : ∀ x ∈ (update_sched_deadlines (discard_below_criticality_level
        (level_change_job inp s.timecount
          { run_core_at s.core i with
            core_criticality := (run_core_at s.core i).core_criticality + 1 }).qhead
        s.dhead
        ((level_change_job inp s.timecount
          { run_core_at s.core i with
            core_criticality := (run_core_at s.core i).core_criticality + 1 }).alloc.threshold_criticality
          + 1)).1 inp.task_arr inp.num_tasks).head_node, x.sched_deadline ≠ Dbl.nan := by
      intro x hx
      unfold update_sched_deadlines at hx
      obtain ⟨y, _, ey⟩ := List.mem_map.mp hx
      rw [← ey]
      exact fun hh => Dbl.noConfusion hh
    refine ⟨forall_core_set h.1 fun hc => ?_, ?_, h.2.2⟩
    · obtain ⟨c1, c2, c3, c4⟩ := hg hc
      refine ⟨fun hne => ?_, ar hfin, fun j hj => ?_, c4⟩
      · have h2 := hd.1
        rw [c1 hne] at h2
        have h3 := List.eq_nil_of_sublist_nil h2
        have h4 := pr
        unfold update_sched_deadlines at h4
        rw [h3] at h4
        exact h4.eq_nil
      · have hj2 := pr.subset hj
        unfold update_sched_deadlines at hj2
        obtain ⟨y, hy, ey⟩ := List.mem_map.mp hj2
        rw [← ey]
        exact hP.sched_deadline _ _ (c3 y (hd.1.subset hy))
    · by_cases hi : i < s.core.length
      · obtain ⟨_, _, c3, _⟩ := hg (h.1 _ (run_core_at_mem _ _ hi))
        exact hd.2.all_forall h.2.1 fun k j hj => c3 j hj.1
      · have hdef : run_core_at s.core i = default := by
          unfold run_core_at
          simp only [Int.toNat_ofNat, List.getD_eq_getElem?_getD,
            List.getElem?_eq_none (not_lt.mp hi), Option.getD_none]
        have hq : (level_change_job inp s.timecount
            { run_core_at s.core i with
              core_criticality := (run_core_at s.core i).core_criticality + 1 }).qhead.head_node
            = [] := by
          rw [hdef]
          unfold level_change_job
          dsimp only
          split_ifs with a1 a2
          · exact absurd a1.1 (by decide)
          · rfl
          · rfl
        refine hd.2.all_forall h.2.1 fun k j hj => ?_
        rw [hq] at hj
        exact absurd hj.1 (List.not_mem_nil _)

theorem overrun_only_core_ok (P : Jobs → Prop) (s : Sched_state) (i : Nat)
    (h : Sched_ok P s) : Sched_ok P (overrun_only_core s i) := by
  unfold overrun_only_core
  dsimp only
  split_ifs with h1
  · refine ⟨forall_core_set h.1 ?_, h.2.1, h.2.2⟩
    rintro ⟨c1, c2, c3, _⟩
    exact ⟨c1, c2, c3, fun hne => absurd rfl hne⟩
  · exact h

theorem for_cores_ok (num_cores : Int) (P : Jobs → Prop)
    (body : Sched_state → Nat → Option Sched_state)
    (hb : ∀ s i s1, Sched_ok P s → body s i = some s1 → Sched_ok P s1) (s s1 : Sched_state)
    (h : Sched_ok P s) (e : for_cores num_cores body s = some s1) : Sched_ok P s1 :=
  for_cores_inv (Sched_ok P) num_cores body hb s s1 h e

theorem level_change_ok (inp : Sched_input) (P : Jobs → Prop) (hP : Job_property inp P)
    (s s1 : Sched_state) (h : Sched_ok P s) (e : level_change inp s = some s1) :
    Sched_ok P s1 := by
  unfold level_change at e
  split_ifs at e with h1
  · exact for_cores_ok _ P _ (fun s i s1 hs he => level_change_core_ok inp P hP s s1 i hs he)
      { s with current_level := s.current_level + 1 } _ h e
  · simp only [Option.some.injEq] at e
    rw [← e]
    exact foldl_inv (Sched_ok P) _ (fun a b ha => overrun_only_core_ok P a b ha) _ _ h

theorem wakeup_core_ok (P : Jobs → Prop) (s : Sched_state) (i : Nat)
    (h : Sched_ok P s) : Sched_ok P (wakeup_core s i) := by
  unfold wakeup_core
  dsimp only
  split_ifs with h1
  · have hw := wakeup_walk_effect (run_core_at s.core i).alloc.core_no s.prhead.head_node []
      s.prhead.size (run_core_at s.core i).qhead
    rw [List.nil_append] at hw
    refine ⟨forall_core_set h.1 ?_, h.2.1, fun j hj => h.2.2 j (hw.1.subset hj)⟩
    rintro ⟨c1, c2, c3, c4⟩
    exact ⟨fun hne => absurd rfl hne, hw.2.grown_ascending c2,
      hw.2.grown_forall c3 fun j hj => h.2.2 j hj.1, c4⟩
  · exact h

theorem dispatch_core_ok (inp : Sched_input) (P : Jobs → Prop) (s : Sched_state) (i : Nat)
    (h : Sched_ok P s) : Sched_ok P (dispatch_core inp s i) := by
  unfold dispatch_core
  dsimp only
  refine ⟨forall_core_set h.1 ?_, h.2.1, h.2.2⟩
  rintro ⟨c1, c2, c3, c4⟩
  unfold schedule_next_job
  cases hq : (run_core_at s.core i).qhead.head_node with
  | nil =>
    dsimp only
    exact ⟨fun _ => hq, by rw [hq]; exact List.Pairwise.nil, by rw [hq]; simp,
      fun hne => absurd rfl hne⟩
  | cons temp rest =>
    dsimp only
    rw [hq] at c1 c2 c3
    refine ⟨fun hne => ?_, (List.pairwise_cons.mp c2).2,
      fun j hj => c3 j (List.mem_cons_of_mem _ hj), fun _ => c3 temp (List.mem_cons_self _ _)⟩
    exact absurd (c1 hne) (List.cons_ne_nil _ _)

theorem get_next_decision_point_cores (R : Core_run → Prop)
    (hR : ∀ (c : Core_run) (dp : Decision_point), R c → R { c with decision_point := dp })
    (core : List Core_run) (num_cores : Int) (task_arr : List Tasks) (num_tasks : Int)
    (timecount : ℚ) (hyperperiod current_level : Int) (h : ∀ c ∈ core, R c) :
    ∀ c ∈ (get_next_decision_point core num_cores task_arr num_tasks timecount hyperperiod
      current_level).1, R c := by
  unfold get_next_decision_point
  refine foldl_inv (fun r : List Core_run × ℚ => ∀ c ∈ r.1, R c) _ ?_ _ _ h
  intro r j hr
  exact forall_core_set hr fun hc => hR _ _ hc

theorem account_core_ok (inp : Sched_input) (P : Jobs → Prop) (hP : Job_property inp P)
    (next_decision_point : ℚ) (s : Sched_state) (i : Nat) (h : Sched_ok P s) :
    Sched_ok P (account_core next_decision_point s i) := by
  unfold account_core
  dsimp only
  split_ifs with h1 h2
  · refine ⟨forall_core_set h.1 ?_, h.2.1, h.2.2⟩
    rintro ⟨c1, c2, c3, c4⟩
    exact ⟨c1, c2, c3, fun _ => hP.run _ _ _ (c4 h2)⟩
  · refine ⟨forall_core_set h.1 ?_, h.2.1, h.2.2⟩
    rintro ⟨c1, c2, c3, c4⟩
    exact ⟨c1, c2, c3, c4⟩
  · exact h

theorem advance_time_ok (inp : Sched_input) (P : Jobs → Prop) (hP : Job_property inp P)
    (s : Sched_state) (h : Sched_ok P s) : Sched_ok P (advance_time inp s) := by
  unfold advance_time
  dsimp only
  have h1 : Sched_ok P { s with core := (get_next_decision_point s.core inp.num_cores
      inp.task_arr inp.num_tasks s.timecount inp.hyperperiod s.current_level).1 } :=
    ⟨get_next_decision_point_cores (Core_ok P) (fun c dp hc => hc) _ _ _ _ _ _ _ h.1,
      h.2.1, h.2.2⟩
  exact foldl_inv (Sched_ok P) _ (fun a b ha => account_core_ok inp P hP _ a b ha) _ _ h1

/-- Every iteration of the scheduler loop that returns keeps the invariant `Sched_ok`, at
each of its stages. -/
theorem after_wakeup_ok (inp : Sched_input) (P : Jobs → Prop) (hP : Job_property inp P)
    (s s1 : Sched_state) (h : Sched_ok P s) (e : after_wakeup inp s = some s1) :
    Sched_ok P s1 := by
  unfold after_wakeup after_level_change after_discarded after_shutdown after_arrivals at e
  have h1 : Sched_ok P ((List.range inp.num_cores.toNat).foldl (preempt_core inp) s) :=
    foldl_inv (Sched_ok P) _ (fun a b ha => preempt_core_ok inp P hP a b ha) _ _ h
  have h2 := foldl_inv (Sched_ok P) _ (fun a b ha => arrivals_core_ok inp P hP a b ha)
    (List.range inp.num_cores.toNat) _ h1
  split at e
  · exact Option.noConfusion e
  · rename_i s4 e4
    split at e4
    · exact Option.noConfusion e4
    · rename_i s3 e3
      split at e3
      · exact Option.noConfusion e3
      · rename_i s2 e2
        have h3 := for_cores_ok _ P _ (fun s i s1 hs he => shutdown_core_ok inp P s s1 i hs he)
          _ _ h2 e2
        have h4 := for_cores_ok _ P _
          (fun s i s1 hs he => discarded_core_ok inp P hP s s1 i hs he) _ _ h3 e3
        have h5 := level_change_ok inp P hP _ _ h4 e4
        simp only [Option.some.injEq] at e
        rw [← e]
        exact foldl_inv (Sched_ok P) _ (fun a b ha => wakeup_core_ok P a b ha) _ _ h5

theorem scheduler_iteration_ok (inp : Sched_input) (P : Jobs → Prop) (hP : Job_property inp P)
    (s s1 : Sched_state) (h : Sched_ok P s) (e : scheduler_iteration inp s = some s1) :
    Sched_ok P s1 := by
  unfold scheduler_iteration after_dispatch at e
  split at e
  · exact Option.noConfusion e
  · rename_i s7 e7
    split at e7
    · exact Option.noConfusion e7
    · rename_i s6 e6
      have h6 := after_wakeup_ok inp P hP s s6 h e6
      simp only [Option.some.injEq] at e7 e
      rw [← e, ← e7]
      exact advance_time_ok inp P hP _
        (foldl_inv (Sched_ok P) _ (fun a b ha => dispatch_core_ok inp P a b ha) _ _ h6)

theorem scheduler_init_ok (inp : Sched_input) (P : Jobs → Prop) (core : List Cores) :
    Sched_ok P (scheduler_init inp core) := by
  unfold scheduler_init
  dsimp only
  refine ⟨get_next_decision_point_cores (Core_ok P) (fun c dp hc => hc) _ _ _ _ _ _ _ ?_,
    ?_, ?_⟩
  · intro c hc
    obtain ⟨j, _, e⟩ := List.mem_map.mp hc
    rw [← e]
    exact ⟨fun hne => absurd rfl hne, List.Pairwise.nil, by simp [init_core, create_run_queue],
      fun hne => absurd rfl hne⟩
  · intro k j hj
    unfold queue_at at hj
    rw [List.getD_eq_getElem?_getD, List.getElem?_replicate] at hj
    split_ifs at hj <;> simp [create_run_queue, default] at hj
  · intro j hj
    simp [create_run_queue] at hj

/-- The invariant `Sched_ok` holds in every state of the scheduler loop. -/
theorem reachable_ok (inp : Sched_input) (P : Jobs → Prop) (hP : Job_property inp P)
    (core : List Cores) (s : Sched_state) (h : Reachable inp core s) : Sched_ok P s := by
  induction h with
  | init => exact scheduler_init_ok inp P core
  | step _ _ e ih => exact scheduler_iteration_ok inp P hP _ _ ih e

/-! ## Fields that the stages of an iteration leave unchanged -/

theorem preempt_core_frame (inp : Sched_input) (s : Sched_state) (i : Nat) :
    (preempt_core inp s i).current_level = s.current_level ∧
    (preempt_core inp s i).timecount = s.timecount ∧
    (preempt_core inp s i).dhead = s.dhead ∧ (preempt_core inp s i).prhead = s.prhead := by
  unfold preempt_core
  dsimp only
  split_ifs <;> exact ⟨rfl, rfl, rfl, rfl⟩

theorem arrivals_core_frame (inp : Sched_input) (s : Sched_state) (i : Nat) :
    (arrivals_core inp s i).current_level = s.current_level ∧
    (arrivals_core inp s i).timecount = s.timecount := by
  unfold arrivals_core
  dsimp only
  split_ifs <;> exact ⟨rfl, rfl⟩

theorem shutdown_core_frame (inp : Sched_input) (s s1 : Sched_state) (i : Nat)
    (e : shutdown_core inp s i = some s1) :
    s1.current_level = s.current_level ∧ s1.timecount = s.timecount ∧
    s1.dhead = s.dhead ∧ s1.prhead = s.prhead := by
  unfold shutdown_core at e
  dsimp only at e
  split_ifs at e with h1 h2 h3
  · simp only [Option.some.injEq] at e
    rw [← e]
    exact ⟨rfl, rfl, rfl, rfl⟩
  · split at e
    · exact Option.noConfusion e
    · split_ifs at e
      all_goals
        simp only [Option.some.injEq] at e
        rw [← e]
        exact ⟨rfl, rfl, rfl, rfl⟩
  · simp only [Option.some.injEq] at e
    rw [← e]
    exact ⟨rfl, rfl, rfl, rfl⟩
  · simp only [Option.some.injEq] at e
    rw [← e]
    exact ⟨rfl, rfl, rfl, rfl⟩

theorem discarded_core_frame (inp : Sched_input) (s s1 : Sched_state) (i : Nat)
    (e : discarded_core inp s i = some s1) :
    s1.current_level = s.current_level ∧ s1.timecount = s.timecount ∧
    s1.prhead = s.prhead := by
  unfold discarded_core at e
  dsimp only at e
  split_ifs at e with h1
  · split at e
    · exact Option.noConfusion e
    · simp only [Option.some.injEq] at e
      rw [← e]
      exact ⟨rfl, rfl, rfl⟩
  · simp only [Option.some.injEq] at e
    rw [← e]
    exact ⟨rfl, rfl, rfl⟩

theorem level_change_core_frame (inp : Sched_input) (s s1 : Sched_state) (i : Nat)
    (e : level_change_core inp s i = some s1) :
    s1.current_level = s.current_level ∧ s1.timecount = s.timecount ∧
    s1.prhead = s.prhead := by
  unfold level_change_core at e
  dsimp only at e
  split_ifs at e with h1
  · simp only [Option.some.injEq] at e
    rw [← e]
    exact ⟨rfl, rfl, rfl⟩
  · split at e
    · exact Option.noConfusion e
    · simp only [Option.some.injEq] at e
      rw [← e]
      exact ⟨rfl, rfl, rfl⟩

theorem overrun_only_core_frame (s : Sched_state) (i : Nat) :
    (overrun_only_core s i).current_level = s.current_level ∧
    (overrun_only_core s i).timecount = s.timecount ∧
    (overrun_only_core s i).dhead = s.dhead ∧ (overrun_only_core s i).prhead = s.prhead := by
  unfold overrun_only_core
  dsimp only
  split_ifs <;> exact ⟨rfl, rfl, rfl, rfl⟩

theorem wakeup_core_frame (s : Sched_state) (i : Nat) :
    (wakeup_core s i).current_level = s.current_level ∧
    (wakeup_core s i).timecount = s.timecount ∧ (wakeup_core s i).dhead = s.dhead := by
  unfold wakeup_core
  dsimp only
  split_ifs <;> exact ⟨rfl, rfl, rfl⟩

theorem dispatch_core_frame (inp : Sched_input) (s : Sched_state) (i : Nat) :
    (dispatch_core inp s i).current_level = s.current_level ∧
    (dispatch_core inp s i).timecount = s.timecount ∧
    (dispatch_core inp s i).dhead = s.dhead ∧ (dispatch_core inp s i).prhead = s.prhead :=
  ⟨rfl, rfl, rfl, rfl⟩

theorem account_core_frame (next_decision_point : ℚ) (s : Sched_state) (i : Nat) :
    (account_core next_decision_point s i).current_level = s.current_level ∧
    (account_core next_decision_point s i).timecount = s.timecount ∧
    (account_core next_decision_point s i).dhead = s.dhead ∧
    (account_core next_decision_point s i).prhead = s.prhead := by
  unfold account_core
  dsimp only
  split_ifs <;> exact ⟨rfl, rfl, rfl, rfl⟩

theorem advance_time_frame (inp : Sched_input) (s : Sched_state) :
    (advance_time inp s).current_level = s.current_level ∧
    (advance_time inp s).dhead = s.dhead ∧ (advance_time inp s).prhead = s.prhead := by
  unfold advance_time
  dsimp only
  have h := foldl_inv
    (fun a : Sched_state => a.current_level = s.current_level ∧ a.dhead = s.dhead
      ∧ a.prhead = s.prhead)
    (account_core (if (get_next_decision_point s.core inp.num_cores inp.task_arr
        inp.num_tasks s.timecount inp.hyperperiod s.current_level).2 > (inp.hyperperiod : ℚ)
      then (inp.hyperperiod : ℚ)
      else (get_next_decision_point s.core inp.num_cores inp.task_arr inp.num_tasks
        s.timecount inp.hyperperiod s.current_level).2))
    (fun a b ha => by
      obtain ⟨f1, _, f3, f4⟩ := account_core_frame
        (if (get_next_decision_point s.core inp.num_cores inp.task_arr
            inp.num_tasks s.timecount inp.hyperperiod s.current_level).2
            > (inp.hyperperiod : ℚ)
          then (inp.hyperperiod : ℚ)
          else (get_next_decision_point s.core inp.num_cores inp.task_arr inp.num_tasks
            s.timecount inp.hyperperiod s.current_level).2) a b
      exact ⟨f1.trans ha.1, f3.trans ha.2.1, f4.trans ha.2.2⟩)
    (List.range inp.num_cores.toNat)
    { s with core := (get_next_decision_point s.core inp.num_cores inp.task_arr
        inp.num_tasks s.timecount inp.hyperperiod s.current_level).1 }
    ⟨rfl, rfl, rfl⟩
  exact h

/-- The stages of an iteration up to the discarded job scheduling change neither
`current_level` nor `timecount`. -/
theorem after_discarded_frame (inp : Sched_input) (s s3 : Sched_state)
    (e : after_discarded inp s = some s3) :
    s3.current_level = s.current_level ∧ s3.timecount = s.timecount := by
  unfold after_discarded after_shutdown after_arrivals at e
  have h1 := foldl_inv
    (fun a : Sched_state => a.current_level = s.current_level ∧ a.timecount = s.timecount)
    (preempt_core inp)
    (fun a b ha => by
      obtain ⟨f1, f2, _, _⟩ := preempt_core_frame inp a b
      exact ⟨f1.trans ha.1, f2.trans ha.2⟩)
    (List.range inp.num_cores.toNat) s ⟨rfl, rfl⟩
  have h2 := foldl_inv
    (fun a : Sched_state => a.current_level = s.current_level ∧ a.timecount = s.timecount)
    (arrivals_core inp)
    (fun a b ha => by
      obtain ⟨f1, f2⟩ := arrivals_core_frame inp a b
      exact ⟨f1.trans ha.1, f2.trans ha.2⟩)
    (List.range inp.num_cores.toNat) _ h1
  split at e
  · exact Option.noConfusion e
  · rename_i s2 e2
    have h3 := for_cores_inv
      (fun a : Sched_state => a.current_level = s.current_level ∧ a.timecount = s.timecount)
      _ _
      (fun a i a1 ha he => by
        obtain ⟨f1, f2, _, _⟩ := shutdown_core_frame inp a a1 i he
        exact ⟨f1.trans ha.1, f2.trans ha.2⟩)
      _ _ h2 e2
    exact for_cores_inv
      (fun a : Sched_state => a.current_level = s.current_level ∧ a.timecount = s.timecount)
      _ _
      (fun a i a1 ha he => by
        obtain ⟨f1, f2, _⟩ := discarded_core_frame inp a a1 i he
        exact ⟨f1.trans ha.1, f2.trans ha.2⟩)
      _ _ h3 e

/-- The criticality level change raises `current_level` by one when the scan finds a core
with the flag `JOB_WCET_EXCEEDED`, and leaves it unchanged otherwise. -/
theorem level_change_level (inp : Sched_input) (s s1 : Sched_state)
    (e : level_change inp s = some s1) :
    s1.current_level = s.current_level
      + (if ∃ core_idx ∈ List.range inp.num_cores.toNat, wcet_exceeded_core s core_idx then 1
         else 0) := by
  unfold level_change at e
  split_ifs at e with h1
  · have h := for_cores_inv
      (fun a : Sched_state => a.current_level = s.current_level + 1) _ _
      (fun a i a1 ha he => by
        obtain ⟨f1, _, _⟩ := level_change_core_frame inp a a1 i he
        exact f1.trans ha)
      _ _ rfl e
    rw [h, if_pos h1]
  · simp only [Option.some.injEq] at e
    rw [← e, if_neg h1, add_zero]
    exact foldl_inv (fun a : Sched_state => a.current_level = s.current_level) _
      (fun a b ha => (overrun_only_core_frame a b).1.trans ha) _ _ rfl

theorem after_level_change_level (inp : Sched_input) (s s3 s4 : Sched_state)
    (e3 : after_discarded inp s = some s3) (e4 : after_level_change inp s = some s4) :
    s4.current_level = s.current_level
      + (if ∃ core_idx ∈ List.range inp.num_cores.toNat, wcet_exceeded_core s3 core_idx then 1
         else 0) := by
  unfold after_level_change at e4
  rw [e3] at e4
  rw [level_change_level inp s3 s4 e4, (after_discarded_frame inp s s3 e3).1]

theorem after_level_change_to_end (inp : Sched_input) (s s4 s1 : Sched_state)
    (e4 : after_level_change inp s = some s4) (e : scheduler_iteration inp s = some s1) :
    s1.current_level = s4.current_level := by
  unfold scheduler_iteration after_dispatch after_wakeup at e
  rw [e4] at e
  simp only [Option.some.injEq] at e
  rw [← e, (advance_time_frame inp _).1]
  have h1 := foldl_inv (fun a : Sched_state => a.current_level = s4.current_level) _
    (fun a b ha => (wakeup_core_frame a b).1.trans ha) (List.range inp.num_cores.toNat) _ rfl
  exact foldl_inv (fun a : Sched_state => a.current_level = s4.current_level) _
    (fun a b ha => (dispatch_core_frame inp a b).1.trans ha) _ _ h1

/-- Assigning to `core[i]` a record with the decision point of the previous record leaves
the decision point of every core unchanged. -/
theorem decision_point_set (l0 l : List Core_run) (i : Nat) (x : Core_run)
    (h : ∀ j : Nat, (run_core_at l j).decision_point = (run_core_at l0 j).decision_point)
    (hx : x.decision_point = (run_core_at l i).decision_point) :
    ∀ j : Nat, (run_core_at (l.set i x) j).decision_point
      = (run_core_at l0 j).decision_point := by
  intro j
  rw [run_core_at_set]
  split_ifs with hj
  · rw [hx, hj.1]
    exact h i
  · exact h j

theorem preempt_core_decision_point (inp : Sched_input) (s : Sched_state) (i : Nat) :
    ∀ j : Nat, (run_core_at (preempt_core inp s i).core j).decision_point
      = (run_core_at s.core j).decision_point := by
  unfold preempt_core
  dsimp only
  split_ifs
  · exact decision_point_set s.core s.core i _ (fun _ => rfl) rfl
  · exact fun _ => rfl
  · exact fun _ => rfl

theorem arrivals_core_decision_point (inp : Sched_input) (s : Sched_state) (i : Nat) :
    ∀ j : Nat, (run_core_at (arrivals_core inp s i).core j).decision_point
      = (run_core_at s.core j).decision_point := by
  unfold arrivals_core
  dsimp only
  split_ifs
  · exact decision_point_set s.core s.core i _ (fun _ => rfl) rfl
  · exact fun _ => rfl

theorem shutdown_core_decision_point (inp : Sched_input) (s s1 : Sched_state) (i : Nat)
    (e : shutdown_core inp s i = some s1) :
    ∀ j : Nat, (run_core_at s1.core j).decision_point
      = (run_core_at s.core j).decision_point := by
  unfold shutdown_core at e
  dsimp only at e
  split_ifs at e with h1 h2 h3
  · simp only [Option.some.injEq] at e
    rw [← e]
    exact decision_point_set s.core s.core i _ (fun _ => rfl) rfl
  · split at e
    · exact Option.noConfusion e
    · rename_i core1 rc1 hg
      obtain ⟨_, hsame⟩ := get_dynamic_procrastination_slack_frame _ _ _ _ _ _ _ _ _ _ _ _ _
        hg
      have hdp : ∀ j : Nat, (run_core_at core1 j).decision_point
          = (run_core_at s.core j).decision_point := by
        intro j
        have := hsame j
        unfold same_but_slack at this
        rw [this]
      split_ifs at e
      · simp only [Option.some.injEq] at e
        rw [← e]
        exact decision_point_set s.core core1 i _ hdp rfl
      · simp only [Option.some.injEq] at e
        rw [← e]
        exact hdp
  · simp only [Option.some.injEq] at e
    rw [← e]
    exact fun _ => rfl
  · simp only [Option.some.injEq] at e
    rw [← e]
    exact fun _ => rfl

theorem discarded_core_decision_point (inp : Sched_input) (s s1 : Sched_state) (i : Nat)
    (e : discarded_core inp s i = some s1) :
    ∀ j : Nat, (run_core_at s1.core j).decision_point
      = (run_core_at s.core j).decision_point := by
  unfold discarded_core at e
  dsimp only at e
  split_ifs at e with h1
  · split at e
    · exact Option.noConfusion e
    · simp only [Option.some.injEq] at e
      rw [← e]
      exact decision_point_set s.core s.core i _ (fun _ => rfl) rfl
  · simp only [Option.some.injEq] at e
    rw [← e]
    exact fun _ => rfl

/-- The stages of an iteration up to the discarded job scheduling leave the decision point of
every core unchanged. -/
theorem after_discarded_decision_point (inp : Sched_input) (s s3 : Sched_state)
    (e : after_discarded inp s = some s3) :
    ∀ j : Nat, (run_core_at s3.core j).decision_point
      = (run_core_at s.core j).decision_point := by
  unfold after_discarded after_shutdown after_arrivals at e
  have h1 := foldl_inv
    (fun a : Sched_state => ∀ j : Nat, (run_core_at a.core j).decision_point
      = (run_core_at s.core j).decision_point)
    (preempt_core inp)
    (fun a b ha j => (preempt_core_decision_point inp a b j).trans (ha j))
    (List.range inp.num_cores.toNat) s (fun _ => rfl)
  have h2 := foldl_inv
    (fun a : Sched_state => ∀ j : Nat, (run_core_at a.core j).decision_point
      = (run_core_at s.core j).decision_point)
    (arrivals_core inp)
    (fun a b ha j => (arrivals_core_decision_point inp a b j).trans (ha j))
    (List.range inp.num_cores.toNat) _ h1
  split at e
  · exact Option.noConfusion e
  · rename_i s2 e2
    have h3 := for_cores_inv
      (fun a : Sched_state => ∀ j : Nat, (run_core_at a.core j).decision_point
        = (run_core_at s.core j).decision_point) _ _
      (fun a i a1 ha he j => (shutdown_core_decision_point inp a a1 i he j).trans (ha j))
      _ _ h2 e2
    exact for_cores_inv
      (fun a : Sched_state => ∀ j : Nat, (run_core_at a.core j).decision_point
        = (run_core_at s.core j).decision_point) _ _
      (fun a i a1 ha he j => (discarded_core_decision_point inp a a1 i he j).trans (ha j))
      _ _ h3 e

theorem scheduler_iteration_stages (inp : Sched_input) (s s1 : Sched_state)
    (e : scheduler_iteration inp s = some s1) :
    ∃ s3 s4 : Sched_state, after_discarded inp s = some s3
      ∧ after_level_change inp s = some s4 := by
  unfold scheduler_iteration after_dispatch after_wakeup after_level_change at e
  cases e3 : after_discarded inp s with
  | none =>
    rw [e3] at e
    exact Option.noConfusion e
  | some s3 =>
    rw [e3] at e
    dsimp only at e
    cases e4 : level_change inp s3 with
    | none =>
      rw [e4] at e
      exact Option.noConfusion e
    | some s4 =>
      refine ⟨s3, s4, rfl, ?_⟩
      unfold after_level_change
      rw [e3]
      exact e4

/-! ## Criticality level of the system -/

/-- C27: in an iteration of the scheduler loop that starts in state `s` and ends in state
`s1`, `current_level` stays unchanged or increases by exactly 1; it increases exactly when
some core that is `ACTIVE` at the criticality scan (state `s3`, after the shutdown
evaluation of this iteration) has its decision point at `timecount` with the flag
`JOB_WCET_EXCEEDED` in its event.  An event with `JOB_OVERRUN` and without
`JOB_WCET_EXCEEDED` therefore leaves `current_level` unchanged. -/
theorem current_level_step (inp : Sched_input) (s s1 : Sched_state)
    (e : scheduler_iteration inp s = some s1) :
    ∃ s3 : Sched_state, after_discarded inp s = some s3 ∧
      (s1.current_level = s.current_level ∨ s1.current_level = s.current_level + 1) ∧
      (s1.current_level = s.current_level + 1 ↔
        ∃ core_idx : Nat, core_idx < inp.num_cores.toNat
          ∧ (run_core_at s3.core core_idx).status = ACTIVE
          ∧ (run_core_at s.core core_idx).decision_point.decision_time = s.timecount
          ∧ has_event (run_core_at s.core core_idx).decision_point.event JOB_WCET_EXCEEDED
              = true) := by
  obtain ⟨s3, s4, e3, e4⟩ := scheduler_iteration_stages inp s s1 e
  have hl : s1.current_level = s.current_level
      + (if ∃ core_idx ∈ List.range inp.num_cores.toNat, wcet_exceeded_core s3 core_idx then 1
         else 0) := by
    rw [after_level_change_to_end inp s s4 s1 e4 e, after_level_change_level inp s s3 s4 e3 e4]
  have hdp := after_discarded_decision_point inp s s3 e3
  have ht := (after_discarded_frame inp s s3 e3).2
  have hiff : (∃ core_idx ∈ List.range inp.num_cores.toNat, wcet_exceeded_core s3 core_idx) ↔
      ∃ core_idx : Nat, core_idx < inp.num_cores.toNat
        ∧ (run_core_at s3.core core_idx).status = ACTIVE
        ∧ (run_core_at s.core core_idx).decision_point.decision_time = s.timecount
        ∧ has_event (run_core_at s.core core_idx).decision_point.event JOB_WCET_EXCEEDED
            = true := by
    constructor
    · rintro ⟨i, hi, h1, h2, h3⟩
      unfold at_decision_time at h2
      rw [hdp i, ht] at h2
      rw [hdp i] at h3
      exact ⟨i, List.mem_range.mp hi, h1, h2, h3⟩
    · rintro ⟨i, hi, h1, h2, h3⟩
      refine ⟨i, List.mem_range.mpr hi, h1, ?_, ?_⟩
      · unfold at_decision_time
        rw [hdp i, ht]
        exact h2
      · rw [hdp i]
        exact h3
  refine ⟨s3, e3, ?_, ?_⟩
  · rw [hl]
    split_ifs
    · exact Or.inr rfl
    · exact Or.inl (add_zero _)
  · rw [← hiff, hl]
    split_ifs with hc
    · exact ⟨fun _ => hc, fun _ => rfl⟩
    · exact ⟨fun h => by omega, fun h => absurd h hc⟩

theorem loop_returns_with_spec {r : Option Sched_state} {p : Sched_state → Bool}
    (h : loop_returns_with r p = true) : ∃ s : Sched_state, r = some s ∧ p s = true := by
  cases r with
  | none => simp [loop_returns_with] at h
  | some s => exact ⟨s, rfl, h⟩

/-- Witness for C27: the second iteration on `admission_input`, at time 1, where the job of
`T1` exceeds its budget of level 1 and `current_level` goes from 1 to 2. -/
theorem current_level_step_witness :
    ∃ s s1 : Sched_state,
      scheduler_iteration admission_input (scheduler_init admission_input admission_cores)
        = some s ∧
      scheduler_iteration admission_input s = some s1 ∧
      s.current_level = 1 ∧ s1.current_level = 2 ∧
      ∃ s3 : Sched_state, after_discarded admission_input s = some s3 ∧
        (s1.current_level = s.current_level ∨ s1.current_level = s.current_level + 1) ∧
        (s1.current_level = s.current_level + 1 ↔
          ∃ core_idx : Nat, core_idx < admission_input.num_cores.toNat
            ∧ (run_core_at s3.core core_idx).status = ACTIVE
            ∧ (run_core_at s.core core_idx).decision_point.decision_time = s.timecount
            ∧ has_event (run_core_at s.core core_idx).decision_point.event JOB_WCET_EXCEEDED
                = true) := by
  have key : loop_returns_with
      (scheduler_iteration admission_input (scheduler_init admission_input admission_cores))
      (fun s => loop_returns_with (scheduler_iteration admission_input s)
        (fun s1 => decide (s.current_level = 1 ∧ s1.current_level = 2))) = true := by
    decide!
  obtain ⟨s, hs, hp⟩ := loop_returns_with_spec key
  obtain ⟨s1, hs1, hp1⟩ := loop_returns_with_spec hp
  have h12 := of_decide_eq_true hp1
  exact ⟨s, s1, hs, hs1, h12.1, h12.2, current_level_step admission_input s s1 hs1⟩

/-! ## Shutdown evaluation -/

/-- C29 fails on the code: on `stale_arrival_input`, in the iteration at time 1 both cores
are `ACTIVE` with an empty run queue.  The only task of core 2 arrives next at time 36,
which is the earliest arrival that `get_next_decision_point` computes for this core and is
not before `1 + SHUTDOWN_THRESHOLD`; the shutdown evaluation all the same sets the wake-up
time of core 2 to 12, the next arrival on core 1, because `min_arrival` is not reset
between the cores. -/
theorem shutdown_evaluation_keeps_min_arrival :
    ∃ s s2 : Sched_state,
      scheduler_iteration stale_arrival_input
        (scheduler_init stale_arrival_input stale_arrival_cores) = some s ∧
      after_shutdown stale_arrival_input s = some s2 ∧
      s.timecount = 1 ∧
      (run_core_at (after_arrivals stale_arrival_input s).core 1).status = ACTIVE ∧
      (run_core_at (after_arrivals stale_arrival_input s).core 1).qhead.head_node.isEmpty
        = true ∧
      (task_at stale_arrival_input.task_arr 0).allocated_core
        ≠ (run_core_at s.core 1).alloc.core_no ∧
      (task_at stale_arrival_input.task_arr 1).allocated_core
        = (run_core_at s.core 1).alloc.core_no ∧
      get_next_job_arrival stale_arrival_input.task_arr 1 s.timecount = 36 ∧
      earliest_arrival stale_arrival_input.task_arr stale_arrival_input.num_tasks
        (run_core_at s.core 1).alloc.core_no s.timecount stale_arrival_input.hyperperiod
        = 36 ∧
      (36 : ℚ) ≥ s.timecount + (SHUTDOWN_THRESHOLD : ℚ) ∧
      (run_core_at s2.core 1).status = SHUTDOWN ∧
      (run_core_at s2.core 1).wakeup_time = 12 := by
  have key : loop_returns_with
      (scheduler_iteration stale_arrival_input
        (scheduler_init stale_arrival_input stale_arrival_cores))
      (fun s => loop_returns_with (after_shutdown stale_arrival_input s)
        (fun s2 => decide (s.timecount = 1 ∧
          (run_core_at (after_arrivals stale_arrival_input s).core 1).status = ACTIVE ∧
          (run_core_at (after_arrivals stale_arrival_input s).core 1).qhead.head_node.isEmpty
            = true ∧
          (task_at stale_arrival_input.task_arr 0).allocated_core
            ≠ (run_core_at s.core 1).alloc.core_no ∧
          (task_at stale_arrival_input.task_arr 1).allocated_core
            = (run_core_at s.core 1).alloc.core_no ∧
          get_next_job_arrival stale_arrival_input.task_arr 1 s.timecount = 36 ∧
          earliest_arrival stale_arrival_input.task_arr stale_arrival_input.num_tasks
            (run_core_at s.core 1).alloc.core_no s.timecount stale_arrival_input.hyperperiod
            = 36 ∧
          (36 : ℚ) ≥ s.timecount + (SHUTDOWN_THRESHOLD : ℚ) ∧
          (run_core_at s2.core 1).status = SHUTDOWN ∧
          (run_core_at s2.core 1).wakeup_time = 12))) = true := by
    decide!
  obtain ⟨s, hs, hp⟩ := loop_returns_with_spec key
  obtain ⟨s2, hs2, hp2⟩ := loop_returns_with_spec hp
  exact ⟨s, s2, hs, hs2, of_decide_eq_true hp2⟩

/-! ## Shutdown of an idle core -/

theorem core_singleton (l : List Core_run) (h : l.length = 1) : l = [run_core_at l 0] := by
  cases l with
  | nil => simp at h
  | cons c t =>
    cases t with
    | nil => rfl
    | cons _ _ => simp at h

theorem earliest_arrival_le (task_arr : List Tasks) (num_tasks core_no : Int) (timecount : ℚ)
    (hyperperiod : Int) :
    earliest_arrival task_arr num_tasks core_no timecount hyperperiod ≤ (hyperperiod : ℚ) := by
  unfold earliest_arrival
  refine foldl_inv (fun m : ℚ => m ≤ (hyperperiod : ℚ)) _ ?_ _ _ (le_refl _)
  intro m i hm
  dsimp only
  split_ifs with h1 h2
  · exact (le_of_lt h2).trans hm
  · exact hm
  · exact hm

theorem run_core_at_singleton (x : Core_run) : run_core_at [x] ((0 : Nat) : Int) = x := rfl

theorem for_cores_one (body : Sched_state → Nat → Option Sched_state) (s : Sched_state) :
    for_cores 1 body s = body s 0 := rfl

/-- A single `ACTIVE` core with nothing to run (no running job with execution time left, no
arrival at `timecount`, an empty run queue, no wake-up flag) whose next arrival, as the
shutdown evaluation and `get_next_decision_point` compute it, is at `timecount + 15`: the
iteration returns, the core is `SHUTDOWN` with `wakeup_time = timecount + 15`, the idle
task is dispatched, the next iteration is at `timecount + 15`, and `idle_time` is
unchanged. -/
theorem idle_core_iteration (inp : Sched_input) (s : Sched_state) (c : Core_run)
    (hn : inp.num_cores = 1) (hc : s.core = [c])
    (hact : c.status = ACTIVE)
    (hidle : ¬ (c.curr_exe_job.task_no ≠ IDLE_TASK_NO ∧ c.curr_exe_job.execution_time > 0))
    (harr : ¬ (at_decision_time c s.timecount
      ∧ has_event c.decision_point.event JOB_ARRIVAL = true))
    (hq : c.qhead.head_node.isEmpty = true)
    (hwake : has_event c.decision_point.event WAKEUP_CORE = false)
    (hnext : (anticipate_next_arrival inp s 0).1 = s.timecount + 15)
    (hearly : earliest_arrival inp.task_arr inp.num_tasks c.alloc.core_no s.timecount
      inp.hyperperiod = s.timecount + 15) :
    scheduler_iteration inp s = some
      { s with
        timecount := s.timecount + 15
        min_arrival := s.timecount + 15
        min_idx := (anticipate_next_arrival inp s 0).2
        core := [{ c with
          status := SHUTDOWN
          wakeup_time := s.timecount + 15
          curr_exe_job := { inp.next_job with task_no := IDLE_TASK_NO }
          decision_point :=
            { decision_time := s.timecount + 15, event := add_event JOB_ARRIVAL WAKEUP_CORE } }] } := by
  have hr : (List.range inp.num_cores.toNat) = [0] := by
    rw [hn]
    rfl
  have hc0 : run_core_at s.core 0 = c := by
    rw [hc]
    rfl
  have hc0' : run_core_at s.core ((0 : Nat) : Int) = c := hc0
  have hq' : c.qhead.head_node = [] := isEmpty_eq_nil hq
  have hhyp : s.timecount + 15 ≤ (inp.hyperperiod : ℚ) := by
    rw [← hearly]
    exact earliest_arrival_le _ _ _ _ _
  -- preemption and arrivals change nothing
  have e1 : after_arrivals inp s = s := by
    unfold after_arrivals
    rw [hr]
    simp only [List.foldl_cons, List.foldl_nil]
    have p : preempt_core inp s 0 = s := by
      unfold preempt_core
      dsimp only
      rw [hc0', if_pos hact, if_neg hidle]
    rw [p]
    unfold arrivals_core
    dsimp only
    rw [hc0', if_neg harr]
  -- the core shuts down
  have e2 : after_shutdown inp s = some
      { s with min_arrival := s.timecount + 15
               min_idx := (anticipate_next_arrival inp s 0).2
               core := [{ c with wakeup_time := s.timecount + 15, status := SHUTDOWN }] } := by
    unfold after_shutdown
    rw [e1, hn, for_cores_one]
    unfold shutdown_core
    dsimp only
    rw [hc0', if_pos hact, if_pos hq, hnext, if_pos (by
      have : ((SHUTDOWN_THRESHOLD : Int) : ℚ) = 10 := by norm_num [SHUTDOWN_THRESHOLD]
      rw [this]
      linarith)]
    simp only [hc, List.set_cons_zero]
  have hsa : SHUTDOWN ≠ ACTIVE := by decide
  have e3 : after_discarded inp s = some
      { s with min_arrival := s.timecount + 15
               min_idx := (anticipate_next_arrival inp s 0).2
               core := [{ c with wakeup_time := s.timecount + 15, status := SHUTDOWN }] } := by
    unfold after_discarded
    rw [e2]
    dsimp only
    rw [hn, for_cores_one]
    unfold discarded_core
    dsimp only
    rw [if_neg]
    rintro ⟨_, h2, _⟩
    exact hsa h2
  have e4 : after_level_change inp s = some
      { s with min_arrival := s.timecount + 15
               min_idx := (anticipate_next_arrival inp s 0).2
               core := [{ c with wakeup_time := s.timecount + 15, status := SHUTDOWN }] } := by
    unfold after_level_change
    rw [e3]
    dsimp only
    unfold level_change
    rw [hr, if_neg]
    · simp only [List.foldl_cons, List.foldl_nil]
      unfold overrun_only_core
      dsimp only
      rw [if_neg]
      rintro ⟨h1, _⟩
      exact hsa h1
    · rintro ⟨i, hi, h1, _⟩
      rw [List.mem_singleton.mp hi] at h1
      exact hsa h1
  have e5 : after_wakeup inp s = some
      { s with min_arrival := s.timecount + 15
               min_idx := (anticipate_next_arrival inp s 0).2
               core := [{ c with wakeup_time := s.timecount + 15, status := SHUTDOWN }] } := by
    unfold after_wakeup
    rw [e4]
    dsimp only
    rw [hr]
    simp only [List.foldl_cons, List.foldl_nil]
    unfold wakeup_core
    dsimp only
    rw [if_neg]
    rintro ⟨_, _, h3⟩
    have h4 : has_event c.decision_point.event WAKEUP_CORE = true := h3
    rw [hwake] at h4
    exact Bool.noConfusion h4
  have e6 : after_dispatch inp s = some
      { s with min_arrival := s.timecount + 15
               min_idx := (anticipate_next_arrival inp s 0).2
               core := [{ c with wakeup_time := s.timecount + 15, status := SHUTDOWN
                                 curr_exe_job := { inp.next_job with task_no := IDLE_TASK_NO } }] } := by
    unfold after_dispatch
    rw [e5]
    dsimp only
    rw [hr]
    simp only [List.foldl_cons, List.foldl_nil]
    unfold dispatch_core schedule_next_job
    have h5 : (run_core_at [{ c with wakeup_time := s.timecount + 15, status := SHUTDOWN }]
        ((0 : Nat) : Int)).qhead.head_node = [] := hq'
    dsimp only
    rw [h5]
    rfl
  unfold scheduler_iteration
  rw [e6]
  dsimp only
  unfold advance_time get_next_decision_point
  rw [hr]
  simp only [List.foldl_cons, List.foldl_nil, run_core_at_singleton, List.set_cons_zero]
  have hdp : ∀ c3 : Core_run, c3.status = SHUTDOWN → c3.wakeup_time = s.timecount + 15 →
      c3.alloc = c.alloc →
      core_decision_point c3 inp.task_arr inp.num_tasks s.timecount inp.hyperperiod
        s.current_level
      = { decision_time := s.timecount + 15, event := add_event JOB_ARRIVAL WAKEUP_CORE } := by
    intro c3 h1 h2 h3
    unfold core_decision_point
    dsimp only
    rw [if_neg (by rw [h1]; exact hsa), h3, hearly, h2]
    unfold update_decision_point
    dsimp only
    rw [if_neg (lt_irrefl _), if_pos rfl]
  generalize hg : core_decision_point _ inp.task_arr inp.num_tasks s.timecount inp.hyperperiod
    s.current_level = dp
  have h9 := hg.symm.trans (hdp _ rfl rfl rfl)
  rw [h9]
  dsimp only
  have hmin : (if (inp.hyperperiod : ℚ) > s.timecount + 15 then s.timecount + 15
      else (inp.hyperperiod : ℚ)) = s.timecount + 15 := by
    split_ifs with h
    · rfl
    · exact le_antisymm (not_lt.mp h) hhyp
  rw [hmin, if_neg (not_lt.mpr hhyp)]
  unfold account_core
  simp only [run_core_at_singleton]
  rw [if_neg hsa]

/-- Counterexample to C30 as stated: on `idle_core_input` the core has finished its only
job at time 1 and the next arrival is at `1 + 15`.  The iteration at time 1 shuts the core
down with `wakeup_time = 16`, dispatches the idle task and advances to time 16, and the
`idle_time` of the core is the same as before: it has not increased by 15. -/
theorem idle_time_not_counted_when_shutdown :
    ∃ s s1 : Sched_state,
      scheduler_iteration idle_core_input (scheduler_init idle_core_input idle_core_cores)
        = some s ∧
      scheduler_iteration idle_core_input s = some s1 ∧
      s.core.length = 1 ∧ s.timecount = 1 ∧
      (run_core_at s.core 0).status = ACTIVE ∧
      (run_core_at s.core 0).qhead.head_node.isEmpty = true ∧
      (run_core_at s.core 0).curr_exe_job.execution_time = 0 ∧
      earliest_arrival idle_core_input.task_arr idle_core_input.num_tasks
        (run_core_at s.core 0).alloc.core_no s.timecount idle_core_input.hyperperiod
        = s.timecount + 15 ∧
      (run_core_at s1.core 0).status = SHUTDOWN ∧
      (run_core_at s1.core 0).wakeup_time = s.timecount + 15 ∧
      (run_core_at s1.core 0).curr_exe_job.task_no = IDLE_TASK_NO ∧
      s1.timecount = s.timecount + 15 ∧
      (run_core_at s1.core 0).idle_time = (run_core_at s.core 0).idle_time ∧
      (run_core_at s1.core 0).idle_time ≠ (run_core_at s.core 0).idle_time + 15 := by
  have key : loop_returns_with
      (scheduler_iteration idle_core_input (scheduler_init idle_core_input idle_core_cores))
      (fun s => loop_returns_with (scheduler_iteration idle_core_input s)
        (fun s1 => decide (
          s.core.length = 1 ∧ s.timecount = 1 ∧
          (run_core_at s.core 0).status = ACTIVE ∧
          (run_core_at s.core 0).qhead.head_node.isEmpty = true ∧
          (run_core_at s.core 0).curr_exe_job.execution_time = 0 ∧
          earliest_arrival idle_core_input.task_arr idle_core_input.num_tasks
            (run_core_at s.core 0).alloc.core_no s.timecount idle_core_input.hyperperiod
            = s.timecount + 15 ∧
          (run_core_at s1.core 0).status = SHUTDOWN ∧
          (run_core_at s1.core 0).wakeup_time = s.timecount + 15 ∧
          (run_core_at s1.core 0).curr_exe_job.task_no = IDLE_TASK_NO ∧
          s1.timecount = s.timecount + 15 ∧
          (run_core_at s1.core 0).idle_time = (run_core_at s.core 0).idle_time ∧
          (run_core_at s1.core 0).idle_time ≠ (run_core_at s.core 0).idle_time + 15)))
      = true := by
    decide!
  obtain ⟨s, hs, hp⟩ := loop_returns_with_spec key
  obtain ⟨s1, hs1, hp1⟩ := loop_returns_with_spec hp
  exact ⟨s, s1, hs, hs1, of_decide_eq_true hp1⟩

/-- C30, amended: a single `ACTIVE` core that idles at `timecount` (no running job with
execution time left, no arrival at `timecount`, an empty run queue, no wake-up flag) with
its next arrival at `timecount + 15`, as the shutdown evaluation and
`get_next_decision_point` compute it: the iteration returns a state `s1` in which the core
is `SHUTDOWN` with `wakeup_time = timecount + 15`, the idle task is dispatched and the next
iteration is at `timecount + 15`; the `idle_time` of the core does not change over that
interval, because idle time is only accounted on `ACTIVE` cores. -/
theorem idle_core_shutdown (inp : Sched_input) (s : Sched_state) (c : Core_run)
    (hn : inp.num_cores = 1) (hc : s.core = [c])
    (hact : c.status = ACTIVE)
    (hidle : ¬ (c.curr_exe_job.task_no ≠ IDLE_TASK_NO ∧ c.curr_exe_job.execution_time > 0))
    (harr : ¬ (at_decision_time c s.timecount
      ∧ has_event c.decision_point.event JOB_ARRIVAL = true))
    (hq : c.qhead.head_node.isEmpty = true)
    (hwake : has_event c.decision_point.event WAKEUP_CORE = false)
    (hnext : (anticipate_next_arrival inp s 0).1 = s.timecount + 15)
    (hearly : earliest_arrival inp.task_arr inp.num_tasks c.alloc.core_no s.timecount
      inp.hyperperiod = s.timecount + 15) :
    ∃ (s1 : Sched_state) (c1 : Core_run),
      scheduler_iteration inp s = some s1 ∧ s1.core = [c1] ∧
      c1.status = SHUTDOWN ∧ c1.wakeup_time = s.timecount + 15 ∧
      c1.curr_exe_job.task_no = IDLE_TASK_NO ∧ c1.qhead.head_node = [] ∧
      s1.timecount = s.timecount + 15 ∧
      c1.idle_time = c.idle_time :=
  ⟨_, _, idle_core_iteration inp s c hn hc hact hidle harr hq hwake hnext hearly, rfl, rfl, rfl,
    rfl, isEmpty_eq_nil hq, rfl, rfl⟩

/-- Witness for C30: the state of `idle_core_input` after the first iteration, at time 1. -/
theorem idle_core_shutdown_witness :
    ∃ s : Sched_state,
      scheduler_iteration idle_core_input (scheduler_init idle_core_input idle_core_cores)
        = some s ∧
      idle_core_input.num_cores = 1 ∧ s.core = [run_core_at s.core 0] ∧
      (run_core_at s.core 0).status = ACTIVE ∧
      (anticipate_next_arrival idle_core_input s 0).1 = s.timecount + 15 ∧
      ∃ (s1 : Sched_state) (c1 : Core_run),
        scheduler_iteration idle_core_input s = some s1 ∧ s1.core = [c1] ∧
        c1.status = SHUTDOWN ∧ c1.wakeup_time = s.timecount + 15 ∧
        c1.curr_exe_job.task_no = IDLE_TASK_NO ∧ c1.qhead.head_node = [] ∧
        s1.timecount = s.timecount + 15 ∧
        c1.idle_time = (run_core_at s.core 0).idle_time := by
  have key : loop_returns_with
      (scheduler_iteration idle_core_input (scheduler_init idle_core_input idle_core_cores))
      (fun s => decide (
        s.core.length = 1 ∧
        (run_core_at s.core 0).status = ACTIVE ∧
        ¬ ((run_core_at s.core 0).curr_exe_job.task_no ≠ IDLE_TASK_NO
          ∧ (run_core_at s.core 0).curr_exe_job.execution_time > 0) ∧
        ¬ (at_decision_time (run_core_at s.core 0) s.timecount
          ∧ has_event (run_core_at s.core 0).decision_point.event JOB_ARRIVAL = true) ∧
        (run_core_at s.core 0).qhead.head_node.isEmpty = true ∧
        has_event (run_core_at s.core 0).decision_point.event WAKEUP_CORE = false ∧
        (anticipate_next_arrival idle_core_input s 0).1 = s.timecount + 15 ∧
        earliest_arrival idle_core_input.task_arr idle_core_input.num_tasks
          (run_core_at s.core 0).alloc.core_no s.timecount idle_core_input.hyperperiod
          = s.timecount + 15)) = true := by
    decide!
  obtain ⟨s, hs, hp⟩ := loop_returns_with_spec key
  obtain ⟨h1, h2, h3, h4, h5, h6, h7, h8⟩ := of_decide_eq_true hp
  exact ⟨s, hs, rfl, core_singleton _ h1, h2, h7,
    idle_core_shutdown idle_core_input s (run_core_at s.core 0) rfl (core_singleton _ h1) h2 h3
      h4 h5 h6 h7 h8⟩

/-! ## Cores that are shut down -/

theorem run_scheduler_loop_reachable (inp : Sched_input) (core : List Cores) :
    ∀ (n : Nat) (s0 s : Sched_state), Reachable inp core s0 →
      run_scheduler_loop inp n s0 = some s → Reachable inp core s := by
  intro n
  induction n with
  | zero =>
    intro s0 s h0 e
    simp only [run_scheduler_loop, Option.some.injEq] at e
    rw [← e]
    exact h0
  | succ n ih =>
    intro s0 s h0 e
    unfold run_scheduler_loop at e
    split_ifs at e with ht
    · split at e
      · exact Option.noConfusion e
      · rename_i s1 e1
        exact ih s1 s (Reachable.step h0 ht e1) e
    · simp only [Option.some.injEq] at e
      rw [← e]
      exact h0

/-- For a core that is not `ACTIVE`, `add_ready_jobs` does not touch the run queue. -/
theorem add_ready_jobs_qhead (rand : Nat → Int) (core : Core_run) (task_arr : List Tasks)
    (num_tasks : Int) (timecount : ℚ) (current_level : Int) (q : Ready_queues)
    (h : core.status ≠ ACTIVE) :
    (add_ready_jobs rand core task_arr num_tasks timecount current_level q).qhead = q.qhead := by
  unfold add_ready_jobs
  refine foldl_inv (fun q1 : Ready_queues => q1.qhead = q.qhead) _ ?_ _ _ rfl
  intro q1 i h1
  unfold add_ready_jobs_body
  dsimp only
  split_ifs <;> exact h1

theorem job_property_true (inp : Sched_input) : Job_property inp fun _ => True :=
  ⟨fun _ _ _ _ _ _ _ => trivial, fun _ _ _ => trivial, fun _ _ _ => trivial,
    fun _ _ _ => trivial, fun _ _ _ _ => trivial⟩

/-- Counterexample to C26 as stated: on `shutdown_arrival_input` the system is at level 2
after four iterations, at time 15, and core 2 is `SHUTDOWN`.  The job of `T3` (criticality
1) that is released for core 2 at time 15 is not placed in the pending-request queue, which
stays empty: it is placed in the discarded queue of index 0. -/
theorem shutdown_arrival_discarded :
    ∃ s s1 : Sched_state,
      run_scheduler_loop shutdown_arrival_input 4
        (scheduler_init shutdown_arrival_input shutdown_arrival_cores) = some s ∧
      scheduler_iteration shutdown_arrival_input s = some s1 ∧
      s.timecount = 15 ∧ s.current_level = 2 ∧
      (run_core_at s.core 1).status = SHUTDOWN ∧
      (task_at shutdown_arrival_input.task_arr 2).allocated_core
        = (run_core_at s.core 1).alloc.core_no ∧
      ((task_at shutdown_arrival_input.task_arr 2).phase : ℚ) = s.timecount ∧
      s.prhead.head_node.isEmpty = true ∧
      (queue_at s.dhead 0).head_node.isEmpty = true ∧
      s1.prhead.head_node.isEmpty = true ∧
      ∃ job ∈ (queue_at s1.dhead 0).head_node,
        job.task_no = (task_at shutdown_arrival_input.task_arr 2).task_no
          ∧ job.arrival_time = 15
          ∧ job.allocated_core = (run_core_at s.core 1).alloc.core_no := by
  have key : loop_returns_with
      (run_scheduler_loop shutdown_arrival_input 4
        (scheduler_init shutdown_arrival_input shutdown_arrival_cores))
      (fun s => loop_returns_with (scheduler_iteration shutdown_arrival_input s)
        (fun s1 => decide (
          s.timecount = 15 ∧ s.current_level = 2 ∧
          (run_core_at s.core 1).status = SHUTDOWN ∧
          (task_at shutdown_arrival_input.task_arr 2).allocated_core
            = (run_core_at s.core 1).alloc.core_no ∧
          ((task_at shutdown_arrival_input.task_arr 2).phase : ℚ) = s.timecount ∧
          s.prhead.head_node.isEmpty = true ∧
          (queue_at s.dhead 0).head_node.isEmpty = true ∧
          s1.prhead.head_node.isEmpty = true ∧
          ∃ job ∈ (queue_at s1.dhead 0).head_node,
            job.task_no = (task_at shutdown_arrival_input.task_arr 2).task_no
              ∧ job.arrival_time = 15
              ∧ job.allocated_core = (run_core_at s.core 1).alloc.core_no))) = true := by
    decide!
  obtain ⟨s, hs, hp⟩ := loop_returns_with_spec key
  obtain ⟨s1, hs1, hp1⟩ := loop_returns_with_spec hp
  exact ⟨s, s1, hs, hs1, of_decide_eq_true hp1⟩

/-- C26, amended: in every state of the scheduler loop the run queue of a core that is
`SHUTDOWN` (more generally, not `ACTIVE`) is empty; and for such a core `add_ready_jobs`
leaves the run queue as it is, puts into the pending-request queue only jobs with
`allocated_core` equal to the number of the core whose criticality is at or above the
acceptance level, and puts the released jobs below the acceptance level into the discarded
queue of index `job_criticality - 1`. -/
theorem shutdown_core_queues (inp : Sched_input) (core : List Cores) (s : Sched_state)
    (h : Reachable inp core s) :
    (∀ c ∈ s.core, c.status = SHUTDOWN → c.qhead.head_node = []) ∧
    (∀ c ∈ s.core, c.status ≠ ACTIVE → c.qhead.head_node = []) ∧
    ∀ (c : Core_run) (timecount : ℚ) (current_level : Int) (q : Ready_queues),
      c.status ≠ ACTIVE →
      (add_ready_jobs inp.rand c inp.task_arr inp.num_tasks timecount current_level q).qhead
        = q.qhead ∧
      (∀ j ∈ (add_ready_jobs inp.rand c inp.task_arr inp.num_tasks timecount current_level
            q).prhead.head_node,
        j ∈ q.prhead.head_node ∨
          (j.allocated_core = c.alloc.core_no ∧
            accept_above_criticality_level current_level c.alloc.threshold_criticality
              ≤ j.job_criticality)) ∧
      (∀ k : Nat, ∀ j ∈ (queue_at (add_ready_jobs inp.rand c inp.task_arr inp.num_tasks
            timecount current_level q).dhead k).head_node,
        j ∈ (queue_at q.dhead k).head_node ∨
          (j.allocated_core = c.alloc.core_no ∧
            j.job_criticality
              < accept_above_criticality_level current_level c.alloc.threshold_criticality ∧
            (j.job_criticality - 1).toNat = k)) := by
  have hok := reachable_ok inp (fun _ => True) (job_property_true inp) core s h
  have hsa : SHUTDOWN ≠ ACTIVE := by decide
  refine ⟨fun c hc hs => (hok.1 c hc).1 (by rw [hs]; exact hsa),
    fun c hc hs => (hok.1 c hc).1 hs, ?_⟩
  intro c timecount current_level q hna
  obtain ⟨_, e2, e3⟩ := add_ready_jobs_effect inp.rand c inp.task_arr inp.num_tasks timecount
    current_level q
  have hcore : ∀ j, Created inp.task_arr inp.num_tasks c.alloc.threshold_criticality
      c.alloc.core_no timecount current_level j → j.allocated_core = c.alloc.core_no := by
    rintro j ⟨i, _, rv, e⟩
    rw [e]
    rfl
  refine ⟨add_ready_jobs_qhead _ _ _ _ _ _ _ hna, fun j hj => ?_, fun k j hj => ?_⟩
  · rcases e2.grown_mem j hj with hj | hj
    · exact Or.inl hj
    · exact Or.inr ⟨hcore j hj.1, hj.2.1⟩
  · rcases (e3.2 k).grown_mem j hj with hj | hj
    · exact Or.inl hj
    · exact Or.inr ⟨hcore j hj.1, hj.2⟩

/-- Witness for C26: the state of `shutdown_arrival_input` after four iterations, in which
core 2 is `SHUTDOWN`. -/
theorem shutdown_core_queues_witness :
    ∃ s : Sched_state,
      run_scheduler_loop shutdown_arrival_input 4
        (scheduler_init shutdown_arrival_input shutdown_arrival_cores) = some s ∧
      (∃ c ∈ s.core, c.status = SHUTDOWN) ∧
      (∀ c ∈ s.core, c.status = SHUTDOWN → c.qhead.head_node = []) := by
  have key : loop_returns_with
      (run_scheduler_loop shutdown_arrival_input 4
        (scheduler_init shutdown_arrival_input shutdown_arrival_cores))
      (fun s => decide (∃ c ∈ s.core, c.status = SHUTDOWN)) = true := by
    decide!
  obtain ⟨s, hs, hp⟩ := loop_returns_with_spec key
  exact ⟨s, hs, of_decide_eq_true hp,
    (shutdown_core_queues shutdown_arrival_input shutdown_arrival_cores s
      (run_scheduler_loop_reachable _ _ 4 _ s Reachable.init hs)).1⟩

/-! ## Order of the run queue at dispatch -/

theorem Dbl.add_fin_ne_nan (a : ℚ) (d : Dbl) (h : d ≠ Dbl.nan) :
    Dbl.add (Dbl.fin a) d ≠ Dbl.nan := by
  cases d with
  | fin q => exact fun hh => Dbl.noConfusion hh
  | pinf => exact fun hh => Dbl.noConfusion hh
  | ninf => exact fun hh => Dbl.noConfusion hh
  | nan => exact absurd rfl h

/-- When the virtual deadline of every task is a number, so is the deadline of every job of
the scheduler loop. -/
theorem job_property_deadline (inp : Sched_input)
    (hvd : ∀ i : Nat, i < inp.num_tasks.toNat →
      (task_at inp.task_arr i).virtual_deadline ≠ Dbl.nan) :
    Job_property inp fun j => j.sched_deadline ≠ Dbl.nan := by
  refine ⟨fun i hi thr core_no tc level rv => ?_, fun _ _ h => h, fun _ _ h => h,
    fun _ _ _ => fun hh => Dbl.noConfusion hh, fun _ _ _ h => h⟩
  unfold create_job_structure
  dsimp only
  split_ifs
  · exact Dbl.add_fin_ne_nan _ _ (hvd i hi)
  · exact fun hh => Dbl.noConfusion hh

theorem dispatch_core_earliest (inp : Sched_input) (s : Sched_state) (i : Nat)
    (h : Sched_ok (fun j => j.sched_deadline ≠ Dbl.nan) s) :
    Earliest_runs (run_core_at (dispatch_core inp s i).core i) := by
  unfold dispatch_core
  dsimp only
  rw [run_core_at_set]
  split_ifs with hi
  · obtain ⟨_, c2, c3, _⟩ := h.1 _ (run_core_at_mem _ _ hi.2)
    unfold Earliest_runs schedule_next_job
    cases hq : (run_core_at s.core i).qhead.head_node with
    | nil =>
      dsimp only
      exact fun hne => absurd rfl hne
    | cons temp rest =>
      dsimp only
      rw [hq] at c2 c3
      intro _ r hr
      exact Dbl.le_of_lt_false (c3 r (List.mem_cons_of_mem _ hr))
        (c3 temp (List.mem_cons_self _ _)) ((List.pairwise_cons.mp c2).1 r hr)
  · have hdef : run_core_at s.core i = default := by
      unfold run_core_at
      have hlen : s.core.length ≤ i := by
        by_contra hc
        exact hi ⟨rfl, not_le.mp hc⟩
      simp only [Int.toNat_ofNat, List.getD_eq_getElem?_getD,
        List.getElem?_eq_none hlen, Option.getD_none]
    rw [hdef]
    exact fun hne => absurd rfl hne

theorem dispatch_fold_earliest (inp : Sched_input) (s : Sched_state)
    (h : Sched_ok (fun j => j.sched_deadline ≠ Dbl.nan) s) :
    ∀ n : Nat, Sched_ok (fun j => j.sched_deadline ≠ Dbl.nan)
        ((List.range n).foldl (dispatch_core inp) s) ∧
      ∀ i : Nat, i < n →
        Earliest_runs (run_core_at ((List.range n).foldl (dispatch_core inp) s).core i) := by
  intro n
  induction n with
  | zero => exact ⟨h, fun i hi => absurd hi (Nat.not_lt_zero _)⟩
  | succ n ih =>
    rw [List.range_succ, List.foldl_append]
    simp only [List.foldl_cons, List.foldl_nil]
    refine ⟨dispatch_core_ok inp _ _ n ih.1, fun i hi => ?_⟩
    by_cases hin : i = n
    · rw [hin]
      exact dispatch_core_earliest inp _ n ih.1
    · have hlt : i < n := by omega
      have e : run_core_at (dispatch_core inp ((List.range n).foldl (dispatch_core inp) s) n).core i
          = run_core_at ((List.range n).foldl (dispatch_core inp) s).core i := by
        unfold dispatch_core
        dsimp only
        rw [run_core_at_set, if_neg fun hh => hin hh.1]
      rw [e]
      exact ih.2 i hlt

/-- C28: when the virtual deadline of every task is a number, then at the dispatch of every
iteration of the scheduler loop the run queue of every core is in ascending order of
`sched_deadline` (state `s6`, after the core wake-up), and after the dispatch (state `s7`)
the job popped into `curr_exe_job` of a core has a `sched_deadline` that is `<=` that of
every job remaining in the run queue of that core. -/
theorem dispatch_earliest_deadline (inp : Sched_input) (core : List Cores)
    (s s7 : Sched_state)
    (hvd : ∀ i : Nat, i < inp.num_tasks.toNat →
      (task_at inp.task_arr i).virtual_deadline ≠ Dbl.nan)
    (h : Reachable inp core s) (e : after_dispatch inp s = some s7) :
    (∃ s6 : Sched_state, after_wakeup inp s = some s6 ∧
      ∀ c ∈ s6.core, ascending c.qhead.head_node) ∧
    ∀ i : Nat, i < inp.num_cores.toNat →
      (run_core_at s7.core i).curr_exe_job.task_no ≠ IDLE_TASK_NO →
      ∀ r ∈ (run_core_at s7.core i).qhead.head_node,
        Dbl.le (run_core_at s7.core i).curr_exe_job.sched_deadline r.sched_deadline
          = true := by
  have hP := job_property_deadline inp hvd
  have hok := reachable_ok inp _ hP core s h
  unfold after_dispatch at e
  split at e
  · exact Option.noConfusion e
  · rename_i s6 e6
    have h6 := after_wakeup_ok inp _ hP s s6 hok e6
    simp only [Option.some.injEq] at e
    rw [← e]
    exact ⟨⟨s6, e6, fun c hc => (h6.1 c hc).2.1⟩,
      fun i hi => (dispatch_fold_earliest inp s6 h6 inp.num_cores.toNat).2 i hi⟩

/-- Witness for C28: the third iteration on `admission_input`, at time 2, where the job of
`T1` is dispatched and the job of `T2` remains in the run queue. -/
theorem dispatch_earliest_deadline_witness :
    ∃ s s7 : Sched_state,
      run_scheduler_loop admission_input 2
        (scheduler_init admission_input admission_cores) = some s ∧
      after_dispatch admission_input s = some s7 ∧
      (run_core_at s7.core 0).curr_exe_job.task_no ≠ IDLE_TASK_NO ∧
      (run_core_at s7.core 0).qhead.head_node.isEmpty = false ∧
      ∀ r ∈ (run_core_at s7.core 0).qhead.head_node,
        Dbl.le (run_core_at s7.core 0).curr_exe_job.sched_deadline r.sched_deadline
          = true := by
  have key : loop_returns_with
      (run_scheduler_loop admission_input 2
        (scheduler_init admission_input admission_cores))
      (fun s => loop_returns_with (after_dispatch admission_input s)
        (fun s7 => decide (
          (run_core_at s7.core 0).curr_exe_job.task_no ≠ IDLE_TASK_NO ∧
          (run_core_at s7.core 0).qhead.head_node.isEmpty = false))) = true := by
    decide!
  obtain ⟨s, hs, hp⟩ := loop_returns_with_spec key
  obtain ⟨s7, hs7, hp7⟩ := loop_returns_with_spec hp
  obtain ⟨h1, h2⟩ := of_decide_eq_true hp7
  exact ⟨s, s7, hs, hs7, h1, h2,
    (dispatch_earliest_deadline admission_input admission_cores s s7 (by decide!)
      (run_scheduler_loop_reachable _ _ 2 _ s Reachable.init hs) hs7).2 0 (by decide) h1⟩

/-! ## Discarded queues -/

theorem accept_above_le_level (level threshold_criticality : Int) :
    accept_above_criticality_level level threshold_criticality ≤ level := by
  unfold accept_above_criticality_level
  split_ifs with h
  · exact le_refl _
  · omega

theorem preempt_core_discarded (inp : Sched_input) (s : Sched_state) (i : Nat)
    (h : Discarded_ok s) : Discarded_ok (preempt_core inp s i) := by
  obtain ⟨f1, _, f3, _⟩ := preempt_core_frame inp s i
  unfold Discarded_ok
  rw [f1, f3]
  exact h

theorem arrivals_core_discarded (inp : Sched_input) (s : Sched_state) (i : Nat)
    (h : Discarded_ok s) : Discarded_ok (arrivals_core inp s i) := by
  unfold arrivals_core
  dsimp only
  split_ifs with h1
  · obtain ⟨_, _, e3⟩ := add_ready_jobs_effect inp.rand (run_core_at s.core i) inp.task_arr
      inp.num_tasks s.timecount s.current_level
      { qhead := (run_core_at s.core i).qhead, dhead := s.dhead, prhead := s.prhead,
        rand_calls := s.rand_calls }
    intro k j hj
    rcases (e3.2 k).grown_mem j hj with hj | hj
    · exact h k j hj
    · exact ⟨hj.2.2, lt_of_lt_of_le hj.2.1 (accept_above_le_level _ _)⟩
  · exact h

theorem shutdown_core_discarded (inp : Sched_input) (s s1 : Sched_state) (i : Nat)
    (h : Discarded_ok s) (e : shutdown_core inp s i = some s1) : Discarded_ok s1 := by
  obtain ⟨f1, _, f3, _⟩ := shutdown_core_frame inp s s1 i e
  unfold Discarded_ok
  rw [f1, f3]
  exact h

theorem discarded_core_discarded (inp : Sched_input) (s s1 : Sched_state) (i : Nat)
    (h : Discarded_ok s) (e : discarded_core inp s i = some s1) : Discarded_ok s1 := by
  obtain ⟨f1, _, _⟩ := discarded_core_frame inp s s1 i e
  unfold discarded_core at e
  dsimp only at e
  split_ifs at e with h1
  · split at e
    · exact Option.noConfusion e
    · rename_i head dhead rc hsd
      obtain ⟨_, e2⟩ := schedule_discarded_job_effect _ _ _ _ _ _ _ _ _ _ _ _ _ _ _ _ hsd
      simp only [Option.some.injEq] at e
      rw [← e]
      intro k j hj
      exact h k j ((e2.2 k).subset hj)
  · simp only [Option.some.injEq] at e
    rw [← e]
    exact h

theorem level_change_core_discarded (inp : Sched_input) (s s1 : Sched_state) (i : Nat)
    (h : Discarded_ok s) (e : level_change_core inp s i = some s1) : Discarded_ok s1 := by
  unfold level_change_core at e
  dsimp only at e
  split_ifs at e with h1
  · simp only [Option.some.injEq] at e
    rw [← e]
    have hd := (discard_below_criticality_level_effect
      (level_change_job inp s.timecount
        { run_core_at s.core i with
          core_criticality := (run_core_at s.core i).core_criticality + 1 }).qhead
      s.dhead s.current_level).2
    intro k j hj
    rcases (hd.2 k).grown_mem j hj with hj | hj
    · exact h k j hj
    · exact ⟨hj.2.2, hj.2.1⟩
  · split at e
    · exact Option.noConfusion e
    · simp only [Option.some.injEq] at e
      rw [← e]
      have hd := (discard_below_criticality_level_effect
        (level_change_job inp s.timecount
          { run_core_at s.core i with
            core_criticality := (run_core_at s.core i).core_criticality + 1 }).qhead
        s.dhead
        ((level_change_job inp s.timecount
          { run_core_at s.core i with
            core_criticality := (run_core_at s.core i).core_criticality + 1
          }).alloc.threshold_criticality + 1)).2
      intro k j hj
      rcases (hd.2 k).grown_mem j hj with hj | hj
      · exact h k j hj
      · refine ⟨hj.2.2, ?_⟩
        have := hj.2.1
        have h2 : ¬ s.current_level ≤ (level_change_job inp s.timecount
          { run_core_at s.core i with
            core_criticality := (run_core_at s.core i).core_criticality + 1
          }).alloc.threshold_criticality := h1
        show j.job_criticality < s.current_level
        omega

theorem level_change_discarded (inp : Sched_input) (s s1 : Sched_state)
    (h : Discarded_ok s) (e : level_change inp s = some s1) : Discarded_ok s1 := by
  unfold level_change at e
  split_ifs at e with h1
  · refine for_cores_inv Discarded_ok _ _
      (fun a i a1 ha he => level_change_core_discarded inp a a1 i ha he)
      { s with current_level := s.current_level + 1 } _ ?_ e
    intro k j hj
    have := h k j hj
    exact ⟨this.1, by show j.job_criticality < s.current_level + 1; omega⟩
  · simp only [Option.some.injEq] at e
    rw [← e]
    refine foldl_inv Discarded_ok _ (fun a b ha => ?_) _ _ h
    obtain ⟨f1, _, f3, _⟩ := overrun_only_core_frame a b
    unfold Discarded_ok
    rw [f1, f3]
    exact ha

theorem scheduler_iteration_discarded (inp : Sched_input) (s s1 : Sched_state)
    (h : Discarded_ok s) (e : scheduler_iteration inp s = some s1) : Discarded_ok s1 := by
  unfold scheduler_iteration after_dispatch after_wakeup after_level_change after_discarded
    after_shutdown after_arrivals at e
  have h1 : Discarded_ok ((List.range inp.num_cores.toNat).foldl (preempt_core inp) s) :=
    foldl_inv Discarded_ok _ (fun a b ha => preempt_core_discarded inp a b ha) _ _ h
  have h2 := foldl_inv Discarded_ok _ (fun a b ha => arrivals_core_discarded inp a b ha)
    (List.range inp.num_cores.toNat) _ h1
  split at e
  · exact Option.noConfusion e
  · rename_i s7 e7
    split at e7
    · exact Option.noConfusion e7
    · rename_i s6 e6
      split at e6
      · exact Option.noConfusion e6
      · rename_i s4 e4
        split at e4
        · exact Option.noConfusion e4
        · rename_i s3 e3
          split at e3
          · exact Option.noConfusion e3
          · rename_i s2 e2
            have h3 := for_cores_inv Discarded_ok _ _
              (fun a i a1 ha he => shutdown_core_discarded inp a a1 i ha he) _ _ h2 e2
            have h4 := for_cores_inv Discarded_ok _ _
              (fun a i a1 ha he => discarded_core_discarded inp a a1 i ha he) _ _ h3 e3
            have h5 := level_change_discarded inp _ _ h4 e4
            simp only [Option.some.injEq] at e6 e7 e
            have h6 : Discarded_ok s6 := by
              rw [← e6]
              refine foldl_inv Discarded_ok _ (fun a b ha => ?_) _ _ h5
              obtain ⟨f1, _, f3⟩ := wakeup_core_frame a b
              unfold Discarded_ok
              rw [f1, f3]
              exact ha
            have h7 : Discarded_ok s7 := by
              rw [← e7]
              refine foldl_inv Discarded_ok _ (fun a b ha => ?_) _ _ h6
              exact ha
            rw [← e]
            obtain ⟨f1, f2, _⟩ := advance_time_frame inp s7
            unfold Discarded_ok
            rw [f1, f2]
            exact h7

theorem scheduler_init_discarded (inp : Sched_input) (core : List Cores) :
    Discarded_ok (scheduler_init inp core) := by
  intro k j hj
  unfold scheduler_init at hj
  dsimp only at hj
  unfold queue_at at hj
  rw [List.getD_eq_getElem?_getD, List.getElem?_replicate] at hj
  split_ifs at hj <;> simp [create_run_queue, default] at hj

theorem reachable_discarded (inp : Sched_input) (core : List Cores) (s : Sched_state)
    (h : Reachable inp core s) : Discarded_ok s := by
  induction h with
  | init => exact scheduler_init_discarded inp core
  | step _ _ e ih => exact scheduler_iteration_discarded inp _ _ ih e

/-- When every task has a criticality of at least 1, so has every job of the scheduler
loop. -/
theorem job_property_criticality (inp : Sched_input)
    (hcrit : ∀ i : Nat, i < inp.num_tasks.toNat → 1 ≤ (task_at inp.task_arr i).criticality) :
    Job_property inp fun j => 1 ≤ j.job_criticality :=
  ⟨fun i hi _ _ _ _ _ => hcrit i hi, fun _ _ h => h, fun _ _ h => h, fun _ _ h => h,
    fun _ _ _ h => h⟩

/-- C25: when every task has a criticality of at least 1, then in every state of the
scheduler loop every job in the discarded queue of index `k` (the queue of level `k + 1`)
has the criticality `k + 1`, and this criticality is below `current_level`; so the
discarded queue of level `k + 1` is non-empty only if `current_level > k + 1`. -/
theorem discarded_queue_levels (inp : Sched_input) (core : List Cores) (s : Sched_state)
    (hcrit : ∀ i : Nat, i < inp.num_tasks.toNat → 1 ≤ (task_at inp.task_arr i).criticality)
    (h : Reachable inp core s) (k : Nat) :
    (∀ j ∈ (queue_at s.dhead k).head_node,
      j.job_criticality = (k : Int) + 1 ∧ j.job_criticality < s.current_level) ∧
    ((queue_at s.dhead k).head_node ≠ [] → (k : Int) + 1 < s.current_level) := by
  have hok := reachable_ok inp _ (job_property_criticality inp hcrit) core s h
  have hd := reachable_discarded inp core s h
  have key : ∀ j ∈ (queue_at s.dhead k).head_node,
      j.job_criticality = (k : Int) + 1 ∧ j.job_criticality < s.current_level := by
    intro j hj
    have h1 : 1 ≤ j.job_criticality := hok.2.1 k j hj
    obtain ⟨h2, h3⟩ := hd k j hj
    exact ⟨by omega, h3⟩
  refine ⟨key, fun hne => ?_⟩
  obtain ⟨j, hj⟩ := List.exists_mem_of_ne_nil _ hne
  obtain ⟨h2, h3⟩ := key j hj
  omega

/-- Witness for C25: the state of `shutdown_arrival_input` after five iterations, at level
2, in which the discarded queue of level 1 holds a job. -/
theorem discarded_queue_levels_witness :
    ∃ s : Sched_state,
      run_scheduler_loop shutdown_arrival_input 5
        (scheduler_init shutdown_arrival_input shutdown_arrival_cores) = some s ∧
      (queue_at s.dhead 0).head_node.isEmpty = false ∧
      (∀ j ∈ (queue_at s.dhead (0 : Nat)).head_node,
        j.job_criticality = ((0 : Nat) : Int) + 1 ∧ j.job_criticality < s.current_level) ∧
      ((queue_at s.dhead (0 : Nat)).head_node ≠ [] → ((0 : Nat) : Int) + 1 < s.current_level) := by
  have key : loop_returns_with
      (run_scheduler_loop shutdown_arrival_input 5
        (scheduler_init shutdown_arrival_input shutdown_arrival_cores))
      (fun s => decide ((queue_at s.dhead 0).head_node.isEmpty = false)) = true := by
    decide!
  obtain ⟨s, hs, hp⟩ := loop_returns_with_spec key
  exact ⟨s, hs, of_decide_eq_true hp,
    discarded_queue_levels shutdown_arrival_input shutdown_arrival_cores s (by decide!)
      (run_scheduler_loop_reachable _ _ 5 _ s Reachable.init hs) 0⟩

/-! ## Criticality of the jobs in the run queues -/

/-- A property of the cores `0 .. n - 1` survives the assignment to `core[i]` of a record
that has it whenever the previous record had it. -/
theorem forall_idx_set {R : Core_run → Prop} {l : List Core_run} {i n : Nat} {x : Core_run}
    (h : ∀ j : Nat, j < n → R (run_core_at l j))
    (hx : i < n → R (run_core_at l i) → R x) :
    ∀ j : Nat, j < n → R (run_core_at (l.set i x) j) := by
  intro j hj
  rw [run_core_at_set]
  split_ifs with hji
  · exact hx (hji.1 ▸ hj) (h i (hji.1 ▸ hj))
  · exact h j hj

theorem preempt_core_accepted (inp : Sched_input) (level : Int) (n : Nat) (s : Sched_state)
    (i : Nat) (h : ∀ j : Nat, j < n → Accepted level (run_core_at s.core j)) :
    ∀ j : Nat, j < n → Accepted level (run_core_at (preempt_core inp s i).core j) := by
  unfold preempt_core
  dsimp only
  split_ifs with h1 h2
  · refine forall_idx_set h fun _ hc => ?_
    obtain ⟨c1, c2⟩ := hc
    refine ⟨?_, fun _ => c2 h2.1⟩
    intro j hj
    rw [update_run_queue_head_node] at hj
    rcases (mem_insert_walk _ _ _).mp hj with e | hj
    · rw [e]
      exact c2 h2.1
    · exact c1 j hj
  · exact h
  · exact h

theorem arrivals_core_accepted (inp : Sched_input) (n : Nat) (s : Sched_state)
    (i : Nat) (h : ∀ j : Nat, j < n → Accepted s.current_level (run_core_at s.core j)) :
    ∀ j : Nat, j < n → Accepted s.current_level (run_core_at (arrivals_core inp s i).core j) := by
  unfold arrivals_core
  dsimp only
  split_ifs with h1
  · obtain ⟨e1, _, _⟩ := add_ready_jobs_effect inp.rand (run_core_at s.core i) inp.task_arr
      inp.num_tasks s.timecount s.current_level
      { qhead := (run_core_at s.core i).qhead, dhead := s.dhead, prhead := s.prhead,
        rand_calls := s.rand_calls }
    refine forall_idx_set h fun _ hc => ?_
    exact ⟨e1.grown_forall hc.1 fun x hx => hx.2.1, hc.2⟩
  · exact h

theorem shutdown_core_jobs (inp : Sched_input) (s s1 : Sched_state) (i : Nat)
    (e : shutdown_core inp s i = some s1) :
    ∀ j : Nat, (run_core_at s1.core j).qhead = (run_core_at s.core j).qhead
      ∧ (run_core_at s1.core j).curr_exe_job = (run_core_at s.core j).curr_exe_job
      ∧ (run_core_at s1.core j).alloc = (run_core_at s.core j).alloc := by
  unfold shutdown_core at e
  dsimp only at e
  split_ifs at e with h1 h2 h3
  · simp only [Option.some.injEq] at e
    rw [← e]
    intro j
    dsimp only
    rw [run_core_at_set]
    split_ifs with hj
    · rw [hj.1]
      exact ⟨rfl, rfl, rfl⟩
    · exact ⟨rfl, rfl, rfl⟩
  · split at e
    · exact Option.noConfusion e
    · rename_i core1 rc1 hg
      obtain ⟨_, hsame⟩ := get_dynamic_procrastination_slack_frame _ _ _ _ _ _ _ _ _ _ _ _ _
        hg
      have hf : ∀ j : Nat, (run_core_at core1 j).qhead = (run_core_at s.core j).qhead
          ∧ (run_core_at core1 j).curr_exe_job = (run_core_at s.core j).curr_exe_job
          ∧ (run_core_at core1 j).alloc = (run_core_at s.core j).alloc := by
        intro j
        have := hsame j
        unfold same_but_slack at this
        rw [this]
        exact ⟨rfl, rfl, rfl⟩
      split_ifs at e
      · simp only [Option.some.injEq] at e
        rw [← e]
        intro j
        dsimp only
        rw [run_core_at_set]
        split_ifs with hj
        · rw [hj.1]
          exact hf i
        · exact hf j
      · simp only [Option.some.injEq] at e
        rw [← e]
        exact hf
  · simp only [Option.some.injEq] at e
    rw [← e]
    exact fun _ => ⟨rfl, rfl, rfl⟩
  · simp only [Option.some.injEq] at e
    rw [← e]
    exact fun _ => ⟨rfl, rfl, rfl⟩

theorem Accepted.of_jobs {level : Int} {c c1 : Core_run}
    (h : c1.qhead = c.qhead ∧ c1.curr_exe_job = c.curr_exe_job ∧ c1.alloc = c.alloc)
    (hc : Accepted level c) : Accepted level c1 := by
  unfold Accepted Queue_accepted at *
  rw [h.1, h.2.1, h.2.2]
  exact hc

/-- The stages of an iteration up to the shutdown evaluation keep the jobs of the run queues
and the running jobs at or above the acceptance level. -/
theorem after_shutdown_accepted (inp : Sched_input) (s s2 : Sched_state)
    (h : ∀ j : Nat, j < inp.num_cores.toNat → Accepted s.current_level (run_core_at s.core j))
    (e : after_shutdown inp s = some s2) :
    s2.current_level = s.current_level ∧
    ∀ j : Nat, j < inp.num_cores.toNat → Accepted s.current_level (run_core_at s2.core j) := by
  unfold after_shutdown after_arrivals at e
  have h1 := foldl_inv
    (fun a : Sched_state => a.current_level = s.current_level ∧
      ∀ j : Nat, j < inp.num_cores.toNat → Accepted s.current_level (run_core_at a.core j))
    (preempt_core inp)
    (fun a b ha =>
      ⟨(preempt_core_frame inp a b).1.trans ha.1,
        preempt_core_accepted inp _ _ a b ha.2⟩)
    (List.range inp.num_cores.toNat) s ⟨rfl, h⟩
  have h2 := foldl_inv
    (fun a : Sched_state => a.current_level = s.current_level ∧
      ∀ j : Nat, j < inp.num_cores.toNat → Accepted s.current_level (run_core_at a.core j))
    (arrivals_core inp)
    (fun a b ha => by
      refine ⟨(arrivals_core_frame inp a b).1.trans ha.1, ?_⟩
      have := arrivals_core_accepted inp inp.num_cores.toNat a b (by rw [ha.1]; exact ha.2)
      rw [ha.1] at this
      exact this)
    (List.range inp.num_cores.toNat) _ h1
  exact for_cores_inv
    (fun a : Sched_state => a.current_level = s.current_level ∧
      ∀ j : Nat, j < inp.num_cores.toNat → Accepted s.current_level (run_core_at a.core j))
    _ _
    (fun a i a1 ha he =>
      ⟨(shutdown_core_frame inp a a1 i he).1.trans ha.1,
        fun j hj => Accepted.of_jobs (shutdown_core_jobs inp a a1 i he j) (ha.2 j hj)⟩)
    _ _ h2 e

theorem job_property_task_criticality (inp : Sched_input) :
    Job_property inp (Task_criticality inp) :=
  ⟨fun i hi _ _ _ _ _ => ⟨i, hi, rfl, rfl⟩, fun _ _ h => h, fun _ _ h => h, fun _ _ h => h,
    fun _ _ _ h => h⟩

theorem task_criticality_unique (inp : Sched_input)
    (hsame : ∀ i k : Nat, i < inp.num_tasks.toNat → k < inp.num_tasks.toNat →
      (task_at inp.task_arr i).task_no = (task_at inp.task_arr k).task_no →
      (task_at inp.task_arr i).criticality = (task_at inp.task_arr k).criticality)
    (a b : Jobs) (ha : Task_criticality inp a) (hb : Task_criticality inp b)
    (e : a.task_no = b.task_no) : a.job_criticality = b.job_criticality := by
  obtain ⟨i, hi, e1, e2⟩ := ha
  obtain ⟨k, hk, e3, e4⟩ := hb
  rw [← e2, ← e4]
  exact hsame i k hi hk (by rw [e1, e3, e])

theorem after_discarded_ok (inp : Sched_input) (P : Jobs → Prop) (hP : Job_property inp P)
    (s s3 : Sched_state) (h : Sched_ok P s) (e : after_discarded inp s = some s3) :
    Sched_ok P s3 := by
  unfold after_discarded after_shutdown after_arrivals at e
  have h1 : Sched_ok P ((List.range inp.num_cores.toNat).foldl (preempt_core inp) s) :=
    foldl_inv (Sched_ok P) _ (fun a b ha => preempt_core_ok inp P hP a b ha) _ _ h
  have h2 := foldl_inv (Sched_ok P) _ (fun a b ha => arrivals_core_ok inp P hP a b ha)
    (List.range inp.num_cores.toNat) _ h1
  split at e
  · exact Option.noConfusion e
  · rename_i s2 e2
    have h3 := for_cores_ok _ P _ (fun s i s1 hs he => shutdown_core_ok inp P s s1 i hs he)
      _ _ h2 e2
    exact for_cores_ok _ P _
      (fun s i s1 hs he => discarded_core_ok inp P hP s s1 i hs he) _ _ h3 e

theorem run_core_at_default (l : List Core_run) (i : Nat) (hi : ¬ i < l.length) :
    run_core_at l i = default := by
  unfold run_core_at
  simp only [Int.toNat_ofNat, List.getD_eq_getElem?_getD,
    List.getElem?_eq_none (not_lt.mp hi), Option.getD_none]

/-- A loop over the cores whose body establishes `R` for its core and keeps it for the
other cores establishes `R` for every core it visits. -/
theorem foldl_each (I : Sched_state → Prop) (R : Sched_state → Nat → Prop)
    (f : Sched_state → Nat → Sched_state)
    (hI : ∀ a k, I a → I (f a k)) (hR : ∀ a k, I a → R (f a k) k)
    (hkeep : ∀ a k j, j ≠ k → R a j → R (f a k) j) (s : Sched_state) (hs : I s) :
    ∀ n : Nat, I ((List.range n).foldl f s) ∧
      ∀ i : Nat, i < n → R ((List.range n).foldl f s) i := by
  intro n
  induction n with
  | zero => exact ⟨hs, fun i hi => absurd hi (Nat.not_lt_zero _)⟩
  | succ n ih =>
    rw [List.range_succ, List.foldl_append]
    simp only [List.foldl_cons, List.foldl_nil]
    refine ⟨hI _ _ ih.1, fun i hi => ?_⟩
    by_cases hin : i = n
    · rw [hin]
      exact hR _ _ ih.1
    · exact hkeep _ _ _ hin (ih.2 i (by omega))

theorem for_cores_each (I : Sched_state → Prop) (R : Sched_state → Nat → Prop)
    (body : Sched_state → Nat → Option Sched_state)
    (hI : ∀ a k a1, I a → body a k = some a1 → I a1)
    (hR : ∀ a k a1, I a → body a k = some a1 → R a1 k)
    (hkeep : ∀ a k a1 j, j ≠ k → body a k = some a1 → R a j → R a1 j)
    (num_cores : Int) (s s1 : Sched_state) (hs : I s)
    (e : for_cores num_cores body s = some s1) :
    I s1 ∧ ∀ i : Nat, i < num_cores.toNat → R s1 i := by
  unfold for_cores at e
  generalize num_cores.toNat = n at e
  induction n generalizing s1 with
  | zero =>
    simp only [List.range_zero, List.foldl_nil, Option.some.injEq] at e
    rw [← e]
    exact ⟨hs, fun i hi => absurd hi (Nat.not_lt_zero _)⟩
  | succ n ih =>
    rw [List.range_succ, List.foldl_append] at e
    simp only [List.foldl_cons, List.foldl_nil] at e
    split at e
    · exact Option.noConfusion e
    · rename_i a ea
      obtain ⟨h1, h2⟩ := ih a ea
      refine ⟨hI _ _ _ h1 e, fun i hi => ?_⟩
      by_cases hin : i = n
      · rw [hin]
        exact hR _ _ _ h1 e
      · exact hkeep _ _ _ _ hin e (h2 i (by omega))

theorem level_change_job_fields (inp : Sched_input) (timecount : ℚ) (c : Core_run) :
    (level_change_job inp timecount c).alloc = c.alloc ∧
    (level_change_job inp timecount c).decision_point = c.decision_point := by
  unfold level_change_job
  dsimp only
  split_ifs <;> exact ⟨rfl, rfl⟩

/-- After the level change on the core `core_idx`, every job of its run queue is at or above
the acceptance level of the core at the new level, when tasks with the same number have the
same criticality. -/
theorem level_change_core_accepted (inp : Sched_input)
    (hsame : ∀ i k : Nat, i < inp.num_tasks.toNat → k < inp.num_tasks.toNat →
      (task_at inp.task_arr i).task_no = (task_at inp.task_arr k).task_no →
      (task_at inp.task_arr i).criticality = (task_at inp.task_arr k).criticality)
    (s s1 : Sched_state) (i : Nat) (h : Sched_ok (Task_criticality inp) s)
    (e : level_change_core inp s i = some s1) :
    Queue_accepted s.current_level (run_core_at s1.core i) ∧
    (∀ j : Nat, j ≠ i → run_core_at s1.core j = run_core_at s.core j) ∧
    ∀ j : Nat, (run_core_at s1.core j).decision_point
      = (run_core_at s.core j).decision_point := by
  have hempty : ¬ i < s.core.length →
      Queue_accepted s.current_level (run_core_at s.core i) := by
    intro hi
    rw [run_core_at_default _ _ hi]
    intro j hj
    exact absurd hj (List.not_mem_nil _)
  have hg : i < s.core.length → ∀ j ∈ (level_change_job inp s.timecount
      { run_core_at s.core i with
        core_criticality := (run_core_at s.core i).core_criticality + 1 }).qhead.head_node,
      Task_criticality inp j := by
    intro hi
    have hc : Core_ok (Task_criticality inp) (run_core_at s.core i) :=
      h.1 _ (run_core_at_mem _ _ hi)
    have hg2 : Core_ok (Task_criticality inp) (level_change_job inp s.timecount
        { run_core_at s.core i with
          core_criticality := (run_core_at s.core i).core_criticality + 1 }) :=
      level_change_job_ok inp _ (job_property_task_criticality inp) _ _ hc
    exact hg2.2.2.1
  have hf := level_change_job_fields inp s.timecount
    { run_core_at s.core i with
      core_criticality := (run_core_at s.core i).core_criticality + 1 }
  unfold level_change_core at e
  dsimp only at e
  split_ifs at e with h1
  · simp only [Option.some.injEq] at e
    rw [← e]
    dsimp only
    refine ⟨?_, fun j hj => ?_, decision_point_set s.core s.core i _ (fun _ => rfl) hf.2⟩
    · rw [run_core_at_set]
      split_ifs with hi
      · intro j hj
        dsimp only at hj ⊢
        unfold accept_above_criticality_level
        rw [if_pos h1]
        exact discard_below_criticality_level_level _ _ _
          (fun a ha b hb hab => task_criticality_unique inp hsame a b (hg hi.2 a ha)
            (hg hi.2 b hb) hab.1) j hj
      · exact hempty fun hh => hi ⟨rfl, hh⟩
    · rw [run_core_at_set, if_neg fun hh => hj hh.1]
  · obtain ⟨r, er, pr, _⟩ := merge_sort_spec
      (update_sched_deadlines (discard_below_criticality_level
        (level_change_job inp s.timecount
          { run_core_at s.core i with
            core_criticality := (run_core_at s.core i).core_criticality + 1 }).qhead
        s.dhead
        ((level_change_job inp s.timecount
          { run_core_at s.core i with
            core_criticality := (run_core_at s.core i).core_criticality + 1 }).alloc.threshold_criticality
          + 1)).1 inp.task_arr inp.num_tasks).head_node
    rw [er] at e
    simp only [Option.some.injEq] at e
    rw [← e]
    dsimp only
    refine ⟨?_, fun j hj => ?_, decision_point_set s.core s.core i _ (fun _ => rfl) hf.2⟩
    · rw [run_core_at_set]
      split_ifs with hi
      · intro j hj
        dsimp only at hj ⊢
        unfold accept_above_criticality_level
        rw [if_neg h1]
        have hj2 := pr.subset hj
        unfold update_sched_deadlines at hj2
        obtain ⟨y, hy, ey⟩ := List.mem_map.mp hj2
        rw [← ey]
        exact discard_below_criticality_level_level _ _ _
          (fun a ha b hb hab => task_criticality_unique inp hsame a b (hg hi.2 a ha)
            (hg hi.2 b hb) hab.1) y hy
      · exact hempty fun hh => hi ⟨rfl, hh⟩
    · rw [run_core_at_set, if_neg fun hh => hj hh.1]

theorem overrun_only_core_accepted (level : Int) (n : Nat) (s : Sched_state) (i : Nat)
    (h : (∀ j : Nat, j < n → Queue_accepted level (run_core_at s.core j)) ∧
      ∀ j : Nat, j < n →
        has_event (run_core_at s.core j).decision_point.event WAKEUP_CORE = false) :
    (∀ j : Nat, j < n → Queue_accepted level (run_core_at (overrun_only_core s i).core j)) ∧
      ∀ j : Nat, j < n →
        has_event (run_core_at (overrun_only_core s i).core j).decision_point.event
          WAKEUP_CORE = false := by
  unfold overrun_only_core
  dsimp only
  split_ifs with h1
  · refine ⟨forall_idx_set h.1 fun _ hc => hc, fun j hj => ?_⟩
    rw [run_core_at_set]
    split_ifs with hji
    · exact h.2 i (hji.1 ▸ hj)
    · exact h.2 j hj
  · exact h

theorem level_change_core_others (inp : Sched_input) (s s1 : Sched_state) (i : Nat)
    (e : level_change_core inp s i = some s1) :
    ∀ j : Nat, j ≠ i → run_core_at s1.core j = run_core_at s.core j := by
  intro j hj
  unfold level_change_core at e
  dsimp only at e
  split_ifs at e with h1
  · simp only [Option.some.injEq] at e
    rw [← e]
    dsimp only
    rw [run_core_at_set, if_neg fun hh => hj hh.1]
  · split at e
    · exact Option.noConfusion e
    · simp only [Option.some.injEq] at e
      rw [← e]
      dsimp only
      rw [run_core_at_set, if_neg fun hh => hj hh.1]

/-- The criticality level change leaves in every run queue only jobs at or above the
acceptance level of the core at the level it sets, and changes no decision point. -/
theorem level_change_accepted (inp : Sched_input)
    (hsame : ∀ i k : Nat, i < inp.num_tasks.toNat → k < inp.num_tasks.toNat →
      (task_at inp.task_arr i).task_no = (task_at inp.task_arr k).task_no →
      (task_at inp.task_arr i).criticality = (task_at inp.task_arr k).criticality)
    (s s1 : Sched_state) (h : Sched_ok (Task_criticality inp) s)
    (hq : ∀ j : Nat, j < inp.num_cores.toNat →
      Queue_accepted s.current_level (run_core_at s.core j))
    (hw : ∀ j : Nat, j < inp.num_cores.toNat →
      has_event (run_core_at s.core j).decision_point.event WAKEUP_CORE = false)
    (e : level_change inp s = some s1) :
    (∀ j : Nat, j < inp.num_cores.toNat →
      Queue_accepted s1.current_level (run_core_at s1.core j)) ∧
    ∀ j : Nat, j < inp.num_cores.toNat →
      has_event (run_core_at s1.core j).decision_point.event WAKEUP_CORE = false := by
  unfold level_change at e
  split_ifs at e with h1
  · have key := for_cores_each
      (fun a : Sched_state => Sched_ok (Task_criticality inp) a
        ∧ a.current_level = s.current_level + 1
        ∧ ∀ j : Nat, j < inp.num_cores.toNat →
          has_event (run_core_at a.core j).decision_point.event WAKEUP_CORE = false)
      (fun a i => Queue_accepted (s.current_level + 1) (run_core_at a.core i))
      (level_change_core inp)
      (fun a k a1 ha he => by
        refine ⟨level_change_core_ok inp _ (job_property_task_criticality inp) a a1 k ha.1 he,
          (level_change_core_frame inp a a1 k he).1.trans ha.2.1, fun j hj => ?_⟩
        rw [(level_change_core_accepted inp hsame a a1 k ha.1 he).2.2 j]
        exact ha.2.2 j hj)
      (fun a k a1 ha he => by
        have := (level_change_core_accepted inp hsame a a1 k ha.1 he).1
        rw [ha.2.1] at this
        exact this)
      (fun a k a1 j hj he hr => by
        dsimp only at hr ⊢
        rw [level_change_core_others inp a a1 k he j hj]
        exact hr)
      inp.num_cores { s with current_level := s.current_level + 1 } s1 ⟨h, rfl, hw⟩ e
    obtain ⟨⟨_, k2, k3⟩, k4⟩ := key
    rw [k2]
    exact ⟨k4, k3⟩
  · simp only [Option.some.injEq] at e
    rw [← e]
    have hl := foldl_inv (fun a : Sched_state => a.current_level = s.current_level) _
      (fun a b ha => (overrun_only_core_frame a b).1.trans ha)
      (List.range inp.num_cores.toNat) s rfl
    rw [hl]
    exact foldl_inv
      (fun a : Sched_state =>
        (∀ j : Nat, j < inp.num_cores.toNat →
          Queue_accepted s.current_level (run_core_at a.core j)) ∧
        ∀ j : Nat, j < inp.num_cores.toNat →
          has_event (run_core_at a.core j).decision_point.event WAKEUP_CORE = false)
      _ (fun a b ha => overrun_only_core_accepted _ _ a b ha) _ _ ⟨hq, hw⟩

theorem wakeup_core_none (s : Sched_state) (i : Nat)
    (hw : has_event (run_core_at s.core i).decision_point.event WAKEUP_CORE = false) :
    wakeup_core s i = s := by
  unfold wakeup_core
  dsimp only
  rw [if_neg]
  rintro ⟨_, _, h⟩
  rw [hw] at h
  exact Bool.noConfusion h

theorem wakeup_fold_none (n : Nat) (s : Sched_state)
    (hw : ∀ j : Nat, j < n →
      has_event (run_core_at s.core j).decision_point.event WAKEUP_CORE = false) :
    (List.range n).foldl wakeup_core s = s :=
  foldl_inv_mem (fun a : Sched_state => a = s) wakeup_core (List.range n)
    (fun a b hb ha => by
      rw [ha]
      exact wakeup_core_none s b (hw b (List.mem_range.mp hb)))
    s rfl

theorem accepted_default (level : Int) : Accepted level default :=
  ⟨fun _ hj => absurd hj (List.not_mem_nil _), fun hne => absurd rfl hne⟩

theorem dispatch_core_accepted (inp : Sched_input) (level : Int) (s : Sched_state) (i : Nat)
    (h : Queue_accepted level (run_core_at s.core i)) :
    Accepted level (run_core_at (dispatch_core inp s i).core i) := by
  unfold dispatch_core
  dsimp only
  rw [run_core_at_set]
  split_ifs with hi
  · unfold Accepted Queue_accepted schedule_next_job
    unfold Queue_accepted at h
    cases hq : (run_core_at s.core i).qhead.head_node with
    | nil =>
      dsimp only
      rw [hq]
      exact ⟨fun j hj => absurd hj (List.not_mem_nil _), fun hne => absurd rfl hne⟩
    | cons temp rest =>
      dsimp only
      rw [hq] at h
      exact ⟨fun j hj => h j (List.mem_cons_of_mem _ hj), fun _ => h temp (List.mem_cons_self _ _)⟩
  · rw [run_core_at_default _ _ fun hh => hi ⟨rfl, hh⟩]
    exact accepted_default level

theorem dispatch_fold_accepted (inp : Sched_input) (level : Int) (s : Sched_state)
    (h : ∀ j : Nat, j < inp.num_cores.toNat → Queue_accepted level (run_core_at s.core j)) :
    ∀ j : Nat, j < inp.num_cores.toNat →
      Accepted level
        (run_core_at ((List.range inp.num_cores.toNat).foldl (dispatch_core inp) s).core j) := by
  have key := foldl_each
    (fun a : Sched_state => ∀ j : Nat, j < inp.num_cores.toNat →
      Queue_accepted level (run_core_at a.core j))
    (fun a i => i < inp.num_cores.toNat → Accepted level (run_core_at a.core i))
    (dispatch_core inp)
    (fun a k ha => by
      unfold dispatch_core
      dsimp only
      refine forall_idx_set ha fun hk hc => ?_
      have := (dispatch_core_accepted inp level a k hc).1
      unfold dispatch_core at this
      dsimp only at this
      rw [run_core_at_set] at this
      split_ifs at this with hi
      · exact this
      · intro j hj
        unfold schedule_next_job at hj
        rw [run_core_at_default _ _ fun hh => hi ⟨rfl, hh⟩] at hj
        exact absurd hj (List.not_mem_nil _))
    (fun a k ha hk => dispatch_core_accepted inp level a k (ha k hk))
    (fun a k j hj hr hlt => by
      have e : run_core_at (dispatch_core inp a k).core j = run_core_at a.core j := by
        unfold dispatch_core
        dsimp only
        rw [run_core_at_set, if_neg fun hh => hj hh.1]
      rw [e]
      exact hr hlt)
    s h inp.num_cores.toNat
  exact fun j hj => key.2 j hj hj

theorem account_core_accepted (level : Int) (n : Nat) (next_decision_point : ℚ)
    (s : Sched_state) (i : Nat)
    (h : ∀ j : Nat, j < n → Accepted level (run_core_at s.core j)) :
    ∀ j : Nat, j < n →
      Accepted level (run_core_at (account_core next_decision_point s i).core j) := by
  unfold account_core
  dsimp only
  split_ifs with h1 h2
  · exact forall_idx_set h fun _ hc => ⟨hc.1, fun _ => hc.2 h2⟩
  · exact forall_idx_set h fun _ hc => hc
  · exact h

theorem advance_time_accepted (inp : Sched_input) (level : Int) (s : Sched_state)
    (h : ∀ j : Nat, j < inp.num_cores.toNat → Accepted level (run_core_at s.core j)) :
    ∀ j : Nat, j < inp.num_cores.toNat →
      Accepted level (run_core_at (advance_time inp s).core j) := by
  unfold advance_time
  dsimp only
  have h1 : ∀ j : Nat, j < inp.num_cores.toNat → Accepted level
      (run_core_at (get_next_decision_point s.core inp.num_cores inp.task_arr inp.num_tasks
        s.timecount inp.hyperperiod s.current_level).1 j) := by
    unfold get_next_decision_point
    exact foldl_inv
      (fun r : List Core_run × ℚ => ∀ j : Nat, j < inp.num_cores.toNat →
        Accepted level (run_core_at r.1 j))
      _ (fun r k hr => by
        dsimp only
        refine forall_idx_set hr fun _ hc => ?_
        exact hc) _ _ h
  exact foldl_inv
    (fun a : Sched_state => ∀ j : Nat, j < inp.num_cores.toNat →
      Accepted level (run_core_at a.core j))
    _ (fun a b ha => account_core_accepted level _ _ a b ha) _
    { s with core := (get_next_decision_point s.core inp.num_cores inp.task_arr inp.num_tasks
        s.timecount inp.hyperperiod s.current_level).1 } h1

theorem discarded_core_fields (inp : Sched_input) (s s1 : Sched_state) (i : Nat)
    (e : discarded_core inp s i = some s1) :
    ∀ j : Nat, (run_core_at s1.core j).alloc = (run_core_at s.core j).alloc
      ∧ (run_core_at s1.core j).curr_exe_job = (run_core_at s.core j).curr_exe_job := by
  unfold discarded_core at e
  dsimp only at e
  split_ifs at e with h1
  · split at e
    · exact Option.noConfusion e
    · simp only [Option.some.injEq] at e
      rw [← e]
      intro j
      dsimp only
      rw [run_core_at_set]
      split_ifs with hj
      · rw [hj.1]
        exact ⟨rfl, rfl⟩
      · exact ⟨rfl, rfl⟩
  · simp only [Option.some.injEq] at e
    rw [← e]
    exact fun _ => ⟨rfl, rfl⟩

/-- The discarded job scheduling is skipped while `current_level` is 1. -/
theorem discarded_stage_skipped (inp : Sched_input) (s : Sched_state)
    (h : s.current_level ≤ 1) :
    for_cores inp.num_cores (discarded_core inp) s = some s := by
  unfold for_cores
  refine foldl_inv (fun r : Option Sched_state => r = some s) _ (fun r k hr => ?_) _ _ rfl
  rw [hr]
  dsimp only
  unfold discarded_core
  dsimp only
  rw [if_neg]
  exact fun hh => absurd hh.1 (not_lt.mpr h)

/-! ## Criticality of the jobs in the run queues: the invariant -/

/-- C24 fails on the code in two ways.  On `admission_input` the iteration at time 2 starts
at level 2 with every run queue and running job at or above the acceptance level and with no
core to wake up; `schedule_discarded_job` runs and admits the job of `T2`, of criticality 1,
which is in the run queue at the end of the iteration, below the acceptance level 2.  On
`wakeup_transfer_input` the iteration at time 15 starts at level 1, so that
`schedule_discarded_job` does not run; the level goes to 2 and the core wake-up then moves
the two jobs of criticality 1 from the pending-request queue into the run queue of core 1,
where one of them is at the end of the iteration. -/
theorem run_queue_below_acceptance :
    (∃ s s1 : Sched_state,
      run_scheduler_loop admission_input 2
        (scheduler_init admission_input admission_cores) = some s ∧
      scheduler_iteration admission_input s = some s1 ∧
      s.current_level = 2 ∧
      (∀ i : Nat, i < admission_input.num_cores.toNat →
        Accepted s.current_level (run_core_at s.core i)) ∧
      (∀ i : Nat, i < admission_input.num_cores.toNat →
        has_event (run_core_at s.core i).decision_point.event WAKEUP_CORE = false) ∧
      ∃ job ∈ (run_core_at s1.core 0).qhead.head_node,
        job.job_criticality < accept_above_criticality_level s1.current_level
          (run_core_at s1.core 0).alloc.threshold_criticality) ∧
    (∃ s s1 : Sched_state,
      run_scheduler_loop wakeup_transfer_input 1
        (scheduler_init wakeup_transfer_input wakeup_transfer_cores) = some s ∧
      scheduler_iteration wakeup_transfer_input s = some s1 ∧
      s.current_level = 1 ∧
      (∀ i : Nat, i < wakeup_transfer_input.num_cores.toNat →
        Accepted s.current_level (run_core_at s.core i)) ∧
      has_event (run_core_at s.core 0).decision_point.event WAKEUP_CORE = true ∧
      ∃ job ∈ (run_core_at s1.core 0).qhead.head_node,
        job.job_criticality < accept_above_criticality_level s1.current_level
          (run_core_at s1.core 0).alloc.threshold_criticality) := by
  have key1 : loop_returns_with
      (run_scheduler_loop admission_input 2
        (scheduler_init admission_input admission_cores))
      (fun s => loop_returns_with (scheduler_iteration admission_input s)
        (fun s1 => decide (s.current_level = 2 ∧
          (∀ i : Nat, i < admission_input.num_cores.toNat →
            Accepted s.current_level (run_core_at s.core i)) ∧
          (∀ i : Nat, i < admission_input.num_cores.toNat →
            has_event (run_core_at s.core i).decision_point.event WAKEUP_CORE = false) ∧
          ∃ job ∈ (run_core_at s1.core 0).qhead.head_node,
            job.job_criticality < accept_above_criticality_level s1.current_level
              (run_core_at s1.core 0).alloc.threshold_criticality))) = true := by
    decide!
  have key2 : loop_returns_with
      (run_scheduler_loop wakeup_transfer_input 1
        (scheduler_init wakeup_transfer_input wakeup_transfer_cores))
      (fun s => loop_returns_with (scheduler_iteration wakeup_transfer_input s)
        (fun s1 => decide (s.current_level = 1 ∧
          (∀ i : Nat, i < wakeup_transfer_input.num_cores.toNat →
            Accepted s.current_level (run_core_at s.core i)) ∧
          has_event (run_core_at s.core 0).decision_point.event WAKEUP_CORE = true ∧
          ∃ job ∈ (run_core_at s1.core 0).qhead.head_node,
            job.job_criticality < accept_above_criticality_level s1.current_level
              (run_core_at s1.core 0).alloc.threshold_criticality))) = true := by
    decide!
  refine ⟨?_, ?_⟩
  · obtain ⟨s, hs, hp⟩ := loop_returns_with_spec key1
    obtain ⟨s1, hs1, hp1⟩ := loop_returns_with_spec hp
    exact ⟨s, s1, hs, hs1, of_decide_eq_true hp1⟩
  · obtain ⟨s, hs, hp⟩ := loop_returns_with_spec key2
    obtain ⟨s1, hs1, hp1⟩ := loop_returns_with_spec hp
    exact ⟨s, s1, hs, hs1, of_decide_eq_true hp1⟩

/-- C24 (amended): take an iteration of the scheduler loop that starts in a state `s` in which
every job of the run queue and the running job of every core are at or above the acceptance
level of the core, and in which no core has the event `WAKEUP_CORE`.  When
`schedule_discarded_job` admits no job in this iteration (the run queues are the same after
the discarded job scheduling, state `s3`, as after the shutdown evaluation, state `s2`) and
tasks with the same task number have the same criticality, then at the end of the iteration
every job in the run queue of every core, and its running job, has
`job_criticality >= accept_above(current_level, core.threshold_criticality)` for the level at
the end of the iteration. -/
theorem run_queue_accepted_step (inp : Sched_input) (core : List Cores)
    (s s2 s3 s1 : Sched_state)
    (hsame : ∀ i k : Nat, i < inp.num_tasks.toNat → k < inp.num_tasks.toNat →
      (task_at inp.task_arr i).task_no = (task_at inp.task_arr k).task_no →
      (task_at inp.task_arr i).criticality = (task_at inp.task_arr k).criticality)
    (h : Reachable inp core s)
    (hQ : ∀ i : Nat, i < inp.num_cores.toNat →
      Accepted s.current_level (run_core_at s.core i))
    (hwake : ∀ i : Nat, i < inp.num_cores.toNat →
      has_event (run_core_at s.core i).decision_point.event WAKEUP_CORE = false)
    (e2 : after_shutdown inp s = some s2) (e3 : after_discarded inp s = some s3)
    (hadm : ∀ i : Nat, i < inp.num_cores.toNat →
      (run_core_at s3.core i).qhead.head_node = (run_core_at s2.core i).qhead.head_node)
    (e : scheduler_iteration inp s = some s1) :
    ∀ i : Nat, i < inp.num_cores.toNat →
      Accepted s1.current_level (run_core_at s1.core i) := by
  have hok := reachable_ok inp _ (job_property_task_criticality inp) core s h
  obtain ⟨_, A2⟩ := after_shutdown_accepted inp s s2 hQ e2
  have e23 : for_cores inp.num_cores (discarded_core inp) s2 = some s3 := by
    unfold after_discarded at e3
    rw [e2] at e3
    exact e3
  have F3 := for_cores_inv
    (fun a : Sched_state => ∀ j : Nat,
      (run_core_at a.core j).alloc = (run_core_at s2.core j).alloc
        ∧ (run_core_at a.core j).curr_exe_job = (run_core_at s2.core j).curr_exe_job)
    _ _
    (fun a i a1 ha he j =>
      ⟨((discarded_core_fields inp a a1 i he) j).1.trans (ha j).1,
        ((discarded_core_fields inp a a1 i he) j).2.trans (ha j).2⟩)
    s2 s3 (fun _ => ⟨rfl, rfl⟩) e23
  have A3 : ∀ i : Nat, i < inp.num_cores.toNat →
      Queue_accepted s.current_level (run_core_at s3.core i) := by
    intro i hi
    have := (A2 i hi).1
    unfold Queue_accepted at this ⊢
    rw [hadm i hi, (F3 i).1]
    exact this
  have ok3 := after_discarded_ok inp _ (job_property_task_criticality inp) s s3 hok e3
  have lv3 := (after_discarded_frame inp s s3 e3).1
  have dp3 := after_discarded_decision_point inp s s3 e3
  unfold scheduler_iteration after_dispatch after_wakeup after_level_change at e
  rw [e3] at e
  dsimp only at e
  cases e4 : level_change inp s3 with
  | none =>
    rw [e4] at e
    exact Option.noConfusion e
  | some s4 =>
    rw [e4] at e
    simp only [Option.some.injEq] at e
    obtain ⟨Q4, W4⟩ := level_change_accepted inp hsame s3 s4 ok3
      (fun j hj => by rw [lv3]; exact A3 j hj)
      (fun j hj => by rw [dp3 j]; exact hwake j hj) e4
    rw [wakeup_fold_none _ s4 W4] at e
    have D := dispatch_fold_accepted inp s4.current_level s4 Q4
    have lvD := foldl_inv (fun a : Sched_state => a.current_level = s4.current_level) _
      (fun a b ha => (dispatch_core_frame inp a b).1.trans ha)
      (List.range inp.num_cores.toNat) s4 rfl
    rw [← e, (advance_time_frame inp _).1, lvD]
    exact advance_time_accepted inp _ _ D

theorem admission_task_numbers :
    ∀ i k : Nat, i < admission_input.num_tasks.toNat → k < admission_input.num_tasks.toNat →
      (task_at admission_input.task_arr i).task_no = (task_at admission_input.task_arr k).task_no →
      (task_at admission_input.task_arr i).criticality
        = (task_at admission_input.task_arr k).criticality := by
  intro i k hi hk he
  have hi2 : i < 2 := hi
  have hk2 : k < 2 := hk
  interval_cases i <;> interval_cases k <;> first | rfl | exact absurd he (by decide)

/-- Witness for the amended C24: the iteration on `admission_input` at time 1, which starts
at level 1 and raises the level to 2; the job of `T1`, of criticality 2, is preempted and
dispatched again. -/
theorem run_queue_accepted_step_witness :
    ∃ s s2 s1 : Sched_state,
      run_scheduler_loop admission_input 1
        (scheduler_init admission_input admission_cores) = some s ∧
      after_shutdown admission_input s = some s2 ∧
      scheduler_iteration admission_input s = some s1 ∧
      s.current_level = 1 ∧ s1.current_level = 2 ∧
      (run_core_at s1.core 0).curr_exe_job.task_no = 1 ∧
      ∀ i : Nat, i < admission_input.num_cores.toNat →
        Accepted s1.current_level (run_core_at s1.core i) := by
  have key : loop_returns_with
      (run_scheduler_loop admission_input 1
        (scheduler_init admission_input admission_cores))
      (fun s => loop_returns_with (after_shutdown admission_input s)
        (fun s2 => loop_returns_with (scheduler_iteration admission_input s)
          (fun s1 => decide (s.current_level = 1 ∧ s2.current_level = 1 ∧
            s1.current_level = 2 ∧
            (run_core_at s1.core 0).curr_exe_job.task_no = 1 ∧
            (∀ i : Nat, i < admission_input.num_cores.toNat →
              Accepted s.current_level (run_core_at s.core i)) ∧
            (∀ i : Nat, i < admission_input.num_cores.toNat →
              has_event (run_core_at s.core i).decision_point.event WAKEUP_CORE
                = false))))) = true := by
    decide!
  obtain ⟨s, hs, hp⟩ := loop_returns_with_spec key
  obtain ⟨s2, hs2, hp2⟩ := loop_returns_with_spec hp
  obtain ⟨s1, hs1, hp1⟩ := loop_returns_with_spec hp2
  obtain ⟨l0, l2, l1, hc, hQ, hw⟩ := of_decide_eq_true hp1
  have e3 : after_discarded admission_input s = some s2 := by
    unfold after_discarded
    rw [hs2]
    exact discarded_stage_skipped admission_input s2 (le_of_eq l2)
  exact ⟨s, s2, s1, hs, hs2, hs1, l0, l1, hc,
    run_queue_accepted_step admission_input admission_cores s s2 s2 s1
      admission_task_numbers
      (run_scheduler_loop_reachable admission_input admission_cores 1 _ s Reachable.init hs)
      hQ hw hs2 e3 (fun _ _ => rfl) hs1⟩

/-! ## Next decision point -/

theorem get_next_decision_point_fold (task_arr : List Tasks) (num_tasks : Int) (timecount : ℚ)
    (hyperperiod current_level : Int) (core : List Core_run) (n : Nat) :
    let r := (List.range n).foldl
      (fun (r : List Core_run × ℚ) (j : Nat) =>
        let dp := core_decision_point (run_core_at r.1 j) task_arr num_tasks timecount
          hyperperiod current_level
        (r.1.set j { run_core_at r.1 j with decision_point := dp },
          if r.2 > dp.decision_time then dp.decision_time else r.2))
      (core, (hyperperiod : ℚ))
    r.1.length = core.length ∧
    (∀ j : Nat, n ≤ j → run_core_at r.1 j = run_core_at core j) ∧
    (∀ j : Nat, j < n → j < core.length →
      run_core_at r.1 j = { run_core_at core j with
        decision_point := core_decision_point (run_core_at core j) task_arr num_tasks timecount
          hyperperiod current_level }) ∧
    r.2 ≤ (hyperperiod : ℚ) ∧
    (∀ j : Nat, j < n → r.2 ≤ (core_decision_point (run_core_at core j) task_arr num_tasks
      timecount hyperperiod current_level).decision_time) ∧
    (r.2 = (hyperperiod : ℚ) ∨ ∃ j : Nat, j < n ∧
      r.2 = (core_decision_point (run_core_at core j) task_arr num_tasks timecount hyperperiod
        current_level).decision_time) := by
  induction n with
  | zero =>
    exact ⟨rfl, fun _ _ => rfl, fun j hj => absurd hj (Nat.not_lt_zero _), le_refl _,
      fun j hj => absurd hj (Nat.not_lt_zero _), Or.inl rfl⟩
  | succ n ih =>
    rw [List.range_succ, List.foldl_append]
    simp only [List.foldl_cons, List.foldl_nil]
    obtain ⟨h1, h2, h3, h4, h5, h6⟩ := ih
    generalize (List.range n).foldl
      (fun (r : List Core_run × ℚ) (j : Nat) =>
        let dp := core_decision_point (run_core_at r.1 j) task_arr num_tasks timecount
          hyperperiod current_level
        (r.1.set j { run_core_at r.1 j with decision_point := dp },
          if r.2 > dp.decision_time then dp.decision_time else r.2))
      (core, (hyperperiod : ℚ)) = r at h1 h2 h3 h4 h5 h6
    have hn := h2 n (le_refl _)
    rw [hn]
    refine ⟨by rw [List.length_set]; exact h1, fun j hj => ?_, fun j hj hlen => ?_, ?_,
      fun j hj => ?_, ?_⟩
    · rw [run_core_at_set, if_neg fun hh => by omega]
      exact h2 j (by omega)
    · rw [run_core_at_set]
      by_cases hjn : j = n
      · rw [if_pos ⟨hjn, by rw [h1, ← hjn]; exact hlen⟩, hjn]
      · rw [if_neg fun hh => hjn hh.1]
        exact h3 j (by omega) hlen
    · split_ifs with hlt
      · exact le_trans (le_of_lt hlt) h4
      · exact h4
    · by_cases hjn : j = n
      · rw [hjn]
        split_ifs with hlt
        · exact le_refl _
        · exact not_lt.mp hlt
      · have := h5 j (by omega)
        split_ifs with hlt
        · exact le_trans (le_of_lt hlt) this
        · exact this
    · split_ifs with hlt
      · exact Or.inr ⟨n, Nat.lt_succ_self _, rfl⟩
      · rcases h6 with h6 | ⟨j, hj, h6⟩
        · exact Or.inl h6
        · exact Or.inr ⟨j, by omega, h6⟩

/-- C34: decision point that `get_next_decision_point` stores for the core `j` when it is
`ACTIVE` and runs a job other than the idle task, with `a` the earliest arrival on the core:
the candidate is `timecount + execution_time` with the event `JOB_TERMINATION` when
`execution_time <= wcet_budget[current_level - 1]`, and `timecount + wcet_budget[current_level
- 1]` otherwise, with `JOB_WCET_EXCEEDED` when `job_criticality > current_level` and
`JOB_OVERRUN` when not.  A candidate before `a` gives the decision point (candidate, event), a
candidate equal to `a` gives `a` with the event added to `JOB_ARRIVAL`, a later one leaves
`(a, JOB_ARRIVAL)`.  The value returned is at most `hyperperiod`, at most the decision time
of every core below `num_cores`, and it is `hyperperiod` or one of these decision times. -/
theorem get_next_decision_point_spec (core : List Core_run) (num_cores : Int)
    (task_arr : List Tasks) (num_tasks : Int) (timecount : ℚ) (hyperperiod current_level : Int)
    (j : Nat) (hj : j < num_cores.toNat) (hlen : j < core.length)
    (hact : (run_core_at core j).status = ACTIVE)
    (hjob : (run_core_at core j).curr_exe_job.task_no ≠ IDLE_TASK_NO) :
    let c := run_core_at core j
    let r := get_next_decision_point core num_cores task_arr num_tasks timecount hyperperiod
      current_level
    let a := earliest_arrival task_arr num_tasks c.alloc.core_no timecount hyperperiod
    let budget : ℚ := ((c.curr_exe_job.budget (current_level - 1) : Int) : ℚ)
    let candidate := if c.curr_exe_job.execution_time ≤ budget
      then timecount + c.curr_exe_job.execution_time else timecount + budget
    let event := if c.curr_exe_job.execution_time ≤ budget then JOB_TERMINATION
      else if c.curr_exe_job.job_criticality > current_level then JOB_WCET_EXCEEDED
      else JOB_OVERRUN
    (candidate < a → (run_core_at r.1 j).decision_point
      = { decision_time := candidate, event := event }) ∧
    (candidate = a → (run_core_at r.1 j).decision_point
      = { decision_time := a, event := JOB_ARRIVAL ||| event }) ∧
    (a < candidate → (run_core_at r.1 j).decision_point
      = { decision_time := a, event := JOB_ARRIVAL }) ∧
    r.2 ≤ (hyperperiod : ℚ) ∧
    (∀ k : Nat, k < num_cores.toNat → k < core.length →
      r.2 ≤ (run_core_at r.1 k).decision_point.decision_time) ∧
    (r.2 = (hyperperiod : ℚ) ∨ ∃ k : Nat, k < num_cores.toNat ∧
      r.2 = (core_decision_point (run_core_at core k) task_arr num_tasks timecount hyperperiod
        current_level).decision_time) := by
  intro c r a budget candidate event
  obtain ⟨_, _, h3, h4, h5, h6⟩ := get_next_decision_point_fold task_arr num_tasks timecount
    hyperperiod current_level core num_cores.toNat
  have hdp : (run_core_at r.1 j).decision_point = core_decision_point c task_arr num_tasks
      timecount hyperperiod current_level := by
    have := h3 j hj hlen
    exact congrArg Core_run.decision_point this
  have hadd : add_event JOB_ARRIVAL event = JOB_ARRIVAL ||| event := by
    show add_event JOB_ARRIVAL (if c.curr_exe_job.execution_time ≤ budget then JOB_TERMINATION
      else if c.curr_exe_job.job_criticality > current_level then JOB_WCET_EXCEEDED
      else JOB_OVERRUN) = JOB_ARRIVAL ||| (if c.curr_exe_job.execution_time ≤ budget
      then JOB_TERMINATION
      else if c.curr_exe_job.job_criticality > current_level then JOB_WCET_EXCEEDED
      else JOB_OVERRUN)
    split_ifs <;> decide
  have hcore : core_decision_point c task_arr num_tasks timecount hyperperiod current_level
      = update_decision_point { decision_time := a, event := JOB_ARRIVAL } candidate event := by
    unfold core_decision_point
    dsimp only
    rw [if_pos hact, if_pos hjob]
    show (if c.curr_exe_job.execution_time ≤ budget then _ else _) = _
    show _ = update_decision_point { decision_time := a, event := JOB_ARRIVAL }
      (if c.curr_exe_job.execution_time ≤ budget
        then timecount + c.curr_exe_job.execution_time else timecount + budget)
      (if c.curr_exe_job.execution_time ≤ budget then JOB_TERMINATION
        else if c.curr_exe_job.job_criticality > current_level then JOB_WCET_EXCEEDED
        else JOB_OVERRUN)
    split_ifs <;> rfl
  rw [hdp, hcore]
  refine ⟨fun h => ?_, fun h => ?_, fun h => ?_, h4, fun k hk hkl => ?_, h6⟩
  · unfold update_decision_point
    rw [if_pos h]
  · unfold update_decision_point
    rw [if_neg (by rw [h]; exact lt_irrefl _), if_pos h.symm, hadd]
  · unfold update_decision_point
    rw [if_neg (not_lt.mpr (le_of_lt h)), if_neg (ne_of_lt h)]
  · have := h3 k hk hkl
    have e : (run_core_at r.1 k).decision_point = core_decision_point (run_core_at core k)
        task_arr num_tasks timecount hyperperiod current_level :=
      congrArg Core_run.decision_point this
    rw [e]
    exact h5 k hk

/-- Witness for C34: the core of `admission_input` after the dispatch at time 0 runs the job
of `T1` with 3 units of execution time and a budget of 1 at level 1; the next arrival is at
time 2, so the decision point is time 1 with `JOB_WCET_EXCEEDED`, which is also the value
returned. -/
theorem get_next_decision_point_spec_witness :
    ∃ s7 : Sched_state,
      after_dispatch admission_input (scheduler_init admission_input admission_cores)
        = some s7 ∧
      (run_core_at s7.core 0).status = ACTIVE ∧
      (run_core_at s7.core 0).curr_exe_job.task_no ≠ IDLE_TASK_NO ∧
      (run_core_at (get_next_decision_point s7.core 1 admission_input.task_arr 2 s7.timecount
        20 1).1 0).decision_point = { decision_time := 1, event := JOB_WCET_EXCEEDED } ∧
      (get_next_decision_point s7.core 1 admission_input.task_arr 2 s7.timecount 20 1).2
        ≤ ((20 : Int) : ℚ) := by
  have key : loop_returns_with
      (after_dispatch admission_input (scheduler_init admission_input admission_cores))
      (fun s7 => decide (
        0 < s7.core.length ∧
        (run_core_at s7.core 0).status = ACTIVE ∧
        (run_core_at s7.core 0).curr_exe_job.task_no ≠ IDLE_TASK_NO ∧
        ¬ ((run_core_at s7.core 0).curr_exe_job.execution_time
          ≤ (((run_core_at s7.core 0).curr_exe_job.budget (1 - 1) : Int) : ℚ)) ∧
        (run_core_at s7.core 0).curr_exe_job.job_criticality > 1 ∧
        s7.timecount + (((run_core_at s7.core 0).curr_exe_job.budget (1 - 1) : Int) : ℚ) = 1 ∧
        (1 : ℚ) < earliest_arrival admission_input.task_arr 2
          (run_core_at s7.core 0).alloc.core_no s7.timecount 20)) = true := by
    decide!
  obtain ⟨s7, hs, hp⟩ := loop_returns_with_spec key
  obtain ⟨hlen, hact, hjob, hex, hcrit, hcand, hlt⟩ := of_decide_eq_true hp
  have h := get_next_decision_point_spec s7.core 1 admission_input.task_arr 2 s7.timecount 20 1
    0 (by decide) hlen hact hjob
  simp only [Nat.cast_zero] at h
  rw [if_neg hex, if_neg hex, if_pos hcrit, hcand] at h
  exact ⟨s7, hs, hact, hjob, h.1 hlt, h.2.2.2.1⟩

/-! ## Bounds of the criticality level -/

/-- The flag `JOB_WCET_EXCEEDED` is set only for an `ACTIVE` core whose running job has a
criticality above `current_level`. -/
theorem core_decision_point_wcet (c : Core_run) (task_arr : List Tasks) (num_tasks : Int)
    (timecount : ℚ) (hyperperiod current_level : Int)
    (h : has_event (core_decision_point c task_arr num_tasks timecount hyperperiod
      current_level).event JOB_WCET_EXCEEDED = true) :
    c.status = ACTIVE ∧ c.curr_exe_job.task_no ≠ IDLE_TASK_NO
      ∧ c.curr_exe_job.job_criticality > current_level := by
  have key : ∀ (a candidate : ℚ) (flag : Nat),
      flag = JOB_TERMINATION ∨ flag = JOB_OVERRUN ∨ flag = WAKEUP_CORE →
      has_event (update_decision_point { decision_time := a, event := JOB_ARRIVAL } candidate
        flag).event JOB_WCET_EXCEEDED = false := by
    intro a candidate flag hf
    unfold update_decision_point
    dsimp only
    rcases hf with hf | hf | hf <;> subst hf <;> split_ifs <;> dsimp only <;> decide
  unfold core_decision_point at h
  dsimp only at h
  split_ifs at h with h1 h2 h3 h4
  · rw [key _ _ _ (Or.inl rfl)] at h
    exact Bool.noConfusion h
  · exact ⟨h1, h2, h4⟩
  · rw [key _ _ _ (Or.inr (Or.inl rfl))] at h
    exact Bool.noConfusion h
  · dsimp only at h
    exact absurd h (by decide)
  · rw [key _ _ _ (Or.inr (Or.inr rfl))] at h
    exact Bool.noConfusion h

theorem account_core_decision_point (next_decision_point : ℚ) (s : Sched_state) (i : Nat) :
    ∀ j : Nat, (run_core_at (account_core next_decision_point s i).core j).decision_point
      = (run_core_at s.core j).decision_point := by
  unfold account_core
  dsimp only
  split_ifs
  · exact decision_point_set s.core s.core i _ (fun _ => rfl) rfl
  · exact decision_point_set s.core s.core i _ (fun _ => rfl) rfl
  · exact fun _ => rfl

/-- After `advance_time` the decision point of a core of the array below `num_cores` is the
one that `core_decision_point` computes from the core before. -/
theorem advance_time_decision_point (inp : Sched_input) (s : Sched_state) (i : Nat)
    (hi : i < inp.num_cores.toNat) (hlen : i < s.core.length) :
    (run_core_at (advance_time inp s).core i).decision_point
      = core_decision_point (run_core_at s.core i) inp.task_arr inp.num_tasks s.timecount
          inp.hyperperiod s.current_level := by
  obtain ⟨_, _, h3, _⟩ := get_next_decision_point_fold inp.task_arr inp.num_tasks s.timecount
    inp.hyperperiod s.current_level s.core inp.num_cores.toNat
  unfold advance_time
  dsimp only
  have h := foldl_inv
    (fun a : Sched_state => ∀ j : Nat, (run_core_at a.core j).decision_point
      = (run_core_at (get_next_decision_point s.core inp.num_cores inp.task_arr inp.num_tasks
          s.timecount inp.hyperperiod s.current_level).1 j).decision_point)
    (account_core (if (get_next_decision_point s.core inp.num_cores inp.task_arr inp.num_tasks
        s.timecount inp.hyperperiod s.current_level).2 > (inp.hyperperiod : ℚ)
      then (inp.hyperperiod : ℚ)
      else (get_next_decision_point s.core inp.num_cores inp.task_arr inp.num_tasks
        s.timecount inp.hyperperiod s.current_level).2))
    (fun a b ha j => (account_core_decision_point _ a b j).trans (ha j))
    (List.range inp.num_cores.toNat)
    { s with core := (get_next_decision_point s.core inp.num_cores inp.task_arr inp.num_tasks
        s.timecount inp.hyperperiod s.current_level).1 }
    (fun _ => rfl)
  rw [h i]
  exact congrArg Core_run.decision_point (h3 i hi hlen)

theorem advance_time_level_ok (inp : Sched_input) (s : Sched_state)
    (hok : Sched_ok (fun j => j.job_criticality ≤ inp.max_criticality) s)
    (h : 1 ≤ s.current_level ∧ s.current_level ≤ inp.max_criticality) :
    Level_ok inp (advance_time inp s) := by
  have hl := (advance_time_frame inp s).1
  refine ⟨by rw [hl]; exact h.1, by rw [hl]; exact h.2, fun i hi hf => ?_⟩
  rw [hl]
  by_cases hlen : i < s.core.length
  · rw [advance_time_decision_point inp s i hi hlen] at hf
    obtain ⟨_, h2, h3⟩ := core_decision_point_wcet _ _ _ _ _ _ hf
    have := (hok.1 _ (run_core_at_mem _ _ hlen)).2.2.2 h2
    omega
  · exfalso
    obtain ⟨h1, _⟩ := get_next_decision_point_fold inp.task_arr inp.num_tasks s.timecount
      inp.hyperperiod s.current_level s.core inp.num_cores.toNat
    have hdef : (run_core_at (advance_time inp s).core i).decision_point
        = (default : Core_run).decision_point := by
      unfold advance_time
      dsimp only
      have h := foldl_inv
        (fun a : Sched_state => ∀ j : Nat, (run_core_at a.core j).decision_point
          = (run_core_at (get_next_decision_point s.core inp.num_cores inp.task_arr
              inp.num_tasks s.timecount inp.hyperperiod s.current_level).1 j).decision_point)
        (account_core (if (get_next_decision_point s.core inp.num_cores inp.task_arr
            inp.num_tasks s.timecount inp.hyperperiod s.current_level).2
              > (inp.hyperperiod : ℚ)
          then (inp.hyperperiod : ℚ)
          else (get_next_decision_point s.core inp.num_cores inp.task_arr inp.num_tasks
            s.timecount inp.hyperperiod s.current_level).2))
        (fun a b ha j => (account_core_decision_point _ a b j).trans (ha j))
        (List.range inp.num_cores.toNat)
        { s with core := (get_next_decision_point s.core inp.num_cores inp.task_arr
            inp.num_tasks s.timecount inp.hyperperiod s.current_level).1 }
        (fun _ => rfl)
      rw [h i]
      have hlen2 : ¬ i < (get_next_decision_point s.core inp.num_cores inp.task_arr
          inp.num_tasks s.timecount inp.hyperperiod s.current_level).1.length := by
        unfold get_next_decision_point
        rw [h1]
        exact hlen
      rw [run_core_at_default _ _ hlen2]
    rw [hdef] at hf
    exact absurd hf (by decide)

theorem job_property_criticality_le (inp : Sched_input)
    (hcrit : ∀ i : Nat, i < inp.num_tasks.toNat →
      (task_at inp.task_arr i).criticality ≤ inp.max_criticality) :
    Job_property inp fun j => j.job_criticality ≤ inp.max_criticality :=
  ⟨fun i hi _ _ _ _ _ => hcrit i hi, fun _ _ h => h, fun _ _ h => h, fun _ _ h => h,
    fun _ _ _ h => h⟩

theorem scheduler_init_level_ok (inp : Sched_input) (core : List Cores)
    (hmax : 1 ≤ inp.max_criticality) : Level_ok inp (scheduler_init inp core) := by
  refine ⟨le_refl _, hmax, fun i hi hf => ?_⟩
  exfalso
  obtain ⟨h1, _, h3, _⟩ := get_next_decision_point_fold inp.task_arr inp.num_tasks
    (-1 * TIME_GRANULARITY) inp.hyperperiod 1
    ((List.range inp.num_cores.toNat).map fun (j : Nat) => init_core inp (core_at core j))
    inp.num_cores.toNat
  have hlen : i < ((List.range inp.num_cores.toNat).map
      fun (j : Nat) => init_core inp (core_at core j)).length := by
    rw [List.length_map, List.length_range]
    exact hi
  have e : (run_core_at (scheduler_init inp core).core i).decision_point
      = core_decision_point (run_core_at ((List.range inp.num_cores.toNat).map
          fun (j : Nat) => init_core inp (core_at core j)) i) inp.task_arr inp.num_tasks
          (-1 * TIME_GRANULARITY) inp.hyperperiod 1 :=
    congrArg Core_run.decision_point (h3 i hi hlen)
  have hc : run_core_at ((List.range inp.num_cores.toNat).map
      fun (j : Nat) => init_core inp (core_at core j)) i = init_core inp (core_at core i) := by
    unfold run_core_at
    simp only [Int.toNat_ofNat, List.getD_eq_getElem?_getD, List.getElem?_map,
      List.getElem?_range hi, Option.map_some', Option.getD_some]
  rw [e, hc] at hf
  obtain ⟨_, h2, _⟩ := core_decision_point_wcet _ _ _ _ _ _ hf
  exact h2 rfl

theorem scheduler_iteration_level_ok (inp : Sched_input) (s s1 : Sched_state)
    (hok : Sched_ok (fun j => j.job_criticality ≤ inp.max_criticality) s)
    (hP : Job_property inp fun j => j.job_criticality ≤ inp.max_criticality)
    (h : Level_ok inp s) (e : scheduler_iteration inp s = some s1) : Level_ok inp s1 := by
  obtain ⟨s3, s4, e3, e4⟩ := scheduler_iteration_stages inp s s1 e
  have hl4 := after_level_change_level inp s s3 s4 e3 e4
  have hdp := after_discarded_decision_point inp s s3 e3
  have hb : 1 ≤ s4.current_level ∧ s4.current_level ≤ inp.max_criticality := by
    rw [hl4]
    split_ifs with hx
    · obtain ⟨i, hi, _, _, h3⟩ := hx
      rw [hdp i] at h3
      have := h.2.2 i (List.mem_range.mp hi) h3
      exact ⟨by have := h.1; omega, by omega⟩
    · rw [add_zero]
      exact ⟨h.1, h.2.1⟩
  unfold scheduler_iteration after_dispatch at e
  split at e
  · exact Option.noConfusion e
  · rename_i s7 e7
    split at e7
    · exact Option.noConfusion e7
    · rename_i s6 e6
      have h6 := after_wakeup_ok inp _ hP s s6 hok e6
      simp only [Option.some.injEq] at e7 e
      have h7 : Sched_ok (fun j => j.job_criticality ≤ inp.max_criticality) s7 := by
        rw [← e7]
        exact foldl_inv (Sched_ok _) _ (fun a b ha => dispatch_core_ok inp _ a b ha) _ _ h6
      have hl7 : s7.current_level = s4.current_level := by
        rw [← e7]
        unfold after_wakeup at e6
        rw [e4] at e6
        simp only [Option.some.injEq] at e6
        rw [← e6]
        have h1 := foldl_inv (fun a : Sched_state => a.current_level = s4.current_level) _
          (fun a b ha => (wakeup_core_frame a b).1.trans ha)
          (List.range inp.num_cores.toNat) _ rfl
        exact foldl_inv (fun a : Sched_state => a.current_level = s4.current_level) _
          (fun a b ha => (dispatch_core_frame inp a b).1.trans ha) _ _ h1
      rw [← e]
      exact advance_time_level_ok inp s7 h7 (by rw [hl7]; exact hb)

/-- C37: when every task has a criticality in `1 .. max_criticality` (and `max_criticality`
is at least 1), `current_level` lies in `1 .. max_criticality` in every state of the
scheduler loop: the level is raised only for a job whose criticality is above it. -/
theorem current_level_bounds (inp : Sched_input) (core : List Cores) (s : Sched_state)
    (hmax : 1 ≤ inp.max_criticality)
    (hcrit : ∀ i : Nat, i < inp.num_tasks.toNat →
      1 ≤ (task_at inp.task_arr i).criticality
        ∧ (task_at inp.task_arr i).criticality ≤ inp.max_criticality)
    (h : Reachable inp core s) :
    1 ≤ s.current_level ∧ s.current_level ≤ inp.max_criticality := by
  have hP := job_property_criticality_le inp fun i hi => (hcrit i hi).2
  have key : Level_ok inp s := by
    induction h with
    | init => exact scheduler_init_level_ok inp core hmax
    | step hr _ e ih =>
      exact scheduler_iteration_level_ok inp _ _ (reachable_ok inp _ hP core _ hr) hP ih e
  exact ⟨key.1, key.2.1⟩

/-- Witness for C37: the state of `admission_input` after two iterations, at level 2 with
`max_criticality = 2`. -/
theorem current_level_bounds_witness :
    ∃ s : Sched_state,
      run_scheduler_loop admission_input 2
        (scheduler_init admission_input admission_cores) = some s ∧
      s.current_level = 2 ∧ admission_input.max_criticality = 2 ∧
      1 ≤ s.current_level ∧ s.current_level ≤ admission_input.max_criticality := by
  have key : loop_returns_with
      (run_scheduler_loop admission_input 2
        (scheduler_init admission_input admission_cores))
      (fun s => decide (s.current_level = 2)) = true := by
    decide!
  obtain ⟨s, hs, hp⟩ := loop_returns_with_spec key
  refine ⟨s, hs, of_decide_eq_true hp, rfl, ?_⟩
  refine current_level_bounds admission_input admission_cores s (by decide) ?_
    (run_scheduler_loop_reachable admission_input admission_cores 2 _ s Reachable.init hs)
  intro i hi
  have hi2 : i < 2 := hi
  interval_cases i <;> decide

/-! ## Slack calculation -/

theorem first_match_append_self (x : Jobs) (front : List Jobs)
    (h : ∀ y ∈ front, ¬ (y.task_no = x.task_no ∧ y.job_no = x.job_no)) :
    first_match x (front ++ [x]) = front.length := by
  unfold first_match
  induction front with
  | nil => simp [List.findIdx_cons]
  | cons y front ih =>
    have hy := h y (List.mem_cons_self _ _)
    rw [List.cons_append, List.findIdx_cons]
    simp only [hy, decide_False, cond_false, List.length_cons]
    rw [ih fun z hz => h z (List.mem_cons_of_mem _ hz)]

theorem slack_case_eq_reference (job : Jobs) (latest_arrival max_deadline : Dbl)
    (current_time level : Int) (latest_start_time : Dbl) (window_time_consumed : ℚ)
    (hd : job.sched_deadline ≠ Dbl.nan) (hla : latest_arrival ≠ Dbl.nan)
    (hmd : max_deadline ≠ Dbl.nan) :
    slack_case job latest_arrival max_deadline current_time level latest_start_time
        window_time_consumed
      = some (slack_reference_step latest_arrival max_deadline current_time level job
          (latest_start_time, window_time_consumed)) := by
  unfold slack_case slack_reference_step reserved_time Dbl.minimum
  dsimp only
  by_cases h1 : Dbl.lt max_deadline job.sched_deadline = true
  · rw [if_pos h1, if_pos h1]
  · rw [if_neg h1, if_neg h1]
    by_cases h2 : Dbl.lt latest_arrival job.sched_deadline = true
        ∧ Dbl.le job.sched_deadline max_deadline = true
    · rw [if_pos h2, if_pos h2]
    · rw [if_neg h2, if_neg h2]
      have h4 := Dbl.le_of_lt_false hmd hd (Bool.eq_false_iff.mpr h1)
      have h5 : ¬ Dbl.lt latest_arrival job.sched_deadline = true := fun hh => h2 ⟨hh, h4⟩
      have h3 := Dbl.le_of_lt_false hla hd (Bool.eq_false_iff.mpr h5)
      rw [if_pos h3, if_pos h3]

theorem slack_walk_eq_reference (latest_arrival max_deadline : Dbl) (current_time level : Int)
    (hla : latest_arrival ≠ Dbl.nan) (hmd : max_deadline ≠ Dbl.nan) :
    ∀ (k : Nat) (dummy_head : RQ_HEAD) (latest_start_time : Dbl) (window_time_consumed : ℚ),
      dummy_head.head_node.length = k →
      dummy_head.head_node.Pairwise
        (fun a b => ¬ (a.task_no = b.task_no ∧ a.job_no = b.job_no)) →
      (∀ j ∈ dummy_head.head_node, j.sched_deadline ≠ Dbl.nan) →
      slack_walk latest_arrival max_deadline current_time level k dummy_head
          latest_start_time window_time_consumed
        = some ((dummy_head.head_node.foldr
              (slack_reference_step latest_arrival max_deadline current_time level)
              (latest_start_time, window_time_consumed)).1,
            (dummy_head.head_node.foldr
              (slack_reference_step latest_arrival max_deadline current_time level)
              (latest_start_time, window_time_consumed)).2,
            { dummy_head with head_node := [], size := dummy_head.size - (k : Int) }) := by
  intro k
  induction k with
  | zero =>
    intro q ls w hlen _ _
    have hnil : q.head_node = [] := List.length_eq_zero.mp hlen
    unfold slack_walk
    rw [hnil]
    simp only [List.foldr_nil, Nat.cast_zero, sub_zero]
    cases q
    simp only at hnil
    rw [hnil]
  | succ k ih =>
    intro q ls w hlen hkeys hd
    have hne : q.head_node ≠ [] := by
      intro hh
      rw [hh] at hlen
      exact absurd hlen (by simp)
    obtain ⟨front, x, hq⟩ : ∃ front x, q.head_node = front ++ [x] :=
      ⟨q.head_node.dropLast, q.head_node.getLast hne, (List.dropLast_append_getLast hne).symm⟩
    have hfl : front.length = k := by
      rw [hq, List.length_append, List.length_singleton] at hlen
      omega
    have hget : q.head_node.getD k default = x := by
      rw [hq, ← hfl]
      simp
    have hxk : ∀ y ∈ front, ¬ (y.task_no = x.task_no ∧ y.job_no = x.job_no) := by
      rw [hq] at hkeys
      intro y hy
      exact (List.pairwise_append.mp hkeys).2.2 y hy x (List.mem_singleton_self _)
    have hfm : first_match x q.head_node = k := by
      rw [hq, first_match_append_self x front hxk, hfl]
    have hdel : delete_job_from_queue q x
        = { q with head_node := front, size := q.size - 1 } := by
      unfold delete_job_from_queue
      cases hh : q.head_node with
      | nil => exact absurd hh hne
      | cons t rest =>
        dsimp only
        rw [← hh, hq, delete_walk_append_self x front hxk]
    unfold slack_walk
    rw [hget, slack_case_eq_reference x latest_arrival max_deadline current_time level ls w
      (hd x (by rw [hq]; simp)) hla hmd]
    dsimp only
    rw [if_pos hfm, hdel]
    have hk2 : front.Pairwise (fun a b => ¬ (a.task_no = b.task_no ∧ a.job_no = b.job_no)) := by
      rw [hq] at hkeys
      exact (List.pairwise_append.mp hkeys).1
    have := ih { q with head_node := front, size := q.size - 1 }
      (slack_reference_step latest_arrival max_deadline current_time level x (ls, w)).1
      (slack_reference_step latest_arrival max_deadline current_time level x (ls, w)).2
      hfl hk2 (fun j hj => hd j (by rw [hq]; exact List.mem_append_left _ hj))
    rw [this, hq, List.foldr_append]
    simp only [List.foldr_cons, List.foldr_nil, Nat.cast_add, Nat.cast_one, Prod.mk.eta]
    have e : q.size - 1 - (k : Int) = q.size - ((k : Int) + 1) := by ring
    rw [e]

theorem Dbl.le_minimum (la ls : Dbl) :
    (if Dbl.le la ls = true then la else ls) = Dbl.minimum ls la := by
  unfold Dbl.minimum
  by_cases h1 : Dbl.lt la ls = true
  · rw [if_pos h1, if_pos (Dbl.le_of_lt h1)]
  · rw [if_neg h1]
    split_ifs with h2
    · exact Dbl.eq_of_le_of_le h2 (Dbl.le_of_not_lt h2 h1)
    · rfl

/-- C33: for a dummy queue whose jobs have pairwise different task and job numbers and
deadlines that are numbers, and for `latest_arrival` and `max_deadline` that are numbers,
`calculate_slack_available` returns the value of the reference fold `slack_reference` (from
`latest_start = max_deadline` and `window = 0`, the jobs from the tail to the head, then
`(min (latest_start, latest_arrival) - now) - window`), and every job is removed: the dummy
queue ends empty. -/
theorem calculate_slack_available_reference (dummy_head : RQ_HEAD)
    (latest_arrival max_deadline : Dbl) (current_time level : Int)
    (hkeys : dummy_head.head_node.Pairwise
      (fun a b => ¬ (a.task_no = b.task_no ∧ a.job_no = b.job_no)))
    (hd : ∀ j ∈ dummy_head.head_node, j.sched_deadline ≠ Dbl.nan)
    (hla : latest_arrival ≠ Dbl.nan) (hmd : max_deadline ≠ Dbl.nan) :
    calculate_slack_available dummy_head latest_arrival max_deadline current_time level
      = some (slack_reference dummy_head.head_node latest_arrival max_deadline current_time
          level,
        { dummy_head with
          head_node := [], size := dummy_head.size - (dummy_head.head_node.length : Int) }) := by
  unfold calculate_slack_available
  rw [slack_walk_eq_reference latest_arrival max_deadline current_time level hla hmd
    dummy_head.head_node.length dummy_head max_deadline 0 rfl hkeys hd]
  dsimp only
  unfold slack_reference
  dsimp only
  rw [← Dbl.le_minimum]
  split_ifs <;> rfl

/-- Witness for C33: on `slack_queue` with `latest_arrival = 10`, `max_deadline = 20` at time
0 and level 1, the job with deadline 30 takes `20 * 2 / 30` from the latest start 20, the job
with deadline 15 resets it to 15 and takes 1, the job with deadline 8 adds 1 to the window;
the slack is `(10 - 0) - 1 = 9` and the queue ends empty. -/
theorem calculate_slack_available_reference_witness :
    slack_reference slack_queue.head_node (Dbl.fin 10) (Dbl.fin 20) 0 1 = Dbl.fin 9 ∧
    calculate_slack_available slack_queue (Dbl.fin 10) (Dbl.fin 20) 0 1
      = some (slack_reference slack_queue.head_node (Dbl.fin 10) (Dbl.fin 20) 0 1,
        { slack_queue with
          head_node := [], size := slack_queue.size - (slack_queue.head_node.length : Int) }) :=
  ⟨by decide!,
    calculate_slack_available_reference slack_queue (Dbl.fin 10) (Dbl.fin 20) 0 1
      (by decide) (by decide) (fun h => Dbl.noConfusion h) (fun h => Dbl.noConfusion h)⟩

/-! ## Discarding the jobs below a level -/

theorem insert_walk_perm (j : Jobs) (q : List Jobs) : (insert_walk j q).Perm (j :: q) := by
  obtain ⟨l1, l2, h1, h2, _, _⟩ := insert_walk_split j q
  rw [h2, h1]
  exact List.perm_middle

theorem update_queue_at_length (dhead : List RQ_HEAD) (idx : Int) (j : Jobs) :
    (update_queue_at dhead idx j).length = dhead.length := by
  unfold update_queue_at
  rw [List.length_set]

theorem update_queue_at_perm (dhead : List RQ_HEAD) (idx : Int) (j : Jobs)
    (h0 : 0 ≤ idx) (hlen : idx < dhead.length) (k : Nat) :
    (queue_at (update_queue_at dhead idx j) k).head_node.Perm
      (if idx.toNat = k then j :: (queue_at dhead k).head_node
       else (queue_at dhead k).head_node) := by
  unfold update_queue_at
  rw [queue_at_set]
  have hl : idx.toNat < dhead.length := by omega
  by_cases hk : idx.toNat = k
  · rw [if_pos ⟨hk.symm, hl⟩, if_pos hk, update_run_queue_head_node]
    have e : queue_at dhead idx = queue_at dhead (k : Int) := by
      unfold queue_at
      rw [hk, Int.toNat_ofNat]
    rw [e]
    exact insert_walk_perm _ _
  · rw [if_neg fun hh => hk hh.1.symm, if_neg hk]

/-- The loop of `discard_below_criticality_level` keeps the jobs at or above `level` in their
order and inserts every other job into the discarded queue of index
`job_criticality - 1`. -/
theorem discard_walk_partition (level : Int) (suf : List Jobs) :
    ∀ (front : List Jobs) (size : Int) (dhead : List RQ_HEAD),
      (∀ x ∈ front, level ≤ x.job_criticality) →
      (∀ a ∈ front ++ suf, ∀ b ∈ front ++ suf,
        a.task_no = b.task_no ∧ a.job_no = b.job_no → a.job_criticality = b.job_criticality) →
      (∀ a ∈ suf, a.job_criticality < level →
        1 ≤ a.job_criticality ∧ a.job_criticality - 1 < dhead.length) →
      (discard_walk level front suf size dhead).1
        = front ++ suf.filter (fun j => decide (level ≤ j.job_criticality)) ∧
      (discard_walk level front suf size dhead).2.1
        = size - ((suf.filter fun j => decide (j.job_criticality < level)).length : Int) ∧
      (discard_walk level front suf size dhead).2.2.length = dhead.length ∧
      ∀ k : Nat, (queue_at (discard_walk level front suf size dhead).2.2 k).head_node.Perm
        ((queue_at dhead k).head_node ++ suf.filter fun j =>
          decide (j.job_criticality < level ∧ (j.job_criticality - 1).toNat = k)) := by
  induction suf with
  | nil =>
    intro front size dhead _ _ _
    simp [discard_walk]
  | cons temp rest ih =>
    intro front size dhead h1 h2 h3
    have hmem : temp ∈ front ++ temp :: rest := by simp
    have h2' : ∀ fr : List Jobs, (∀ x ∈ fr, x ∈ front ++ [temp]) →
        ∀ a ∈ fr ++ rest, ∀ b ∈ fr ++ rest,
          a.task_no = b.task_no ∧ a.job_no = b.job_no →
            a.job_criticality = b.job_criticality := by
      intro fr hfr a ha b hb
      refine h2 a ?_ b ?_
      · rcases List.mem_append.mp ha with ha | ha
        · rcases List.mem_append.mp (hfr a ha) with ha | ha
          · exact List.mem_append_left _ ha
          · rw [List.mem_singleton.mp ha]
            exact hmem
        · exact List.mem_append_right _ (List.mem_cons_of_mem _ ha)
      · rcases List.mem_append.mp hb with hb | hb
        · rcases List.mem_append.mp (hfr b hb) with hb | hb
          · exact List.mem_append_left _ hb
          · rw [List.mem_singleton.mp hb]
            exact hmem
        · exact List.mem_append_right _ (List.mem_cons_of_mem _ hb)
    unfold discard_walk
    split_ifs with h
    · have e : delete_walk temp (front ++ [temp]) = front := by
        refine delete_walk_append_self _ _ fun x hx hk => ?_
        have := h2 x (List.mem_append_left _ hx) temp hmem hk
        have := h1 x hx
        omega
      rw [e]
      obtain ⟨hi0, hi1⟩ := h3 temp (List.mem_cons_self _ _) h
      obtain ⟨r1, r2, r3, r4⟩ := ih front (size - 1)
        (update_queue_at dhead (temp.job_criticality - 1) temp) h1
        (h2' front fun x hx => List.mem_append_left _ hx)
        (fun a ha hlt => by
          rw [update_queue_at_length]
          exact h3 a (List.mem_cons_of_mem _ ha) hlt)
      have hn : ¬ level ≤ temp.job_criticality := not_le.mpr h
      refine ⟨?_, ?_, ?_, fun k => ?_⟩
      · rw [r1, List.filter_cons_of_neg (by simpa using hn)]
      · rw [r2, List.filter_cons_of_pos (by simpa using h), List.length_cons]
        push_cast
        ring
      · rw [r3, update_queue_at_length]
      · refine (r4 k).trans ?_
        have hp := update_queue_at_perm dhead (temp.job_criticality - 1) temp (by omega) hi1 k
        by_cases hk : (temp.job_criticality - 1).toNat = k
        · rw [if_pos hk] at hp
          rw [List.filter_cons, if_pos (decide_eq_true ⟨h, hk⟩)]
          exact (List.Perm.append_right _ hp).trans List.perm_middle.symm
        · rw [if_neg hk] at hp
          rw [List.filter_cons, if_neg fun hh => hk (of_decide_eq_true hh).2]
          exact List.Perm.append_right _ hp
    · have hge : level ≤ temp.job_criticality := not_lt.mp h
      obtain ⟨r1, r2, r3, r4⟩ := ih (front ++ [temp]) size dhead
        (fun x hx => by
          rcases List.mem_append.mp hx with hx | hx
          · exact h1 x hx
          · rw [List.mem_singleton.mp hx]
            exact hge)
        (h2' (front ++ [temp]) fun x hx => hx)
        (fun a ha hlt => h3 a (List.mem_cons_of_mem _ ha) hlt)
      refine ⟨?_, ?_, r3, fun k => ?_⟩
      · rw [r1, List.filter_cons_of_pos (by simpa using hge), List.append_assoc]
        rfl
      · rw [r2, List.filter_cons_of_neg (by simpa using hge)]
      · rw [List.filter_cons, if_neg fun hh => h (of_decide_eq_true hh).1]
        exact r4 k

/-- C36: `discard_below_criticality_level (head, dhead, level)` on a run queue in which jobs
with the same task and job number have the same criticality, and whose jobs below `level`
have a criticality `c >= 1` with `dhead[c - 1]` in the array: afterwards the run queue holds
exactly the jobs with `job_criticality >= level`, in their previous order, its size is
reduced by the number of the other jobs, and the discarded queue of every index `k` holds
its previous jobs and, exactly once each, the jobs below `level` of criticality `k + 1`; no
job is lost or duplicated. -/
theorem discard_below_criticality_level_partition (head : RQ_HEAD) (dhead : List RQ_HEAD)
    (level : Int)
    (hkey : ∀ a ∈ head.head_node, ∀ b ∈ head.head_node,
      a.task_no = b.task_no ∧ a.job_no = b.job_no → a.job_criticality = b.job_criticality)
    (hidx : ∀ a ∈ head.head_node, a.job_criticality < level →
      1 ≤ a.job_criticality ∧ a.job_criticality - 1 < dhead.length) :
    (discard_below_criticality_level head dhead level).1.head_node
      = head.head_node.filter (fun j => decide (level ≤ j.job_criticality)) ∧
    (discard_below_criticality_level head dhead level).1.size
      = head.size
        - ((head.head_node.filter fun j => decide (j.job_criticality < level)).length : Int) ∧
    (discard_below_criticality_level head dhead level).2.length = dhead.length ∧
    ∀ k : Nat, (queue_at (discard_below_criticality_level head dhead level).2 k).head_node.Perm
      ((queue_at dhead k).head_node ++ head.head_node.filter fun j =>
        decide (j.job_criticality < level ∧ (j.job_criticality - 1).toNat = k)) := by
  obtain ⟨r1, r2, r3, r4⟩ := discard_walk_partition level head.head_node [] head.size dhead
    (by simp) (by simpa using hkey) hidx
  unfold discard_below_criticality_level
  dsimp only
  rw [List.nil_append] at r1
  exact ⟨r1, r2, r3, r4⟩

/-- Witness for C36: on `mixed_queue` at level 2 the run queue keeps the jobs of the tasks 1
and 4, and the two consecutive jobs of the tasks 2 and 3 are in the discarded queue of
index 0. -/
theorem discard_below_criticality_level_partition_witness :
    (discard_below_criticality_level mixed_queue [create_run_queue] 2).1.head_node.map
        Jobs.task_no = [1, 4] ∧
    (queue_at (discard_below_criticality_level mixed_queue [create_run_queue] 2).2
        (0 : Nat)).head_node.map Jobs.task_no = [2, 3] ∧
    (discard_below_criticality_level mixed_queue [create_run_queue] 2).1.head_node
      = mixed_queue.head_node.filter (fun j => decide (2 ≤ j.job_criticality)) ∧
    (queue_at (discard_below_criticality_level mixed_queue [create_run_queue] 2).2
        (0 : Nat)).head_node.Perm
      ((queue_at [create_run_queue] (0 : Nat)).head_node ++ mixed_queue.head_node.filter fun j =>
        decide (j.job_criticality < 2 ∧ (j.job_criticality - 1).toNat = 0)) :=
  ⟨by decide!, by decide!,
    (discard_below_criticality_level_partition mixed_queue [create_run_queue] 2
      (by decide) (by decide)).1,
    (discard_below_criticality_level_partition mixed_queue [create_run_queue] 2
      (by decide) (by decide)).2.2.2 0⟩

/-! ## Merge sort and the `prev` links -/

theorem set_prev_map_job (p : Option Nat) (l : List RQ_NODE) :
    (set_prev p l).map RQ_NODE.job = l.map RQ_NODE.job := by
  cases l <;> rfl

theorem set_prev_chain (p : Option Nat) (l : List RQ_NODE)
    (h : l.Chain' fun a b => b.prev = some a.addr) :
    (set_prev p l).Chain' fun a b => b.prev = some a.addr := by
  cases l with
  | nil => exact h
  | cons n rest =>
    unfold set_prev
    rw [List.chain'_cons'] at h ⊢
    exact h

theorem set_prev_head (p : Option Nat) (l : List RQ_NODE) :
    ∀ h ∈ (set_prev p l).head?, h.prev = p := by
  cases l with
  | nil => simp [set_prev]
  | cons n rest => simp [set_prev]

theorem merge_nodes_map_job (l1 l2 : List RQ_NODE) :
    (merge_nodes l1 l2).map RQ_NODE.job = merge (l1.map RQ_NODE.job) (l2.map RQ_NODE.job) := by
  induction l1 generalizing l2 with
  | nil =>
    unfold merge_nodes merge
    rfl
  | cons f fs ih1 =>
    induction l2 with
    | nil =>
      unfold merge_nodes merge
      rfl
    | cons s ss ih2 =>
      unfold merge_nodes merge
      simp only [List.map_cons]
      split_ifs with h
      · rw [List.map_cons, set_prev_map_job, ih1]
        rfl
      · rw [List.map_cons, set_prev_map_job, ih2]
        rfl

theorem merge_nodes_linked (l1 l2 : List RQ_NODE)
    (h1 : l1.Chain' fun a b => b.prev = some a.addr)
    (h2 : l2.Chain' fun a b => b.prev = some a.addr) :
    (merge_nodes l1 l2).Chain' (fun a b => b.prev = some a.addr) ∧
    (l1 ≠ [] → l2 ≠ [] → ∀ h ∈ (merge_nodes l1 l2).head?, h.prev = none) := by
  induction l1 generalizing l2 with
  | nil =>
    unfold merge_nodes
    exact ⟨h2, fun hh => absurd rfl hh⟩
  | cons f fs ih1 =>
    induction l2 with
    | nil =>
      unfold merge_nodes
      exact ⟨h1, fun _ hh => absurd rfl hh⟩
    | cons s ss ih2 =>
      unfold merge_nodes
      split_ifs with h
      · have hfs := (List.chain'_cons'.mp h1).2
        have hr := (ih1 (s :: ss) hfs h2).1
        refine ⟨?_, fun _ _ x hx => ?_⟩
        · rw [List.chain'_cons']
          exact ⟨set_prev_head _ _, set_prev_chain _ _ hr⟩
        · simp only [List.head?_cons, Option.mem_def, Option.some.injEq] at hx
          rw [← hx]
      · have hss := (List.chain'_cons'.mp h2).2
        have hr := (ih2 hss).1
        refine ⟨?_, fun _ _ x hx => ?_⟩
        · rw [List.chain'_cons']
          exact ⟨set_prev_head _ _, set_prev_chain _ _ hr⟩
        · simp only [List.head?_cons, Option.mem_def, Option.some.injEq] at hx
          rw [← hx]

theorem partition_nodes_walk_append (f s : List RQ_NODE) :
    (partition_nodes_walk f s).1 ++ (partition_nodes_walk f s).2 = s := by
  induction s generalizing f with
  | nil =>
    match f with
    | [] => rfl
    | [_] => rfl
    | [_, _] => rfl
    | _ :: _ :: _ :: _ => rfl
  | cons x srest ih =>
    match f with
    | [] => rfl
    | [_] => rfl
    | [_, _] => rfl
    | a :: b :: c :: rest =>
      show x :: ((partition_nodes_walk (c :: rest) srest).1
        ++ (partition_nodes_walk (c :: rest) srest).2) = x :: srest
      rw [ih]

theorem partition_nodes_walk_map_job (f s : List RQ_NODE) :
    (partition_nodes_walk f s).1.map RQ_NODE.job
        = (partition_walk (f.map RQ_NODE.job) (s.map RQ_NODE.job)).1 ∧
    (partition_nodes_walk f s).2.map RQ_NODE.job
        = (partition_walk (f.map RQ_NODE.job) (s.map RQ_NODE.job)).2 := by
  induction s generalizing f with
  | nil =>
    match f with
    | [] => exact ⟨rfl, rfl⟩
    | [_] => exact ⟨rfl, rfl⟩
    | [_, _] => exact ⟨rfl, rfl⟩
    | _ :: _ :: _ :: _ => exact ⟨rfl, rfl⟩
  | cons x srest ih =>
    match f with
    | [] => exact ⟨rfl, rfl⟩
    | [_] => exact ⟨rfl, rfl⟩
    | [_, _] => exact ⟨rfl, rfl⟩
    | a :: b :: c :: rest =>
      obtain ⟨i1, i2⟩ := ih (c :: rest)
      constructor
      · show x.job :: (partition_nodes_walk (c :: rest) srest).1.map RQ_NODE.job
          = x.job :: (partition_walk ((c :: rest).map RQ_NODE.job) (srest.map RQ_NODE.job)).1
        rw [i1]
      · exact i2

/-- The merge sort on the nodes sorts the jobs as the merge sort on the jobs does, and leaves
the `prev` links behind the first node consistent; the `prev` of the first node is `NULL`
when the chain has at least two nodes, and a shorter chain is returned as it is. -/
theorem merge_sort_nodes_fuel_spec :
    ∀ (n : Nat) (q : List RQ_NODE), q.length < n →
      (q.Chain' fun a b => b.prev = some a.addr) →
      ∃ r : List RQ_NODE, merge_sort_nodes_fuel n q = some r ∧
        merge_sort_fuel n (q.map RQ_NODE.job) = some (r.map RQ_NODE.job) ∧
        (r.Chain' fun a b => b.prev = some a.addr) ∧
        (2 ≤ q.length → ∀ h ∈ r.head?, h.prev = none) ∧
        (q.length ≤ 1 → r = q) ∧ (q ≠ [] → r ≠ []) := by
  intro n
  induction n with
  | zero => intro q h; omega
  | succ n ih =>
    intro q hlen hc
    match q, hlen, hc with
    | [], _, _ =>
      exact ⟨[], rfl, rfl, List.chain'_nil, fun h => absurd h (by simp), fun _ => rfl,
        fun h => absurd rfl h⟩
    | [x], _, hc =>
      exact ⟨[x], rfl, rfl, hc, fun h => absurd h (by simp), fun _ => rfl, fun h => h⟩
    | x :: y :: rest, hlen, hc =>
      have happ := partition_nodes_walk_append (x :: y :: rest) (x :: y :: rest)
      obtain ⟨m1, m2⟩ := partition_nodes_walk_map_job (x :: y :: rest) (x :: y :: rest)
      obtain ⟨_, j2, j3⟩ := partition_spec ((x :: y :: rest).map RQ_NODE.job) (by simp)
      have hl1 : (partition_nodes (x :: y :: rest)).1.length
          = (partition ((x :: y :: rest).map RQ_NODE.job)).1.length := by
        unfold partition_nodes partition
        rw [← m1, List.length_map]
      have hl2 : (partition_nodes (x :: y :: rest)).2.length
          = (partition ((x :: y :: rest).map RQ_NODE.job)).2.length := by
        unfold partition_nodes partition
        rw [← m2, List.length_map]
      have hsum : (partition_nodes (x :: y :: rest)).1.length
          + (partition_nodes (x :: y :: rest)).2.length = (x :: y :: rest).length := by
        unfold partition_nodes
        rw [← List.length_append, happ]
      rw [List.length_map] at j2 j3
      have hc1 : (partition_nodes (x :: y :: rest)).1.Chain'
          fun a b => b.prev = some a.addr := by
        unfold partition_nodes
        rw [← happ] at hc
        exact hc.left_of_append
      have hc2 : (partition_nodes (x :: y :: rest)).2.Chain'
          fun a b => b.prev = some a.addr := by
        unfold partition_nodes
        rw [← happ] at hc
        exact hc.right_of_append
      obtain ⟨r1, e1, f1, c1, _, _, n1⟩ := ih _ (by omega) hc1
      obtain ⟨r2, e2, f2, c2, _, _, n2⟩ := ih _ (by omega) hc2
      have hne1 : (partition_nodes (x :: y :: rest)).1 ≠ [] := by
        intro hh
        rw [hh] at hsum hl1
        simp only [List.length_nil, zero_add] at hsum
        omega
      have hne2 : (partition_nodes (x :: y :: rest)).2 ≠ [] := by
        intro hh
        rw [hh] at hsum hl2
        simp only [List.length_nil, add_zero] at hsum
        omega
      obtain ⟨g1, g2⟩ := merge_nodes_linked r1 r2 c1 c2
      refine ⟨merge_nodes r1 r2, ?_, ?_, g1, fun _ => g2 (n1 hne1) (n2 hne2),
        fun h => absurd h (by simp), fun _ hh => ?_⟩
      · show (match merge_sort_nodes_fuel n (partition_nodes (x :: y :: rest)).1,
            merge_sort_nodes_fuel n (partition_nodes (x :: y :: rest)).2 with
          | some primary, some secondary => some (merge_nodes primary secondary)
          | _, _ => none) = _
        rw [e1, e2]
      · show (match merge_sort_fuel n (partition (x.job :: y.job :: rest.map RQ_NODE.job)).1,
            merge_sort_fuel n (partition (x.job :: y.job :: rest.map RQ_NODE.job)).2 with
          | some primary, some secondary => some (merge primary secondary)
          | _, _ => none) = _
        have k1 : (partition (x.job :: y.job :: rest.map RQ_NODE.job)).1
            = (partition_nodes (x :: y :: rest)).1.map RQ_NODE.job := m1.symm
        have k2 : (partition (x.job :: y.job :: rest.map RQ_NODE.job)).2
            = (partition_nodes (x :: y :: rest)).2.map RQ_NODE.job := m2.symm
        rw [k1, k2, f1, f2, merge_nodes_map_job]
      · have : (merge_nodes r1 r2).map RQ_NODE.job = [] := by rw [hh]; rfl
        rw [merge_nodes_map_job] at this
        have hr1 := n1 hne1
        cases r1 with
        | nil => exact hr1 rfl
        | cons a r1 =>
          cases r2 with
          | nil =>
            unfold merge at this
            exact List.noConfusion this
          | cons b r2 =>
            unfold merge at this
            simp only [List.map_cons] at this
            split_ifs at this

/-- C35: for a run queue whose `prev` links are consistent with its `next` links,
`merge_sort` returns a chain whose jobs are a permutation of the jobs of the queue (those of
the merge sort on the list of the jobs), whose `prev` links are again consistent with its
`next` links, and which is in ascending order of `sched_deadline` when the deadlines are
numbers. -/
theorem merge_sort_nodes_linked (q : List RQ_NODE) (hlink : Linked q) :
    ∃ r : List RQ_NODE, merge_sort_nodes q = some r ∧
      merge_sort (q.map RQ_NODE.job) = some (r.map RQ_NODE.job) ∧
      (r.map RQ_NODE.job).Perm (q.map RQ_NODE.job) ∧
      Linked r ∧
      ((∀ n ∈ q, n.job.sched_deadline ≠ Dbl.nan) → ascending (r.map RQ_NODE.job)) := by
  obtain ⟨r, e1, e2, c, h2, h1, _⟩ := merge_sort_nodes_fuel_spec (q.length + 1) q
    (Nat.lt_succ_self _) hlink.2
  obtain ⟨r', e3, p, a⟩ := merge_sort_spec (q.map RQ_NODE.job)
  have e4 : merge_sort (q.map RQ_NODE.job) = some (r.map RQ_NODE.job) := by
    unfold merge_sort
    rw [List.length_map]
    exact e2
  have e5 : r' = r.map RQ_NODE.job := by
    rw [e4] at e3
    exact (Option.some.inj e3).symm
  rw [e5] at p a
  refine ⟨r, e1, e4, p, ⟨?_, c⟩, fun hd => a fun x hx => ?_⟩
  · by_cases hq : 2 ≤ q.length
    · exact h2 hq
    · rw [h1 (by omega)]
      exact hlink.1
  · obtain ⟨n, hn, en⟩ := List.mem_map.mp hx
    rw [← en]
    exact hd n hn

/-- Witness for C35: `node_queue` is sorted into the order 101, 100, 102, with the `prev`
links `NULL`, 101 and 100. -/
theorem merge_sort_nodes_linked_witness :
    Linked node_queue ∧
    (merge_sort_nodes node_queue).map (List.map fun n => (n.addr, n.prev))
      = some [(101, none), (100, some 101), (102, some 100)] ∧
    ∃ r : List RQ_NODE, merge_sort_nodes node_queue = some r ∧
      merge_sort (node_queue.map RQ_NODE.job) = some (r.map RQ_NODE.job) ∧
      (r.map RQ_NODE.job).Perm (node_queue.map RQ_NODE.job) ∧
      Linked r ∧
      ((∀ n ∈ node_queue, n.job.sched_deadline ≠ Dbl.nan) → ascending (r.map RQ_NODE.job)) := by
  have hl : Linked node_queue := by
    unfold Linked node_queue
    refine ⟨?_, ?_⟩
    · intro h hh
      simp only [List.head?_cons, Option.mem_def, Option.some.injEq] at hh
      rw [← hh]
    · simp [List.Chain']
  exact ⟨hl, by decide!, merge_sort_nodes_linked node_queue hl⟩

/-! ## Slack of a core and the slack-based shutdown -/

/-- C31 fails on the code in two places.  `get_dynamic_procrastination_slack` stores the
slack of level `current_level + i` at index `i`: called for the core of `admission_input`
with `max_criticality = 2`, deadline 30 and time 5, it stores the slacks of the levels 1 and 2
at the indices 0 and 1 when `current_level` is 1, but when `current_level` is 2 it stores the
slack of level 2 at index 0 and leaves index 1 at its initial value `NA`.  And on
`slack_index_input`, with `max_criticality = 1`, the slack-based shutdown of core 1 (index
0) at time 50 finds the slack 19 in `slack_available[0]` of that core and sets its wake-up
time to `-1`, which is `slack_available[0]` of the core at index 1. -/
theorem slack_stored_by_offset :
    ((get_dynamic_procrastination_slack admission_input.rand
        [init_core admission_input (core_at admission_cores 0)] 0 admission_input.task_arr 2
        30 2 1 20 5 0).map fun r =>
      ((run_core_at r.1 0).slack_available.getD 0 (Dbl.fin 0),
        (run_core_at r.1 0).slack_available.getD 1 (Dbl.fin 0)))
      = some (Dbl.fin (151 / 10), Dbl.fin 15) ∧
    ((get_dynamic_procrastination_slack admission_input.rand
        [init_core admission_input (core_at admission_cores 0)] 0 admission_input.task_arr 2
        30 2 2 20 5 0).map fun r =>
      ((run_core_at r.1 0).slack_available.getD 0 (Dbl.fin 0),
        (run_core_at r.1 0).slack_available.getD 1 (Dbl.fin 0)))
      = some (Dbl.fin 15, Dbl.fin (NA : ℚ)) ∧
    slack_index_input.max_criticality = 1 ∧
    (scheduler_init slack_index_input slack_cores).timecount = 50 ∧
    (scheduler_init slack_index_input slack_cores).current_level = 1 ∧
    ((after_shutdown slack_index_input (scheduler_init slack_index_input slack_cores)).map
      fun s2 =>
        ((run_core_at s2.core 0).status,
          (run_core_at s2.core 0).slack_available.getD 0 (Dbl.fin 0),
          (run_core_at s2.core 0).wakeup_time,
          (run_core_at s2.core 1).slack_available.getD 0 (Dbl.fin 0)))
      = some (SHUTDOWN, Dbl.fin 19, (NA : ℚ), Dbl.fin (NA : ℚ)) := by
  decide!

/-! ## Admission of discarded jobs -/

/-- C32 fails on the code for the second job popped in a call: on `discarded_pair_input`, in
the iteration at time 2 (level 2, one level to check), the discarded queue of index 0 holds
the jobs of `T3` and `T2`, each with a budget of 1 at its own criticality.  The loop of
`schedule_discarded_job` admits the job of `T3`; for the job of `T2` the slack at level 2 is
17, which is not below its budget, but `temp_count` is then 2 and not 1, and the job is not
admitted: after the discarded job scheduling the run queue holds the jobs of `T3` and `T1`,
and the discarded queue and the pending-request queue are empty. -/
theorem schedule_discarded_job_keeps_count :
    ∃ s s2 s3 : Sched_state,
      run_scheduler_loop discarded_pair_input 2
        (scheduler_init discarded_pair_input admission_cores) = some s ∧
      after_shutdown discarded_pair_input s = some s2 ∧
      after_discarded discarded_pair_input s = some s3 ∧
      s2.timecount = 2 ∧ s2.current_level = 2 ∧
      discarded_pair_input.max_criticality - s2.current_level + 1 = 1 ∧
      (queue_at s2.dhead 0).head_node.map Jobs.task_no = [3, 2] ∧
      ((queue_at s2.dhead 0).head_node.map fun j => j.budget (j.job_criticality - 1))
        = [1, 1] ∧
      (run_core_at s2.core 0).qhead.head_node.map Jobs.task_no = [1] ∧
      ((schedule_discarded_loop discarded_pair_input.rand discarded_pair_input.next_job
          discarded_pair_input.task_arr discarded_pair_input.num_tasks
          (run_core_at s2.core 0).alloc.threshold_criticality
          discarded_pair_input.max_criticality s2.current_level
          (run_core_at s2.core 0).alloc.core_no discarded_pair_input.hyperperiod s2.timecount
          (discarded_jobs_count (delete_expired_jobs s2.dhead s2.current_level s2.timecount))
          { head := (run_core_at s2.core 0).qhead
            dhead := delete_expired_jobs s2.dhead s2.current_level s2.timecount
            dummy_head := List.replicate
              (discarded_pair_input.max_criticality - s2.current_level + 1).toNat
              create_run_queue
            slack_available := List.replicate
              (discarded_pair_input.max_criticality - s2.current_level + 1).toNat (Dbl.fin 0)
            i := highest_non_empty
              (delete_expired_jobs s2.dhead s2.current_level s2.timecount)
              (s2.current_level - 1).toNat
            temp_count := 0
            rand_calls := s2.rand_calls }).map fun st =>
        (st.slack_available, st.temp_count, st.head.head_node.map Jobs.task_no))
        = some ([Dbl.fin 17], 2, [3, 1]) ∧
      (run_core_at s3.core 0).qhead.head_node.map Jobs.task_no = [3, 1] ∧
      (queue_at s3.dhead 0).head_node.isEmpty = true ∧
      s3.prhead.head_node.isEmpty = true := by
  have key : loop_returns_with
      (run_scheduler_loop discarded_pair_input 2
        (scheduler_init discarded_pair_input admission_cores))
      (fun s => loop_returns_with (after_shutdown discarded_pair_input s)
        (fun s2 => loop_returns_with (after_discarded discarded_pair_input s)
          (fun s3 => decide (
      s2.timecount = 2 ∧ s2.current_level = 2 ∧
      discarded_pair_input.max_criticality - s2.current_level + 1 = 1 ∧
      (queue_at s2.dhead 0).head_node.map Jobs.task_no = [3, 2] ∧
      ((queue_at s2.dhead 0).head_node.map fun j => j.budget (j.job_criticality - 1))
        = [1, 1] ∧
      (run_core_at s2.core 0).qhead.head_node.map Jobs.task_no = [1] ∧
      ((schedule_discarded_loop discarded_pair_input.rand discarded_pair_input.next_job
          discarded_pair_input.task_arr discarded_pair_input.num_tasks
          (run_core_at s2.core 0).alloc.threshold_criticality
          discarded_pair_input.max_criticality s2.current_level
          (run_core_at s2.core 0).alloc.core_no discarded_pair_input.hyperperiod s2.timecount
          (discarded_jobs_count (delete_expired_jobs s2.dhead s2.current_level s2.timecount))
          { head := (run_core_at s2.core 0).qhead
            dhead := delete_expired_jobs s2.dhead s2.current_level s2.timecount
            dummy_head := List.replicate
              (discarded_pair_input.max_criticality - s2.current_level + 1).toNat
              create_run_queue
            slack_available := List.replicate
              (discarded_pair_input.max_criticality - s2.current_level + 1).toNat (Dbl.fin 0)
            i := highest_non_empty
              (delete_expired_jobs s2.dhead s2.current_level s2.timecount)
              (s2.current_level - 1).toNat
            temp_count := 0
            rand_calls := s2.rand_calls }).map fun st =>
        (st.slack_available, st.temp_count, st.head.head_node.map Jobs.task_no))
        = some ([Dbl.fin 17], 2, [3, 1]) ∧
      (run_core_at s3.core 0).qhead.head_node.map Jobs.task_no = [3, 1] ∧
      (queue_at s3.dhead 0).head_node.isEmpty = true ∧
      s3.prhead.head_node.isEmpty = true)))) = true := by
    decide!
  obtain ⟨s, hs, hp⟩ := loop_returns_with_spec key
  obtain ⟨s2, hs2, hp2⟩ := loop_returns_with_spec hp
  obtain ⟨s3, hs3, hp3⟩ := loop_returns_with_spec hp2
  exact ⟨s, s2, s3, hs, hs2, hs3, of_decide_eq_true hp3⟩

/-! ## Advance of the simulated time -/

/-- C38 fails on the code: on `slack_wakeup_input` the loop is entered at time 50.  In the
first iteration core 2 idles with its next arrival at 55, its slack at level 1 is 19, and the
slack-based shutdown stores this slack, a duration, as the wake-up time of the core; the
next decision point is then 19, which is before the current time 50.  The following
iterations are at the times 50, 19, 50 and 19 again, and the hyperperiod is 100. -/
theorem timecount_goes_back :
    slack_wakeup_input.hyperperiod = 100 ∧
    (scheduler_init slack_wakeup_input slack_cores).timecount = 50 ∧
    ((scheduler_iteration slack_wakeup_input
        (scheduler_init slack_wakeup_input slack_cores)).map fun s1 =>
      (s1.timecount, (run_core_at s1.core 1).status, (run_core_at s1.core 1).wakeup_time,
        (run_core_at s1.core 1).slack_available.getD 0 (Dbl.fin 0),
        (run_core_at s1.core 1).decision_point.decision_time))
      = some (19, SHUTDOWN, 19, Dbl.fin 19, 19) ∧
    ((List.range 6).map fun n =>
      (run_scheduler_loop slack_wakeup_input n
        (scheduler_init slack_wakeup_input slack_cores)).map Sched_state.timecount)
      = [some 50, some 19, some 50, some 19, some 50, some 19] := by
  decide!

/-! ## Frame of the core selection -/

/-- The EDF-VD check leaves a task outside the union of the core and the candidate as it
is. -/
theorem edfvd_check_getD (l : List Tasks) (L c n : Int) (m : Nat)
    (h : ¬ in_union (l.getD m default) c n) :
    (edfvd_schedulability_check l L c n).2.getD m default = l.getD m default := by
  have key : ∀ g : Tasks → Tasks, (∀ t, ¬ in_union t c n → g t = t) →
      (l.map g).getD m default = l.getD m default := by
    intro g hg
    by_cases hm : m < l.length
    · rw [List.getD_eq_getElem _ _ (by simpa using hm), List.getD_eq_getElem _ _ hm,
        List.getElem_map]
      apply hg
      rw [List.getD_eq_getElem _ _ hm] at h
      exact h
    · rw [List.getD_eq_default _ _ (by simpa using hm),
        List.getD_eq_default _ _ (by simpa using hm)]
  unfold edfvd_schedulability_check
  split_ifs
  · exact key _ (fun t ht => if_neg ht)
  · rcases edfvd_scan_spec l L c n (L - 1).toNat with ⟨_, h2, _⟩ | ⟨t, _, _, _, _, _, h6⟩
    · rw [h2]
    · rw [h6]
      exact key _ (fun t ht => if_neg ht)

/-- Writing the threshold of core `j` changes no other field and no other core. -/
theorem cores_set_threshold_getD (core : List Cores) (j k : Nat) (thr : Int) :
    ((core.set j { core.getD j default with threshold_criticality := thr }).getD k
        default).remaining_capacity = (core.getD k default).remaining_capacity ∧
    ((core.set j { core.getD j default with threshold_criticality := thr }).getD k
        default).utilization = (core.getD k default).utilization ∧
    ((core.set j { core.getD j default with threshold_criticality := thr }).getD k
        default).core_no = (core.getD k default).core_no ∧
    (k ≠ j →
      ((core.set j { core.getD j default with threshold_criticality := thr }).getD k
        default).threshold_criticality = (core.getD k default).threshold_criticality) := by
  by_cases hj : j < core.length
  · rw [cores_getD_set core j k hj]
    by_cases hk : k = j
    · rw [if_pos hk, hk]
      exact ⟨rfl, rfl, rfl, fun h => absurd rfl h⟩
    · rw [if_neg hk]
      exact ⟨rfl, rfl, rfl, fun _ => rfl⟩
  · rw [List.set_eq_of_length_le (not_lt.mp hj)]
    exact ⟨rfl, rfl, rfl, fun _ => rfl⟩

theorem Selection_frame_refl (i : Int) (core : List Cores) (l : List Tasks) (j n : Nat) :
    Selection_frame i core l j n core l :=
  ⟨fun _ _ => rfl, fun _ _ _ => rfl⟩

/-- One visit of core `j`, which may write its threshold when the core has the capacity
and may run the EDF-VD check when the core is probed, followed by the visits of the cores
`j + 1 .. j + n`. -/
theorem Selection_frame_step {i L : Int} {core core1 core2 : List Cores}
    {l l1 l2 : List Tasks} {j n : Nat}
    (hT : l1 = l ∨
      ((core.getD j default).remaining_capacity ≥ (task_at l i).util_own ∧
        (task_at l i).util_own + (core.getD j default).utilization > 1 ∧
        l1 = (edfvd_schedulability_check l L (core.getD j default).core_no
          (task_at l i).task_no).2))
    (hC : core1 = core ∨
      ((core.getD j default).remaining_capacity ≥ (task_at l i).util_own ∧
        ∃ thr : Int, core1 = core.set j
          { core.getD j default with threshold_criticality := thr }))
    (hF : Selection_frame i core1 l1 (j + 1) n core2 l2) :
    Selection_frame i core l j (n + 1) core2 l2 := by
  have hve : vd_equiv l l1 := by
    rcases hT with h | ⟨_, _, h⟩
    · rw [h]
      exact vd_equiv_refl l
    · rw [h]
      exact edfvd_check_vd_equiv _ _ _ _
  have ti := vd_equiv_task_at hve i
  rw [erase_vd_eq_iff] at ti
  have e1 : (task_at l1 i).util_own = (task_at l i).util_own := by
    unfold Tasks.util_own Tasks.util
    rw [ti.2.2.2.2.1, ti.2.2.2.2.2.2.1]
  have e2 : (task_at l1 i).task_no = (task_at l i).task_no := ti.1
  have e3 : ∀ m : Nat, (l1.getD m default).task_no = (l.getD m default).task_no ∧
      (l1.getD m default).allocated_core = (l.getD m default).allocated_core := by
    intro m
    have tm := vd_equiv_getD hve m
    rw [erase_vd_eq_iff] at tm
    exact ⟨tm.1, tm.2.2.2.2.2.2.2⟩
  have c1 : ∀ k : Nat,
      (core1.getD k default).remaining_capacity = (core.getD k default).remaining_capacity ∧
      (core1.getD k default).utilization = (core.getD k default).utilization ∧
      (core1.getD k default).core_no = (core.getD k default).core_no ∧
      (k ≠ j → (core1.getD k default).threshold_criticality
        = (core.getD k default).threshold_criticality) := by
    intro k
    rcases hC with h | ⟨_, thr, h⟩
    · rw [h]
      exact ⟨rfl, rfl, rfl, fun _ => rfl⟩
    · rw [h]
      exact cores_set_threshold_getD core j k thr
  constructor
  · intro k hk
    have h1 := hF.1 k (by
      rcases hk with hk | hk | hk
      · exact Or.inl (by omega)
      · exact Or.inr (Or.inl (by omega))
      · right
        right
        rw [(c1 k).1, e1]
        exact hk)
    rw [h1]
    by_cases hkj : k = j
    · rcases hC with h | ⟨hcap, _, _⟩
      · rw [h]
      · rcases hk with hk | hk | hk
        · omega
        · omega
        · rw [hkj] at hk
          exact absurd hcap (not_le.mpr hk)
    · exact (c1 k).2.2.2 hkj
  · intro m hno hcond
    have h1 := hF.2 m (by rw [(e3 m).1, e2]; exact hno) (by
      intro k hk1 hk2 hcn
      rw [(c1 k).1, (c1 k).2.1, e1]
      rw [(c1 k).2.2.1, (e3 m).2] at hcn
      exact hcond k (by omega) (by omega) hcn)
    rw [h1]
    rcases hT with h | ⟨hcap, hu, h⟩
    · rw [h]
    · rw [h]
      apply edfvd_check_getD
      rintro (hin | hin)
      · exact hcond j (le_refl _) (by omega) hin.symm ⟨hcap, hu⟩
      · exact hno hin

/-- One iteration of the loop of `get_worst_fit_core_idx`. -/
theorem worst_fit_loop_unfold (i L : Int) (n j : Nat) (s : Worst_fit_state) :
    ∃ s1 : Worst_fit_state,
      worst_fit_loop i L (n + 1) (j : Int) s = worst_fit_loop i L n ((j + 1 : Nat) : Int) s1 ∧
      (s1.tasks_arr = s.tasks_arr ∨
        ((s.core.getD j default).remaining_capacity ≥ (task_at s.tasks_arr i).util_own ∧
          (task_at s.tasks_arr i).util_own + (s.core.getD j default).utilization > 1 ∧
          s1.tasks_arr = (edfvd_schedulability_check s.tasks_arr L
            (s.core.getD j default).core_no (task_at s.tasks_arr i).task_no).2)) ∧
      (s1.core = s.core ∨
        ((s.core.getD j default).remaining_capacity ≥ (task_at s.tasks_arr i).util_own ∧
          ∃ thr : Int, s1.core = s.core.set j
            { s.core.getD j default with threshold_criticality := thr })) := by
  have hcast : ((j : Int) + 1) = ((j + 1 : Nat) : Int) := by push_cast; ring
  rw [worst_fit_loop]
  dsimp only
  rw [hcast]
  simp only [core_at_eq, Int.toNat_ofNat]
  unfold Tasks.util_own
  split_ifs with h1 h2 h3
  · exact ⟨_, rfl, Or.inr ⟨h1.1, h2, rfl⟩, Or.inr ⟨h1.1, _, rfl⟩⟩
  · exact ⟨_, rfl, Or.inr ⟨h1.1, h2, rfl⟩, Or.inl rfl⟩
  · exact ⟨_, rfl, Or.inl rfl, Or.inr ⟨h1.1, _, rfl⟩⟩
  · exact ⟨_, rfl, Or.inl rfl, Or.inl rfl⟩

/-- Frame of the loop of `get_worst_fit_core_idx`. -/
theorem worst_fit_loop_frame (i L : Int) :
    ∀ (n j : Nat) (s : Worst_fit_state),
      Selection_frame i s.core s.tasks_arr j n (worst_fit_loop i L n (j : Int) s).core
        (worst_fit_loop i L n (j : Int) s).tasks_arr := by
  intro n
  induction n with
  | zero =>
    intro j s
    rw [worst_fit_loop]
    exact Selection_frame_refl _ _ _ _ _
  | succ n ih =>
    intro j s
    obtain ⟨s1, h1, hT, hC⟩ := worst_fit_loop_unfold i L n j s
    rw [h1]
    exact Selection_frame_step hT hC (ih (j + 1) s1)

/-- One iteration of the loop of `get_first_fit_core_idx`: the loop ends at core `j`, or
goes on with the next core. -/
theorem first_fit_loop_unfold (i L : Int) (n j : Nat) (f : Int) (core : List Cores)
    (l : List Tasks) :
    ∃ (f1 : Int) (core1 : List Cores) (l1 : List Tasks),
      (first_fit_loop i L (n + 1) (j : Int) f core l = (f1, core1, l1) ∨
        first_fit_loop i L (n + 1) (j : Int) f core l
          = first_fit_loop i L n ((j + 1 : Nat) : Int) f1 core1 l1) ∧
      (l1 = l ∨
        ((core.getD j default).remaining_capacity ≥ (task_at l i).util_own ∧
          (task_at l i).util_own + (core.getD j default).utilization > 1 ∧
          l1 = (edfvd_schedulability_check l L (core.getD j default).core_no
            (task_at l i).task_no).2)) ∧
      (core1 = core ∨
        ((core.getD j default).remaining_capacity ≥ (task_at l i).util_own ∧
          ∃ thr : Int, core1 = core.set j
            { core.getD j default with threshold_criticality := thr })) := by
  have hcast : ((j : Int) + 1) = ((j + 1 : Nat) : Int) := by push_cast; ring
  rw [first_fit_loop]
  dsimp only
  rw [hcast]
  simp only [core_at_eq, Int.toNat_ofNat]
  unfold Tasks.util_own
  split_ifs with h1 h2 h3
  · exact ⟨_, _, _, Or.inl rfl, Or.inr ⟨h1, h2, rfl⟩, Or.inr ⟨h1, _, rfl⟩⟩
  · exact ⟨_, _, _, Or.inr rfl, Or.inr ⟨h1, h2, rfl⟩, Or.inl rfl⟩
  · exact ⟨_, _, _, Or.inr rfl, Or.inl rfl, Or.inr ⟨h1, _, rfl⟩⟩
  · exact ⟨_, _, _, Or.inr rfl, Or.inl rfl, Or.inl rfl⟩

/-- Frame of the loop of `get_first_fit_core_idx`. -/
theorem first_fit_loop_frame (i L : Int) :
    ∀ (n j : Nat) (first_fit_idx : Int) (core : List Cores) (l : List Tasks),
      Selection_frame i core l j n
        (first_fit_loop i L n (j : Int) first_fit_idx core l).2.1
        (first_fit_loop i L n (j : Int) first_fit_idx core l).2.2 := by
  intro n
  induction n with
  | zero =>
    intro j f core l
    rw [first_fit_loop]
    exact Selection_frame_refl _ _ _ _ _
  | succ n ih =>
    intro j f core l
    obtain ⟨f1, core1, l1, h1, hT, hC⟩ := first_fit_loop_unfold i L n j f core l
    rcases h1 with h1 | h1
    · rw [h1]
      exact Selection_frame_step hT hC (Selection_frame_refl _ _ _ _ _)
    · rw [h1]
      exact Selection_frame_step hT hC (ih (j + 1) f1 core1 l1)

/-- Counterexample to C40 as stated.  In the run of the allocator on `probe_set` with two
cores, `T1` is on core 1 and `T2` on core 2 when `T3` is placed.  Worst fit first takes
core 1 (index 0) as candidate: the EDF-VD check passes with threshold 3, the threshold of
the core is written (4 before) and so is the virtual deadline of `T1` (20 before, 1420/99
after).  Core 2 (index 1) then has more capacity left and index 1 is returned.  And
`get_first_fit_core_idx` on two initial cores for the task of `single_task_set` returns
index 1 after it has written the threshold of the core at index 0 (2 before, 1 after). -/
theorem core_selection_writes_other_cores :
    quick_sort probe_set 0 5 = some probe_set ∧
    (∃ sA s : Alloc_state, lpd_phase probe_set 4 = Except.ok sA ∧
      remaining_phase_steps probe_set 2 4 sA 2 = Except.ok s ∧
      s.num_cores = 2 ∧
      (task_at s.tasks_arr 2).criticality = 3 ∧
      s.tasks_arr.map Tasks.allocated_core
        = [1, 2, NOT_ALLOCATED, NOT_ALLOCATED, NOT_ALLOCATED, NOT_ALLOCATED] ∧
      (core_at (reset_core_capacities s.core s.num_cores s.tasks_arr 3 2) 0).core_no = 1 ∧
      (core_at (reset_core_capacities s.core s.num_cores s.tasks_arr 3 2)
        0).threshold_criticality = 4 ∧
      (task_at s.tasks_arr 0).virtual_deadline = Dbl.fin 20 ∧
      (get_worst_fit_core_idx (reset_core_capacities s.core s.num_cores s.tasks_arr 3 2)
        s.num_cores s.tasks_arr 2 4).1 = 1 ∧
      (core_at (get_worst_fit_core_idx (reset_core_capacities s.core s.num_cores s.tasks_arr 3 2)
        s.num_cores s.tasks_arr 2 4).2.1 0).threshold_criticality = 3 ∧
      (task_at (get_worst_fit_core_idx (reset_core_capacities s.core s.num_cores s.tasks_arr 3 2)
        s.num_cores s.tasks_arr 2 4).2.2 0).virtual_deadline = Dbl.fin (1420 / 99) ∧
      (task_at (get_worst_fit_core_idx (reset_core_capacities s.core s.num_cores s.tasks_arr 3 2)
        s.num_cores s.tasks_arr 2 4).2.2 0).allocated_core = 1) ∧
    (core_at (initialize_cores_offline 1) 0).threshold_criticality = 2 ∧
    (get_first_fit_core_idx (initialize_cores_offline 1) 2 single_task_set 0 1).1 = 1 ∧
    (core_at (get_first_fit_core_idx (initialize_cores_offline 1) 2 single_task_set 0 1).2.1
      0).threshold_criticality = 1 := by
  have key : returns_with (lpd_phase probe_set 4) (fun sA =>
      returns_with (remaining_phase_steps probe_set 2 4 sA 2) (fun s =>
        decide (s.num_cores = 2 ∧
      (task_at s.tasks_arr 2).criticality = 3 ∧
      s.tasks_arr.map Tasks.allocated_core
        = [1, 2, NOT_ALLOCATED, NOT_ALLOCATED, NOT_ALLOCATED, NOT_ALLOCATED] ∧
      (core_at (reset_core_capacities s.core s.num_cores s.tasks_arr 3 2) 0).core_no = 1 ∧
      (core_at (reset_core_capacities s.core s.num_cores s.tasks_arr 3 2)
        0).threshold_criticality = 4 ∧
      (task_at s.tasks_arr 0).virtual_deadline = Dbl.fin 20 ∧
      (get_worst_fit_core_idx (reset_core_capacities s.core s.num_cores s.tasks_arr 3 2)
        s.num_cores s.tasks_arr 2 4).1 = 1 ∧
      (core_at (get_worst_fit_core_idx (reset_core_capacities s.core s.num_cores s.tasks_arr 3 2)
        s.num_cores s.tasks_arr 2 4).2.1 0).threshold_criticality = 3 ∧
      (task_at (get_worst_fit_core_idx (reset_core_capacities s.core s.num_cores s.tasks_arr 3 2)
        s.num_cores s.tasks_arr 2 4).2.2 0).virtual_deadline = Dbl.fin (1420 / 99) ∧
      (task_at (get_worst_fit_core_idx (reset_core_capacities s.core s.num_cores s.tasks_arr 3 2)
        s.num_cores s.tasks_arr 2 4).2.2 0).allocated_core = 1))) = true := by
    decide!
  refine ⟨by decide!, ?_, by decide!, by decide!, by decide!⟩
  obtain ⟨sA, hA, h1⟩ := returns_with_spec key
  obtain ⟨s, hs, h2⟩ := returns_with_spec h1
  exact ⟨sA, s, hA, hs, of_decide_eq_true h2⟩

/-- C40 (amended): let `r` be the result of `get_worst_fit_core_idx` or of
`get_first_fit_core_idx` for the task at `task_idx`, with own-level utilisation `u`.  The
threshold of the core at index `k` is unchanged when `k` is not below `num_cores` or the
remaining capacity of the core is below `u`; the virtual deadline of the task at index `m`,
other than the candidate, is unchanged when no core below `num_cores` with the core number
of the task has both a remaining capacity of at least `u` and `u + utilization > 1`.  Other
cores and tasks can change although the core is not picked.  And, for at least one level,
an `edfvd_schedulability_check` that returns `-73` returns the task array unchanged. -/
theorem core_selection_frame (core : List Cores) (num_cores : Int) (tasks_arr : List Tasks)
    (task_idx max_criticality core_no new_task_no : Int) (hL : 1 ≤ max_criticality) :
    (∀ r : Int × List Cores × List Tasks,
      (r = get_worst_fit_core_idx core num_cores tasks_arr task_idx max_criticality ∨
        r = get_first_fit_core_idx core num_cores tasks_arr task_idx max_criticality) →
      (∀ k : Nat,
        (num_cores ≤ (k : Int) ∨
          (core_at core (k : Int)).remaining_capacity
            < (task_at tasks_arr task_idx).util_own) →
        (core_at r.2.1 (k : Int)).threshold_criticality
          = (core_at core (k : Int)).threshold_criticality) ∧
      (∀ m : Nat,
        (task_at tasks_arr (m : Int)).task_no ≠ (task_at tasks_arr task_idx).task_no →
        (∀ k : Nat, (k : Int) < num_cores →
          (core_at core (k : Int)).core_no = (task_at tasks_arr (m : Int)).allocated_core →
          ¬ ((core_at core (k : Int)).remaining_capacity
              ≥ (task_at tasks_arr task_idx).util_own ∧
            (task_at tasks_arr task_idx).util_own + (core_at core (k : Int)).utilization > 1)) →
        (task_at r.2.2 (m : Int)).virtual_deadline
          = (task_at tasks_arr (m : Int)).virtual_deadline)) ∧
    ((edfvd_schedulability_check tasks_arr max_criticality core_no new_task_no).1 = -73 →
      (edfvd_schedulability_check tasks_arr max_criticality core_no new_task_no).2
        = tasks_arr) := by
  constructor
  · intro r hr
    have hF : Selection_frame task_idx core tasks_arr 0 num_cores.toNat r.2.1 r.2.2 := by
      rcases hr with hr | hr
      · have h := worst_fit_loop_frame task_idx max_criticality num_cores.toNat 0
          { worst_fit_idx := -1, max_remaining_capacity := -1, core := core,
            tasks_arr := tasks_arr }
        rw [Nat.cast_zero] at h
        rw [hr]
        exact h
      · have h := first_fit_loop_frame task_idx max_criticality num_cores.toNat 0 (-1) core
          tasks_arr
        rw [Nat.cast_zero] at h
        rw [hr]
        exact h
    simp only [task_at_natCast, core_at_eq, Int.toNat_ofNat]
    constructor
    · intro k hk
      apply hF.1 k
      rcases hk with hk | hk
      · exact Or.inr (Or.inl (by omega))
      · exact Or.inr (Or.inr hk)
    · intro m hno hcond
      rw [hF.2 m hno (fun k _ hk2 hcn => hcond k (by omega) hcn)]
  · intro h
    unfold edfvd_schedulability_check at h ⊢
    split_ifs at h ⊢
    · have h' : max_criticality = -73 := h
      omega
    · rcases edfvd_scan_spec tasks_arr max_criticality core_no new_task_no
        (max_criticality - 1).toNat with ⟨_, h2, _⟩ | ⟨t, ht1, _, ht3, _⟩
      · exact h2
      · rw [ht3] at h
        omega

/-- Witness for C40: with two levels, the EDF-VD check of core 1 of `infeasible_vd_set` with
`T2` as candidate returns `-73` and the task array as it was, and first fit over two
initial cores leaves the threshold of the core at index 2 as it was. -/
theorem core_selection_frame_witness :
    (1 : Int) ≤ 2 ∧
    (edfvd_schedulability_check infeasible_vd_set 2 1 2).1 = -73 ∧
    (edfvd_schedulability_check infeasible_vd_set 2 1 2).2 = infeasible_vd_set ∧
    (core_at (get_first_fit_core_idx (initialize_cores_offline 2) 2 infeasible_vd_set 1 2).2.1
      ((2 : Nat) : Int)).threshold_criticality
      = (core_at (initialize_cores_offline 2) ((2 : Nat) : Int)).threshold_criticality :=
  ⟨by decide, by decide!,
    (core_selection_frame (initialize_cores_offline 2) 2 infeasible_vd_set 1 2 1 2
      (by decide)).2 (by decide!),
    ((core_selection_frame (initialize_cores_offline 2) 2 infeasible_vd_set 1 2 1 2
      (by decide)).1 _ (Or.inr rfl)).1 2 (Or.inl (by decide))⟩

/-! ## Records of the allocated tasks -/

theorem take_set_succ (ids : List Int) (n : Nat) (x : Int) (h : n < ids.length) :
    (ids.set n x).take (n + 1) = ids.take n ++ [x] := by
  induction ids generalizing n with
  | nil => simp at h
  | cons a as ih =>
    cases n with
    | zero => simp
    | succ n =>
      simp only [List.set_cons_succ, List.take_succ_cons, List.cons_append, List.cons.injEq,
        true_and]
      exact ih n (by simpa using h)

theorem filter_set_neg (l : List Tasks) (i : Nat) (t : Tasks) (p : Tasks → Bool)
    (h1 : p (l.getD i default) = false) (h2 : p t = false) :
    (l.set i t).filter p = l.filter p := by
  induction l generalizing i with
  | nil => simp
  | cons a as ih =>
    cases i with
    | zero =>
      simp only [List.getD_cons_zero] at h1
      simp [List.filter_cons, h1, h2]
    | succ i =>
      simp only [List.getD_cons_succ] at h1
      simp only [List.set_cons_succ, List.filter_cons, ih i h1]

theorem filter_set_pos (l : List Tasks) (i : Nat) (hi : i < l.length) (t : Tasks)
    (p : Tasks → Bool) (h1 : p (l.getD i default) = false) (h2 : p t = true) :
    ((l.set i t).filter p).Perm (t :: l.filter p) := by
  induction l generalizing i with
  | nil => simp at hi
  | cons a as ih =>
    cases i with
    | zero =>
      simp only [List.getD_cons_zero] at h1
      simp [List.filter_cons, h1, h2]
    | succ i =>
      simp only [List.getD_cons_succ] at h1
      simp only [List.set_cons_succ, List.filter_cons]
      have h := ih i (by simpa using hi) h1
      by_cases ha : p a = true
      · rw [if_pos ha, if_pos ha]
        exact (List.Perm.cons a h).trans (List.Perm.swap t a _)
      · rw [if_neg ha, if_neg ha]
        exact h

theorem tasks_on_vd_equiv {l l' : List Tasks} (h : vd_equiv l l') (c : Int) :
    (tasks_on l' c).map Tasks.task_no = (tasks_on l c).map Tasks.task_no := by
  have key : ∀ a : List Tasks, (tasks_on a c).map Tasks.task_no
      = ((a.map erase_vd).filter fun t => decide (t.allocated_core = c)).map Tasks.task_no := by
    intro a
    unfold tasks_on
    rw [List.filter_map, List.map_map]
    rfl
  rw [key l', key l, h]

theorem Ids_vd_equiv {core : List Cores} {l l' : List Tasks} (h : vd_equiv l l')
    (hI : Ids core l) : Ids core l' := by
  intro j hj
  obtain ⟨a, b, c⟩ := hI j hj
  have e := tasks_on_vd_equiv h ((j : Int) + 1)
  have e2 : (tasks_on l' ((j : Int) + 1)).length = (tasks_on l ((j : Int) + 1)).length := by
    have := congrArg List.length e
    simpa using this
  exact ⟨a, by rw [e2]; exact b, by rw [e]; exact c⟩

theorem Ids_of_fields {core core' : List Cores} {l : List Tasks} (hI : Ids core l)
    (h : ∀ k : Nat,
      (core'.getD k default).tasks_alloc_count = (core.getD k default).tasks_alloc_count ∧
      (core'.getD k default).tasks_alloc_ids = (core.getD k default).tasks_alloc_ids) :
    Ids core' l := by
  intro j hj
  obtain ⟨a, b, c⟩ := hI j hj
  unfold Cores.alloc_ids at c ⊢
  rw [(h j).1, (h j).2]
  exact ⟨a, b, c⟩

theorem cores_set_ids_fields (core : List Cores) (j k : Nat) (c : Cores)
    (h1 : c.tasks_alloc_count = (core.getD j default).tasks_alloc_count)
    (h2 : c.tasks_alloc_ids = (core.getD j default).tasks_alloc_ids) :
    ((core.set j c).getD k default).tasks_alloc_count
      = (core.getD k default).tasks_alloc_count ∧
    ((core.set j c).getD k default).tasks_alloc_ids
      = (core.getD k default).tasks_alloc_ids := by
  by_cases hj : j < core.length
  · rw [cores_getD_set core j k hj]
    by_cases hk : k = j
    · rw [if_pos hk, hk]
      exact ⟨h1, h2⟩
    · rw [if_neg hk]
      exact ⟨rfl, rfl⟩
  · rw [List.set_eq_of_length_le (not_lt.mp hj)]
    exact ⟨rfl, rfl⟩

theorem Ids_initial (L : Int) (l : List Tasks)
    (hun : ∀ t ∈ l, t.allocated_core = NOT_ALLOCATED) :
    Ids (initialize_cores_offline L) l := by
  intro j hj
  rw [initialize_cores_offline_getD L j hj]
  have e : tasks_on l ((j : Int) + 1) = [] := by
    unfold tasks_on
    rw [List.filter_eq_nil_iff]
    intro t ht hc
    have := of_decide_eq_true hc
    rw [hun t ht] at this
    unfold NOT_ALLOCATED at this
    omega
  rw [e]
  refine ⟨by simp [initial_core], rfl, ?_⟩
  simp [Cores.alloc_ids, initial_core]

/-- The selection loops change no record of allocated tasks. -/
theorem worst_fit_loop_ids_fields (i L : Int) :
    ∀ (n j : Nat) (s : Worst_fit_state) (k : Nat),
      ((worst_fit_loop i L n (j : Int) s).core.getD k default).tasks_alloc_count
        = (s.core.getD k default).tasks_alloc_count ∧
      ((worst_fit_loop i L n (j : Int) s).core.getD k default).tasks_alloc_ids
        = (s.core.getD k default).tasks_alloc_ids := by
  intro n
  induction n with
  | zero =>
    intro j s k
    rw [worst_fit_loop]
    exact ⟨rfl, rfl⟩
  | succ n ih =>
    intro j s k
    obtain ⟨s1, h1, _, hC⟩ := worst_fit_loop_unfold i L n j s
    rw [h1]
    obtain ⟨a, b⟩ := ih (j + 1) s1 k
    rw [a, b]
    rcases hC with h | ⟨_, thr, h⟩
    · rw [h]
      exact ⟨rfl, rfl⟩
    · rw [h]
      exact cores_set_ids_fields s.core j k _ rfl rfl

theorem first_fit_loop_ids_fields (i L : Int) :
    ∀ (n j : Nat) (f : Int) (core : List Cores) (l : List Tasks) (k : Nat),
      ((first_fit_loop i L n (j : Int) f core l).2.1.getD k default).tasks_alloc_count
        = (core.getD k default).tasks_alloc_count ∧
      ((first_fit_loop i L n (j : Int) f core l).2.1.getD k default).tasks_alloc_ids
        = (core.getD k default).tasks_alloc_ids := by
  intro n
  induction n with
  | zero =>
    intro j f core l k
    rw [first_fit_loop]
    exact ⟨rfl, rfl⟩
  | succ n ih =>
    intro j f core l k
    obtain ⟨f1, core1, l1, h1, _, hC⟩ := first_fit_loop_unfold i L n j f core l
    have hstep : (core1.getD k default).tasks_alloc_count
          = (core.getD k default).tasks_alloc_count ∧
        (core1.getD k default).tasks_alloc_ids = (core.getD k default).tasks_alloc_ids := by
      rcases hC with h | ⟨_, thr, h⟩
      · rw [h]
        exact ⟨rfl, rfl⟩
      · rw [h]
        exact cores_set_ids_fields core j k _ rfl rfl
    rcases h1 with h1 | h1
    · rw [h1]
      exact hstep
    · rw [h1]
      obtain ⟨a, b⟩ := ih (j + 1) f1 core1 l1 k
      rw [a, b]
      exact hstep

theorem reset_core_capacities_ids_fields (core : List Cores) (num_cores : Int) (l : List Tasks)
    (criticality idx : Int) (k : Nat) :
    ((reset_core_capacities core num_cores l criticality idx).getD k default).tasks_alloc_count
      = (core.getD k default).tasks_alloc_count ∧
    ((reset_core_capacities core num_cores l criticality idx).getD k default).tasks_alloc_ids
      = (core.getD k default).tasks_alloc_ids := by
  unfold reset_core_capacities
  rcases getD_map_take_append_drop core
    (fun c => { c with remaining_capacity := reset_capacity c l criticality idx })
    num_cores.toNat k with h | h
  · rw [h]
    exact ⟨rfl, rfl⟩
  · rw [h]
    exact ⟨rfl, rfl⟩

theorem select_core_ids_fields (L wfd : Int) (i : Nat) (s : Alloc_state) (k : Nat) :
    ((select_core L wfd (i : Int) s).2.1.getD k default).tasks_alloc_count
      = (s.core.getD k default).tasks_alloc_count ∧
    ((select_core L wfd (i : Int) s).2.1.getD k default).tasks_alloc_ids
      = (s.core.getD k default).tasks_alloc_ids := by
  have key : ∀ core1 : List Cores,
      ((core1.getD k default).tasks_alloc_count = (s.core.getD k default).tasks_alloc_count ∧
        (core1.getD k default).tasks_alloc_ids = (s.core.getD k default).tasks_alloc_ids) →
      (((if (task_at s.tasks_arr (i : Int)).criticality > wfd then
          get_worst_fit_core_idx core1 s.num_cores s.tasks_arr (i : Int) L
        else get_first_fit_core_idx core1 s.num_cores s.tasks_arr (i : Int) L).2.1.getD k
          default).tasks_alloc_count = (s.core.getD k default).tasks_alloc_count ∧
       ((if (task_at s.tasks_arr (i : Int)).criticality > wfd then
          get_worst_fit_core_idx core1 s.num_cores s.tasks_arr (i : Int) L
        else get_first_fit_core_idx core1 s.num_cores s.tasks_arr (i : Int) L).2.1.getD k
          default).tasks_alloc_ids = (s.core.getD k default).tasks_alloc_ids) := by
    intro core1 h1
    split_ifs
    · have h := worst_fit_loop_ids_fields (i : Int) L s.num_cores.toNat 0
        { worst_fit_idx := -1, max_remaining_capacity := -1, core := core1,
          tasks_arr := s.tasks_arr } k
      rw [Nat.cast_zero] at h
      exact ⟨h.1.trans h1.1, h.2.trans h1.2⟩
    · have h := first_fit_loop_ids_fields (i : Int) L s.num_cores.toNat 0 (-1) core1
        s.tasks_arr k
      rw [Nat.cast_zero] at h
      exact ⟨h.1.trans h1.1, h.2.trans h1.2⟩
  unfold select_core
  dsimp only
  apply key
  split_ifs
  · exact reset_core_capacities_ids_fields _ _ _ _ _ _
  · exact ⟨rfl, rfl⟩

/-- Allocating the unallocated task `i` to core `r` appends its number to the record of
the core. -/
theorem Ids_allocate {core : List Cores} {l : List Tasks} (hI : Ids core l)
    (hlen : l.length ≤ MAX_TASKS) {i : Nat} (hi : i < l.length)
    (hun : (l.getD i default).allocated_core = NOT_ALLOCATED) {r : Nat}
    (hrl : r < core.length) (hcn : (core.getD r default).core_no = (r : Int) + 1) :
    Ids (allocate_task_to_core core l (r : Int) (i : Int)).1
      (allocate_task_to_core core l (r : Int) (i : Int)).2 ∧
    ((allocate_task_to_core core l (r : Int) (i : Int)).2.getD i default).allocated_core
      = (r : Int) + 1 := by
  rw [allocate_task_to_core_tasks, allocate_task_to_core_cores, hcn]
  constructor
  · intro j hj
    rw [cores_getD_set core r j hrl]
    obtain ⟨a, b, c⟩ := hI j hj
    by_cases hjr : j = r
    · rw [if_pos hjr]
      rw [← hjr]
      have hperm : (tasks_on (realloc l i ((j : Int) + 1)) ((j : Int) + 1)).Perm
          ({ l.getD i default with allocated_core := (j : Int) + 1 }
            :: tasks_on l ((j : Int) + 1)) := by
        unfold tasks_on realloc
        apply filter_set_pos l i hi
        · rw [hun]
          simp only [decide_eq_false_iff_not]
          unfold NOT_ALLOCATED
          omega
        · simp
      have hlen2 : (tasks_on (realloc l i ((j : Int) + 1)) ((j : Int) + 1)).length
          = (tasks_on l ((j : Int) + 1)).length + 1 := by
        rw [hperm.length_eq]
        rfl
      have hlt : (tasks_on l ((j : Int) + 1)).length < MAX_TASKS := by
        have h1 : (tasks_on (realloc l i ((j : Int) + 1)) ((j : Int) + 1)).length
            ≤ (realloc l i ((j : Int) + 1)).length := List.length_filter_le _ _
        rw [realloc_length] at h1
        omega
      have e1 : (((tasks_on l ((j : Int) + 1)).length : Int) + 1).toNat
          = (tasks_on l ((j : Int) + 1)).length + 1 := by omega
      have e2 : (((tasks_on l ((j : Int) + 1)).length : Int) + 1 - 1).toNat
          = (tasks_on l ((j : Int) + 1)).length := by omega
      unfold Cores.alloc_ids at c ⊢
      rw [b] at c
      simp only [Int.toNat_ofNat] at c
      dsimp only
      rw [b, e1, e2]
      refine ⟨?_, ?_, ?_⟩
      · rw [List.length_set]
        exact a
      · rw [hlen2]
        push_cast
        ring
      · rw [take_set_succ _ _ _ (by rw [a]; exact hlt)]
        exact (List.perm_append_singleton _ _).trans
          ((List.Perm.cons _ c).trans (hperm.map Tasks.task_no).symm)
    · rw [if_neg hjr]
      have e : tasks_on (realloc l i ((r : Int) + 1)) ((j : Int) + 1)
          = tasks_on l ((j : Int) + 1) := by
        unfold tasks_on realloc
        apply filter_set_neg
        · rw [hun]
          simp only [decide_eq_false_iff_not]
          unfold NOT_ALLOCATED
          omega
        · simp only [decide_eq_false_iff_not]
          omega
      rw [e]
      exact ⟨a, b, c⟩
  · rw [realloc_getD l i hi, if_pos rfl]

theorem mark_core_type_ids_fields (b : Bool) (core : List Cores) (idx : Int) (k : Nat) :
    ((mark_core_type b core idx).getD k default).tasks_alloc_count
      = (core.getD k default).tasks_alloc_count ∧
    ((mark_core_type b core idx).getD k default).tasks_alloc_ids
      = (core.getD k default).tasks_alloc_ids := by
  unfold mark_core_type
  cases b with
  | false => exact ⟨rfl, rfl⟩
  | true =>
    simp only [if_true]
    exact cores_set_ids_fields core idx.toNat k _ rfl rfl

/-- The part of `place_task` that follows the choice of core `m`, on the records of
allocated tasks. -/
theorem place_ids_on (lpd : Bool) {i m : Nat} {rc : List Cores} {rt : List Tasks}
    (hI : Ids rc rt) (hlen : rt.length ≤ MAX_TASKS) (hi : i < rt.length)
    (hun : (rt.getD i default).allocated_core = NOT_ALLOCATED)
    (hml : m < rc.length) (hcn : (rc.getD m default).core_no = (m : Int) + 1) :
    Ids (mark_core_type lpd (allocate_task_to_core rc rt (m : Int) (i : Int)).1 (m : Int))
      (allocate_task_to_core rc rt (m : Int) (i : Int)).2 ∧
    ((allocate_task_to_core rc rt (m : Int) (i : Int)).2.getD i default).allocated_core
      ≠ NOT_ALLOCATED := by
  obtain ⟨h1, h2⟩ := Ids_allocate hI hlen hi hun hml hcn
  refine ⟨Ids_of_fields h1 (fun k => mark_core_type_ids_fields lpd _ _ k), ?_⟩
  rw [h2]
  unfold NOT_ALLOCATED
  omega

/-- One call of `place_task` that returns normally keeps the records of allocated tasks
and allocates task `i`. -/
theorem place_task_ids {L : Int} (lpd : Bool) (wfd : Int) {i : Nat} {s s' : Alloc_state}
    (hS : SInv L s) (hI : Ids s.core s.tasks_arr) (hlen : s.tasks_arr.length ≤ MAX_TASKS)
    (hi : i < s.tasks_arr.length)
    (hun : (s.tasks_arr.getD i default).allocated_core = NOT_ALLOCATED)
    (h : place_task lpd L wfd (i : Int) s = Except.ok s')
    (hle : s'.num_cores ≤ (MAX_CORES : Int)) :
    Ids s'.core s'.tasks_arr ∧
    (s'.tasks_arr.getD i default).allocated_core ≠ NOT_ALLOCATED := by
  unfold place_task at h
  simp only [] at h
  have hI2 : ∀ hve : vd_equiv s.tasks_arr (select_core L wfd (i : Int) s).2.2,
      Ids (select_core L wfd (i : Int) s).2.1 (select_core L wfd (i : Int) s).2.2 :=
    fun hve => Ids_vd_equiv hve (Ids_of_fields hI (select_core_ids_fields L wfd i s))
  by_cases c1 : (select_core L wfd (i : Int) s).1 ≥ 0 ∧
      (select_core L wfd (i : Int) s).1 < s.num_cores
  · rw [if_pos c1] at h
    have h' := Except.ok.inj h
    have hnc : s.num_cores ≤ (MAX_CORES : Int) := by
      rw [← h'] at hle
      exact hle
    obtain ⟨hve, hInv2, _⟩ := select_core_inv wfd hS hnc hi hun
    obtain ⟨m, hm⟩ := Int.eq_ofNat_of_zero_le c1.1
    rw [hm] at h' c1
    have hm20 : m < MAX_CORES := by
      have := c1.2
      omega
    obtain ⟨hi', hun'⟩ := cand_vd_equiv hve hi hun
    rw [← h']
    exact place_ids_on lpd (hI2 hve) (by rw [vd_equiv_length hve]; exact hlen) hi' hun'
      (by rw [hInv2.len]; exact hm20) (hInv2.core_no m hm20)
  · rw [if_neg c1] at h
    by_cases c2 : s.num_cores + 1 > (MAX_CORES : Int)
    · rw [if_pos c2] at h
      cases h
    · rw [if_neg c2] at h
      have h' := Except.ok.inj h
      have hnc1 : s.num_cores + 1 ≤ (MAX_CORES : Int) := not_lt.mp c2
      have hnc : s.num_cores ≤ (MAX_CORES : Int) := by omega
      obtain ⟨hve, hInv2, _⟩ := select_core_inv wfd hS hnc hi hun
      obtain ⟨m, hm⟩ := Int.eq_ofNat_of_zero_le hS.nc0
      have hidx : s.num_cores + 1 - 1 = (m : Int) := by omega
      rw [hidx] at h'
      have hmt : ((m : Int)).toNat = m := by omega
      rw [hmt, core_at_eq, hmt] at h'
      have hm20 : m < MAX_CORES := by omega
      have hml : m < (select_core L wfd (i : Int) s).2.1.length := by
        rw [hInv2.len]
        exact hm20
      obtain ⟨hi', hun'⟩ := cand_vd_equiv hve hi hun
      rw [← h']
      refine place_ids_on lpd
        (Ids_of_fields (hI2 hve) (fun k => cores_set_ids_fields _ m k _ rfl rfl))
        (by rw [vd_equiv_length hve]; exact hlen) hi' hun'
        (by rw [List.length_set]; exact hml) ?_
      rw [cores_getD_set _ m m hml, if_pos rfl]
      exact hInv2.core_no m hm20

/-- The low-period loop keeps the records of allocated tasks. -/
theorem lpd_alloc_loop_ids {L : Int} (wfd : Int) :
    ∀ (n i : Nat) (s s' : Alloc_state), SInv L s → Ids s.core s.tasks_arr →
      s.tasks_arr.length ≤ MAX_TASKS →
      (∀ k : Nat, i ≤ k → k < s.tasks_arr.length →
        (s.tasks_arr.getD k default).allocated_core = NOT_ALLOCATED) →
      i + n ≤ s.tasks_arr.length →
      lpd_alloc_loop L wfd n (i : Int) s = Except.ok s' →
      s'.num_cores ≤ (MAX_CORES : Int) →
      Ids s'.core s'.tasks_arr := by
  intro n
  induction n with
  | zero =>
    intro i s s' _ hI _ _ _ h _
    rw [lpd_alloc_loop] at h
    rw [← Except.ok.inj h]
    exact hI
  | succ n ih =>
    intro i s s' hS hI hl hun hlen h hle
    rw [lpd_alloc_loop] at h
    have hcast : ((i : Int) + 1) = ((i + 1 : Nat) : Int) := by push_cast; ring
    rw [hcast] at h
    split_ifs at h
    · cases hp : place_task true L wfd (i : Int) s with
      | error e =>
        rw [hp] at h
        cases h
      | ok s1 =>
        rw [hp] at h
        have hmono := lpd_alloc_loop_mono L wfd n _ s1 s' h
        obtain ⟨q1, _, q3, q4, _⟩ := place_task_inv true wfd hS (by omega)
          (hun i (le_refl _) (by omega)) hp (by omega)
        obtain ⟨p1, _⟩ := place_task_ids true wfd hS hI hl (by omega)
          (hun i (le_refl _) (by omega)) hp (by omega)
        have hl1 := stat_equiv_length q3
        exact ih (i + 1) s1 s' q1 p1 (by omega)
          (by
            intro k hk1 hk2
            rw [q4 k (by omega)]
            exact hun k (by omega) (by omega))
          (by omega) h hle
    · exact ih (i + 1) s s' hS hI hl (fun k hk1 hk2 => hun k (by omega) hk2) (by omega) h hle

/-- The loop over the remaining tasks keeps the invariant of the allocator state and the
records of allocated tasks, and leaves no visited task unallocated. -/
theorem remaining_alloc_loop_ids {L : Int} (wfd : Int) :
    ∀ (n i : Nat) (s s' : Alloc_state), SInv L s → Ids s.core s.tasks_arr →
      s.tasks_arr.length ≤ MAX_TASKS →
      (∀ k : Nat, k < i → (s.tasks_arr.getD k default).allocated_core ≠ NOT_ALLOCATED) →
      i + n ≤ s.tasks_arr.length →
      remaining_alloc_loop L wfd n (i : Int) s = Except.ok s' →
      s'.num_cores ≤ (MAX_CORES : Int) →
      Ids s'.core s'.tasks_arr ∧
      ∀ k : Nat, k < i + n → (s'.tasks_arr.getD k default).allocated_core ≠ NOT_ALLOCATED := by
  intro n
  induction n with
  | zero =>
    intro i s s' _ hI _ hall _ h _
    rw [remaining_alloc_loop] at h
    rw [← Except.ok.inj h]
    exact ⟨hI, hall⟩
  | succ n ih =>
    intro i s s' hS hI hl hall hlen h hle
    rw [remaining_alloc_loop] at h
    have hcast : ((i : Int) + 1) = ((i + 1 : Nat) : Int) := by push_cast; ring
    have hadd : i + (n + 1) = i + 1 + n := by omega
    rw [hcast] at h
    rw [hadd]
    split_ifs at h with hun
    · cases hp : place_task false L wfd (i : Int) s with
      | error e =>
        rw [hp] at h
        cases h
      | ok s1 =>
        rw [hp] at h
        have hmono := remaining_alloc_loop_mono L wfd n _ s1 s' h
        rw [task_at_natCast] at hun
        obtain ⟨q1, _, q3, q4, _⟩ := place_task_inv false wfd hS (by omega) hun hp (by omega)
        obtain ⟨p1, p2⟩ := place_task_ids false wfd hS hI hl (by omega) hun hp (by omega)
        have hl1 := stat_equiv_length q3
        exact ih (i + 1) s1 s' q1 p1 (by omega)
          (by
            intro k hk
            by_cases hki : k = i
            · rw [hki]
              exact p2
            · rw [q4 k hki]
              exact hall k (by omega))
          (by omega) h hle
    · rw [task_at_natCast] at hun
      exact ih (i + 1) s s' hS hI hl
        (by
          intro k hk
          by_cases hki : k = i
          · rw [hki]
            exact hun
          · exact hall k (by omega))
        (by omega) h hle

theorem csum_eq_sum_tasks_on (l : List Tasks) (c : Int) (f : Tasks → ℚ) :
    csum l (fun t => t.allocated_core = c) f = ((tasks_on l c).map f).sum := by
  induction l with
  | nil => rfl
  | cons t l ih =>
    rw [csum_cons, ih]
    unfold tasks_on
    rw [List.filter_cons]
    by_cases h : t.allocated_core = c
    · rw [if_pos h, if_pos (decide_eq_true h), List.map_cons, List.sum_cons]
    · rw [if_neg h, if_neg (by simpa using h), zero_add]

/-- A successful run of the allocator with at most `MAX_CORES` cores on at most `MAX_TASKS`
tasks ends in a state that satisfies the invariants and has no unallocated task. -/
theorem offline_task_allocator_ids {L : Int} {l : List Tasks} {min_cores : Int}
    (hun : ∀ t ∈ l, t.allocated_core = NOT_ALLOCATED) (hWF : WF L l)
    (hlen : l.length ≤ MAX_TASKS) {s : Alloc_state}
    (h : offline_task_allocator l min_cores L = Except.ok s)
    (hle : s.num_cores ≤ (MAX_CORES : Int)) :
    SInv L s ∧ Ids s.core s.tasks_arr ∧
    ∀ k : Nat, k < s.tasks_arr.length →
      (s.tasks_arr.getD k default).allocated_core ≠ NOT_ALLOCATED := by
  obtain ⟨sA, hA, hB⟩ := offline_task_allocator_ok h
  have hB' := hB
  unfold remaining_phase_steps at hB
  simp only [] at hB
  have hmono : (if sA.num_cores < min_cores then min_cores else sA.num_cores) ≤ s.num_cores :=
    remaining_alloc_loop_mono _ _ _ _ _ _ hB
  have hleA : sA.num_cores ≤ (MAX_CORES : Int) := by
    split_ifs at hmono <;> omega
  obtain ⟨a1, a2, _⟩ := lpd_phase_steps_inv hun hWF l.length (le_refl _) hA hleA
  have hlA := stat_equiv_length a2
  have hIA : Ids sA.core sA.tasks_arr := by
    unfold lpd_phase lpd_phase_steps at hA
    simp only [] at hA
    split_ifs at hA with hpos
    · have hS0 : SInv L (lpd_start l L) := by
        unfold lpd_start
        apply SInv_initial L l _ _ hun hWF
        exact Int.ceil_nonneg (le_of_lt hpos)
      exact lpd_alloc_loop_ids _ l.length 0 (lpd_start l L) sA hS0 (Ids_initial L l hun) hlen
        (fun k _ hk => hun _ (getD_mem hk)) (by simp [lpd_start]) (by simpa using hA) hleA
    · rw [← Except.ok.inj hA]
      exact Ids_initial L l hun
  have hS0 : SInv L
      { sA with num_cores := if sA.num_cores < min_cores then min_cores else sA.num_cores } := by
    refine ⟨a1.inv, a1.wf, ?_, ?_⟩
    · show 0 ≤ (if sA.num_cores < min_cores then min_cores else sA.num_cores)
      have := a1.nc0
      split_ifs <;> omega
    · intro τ hτ
      rcases a1.range τ hτ with h1 | h1
      · exact Or.inl h1
      · right
        refine ⟨h1.1, ?_⟩
        show τ.allocated_core ≤ (if sA.num_cores < min_cores then min_cores else sA.num_cores)
        split_ifs <;> omega
  obtain ⟨b1, _, _, _⟩ := remaining_phase_steps_inv min_cores a1 hlA l.length (le_refl _) hB' hle
  obtain ⟨r1, r2⟩ := remaining_alloc_loop_ids _ l.length 0 _ s hS0 hIA
    (by show sA.tasks_arr.length ≤ MAX_TASKS; omega) (fun k hk => absurd hk (Nat.not_lt_zero k))
    (by show 0 + l.length ≤ sA.tasks_arr.length; omega) (by simpa using hB) hle
  refine ⟨b1, r1, fun k hk => r2 k ?_⟩
  have := stat_equiv_length (remaining_phase_steps_inv min_cores a1 hlA l.length (le_refl _)
    hB' hle).2.1
  omega

/-- Values of the rounding to `double`: `0.1`, a value below the least subnormal, a tie
between two subnormals, ties between neighbours above `2 ^ 53`, the largest `double` and
the overflow threshold. -/
theorem round64_values :
    Dbl.round64 (1 / 10) = Dbl.fin (3602879701896397 / 36028797018963968) ∧
    Dbl.round64 (-1 / 10) = Dbl.fin (-3602879701896397 / 36028797018963968) ∧
    Dbl.round64 (1 / 3) = Dbl.fin (6004799503160661 / 18014398509481984) ∧
    Dbl.round64 (1 / 2 ^ 1075) = Dbl.fin 0 ∧
    Dbl.round64 (3 / 2 ^ 1075) = Dbl.fin (1 / 2 ^ 1073) ∧
    Dbl.round64 9007199254740993 = Dbl.fin 9007199254740992 ∧
    Dbl.round64 9007199254740995 = Dbl.fin 9007199254740996 ∧
    Dbl.round64 (2 ^ 1024 - 2 ^ 970 - 1) = Dbl.fin (2 ^ 1024 - 2 ^ 971) ∧
    Dbl.round64 (2 ^ 1024 - 2 ^ 970) = Dbl.pinf ∧
    Dbl.fsub (Dbl.fin 1) (Dbl.round64 (8 / 10))
      = Dbl.fin (3602879701896396 / 18014398509481984) := by
  set_option maxRecDepth 8192 in decide!

theorem Dbl.le_false_of_lt_true {a b : Dbl} (h : Dbl.lt a b = true) : Dbl.le b a = false := by
  cases a <;> cases b <;> simp [Dbl.lt, Dbl.le] at h ⊢
  exact h

theorem Dbl.lt_true_of_le_false {a : Dbl} (b : ℚ) (ha : a ≠ Dbl.nan)
    (h : Dbl.le a (Dbl.fin b) = false) : Dbl.lt (Dbl.fin b) a = true := by
  cases a <;> simp [Dbl.lt, Dbl.le] at h ha ⊢
  exact h

/-- Outcome of the threshold scan in `double` arithmetic started at `n`: either no threshold
in `1..n` passes and the array is untouched, or the largest passing threshold is returned
with the virtual deadlines written for it. -/
theorem edfvd_scan_rounded_spec (tasks_arr : List Tasks)
    (max_criticality core_no new_task_no : Int) (n : Nat) :
    ((Ieee.edfvd_scan tasks_arr max_criticality core_no new_task_no n).1 = -73 ∧
      (Ieee.edfvd_scan tasks_arr max_criticality core_no new_task_no n).2 = tasks_arr ∧
      ∀ t : Int, 1 ≤ t → t ≤ n →
        Ieee.edfvd_condition tasks_arr max_criticality core_no new_task_no t = false) ∨
    (∃ t : Int, 1 ≤ t ∧ t ≤ n ∧
      (Ieee.edfvd_scan tasks_arr max_criticality core_no new_task_no n).1 = t ∧
      Ieee.edfvd_condition tasks_arr max_criticality core_no new_task_no t = true ∧
      (∀ u : Int, t < u → u ≤ n →
        Ieee.edfvd_condition tasks_arr max_criticality core_no new_task_no u = false) ∧
      (Ieee.edfvd_scan tasks_arr max_criticality core_no new_task_no n).2 =
        Ieee.set_deadlines_edfvd tasks_arr core_no new_task_no t
          (Ieee.x_mid tasks_arr max_criticality core_no new_task_no t)) := by
  induction n with
  | zero =>
    left
    refine ⟨rfl, rfl, ?_⟩
    intro t h1 h2
    simp at h2
    omega
  | succ n ih =>
    by_cases hc : Ieee.edfvd_condition tasks_arr max_criticality core_no new_task_no
        ((n : Int) + 1) = true
    · right
      have hc2 := hc
      simp only [Ieee.edfvd_condition, Bool.and_eq_true] at hc2
      refine ⟨(n : Int) + 1, by omega, by push_cast; omega, ?_, hc, ?_, ?_⟩
      · simp [Ieee.edfvd_scan, hc2.1, hc2.2]
      · intro u h1 h2
        push_cast at h2
        omega
      · simp [Ieee.edfvd_scan, hc2.1, hc2.2]
    · have hstep : Ieee.edfvd_scan tasks_arr max_criticality core_no new_task_no (n + 1)
          = Ieee.edfvd_scan tasks_arr max_criticality core_no new_task_no n := by
        simp only [Ieee.edfvd_condition, Bool.and_eq_true, not_and] at hc
        by_cases h1 : Dbl.lt (Ieee.calculate_utilization_ull tasks_arr 1 ((n : Int) + 1) core_no
            new_task_no) (Dbl.fin 1) = true
        · simp [Ieee.edfvd_scan, h1, hc h1]
        · simp [Ieee.edfvd_scan, h1]
      have hcf : Ieee.edfvd_condition tasks_arr max_criticality core_no new_task_no
          ((n : Int) + 1) = false := by
        simpa using hc
      rw [hstep]
      rcases ih with ⟨h1, h2, h3⟩ | ⟨t, h1, h2, h3, h4, h5, h6⟩
      · left
        refine ⟨h1, h2, ?_⟩
        intro t ht1 ht2
        push_cast at ht2
        by_cases hEq : t = (n : Int) + 1
        · rw [hEq]; exact hcf
        · exact h3 t ht1 (by omega)
      · right
        refine ⟨t, h1, by push_cast; omega, h3, h4, ?_, h6⟩
        intro u hu1 hu2
        push_cast at hu2
        by_cases hEq : u = (n : Int) + 1
        · rw [hEq]; exact hcf
        · exact h5 u hu1 (by omega)

/-- Counterexample to C1 as stated.  On `unit_sum_set` the quotients `wcet / period` of the
core and the candidate sum to 1, and the utilisations stored in `double` sum to less than 1
as real numbers; accumulated in `double` in array order the sum is `1 + 2 ^ -52`, the test
`<= 1.0` fails, and the check returns `-73` and writes no virtual deadline.  The same happens
for `28/50 + 17/50 + 5/50`. -/
theorem edfvd_pure_edf_rounding :
    calculate_utilization_ull unit_sum_exact 1 1 1 5 = 1 ∧
    calculate_utilization_ull unit_sum_set 1 1 1 5 = 72057594037927935 / 72057594037927936 ∧
    Ieee.calculate_utilization_ull unit_sum_set 1 1 1 5
      = Dbl.fin (4503599627370497 / 4503599627370496) ∧
    Ieee.edfvd_schedulability_check unit_sum_set 1 1 5 = (-73, unit_sum_set) ∧
    calculate_utilization_ull unit_sum_triple_exact 1 1 1 3 = 1 ∧
    Ieee.calculate_utilization_ull unit_sum_triple 1 1 1 3
      = Dbl.fin (4503599627370497 / 4503599627370496) ∧
    Ieee.edfvd_schedulability_check unit_sum_triple 1 1 3 = (-73, unit_sum_triple) := by
  decide!

/-- C1 (amended): when the own-level utilisation of the union, as
`calculate_utilization_ull` accumulates it in `double` arithmetic, is at most `1.0`, the
check returns `max_criticality`, every task of the union gets `virtual_deadline = deadline`,
and nothing else in the array changes. -/
theorem edfvd_pure_edf_path_rounded (tasks_arr : List Tasks)
    (max_criticality core_no new_task_no : Int)
    (h : Dbl.le (Ieee.calculate_utilization_ull tasks_arr 1 max_criticality core_no new_task_no)
      (Dbl.fin 1) = true) :
    (Ieee.edfvd_schedulability_check tasks_arr max_criticality core_no new_task_no).1
      = max_criticality ∧
    (Ieee.edfvd_schedulability_check tasks_arr max_criticality core_no new_task_no).2.length
      = tasks_arr.length ∧
    ∀ (i : Nat) (t : Tasks), tasks_arr.get? i = some t →
      (in_union t core_no new_task_no →
        (Ieee.edfvd_schedulability_check tasks_arr max_criticality core_no new_task_no).2.get? i
          = some { t with virtual_deadline := Dbl.fin t.deadline }) ∧
      (¬ in_union t core_no new_task_no →
        (Ieee.edfvd_schedulability_check tasks_arr max_criticality core_no new_task_no).2.get? i
          = some t) := by
  unfold Ieee.edfvd_schedulability_check
  rw [if_pos h]
  refine ⟨rfl, set_deadlines_edf_length _ _ _, ?_⟩
  intro i t hi
  simp only [set_deadlines_edf, List.get?_eq_getElem?, List.getElem?_map] at hi ⊢
  rw [hi]
  constructor
  · intro hu
    simp [hu]
  · intro hu
    simp [hu]

/-- Witness for C1: the single task with period 10 and wcet 3 as candidate for core 1; its
utilisation is the `double` nearest to `3/10`. -/
theorem edfvd_pure_edf_path_rounded_witness :
    Ieee.calculate_utilization_ull single_task_doubles 1 1 1 1
      = Dbl.fin (5404319552844595 / 18014398509481984) ∧
    (Ieee.edfvd_schedulability_check single_task_doubles 1 1 1).1 = 1 ∧
    (Ieee.edfvd_schedulability_check single_task_doubles 1 1 1).2.get? 0
      = some { Ieee.fetch_task 0 0 10 10 1 [3] 1 with virtual_deadline := Dbl.fin 10 } :=
  ⟨by decide!, (edfvd_pure_edf_path_rounded single_task_doubles 1 1 1 (by decide!)).1,
    ((edfvd_pure_edf_path_rounded single_task_doubles 1 1 1 (by decide!)).2.2 0 _ rfl).1
      (by decide!)⟩

/-- Counterexample to C2 as stated.  On `equal_bounds_set` the own-level utilisation is above
1 and the check returns threshold 1, although threshold 2 passes both parts of the condition
in real arithmetic (`x_lb = x_ub = 1/2`) and also in exact arithmetic on the stored
`double`s: in `double` arithmetic `x_lb` is `1/2 + 2 ^ -53` and `x_ub` is `1/2`.  The same
happens on `equal_bounds_triple`, where `x_lb` is `1/2` and `x_ub` is `1/2 - 2 ^ -53`. -/
theorem edfvd_vd_path_rounding :
    Dbl.lt (Dbl.fin 1) (Ieee.calculate_utilization_ull equal_bounds_set 1 3 1 3) = true ∧
    (Ieee.edfvd_schedulability_check equal_bounds_set 3 1 3).1 = 1 ∧
    Ieee.x_lb equal_bounds_set 3 1 3 2 = Dbl.fin (4503599627370497 / 9007199254740992) ∧
    Ieee.x_ub equal_bounds_set 3 1 3 2 = Dbl.fin (1 / 2) ∧
    Ieee.edfvd_condition equal_bounds_set 3 1 3 2 = false ∧
    edfvd_condition equal_bounds_set 3 1 3 2 = true ∧
    edfvd_condition equal_bounds_exact 3 1 3 2 = true ∧
    x_lb equal_bounds_exact 3 1 3 2 = Dbl.fin (1 / 2) ∧
    x_ub equal_bounds_exact 3 1 3 2 = Dbl.fin (1 / 2) ∧
    (edfvd_schedulability_check equal_bounds_exact 3 1 3).1 = 2 ∧
    (Ieee.edfvd_schedulability_check equal_bounds_triple 3 1 3).1 = 1 ∧
    Ieee.x_lb equal_bounds_triple 3 1 3 2 = Dbl.fin (1 / 2) ∧
    Ieee.x_ub equal_bounds_triple 3 1 3 2 = Dbl.fin (4503599627370495 / 9007199254740992) ∧
    edfvd_condition equal_bounds_triple_exact 3 1 3 2 = true ∧
    (edfvd_schedulability_check equal_bounds_triple_exact 3 1 3).1 = 2 := by
  decide!

/-- C2 (amended): with the sums, the bounds `x_lb` and `x_ub`, the factor `x` and the
product `x * deadline` as the code computes them in `double` arithmetic: when the own-level
utilisation of the union is above `1.0` and the check returns `t` in
`1..max_criticality-1`, then `t` passes both parts of the EDF-VD condition, no larger
threshold of that range does, every task of the union with criticality above `t` gets
`virtual_deadline = x * deadline` for the midpoint `x` of the bounds, every other task of
the union gets `virtual_deadline = deadline`, and the tasks outside the union are
unchanged. -/
theorem edfvd_vd_path_rounded (tasks_arr : List Tasks)
    (max_criticality core_no new_task_no : Int) (t : Int)
    (hU : Dbl.lt (Dbl.fin 1)
      (Ieee.calculate_utilization_ull tasks_arr 1 max_criticality core_no new_task_no) = true)
    (hret : (Ieee.edfvd_schedulability_check tasks_arr max_criticality core_no new_task_no).1
      = t)
    (ht : 1 ≤ t ∧ t ≤ max_criticality - 1) :
    (Dbl.lt (Ieee.calculate_utilization_ull tasks_arr 1 t core_no new_task_no) (Dbl.fin 1)
        = true ∧
      Dbl.le (Ieee.x_lb tasks_arr max_criticality core_no new_task_no t)
        (Ieee.x_ub tasks_arr max_criticality core_no new_task_no t) = true) ∧
    (∀ u : Int, t < u → u ≤ max_criticality - 1 →
      ¬ (Dbl.lt (Ieee.calculate_utilization_ull tasks_arr 1 u core_no new_task_no) (Dbl.fin 1)
          = true ∧
        Dbl.le (Ieee.x_lb tasks_arr max_criticality core_no new_task_no u)
          (Ieee.x_ub tasks_arr max_criticality core_no new_task_no u) = true)) ∧
    ∀ (i : Nat) (tk : Tasks), tasks_arr.get? i = some tk →
      (in_union tk core_no new_task_no → t < tk.criticality →
        (Ieee.edfvd_schedulability_check tasks_arr max_criticality core_no new_task_no).2.get? i
          = some { tk with virtual_deadline := (Dbl.fmul
              (Dbl.fdiv (Dbl.fadd (Ieee.x_lb tasks_arr max_criticality core_no new_task_no t)
                (Ieee.x_ub tasks_arr max_criticality core_no new_task_no t)) (Dbl.fin 2))
              (Dbl.fin tk.deadline)) }) ∧
      (in_union tk core_no new_task_no → tk.criticality ≤ t →
        (Ieee.edfvd_schedulability_check tasks_arr max_criticality core_no new_task_no).2.get? i
          = some { tk with virtual_deadline := Dbl.fin tk.deadline }) ∧
      (¬ in_union tk core_no new_task_no →
        (Ieee.edfvd_schedulability_check tasks_arr max_criticality core_no new_task_no).2.get? i
          = some tk) := by
  have hnot : ¬ Dbl.le
      (Ieee.calculate_utilization_ull tasks_arr 1 max_criticality core_no new_task_no)
      (Dbl.fin 1) = true := by
    rw [Dbl.le_false_of_lt_true hU]
    exact Bool.false_ne_true
  unfold Ieee.edfvd_schedulability_check at hret ⊢
  rw [if_neg hnot] at hret ⊢
  rcases edfvd_scan_rounded_spec tasks_arr max_criticality core_no new_task_no
    (max_criticality - 1).toNat with ⟨h1, _, _⟩ | ⟨s, hs1, hs2, hs3, hs4, hs5, hs6⟩
  · rw [h1] at hret
    omega
  · have hst : s = t := by rw [← hs3, hret]
    subst hst
    simp only [Ieee.edfvd_condition, Bool.and_eq_true] at hs4
    refine ⟨hs4, ?_, ?_⟩
    · intro u hu1 hu2 hcon
      have := hs5 u hu1 (by omega)
      simp [Ieee.edfvd_condition, hcon.1, hcon.2] at this
    · intro i tk hi
      rw [hs6]
      simp only [Ieee.set_deadlines_edfvd, Ieee.x_mid, List.get?_eq_getElem?,
        List.getElem?_map] at hi ⊢
      rw [hi]
      refine ⟨?_, ?_, ?_⟩
      · intro hu hc
        have : ¬ tk.criticality ≤ s := by omega
        simp [hu, this]
      · intro hu hc
        simp [hu, hc]
      · intro hu
        simp [hu]

/-- Witness for C2: `T2` is admitted next to `T1` at threshold 1; the bounds are the
`double`s nearest to `2/5` and `4/5`, and `T1` gets the virtual deadline `x * 10` for the
rounded midpoint `x`. -/
theorem edfvd_vd_path_rounded_witness :
    Ieee.calculate_utilization_ull feasible_vd_doubles 1 2 1 2
      = Dbl.fin (2476979795053773 / 2251799813685248) ∧
    (Ieee.edfvd_schedulability_check feasible_vd_doubles 2 1 2).1 = 1 ∧
    Ieee.x_lb feasible_vd_doubles 2 1 2 1 = Dbl.fin (3602879701896397 / 9007199254740992) ∧
    Ieee.x_ub feasible_vd_doubles 2 1 2 1 = Dbl.fin (3602879701896397 / 4503599627370496) ∧
    (Ieee.edfvd_schedulability_check feasible_vd_doubles 2 1 2).2.map Tasks.virtual_deadline
      = [Dbl.fin (6755399441055745 / 1125899906842624), Dbl.fin 10] ∧
    (Dbl.lt (Ieee.calculate_utilization_ull feasible_vd_doubles 1 1 1 2) (Dbl.fin 1) = true ∧
      Dbl.le (Ieee.x_lb feasible_vd_doubles 2 1 2 1) (Ieee.x_ub feasible_vd_doubles 2 1 2 1)
        = true) :=
  ⟨by decide!, by decide!, by decide!, by decide!, by decide!,
    (edfvd_vd_path_rounded feasible_vd_doubles 2 1 2 1 (by decide!) (by decide!)
      (by decide!)).1⟩

/-- Counterexample to C3 as stated.  On `equal_bounds_pair` the check returns `-73` although
threshold 1 passes both parts of the condition in real arithmetic (`x_lb = x_ub = 1/2`) and
in exact arithmetic on the stored `double`s: in `double` arithmetic `x_lb` is
`1/2 + 2 ^ -53` and `x_ub` is `1/2`.  On `unit_sum_forty` the check returns `-73` although
the quotients `wcet / period` sum to 1 and the stored `double`s to less than 1. -/
theorem edfvd_infeasible_rounding :
    (Ieee.edfvd_schedulability_check equal_bounds_pair 2 1 3).1 = -73 ∧
    Ieee.x_lb equal_bounds_pair 2 1 3 1 = Dbl.fin (4503599627370497 / 9007199254740992) ∧
    Ieee.x_ub equal_bounds_pair 2 1 3 1 = Dbl.fin (1 / 2) ∧
    calculate_utilization_ull equal_bounds_pair 1 1 1 3 < 1 ∧
    edfvd_condition equal_bounds_pair 2 1 3 1 = true ∧
    calculate_utilization_ull equal_bounds_pair_exact 1 1 1 3 < 1 ∧
    x_lb equal_bounds_pair_exact 2 1 3 1 = Dbl.fin (1 / 2) ∧
    x_ub equal_bounds_pair_exact 2 1 3 1 = Dbl.fin (1 / 2) ∧
    edfvd_condition equal_bounds_pair_exact 2 1 3 1 = true ∧
    (Ieee.edfvd_schedulability_check unit_sum_forty 1 1 5).1 = -73 ∧
    calculate_utilization_ull unit_sum_forty 1 1 1 5 = 72057594037927935 / 72057594037927936 ∧
    calculate_utilization_ull unit_sum_forty_exact 1 1 1 5 = 1 := by
  decide!

/-- C3 (amended): with the sums and the bounds as the code computes them in `double`
arithmetic, for a level count other than the sentinel itself and an own-level utilisation of
the union that is not NaN, the check returns `-73` exactly when that utilisation is above
`1.0` and no threshold in `1..max_criticality-1` passes both parts of the EDF-VD
condition. -/
theorem edfvd_infeasible_iff_rounded (tasks_arr : List Tasks)
    (max_criticality core_no new_task_no : Int) (hL : max_criticality ≠ -73)
    (hnan : Ieee.calculate_utilization_ull tasks_arr 1 max_criticality core_no new_task_no
      ≠ Dbl.nan) :
    (Ieee.edfvd_schedulability_check tasks_arr max_criticality core_no new_task_no).1 = -73 ↔
      (Dbl.lt (Dbl.fin 1)
          (Ieee.calculate_utilization_ull tasks_arr 1 max_criticality core_no new_task_no)
          = true ∧
        ∀ t : Int, 1 ≤ t → t ≤ max_criticality - 1 →
          ¬ (Dbl.lt (Ieee.calculate_utilization_ull tasks_arr 1 t core_no new_task_no)
              (Dbl.fin 1) = true ∧
            Dbl.le (Ieee.x_lb tasks_arr max_criticality core_no new_task_no t)
              (Ieee.x_ub tasks_arr max_criticality core_no new_task_no t) = true)) := by
  unfold Ieee.edfvd_schedulability_check
  by_cases hU : Dbl.le
      (Ieee.calculate_utilization_ull tasks_arr 1 max_criticality core_no new_task_no)
      (Dbl.fin 1) = true
  · rw [if_pos hU]
    constructor
    · intro h
      exact absurd h hL
    · intro h
      rw [Dbl.le_false_of_lt_true h.1] at hU
      exact absurd hU Bool.false_ne_true
  · rw [if_neg hU]
    have hlt := Dbl.lt_true_of_le_false 1 hnan (by simpa using hU)
    rcases edfvd_scan_rounded_spec tasks_arr max_criticality core_no new_task_no
      (max_criticality - 1).toNat with ⟨h1, _, h3⟩ | ⟨s, hs1, hs2, hs3, hs4, _, _⟩
    · constructor
      · intro _
        refine ⟨hlt, ?_⟩
        intro t ht1 ht2 hcon
        have := h3 t ht1 (by omega)
        simp [Ieee.edfvd_condition, hcon.1, hcon.2] at this
      · intro _
        exact h1
    · constructor
      · intro h
        rw [hs3] at h
        omega
      · intro h
        simp only [Ieee.edfvd_condition, Bool.and_eq_true] at hs4
        exact absurd hs4 (h.2 s hs1 (by omega))

/-- Witness for C3: `T2` cannot join `T1`; in `double` arithmetic the bounds at threshold 1
are `0.7499999999999999` and `0.6666666666666667`, and the check returns the sentinel. -/
theorem edfvd_infeasible_iff_rounded_witness :
    (2 : Int) ≠ -73 ∧
    Ieee.calculate_utilization_ull infeasible_vd_doubles 1 2 1 2
      = Dbl.fin (5404319552844595 / 4503599627370496) ∧
    Ieee.x_lb infeasible_vd_doubles 2 1 2 1 = Dbl.fin (6755399441055743 / 9007199254740992) ∧
    Ieee.x_ub infeasible_vd_doubles 2 1 2 1 = Dbl.fin (3002399751580331 / 4503599627370496) ∧
    (Ieee.edfvd_schedulability_check infeasible_vd_doubles 2 1 2).1 = -73 ∧
    Dbl.lt (Dbl.fin 1) (Ieee.calculate_utilization_ull infeasible_vd_doubles 1 2 1 2) = true :=
  ⟨by decide, by decide!, by decide!, by decide!, by decide!,
    ((edfvd_infeasible_iff_rounded infeasible_vd_doubles 2 1 2 (by decide) (by decide!)).mp
      (by decide!)).1⟩

end EEMCS
